import Mathlib

/-!
# OpenLogReplicator: transaction assembly core

A shallow embedding of `Transaction.cpp` and of the producer side of
`OutputBuffer.cpp`, together with the properties proved about them.

Conventions of the embedding.

* Machine integers are natural numbers; where the C++ arithmetic can wrap, the
  reduction modulo `2 ^ 64` (or `2 ^ 16`) is written out.
* A pointer to a record stored in the chunk store is the position of its row in
  walk order (`firstTc` onwards); `nullptr` is `none`.
* Fatal conditions (`RUNTIME_FAIL`) are the `Except.error` results.
* Macros and callbacks declared in headers that are not among the sources are
  fields of `Env`.
-/

namespace OpenLogReplicator

/-- The parsed redo record (`RedoLogRecord`): the fields that `Transaction.cpp`
reads or writes. `prev` and `next` are the chain links set during `flush`. -/
structure RedoLogRecord where
  next : Option Nat := none
  prev : Option Nat := none
  opCode : Nat := 0
  scn : Nat := 0
  subScn : Nat := 0
  slt : Nat := 0
  rci : Nat := 0
  uba : Nat := 0
  dba : Nat := 0
  bdba : Nat := 0
  slot : Nat := 0
  flg : Nat := 0
  fb : Nat := 0
  opFlags : Nat := 0
  suppLogType : Nat := 0
  suppLogFb : Nat := 0
  suppLogCC : Nat := 0
  suppLogBefore : Nat := 0
  suppLogAfter : Nat := 0
  suppLogBdba : Nat := 0
  suppLogSlot : Nat := 0
  object : Nat := 0
  length : Nat := 0
  fieldCnt : Nat := 0
  fieldPos : Nat := 0
  fieldLengthsDelta : Nat := 0
  data : List Nat := []
  deriving DecidableEq, Repr

/-- One tuple of a transaction chunk,
`[op2 | RedoLogRecord1 | RedoLogRecord2 | data1 | data2 | scn | size]`. -/
structure Row where
  op : Nat
  redoLogRecord1 : RedoLogRecord
  redoLogRecord2 : RedoLogRecord
  scn : Nat
  size : Nat
  deriving DecidableEq, Repr

/-- A chunk of the chunk store: the tuples it holds, in insertion order.
`elements` and `size` of the C++ structure are derived from them. -/
structure TransactionChunk where
  rows : List Row
  deriving DecidableEq, Repr

/-- Number of tuples of a chunk (`tc->elements`). -/
def TransactionChunk.elements (tc : TransactionChunk) : Nat := tc.rows.length

/-- Used bytes of a chunk (`tc->size`). -/
def TransactionChunk.size (tc : TransactionChunk) : Nat := (tc.rows.map Row.size).sum

/-- A split-block frame
`[size | op1 | op2 | RedoLogRecord1 | (optional RedoLogRecord2) | data1 | data2 | next]`;
the `next` link is the tail of the list that holds the frame. -/
structure SplitBlock where
  size : Nat
  op1 : Nat
  op2 : Nat
  record1 : RedoLogRecord
  record2 : Option RedoLogRecord
  deriving DecidableEq, Repr

/-- Calls made by `flush` on the output buffer and its writer. A record pointer
is the walk position of its row; `parseDML` also carries the rows as they stand
in memory during the call, which is what the writer reads through the links. -/
inductive Event where
  | processBegin (scn commitTime xid : Nat)
  | processCommit
  | parseDML (first1 first2 : Nat) (type : Nat) (mem : List Row)
  | parseInsertMultiple (redoLogRecord1 redoLogRecord2 : Nat)
  | parseDeleteMultiple (redoLogRecord1 redoLogRecord2 : Nat)
  | parseDDL (redoLogRecord1 : Nat)
  deriving DecidableEq, Repr

/-- Macros (`types.h`, `RedoLogRecord.h`, `Transaction.h`, `TransactionChunk.h`)
and engine callbacks that `Transaction.cpp` uses and that are declared outside
the sources at hand.

* `ZERO_SCN` is the "unset" value of an SCN; in the repository it is the
  all-ones 64-bit value.
* `onRollbackList`, `process0501` stand for `OracleAnalyser::onRollbackList` and
  `OpCode0501::process`.
* `currentMessageSize` is `OutputBuffer::currentMessageSize()` as a function of
  the calls made so far; `maxMessageMb` is the writer's limit.
* `bigEndian` selects the byte order of `read16`/`write16`.
* `strayRecord2` is what `flushSplitBlocks` reads as the companion record of a
  head frame that stores none: the frame of the one-record `addSplitBlock` ends
  where the code takes the companion to start, so the value is whatever the
  memory past the frame holds. -/
structure Env where
  ZERO_SCN : Nat
  OPFLAG_BEGIN_TRANS : Nat
  FB_L : Nat
  FLG_MULTIBLOCKUNDOHEAD : Nat
  FLG_MULTIBLOCKUNDOMID : Nat
  FLG_MULTIBLOCKUNDOTAIL : Nat
  FLG_LASTBUFFERSPLIT : Nat
  TRANSACTION_INSERT : Nat
  TRANSACTION_DELETE : Nat
  TRANSACTION_UPDATE : Nat
  DATA_BUFFER_SIZE : Nat
  ROW_HEADER_TOTAL : Nat
  ROW_HEADER_REDO1 : Nat
  ROW_HEADER_REDO2 : Nat
  ROW_HEADER_SIZE : Nat
  CHUNK_SIZE : Nat
  SPLIT_BLOCK_DATA1 : Nat
  SPLIT_BLOCK_DATA2 : Nat
  maxMessageMb : Nat
  bigEndian : Bool
  currentMessageSize : List Event → Nat
  onRollbackList : RedoLogRecord → RedoLogRecord → Bool
  process0501 : RedoLogRecord → RedoLogRecord
  strayRecord2 : SplitBlock → RedoLogRecord

/-- The per-XID transaction object. `chunks` is the chain `firstTc .. lastTc`;
`lastRedoLogRecord1/2` are the tail pointers of the chunk store. -/
structure Transaction where
  splitBlockList : List SplitBlock
  xid : Nat
  firstSequence : Nat
  firstScn : Nat
  lastScn : Nat
  chunks : List TransactionChunk
  opCodes : Nat
  pos : Nat
  lastRedoLogRecord1 : Option RedoLogRecord
  lastRedoLogRecord2 : Option RedoLogRecord
  commitTime : Nat
  isBegin : Bool
  isCommit : Bool
  isRollback : Bool
  shutdown : Bool
  deriving DecidableEq, Repr

namespace Transaction

/-- The constructor `Transaction::Transaction(oracleAnalyser, xid)`. -/
def new (env : Env) (xid : Nat) : Transaction :=
  { splitBlockList := []
    xid := xid
    firstSequence := 0
    firstScn := env.ZERO_SCN
    lastScn := env.ZERO_SCN
    chunks := []
    opCodes := 0
    pos := 0
    lastRedoLogRecord1 := none
    lastRedoLogRecord2 := none
    commitTime := 0
    isBegin := false
    isCommit := false
    isRollback := false
    shutdown := false }

/-- The rows of the chunk chain in walk order. -/
def rows (t : Transaction) : List Row := t.chunks.flatMap TransactionChunk.rows

/-- `Transaction::matchesForRollback`. -/
def matchesForRollback (env : Env) (redoLogRecord1 redoLogRecord2
    rollbackRedoLogRecord1 rollbackRedoLogRecord2 : RedoLogRecord) : Bool :=
  redoLogRecord1.slt == rollbackRedoLogRecord2.slt &&
  redoLogRecord1.rci == rollbackRedoLogRecord2.rci &&
  redoLogRecord1.uba == rollbackRedoLogRecord1.uba &&
  decide (redoLogRecord1.scn ≤ rollbackRedoLogRecord2.scn) &&
  ((rollbackRedoLogRecord2.opFlags &&& env.OPFLAG_BEGIN_TRANS) != 0 ||
    (redoLogRecord2.dba == rollbackRedoLogRecord1.dba &&
      redoLogRecord2.slot == rollbackRedoLogRecord1.slot))

/-- `Transaction::touch`. -/
def touch (env : Env) (t : Transaction) (scn sequence : Nat) : Transaction :=
  let t1 := if t.firstSequence = 0 ∨ t.firstSequence > sequence then
    { t with firstSequence := sequence } else t
  let t2 := if t1.firstScn = env.ZERO_SCN ∨ t1.firstScn > scn then
    { t1 with firstScn := scn } else t1
  if t2.lastScn = env.ZERO_SCN ∨ t2.lastScn < scn then { t2 with lastScn := scn } else t2

end Transaction

/-! ## Chunk store (`TransactionBuffer`) -/

namespace TransactionBuffer

/-- Append a tuple to the last chunk of a chain, opening a new chunk when the
last one cannot hold it. -/
def appendRow (capacity : Nat) (row : Row) : List TransactionChunk → List TransactionChunk
  | [] => [{ rows := [row] }]
  | tc :: tcs =>
    match tcs with
    | [] =>
      if tc.size + row.size ≤ capacity then [{ rows := tc.rows ++ [row] }]
      else [tc, { rows := [row] }]
    | _ :: _ => tc :: appendRow capacity row tcs

/-- Pop the last tuple of a chain; a chunk left without tuples is unlinked. -/
def popRow : List TransactionChunk → List TransactionChunk
  | [] => []
  | tc :: tcs =>
    match tcs with
    | [] => if tc.rows.dropLast = [] then [] else [{ rows := tc.rows.dropLast }]
    | _ :: _ => tc :: popRow tcs

/-- Remove the last tuple of a list that satisfies `p`, if there is one. -/
def spliceRows (p : Row → Bool) : List Row → Option (List Row)
  | [] => none
  | r :: rs =>
    match spliceRows p rs with
    | some rs1 => some (r :: rs1)
    | none => if p r then some rs else none

/-- Remove the last tuple of a chain that satisfies `p` (scan from the tail);
a chunk left without tuples is unlinked. -/
def spliceChunks (p : Row → Bool) : List TransactionChunk → Option (List TransactionChunk)
  | [] => none
  | tc :: tcs =>
    match spliceChunks p tcs with
    | some tcs1 => some (tc :: tcs1)
    | none =>
      match spliceRows p tc.rows with
      | some rows1 => some (if rows1 = [] then tcs else { rows := rows1 } :: tcs)
      | none => none

/-- The tail pointers `lastRedoLogRecord1/2` for a chain: the records of its
last tuple. -/
def updateTail (t : Transaction) : Transaction :=
  { t with
    lastRedoLogRecord1 := t.rows.getLast?.map Row.redoLogRecord1
    lastRedoLogRecord2 := t.rows.getLast?.map Row.redoLogRecord2 }

/-- Modelled from the spec: `TransactionBuffer::addTransactionChunk`
(`TransactionBuffer.cpp` is not among the sources). Section 4.1: append a
`(r1, r2, scn)` tuple to `tx.lastTc`, spilling to a new chunk when the current
one cannot hold `r1.length + r2.length + ROW_HEADER_TOTAL`; update
`tx.lastRedoLogRecord1/2`. The stored `op2` is the pair of the two opcodes
(`0x0501`, `0x0B02` gives `0x05010B02`), the stored scn is that of `r1`.
Memory is assumed available. -/
def addTransactionChunk (env : Env) (t : Transaction)
    (redoLogRecord1 redoLogRecord2 : RedoLogRecord) : Transaction :=
  let row : Row :=
    { op := (redoLogRecord1.opCode <<< 16) ||| redoLogRecord2.opCode
      redoLogRecord1 := redoLogRecord1
      redoLogRecord2 := redoLogRecord2
      scn := redoLogRecord1.scn
      size := redoLogRecord1.length + redoLogRecord2.length + env.ROW_HEADER_TOTAL }
  { t with
    chunks := appendRow env.CHUNK_SIZE row t.chunks
    lastRedoLogRecord1 := some redoLogRecord1
    lastRedoLogRecord2 := some redoLogRecord2 }

/-- Modelled from the spec: `TransactionBuffer::rollbackTransactionChunk`
(`TransactionBuffer.cpp` is not among the sources). Section 4.1: pop the last
tuple; when a chunk becomes empty, unlink and free it; update tail pointers.
The spec describes it on a chain that holds a tuple (section 4.3:
`rollbackLastOp` is the path for undoing the most recent addition); what it
does on an empty chain is not specified, and the properties proved of
`rollbackLastOp` are stated for a chain that holds a tuple. -/
def rollbackTransactionChunk (t : Transaction) : Transaction :=
  updateTail { t with chunks := popRow t.chunks }

/-- Modelled from the spec: `TransactionBuffer::deleteTransactionPart`
(`TransactionBuffer.cpp` is not among the sources). Section 4.1: locate a prior
`(r1, r2)` for which `matchesForRollback(r1, r2, rb1, rb2)` holds (scan from
tail), then splice it out; returns whether a match was found. -/
def deleteTransactionPart (env : Env) (t : Transaction)
    (rollbackRedoLogRecord1 rollbackRedoLogRecord2 : RedoLogRecord) : Bool × Transaction :=
  match spliceChunks (fun row => Transaction.matchesForRollback env row.redoLogRecord1
      row.redoLogRecord2 rollbackRedoLogRecord1 rollbackRedoLogRecord2) t.chunks with
  | some chunks1 => (true, updateTail { t with chunks := chunks1 })
  | none => (false, t)

end TransactionBuffer

namespace Transaction

/-- `Transaction::add`. `opCodes` is a 64-bit unsigned counter. -/
def add (env : Env) (t : Transaction) (redoLogRecord1 redoLogRecord2 : RedoLogRecord)
    (sequence scn : Nat) : Transaction :=
  let t1 := TransactionBuffer.addTransactionChunk env t redoLogRecord1 redoLogRecord2
  let t2 := { t1 with opCodes := (t1.opCodes + 1) % 2 ^ 64 }
  touch env t2 scn sequence

/-- `Transaction::rollbackPartOp`: the returned flag and the transaction
afterwards. -/
def rollbackPartOp (env : Env) (t : Transaction)
    (rollbackRedoLogRecord1 rollbackRedoLogRecord2 : RedoLogRecord) (scn : Nat) :
    Bool × Transaction :=
  match TransactionBuffer.deleteTransactionPart env t rollbackRedoLogRecord1
      rollbackRedoLogRecord2 with
  | (true, t1) =>
    let t2 := { t1 with opCodes := (t1.opCodes + (2 ^ 64 - 1)) % 2 ^ 64 }
    (true, if t2.lastScn = env.ZERO_SCN ∨ t2.lastScn < scn then { t2 with lastScn := scn } else t2)
  | (false, _) => (false, t)

/-- `Transaction::rollbackLastOp`. -/
def rollbackLastOp (env : Env) (t : Transaction) (scn : Nat) : Transaction :=
  let t1 := TransactionBuffer.rollbackTransactionChunk t
  let t2 := { t1 with opCodes := (t1.opCodes + (2 ^ 64 - 1)) % 2 ^ 64 }
  if t2.lastScn = env.ZERO_SCN ∨ t2.lastScn < scn then { t2 with lastScn := scn } else t2

/-- The insertion loop shared by both overloads of `addSplitBlock`: walk from the
head while the visited frame is greater than the new one in `(scn, subScn)`,
and link the new frame in front of the first frame at which the loop breaks. -/
def insertSplitBlock (splitBlock : SplitBlock) : List SplitBlock → List SplitBlock
  | [] => [splitBlock]
  | tmp :: rest =>
    if tmp.record1.scn < splitBlock.record1.scn ∨
        (tmp.record1.scn = splitBlock.record1.scn ∧
          tmp.record1.subScn ≤ splitBlock.record1.subScn) then
      splitBlock :: tmp :: rest
    else tmp :: insertSplitBlock splitBlock rest

/-- `Transaction::addSplitBlock(RedoLogRecord*)`. -/
def addSplitBlock (env : Env) (t : Transaction) (redoLogRecord : RedoLogRecord) :
    Transaction :=
  let splitBlock : SplitBlock :=
    { size := env.SPLIT_BLOCK_DATA1 + redoLogRecord.length
      op1 := redoLogRecord.opCode
      op2 := 0
      record1 := redoLogRecord
      record2 := none }
  { t with splitBlockList := insertSplitBlock splitBlock t.splitBlockList }

/-- `Transaction::addSplitBlock(RedoLogRecord*, RedoLogRecord*)`. -/
def addSplitBlock2 (env : Env) (t : Transaction)
    (redoLogRecord1 redoLogRecord2 : RedoLogRecord) : Transaction :=
  let splitBlock : SplitBlock :=
    { size := env.SPLIT_BLOCK_DATA2 + redoLogRecord1.length + redoLogRecord2.length
      op1 := redoLogRecord1.opCode
      op2 := redoLogRecord2.opCode
      record1 := redoLogRecord1
      record2 := some redoLogRecord2 }
  { t with splitBlockList := insertSplitBlock splitBlock t.splitBlockList }

end Transaction

/-! ## Byte buffers -/

/-- The byte at an offset of a buffer; outside the buffer the value read is
taken to be `0`. -/
def byteAt (data : List Nat) (off : Nat) : Nat := data.getD off 0

/-- Overwrite a buffer from `pos` on with `bytes`. The C++ code checks no bound
and a write past the end of an allocation is a heap overflow: here it shows as
a buffer that has grown, so a buffer that still has its allocated length after
a sequence of writes has taken every one of them inside the allocation. -/
def writeAt (buffer : List Nat) (pos : Nat) (bytes : List Nat) : List Nat :=
  buffer.take pos ++ List.replicate (pos - buffer.length) 0 ++ bytes ++
    buffer.drop (pos + bytes.length)

/-- The `n` bytes of `src` from offset `spos` on. -/
def slice (src : List Nat) (spos n : Nat) : List Nat :=
  (List.range n).map fun i => byteAt src (spos + i)

/-- The C library `memcpy(dst + dpos, src + spos, n)`. -/
def memcpy (dst : List Nat) (dpos : Nat) (src : List Nat) (spos n : Nat) : List Nat :=
  writeAt dst dpos (slice src spos n)

/-- `OracleAnalyser::read16` in the byte order of the redo log. -/
def read16 (env : Env) (data : List Nat) (off : Nat) : Nat :=
  if env.bigEndian then byteAt data off % 256 * 256 + byteAt data (off + 1) % 256
  else byteAt data off % 256 + byteAt data (off + 1) % 256 * 256

/-- `OracleAnalyser::write16` in the byte order of the redo log. -/
def write16 (env : Env) (data : List Nat) (off : Nat) (val : Nat) : List Nat :=
  let v := val % 65536
  if env.bigEndian then writeAt data off [v / 256, v % 256]
  else writeAt data off [v % 256, v / 256]

namespace Transaction

/-- `Transaction::mergeSplitBlocksToBuffer`: the two records afterwards (the
first now points to the merged buffer). The locals `fieldCnt`, `fieldPos1`,
`fieldPos2` are 16-bit, as is the record field `fieldCnt`. The size
`fieldCnt * 2 - 4` of the third copy is an `int` passed as a `size_t`: for a
second record of fewer than two fields it is `2 ^ 64 - 2` or `2 ^ 64 - 4`. -/
def mergeSplitBlocksToBuffer (env : Env) (buffer : List Nat)
    (redoLogRecord1 redoLogRecord2 : RedoLogRecord) : RedoLogRecord × RedoLogRecord :=
  let buffer := memcpy buffer 0 redoLogRecord1.data 0 redoLogRecord1.fieldLengthsDelta
  let pos := redoLogRecord1.fieldLengthsDelta
  let split := (redoLogRecord1.flg &&& env.FLG_LASTBUFFERSPLIT) != 0
  let length1 := read16 env redoLogRecord1.data
    (redoLogRecord1.fieldLengthsDelta + redoLogRecord1.fieldCnt * 2)
  let length2 := read16 env redoLogRecord2.data (redoLogRecord2.fieldLengthsDelta + 6)
  let redoLogRecord2 : RedoLogRecord :=
    if split then
      { redoLogRecord2 with
        data := write16 env redoLogRecord2.data (redoLogRecord2.fieldLengthsDelta + 6)
          (length1 + length2) }
    else redoLogRecord2
  let redoLogRecord1 : RedoLogRecord :=
    if split then
      { redoLogRecord1 with fieldCnt := (redoLogRecord1.fieldCnt + 65535) % 65536 }
    else redoLogRecord1
  -- field list
  let fieldCnt := (redoLogRecord1.fieldCnt + redoLogRecord2.fieldCnt + 65534) % 65536
  let buffer := write16 env buffer pos fieldCnt
  let buffer := memcpy buffer (pos + 2) redoLogRecord1.data
    (redoLogRecord1.fieldLengthsDelta + 2) (redoLogRecord1.fieldCnt * 2)
  let buffer := memcpy buffer (pos + 2 + redoLogRecord1.fieldCnt * 2) redoLogRecord2.data
    (redoLogRecord2.fieldLengthsDelta + 6)
    ((redoLogRecord2.fieldCnt * 2 + (2 ^ 64 - 4)) % 2 ^ 64)
  let pos := pos + ((((fieldCnt + 1) * 2) + 2) &&& 0xFFFC)
  let fieldPos1 := pos % 65536
  -- data
  let buffer := memcpy buffer pos redoLogRecord1.data redoLogRecord1.fieldPos
    (redoLogRecord1.length - redoLogRecord1.fieldPos)
  let pos := pos + ((redoLogRecord1.length - redoLogRecord1.fieldPos + 3) &&& 0xFFFC)
  let fieldPos2 := (redoLogRecord2.fieldPos +
    ((read16 env redoLogRecord2.data (redoLogRecord2.fieldLengthsDelta + 2) + 3) &&& 0xFFFC) +
    ((read16 env redoLogRecord2.data (redoLogRecord2.fieldLengthsDelta + 4) + 3) &&& 0xFFFC))
      % 65536
  let buffer := memcpy buffer pos redoLogRecord2.data fieldPos2
    (redoLogRecord2.length - fieldPos2)
  let pos := pos + ((redoLogRecord2.length - fieldPos2 + 3) &&& 0xFFFC)
  ({ redoLogRecord1 with length := pos, fieldCnt := fieldCnt, fieldPos := fieldPos1,
                         data := buffer }, redoLogRecord2)

/-- `Transaction::mergeSplitBlocks`. The bookkeeping of `lastOpTransactionMap`
and `transactionHeap`, which belong to the engine, is left out. -/
def mergeSplitBlocks (env : Env) (t : Transaction)
    (headRedoLogRecord1 midRedoLogRecord1 tailRedoLogRecord1 redoLogRecord2 :
      Option RedoLogRecord) : Except String Transaction :=
  match headRedoLogRecord1, tailRedoLogRecord1, redoLogRecord2 with
  | some head, some tail, some record2 =>
    -- mid
    let head :=
      match midRedoLogRecord1 with
      | some mid =>
        (mergeSplitBlocksToBuffer env (List.replicate (head.length + mid.length) 0) head mid).1
      | none => head
    -- tail
    let head :=
      (mergeSplitBlocksToBuffer env (List.replicate (head.length + tail.length) 0) head tail).1
    let fieldPos := head.fieldPos % 65536
    let fieldLength := read16 env head.data (head.fieldLengthsDelta + 1 * 2)
    let fieldPos := (fieldPos + ((fieldLength + 3) &&& 0xFFFC)) % 65536
    let flg := read16 env head.data (fieldPos + 20)
    let mask := env.FLG_MULTIBLOCKUNDOHEAD ||| env.FLG_MULTIBLOCKUNDOMID |||
      env.FLG_MULTIBLOCKUNDOTAIL ||| env.FLG_LASTBUFFERSPLIT
    let flg := flg ^^^ (flg &&& mask)
    let head := { head with data := write16 env head.data (fieldPos + 20) flg }
    let head := env.process0501 head
    if env.onRollbackList head record2 then .ok t
    else .ok (add env t head record2 t.firstSequence head.scn)
  | _, _, _ => .error "merging of incomplete split UNDO block"

/-- The local variables of `flushSplitBlocks`. -/
structure SplitCursor where
  headRedoLogRecord1 : Option RedoLogRecord := none
  midRedoLogRecord1 : Option RedoLogRecord := none
  tailRedoLogRecord1 : Option RedoLogRecord := none
  redoLogRecord2 : Option RedoLogRecord := none
  curRedoLogRecord : Option RedoLogRecord := none
  deriving DecidableEq, Repr

/-- First half of the body of the loop of `flushSplitBlocks`: the new fragment
either continues the group of `curRedoLogRecord` or makes the loop merge the
accumulated group and start a new one. -/
def splitBlockGroup (env : Env) (t : Transaction) (c : SplitCursor)
    (newRedoLogRecord : RedoLogRecord) : Except String (Transaction × SplitCursor) :=
  match c.curRedoLogRecord with
  | none => .ok (t, { c with curRedoLogRecord := some newRedoLogRecord })
  | some cur =>
    if cur.slt ≠ newRedoLogRecord.slt ∨ cur.rci ≠ newRedoLogRecord.rci ∨
        ((newRedoLogRecord.flg &&& env.FLG_MULTIBLOCKUNDOHEAD) ≠ 0 ∧
          c.headRedoLogRecord1 ≠ none) ∨
        ((newRedoLogRecord.flg &&& env.FLG_MULTIBLOCKUNDOMID) ≠ 0 ∧
          c.midRedoLogRecord1 ≠ none) ∨
        ((newRedoLogRecord.flg &&& env.FLG_MULTIBLOCKUNDOTAIL) ≠ 0 ∧
          c.tailRedoLogRecord1 ≠ none) then
      match mergeSplitBlocks env t c.headRedoLogRecord1 c.midRedoLogRecord1
          c.tailRedoLogRecord1 c.redoLogRecord2 with
      | .ok t1 => .ok (t1, { curRedoLogRecord := some newRedoLogRecord })
      | .error e => .error e
    else .ok (t, c)

/-- Second half of the body of the loop of `flushSplitBlocks`: the new fragment
is recorded as head, tail or mid of the group; nothing is raised here. For a
head the code sets `redoLogRecord2` to the address
`splitBlockList + SPLIT_BLOCK_RECORD2 + length` without a test, so the pointer
is never null: in a frame stored with a companion it is the companion, in a
frame stored without one it is `env.strayRecord2`. -/
def splitBlockRole (env : Env) (c : SplitCursor) (block : SplitBlock) : SplitCursor :=
  if (block.record1.flg &&& env.FLG_MULTIBLOCKUNDOHEAD) ≠ 0 then
    { c with
      headRedoLogRecord1 := some block.record1
      redoLogRecord2 := some (match block.record2 with
        | some record2 => record2
        | none => env.strayRecord2 block) }
  else if (block.record1.flg &&& env.FLG_MULTIBLOCKUNDOTAIL) ≠ 0 then
    { c with tailRedoLogRecord1 := some block.record1 }
  else { c with midRedoLogRecord1 := some block.record1 }

/-- The `while (splitBlockList != nullptr)` loop of `flushSplitBlocks`; the
list argument is the value of `splitBlockList` on entry, and each iteration
ends with `splitBlockList = next`. -/
def flushSplitLoop (env : Env) :
    Transaction → SplitCursor → List SplitBlock → Except String (Transaction × SplitCursor)
  | t, c, [] => .ok (t, c)
  | t, c, block :: rest =>
    match splitBlockGroup env t c block.record1 with
    | .error e => .error e
    | .ok (t1, c1) =>
      flushSplitLoop env { t1 with splitBlockList := rest } (splitBlockRole env c1 block) rest

/-- `Transaction::flushSplitBlocks`. -/
def flushSplitBlocks (env : Env) (t : Transaction) : Except String Transaction :=
  if t.splitBlockList = [] then .ok t
  else
    match flushSplitLoop env t {} t.splitBlockList with
    | .error e => .error e
    | .ok (t1, c) =>
      if c.curRedoLogRecord ≠ none then
        mergeSplitBlocks env t1 c.headRedoLogRecord1 c.midRedoLogRecord1
          c.tailRedoLogRecord1 c.redoLogRecord2
      else .ok t1

/-! ### Commit flush -/

/-- The record `redoLogRecord1` of the row a pointer refers to. -/
def rec1 (mem : List Row) (p : Nat) : RedoLogRecord :=
  (mem[p]?.map Row.redoLogRecord1).getD {}

/-- The record `redoLogRecord2` of the row a pointer refers to. -/
def rec2 (mem : List Row) (p : Nat) : RedoLogRecord :=
  (mem[p]?.map Row.redoLogRecord2).getD {}

/-- Assign to fields of the `redoLogRecord1` a pointer refers to. -/
def setRec1 (mem : List Row) (p : Nat) (f : RedoLogRecord → RedoLogRecord) : List Row :=
  match mem[p]? with
  | some row => mem.set p { row with redoLogRecord1 := f row.redoLogRecord1 }
  | none => mem

/-- Assign to fields of the `redoLogRecord2` a pointer refers to. -/
def setRec2 (mem : List Row) (p : Nat) (f : RedoLogRecord → RedoLogRecord) : List Row :=
  match mem[p]? with
  | some row => mem.set p { row with redoLogRecord2 := f row.redoLogRecord2 }
  | none => mem

/-- Assign through an optional pointer (`last1->prev->next = ...`). -/
def setRec1At (mem : List Row) (p : Option Nat) (f : RedoLogRecord → RedoLogRecord) :
    List Row :=
  match p with
  | some q => setRec1 mem q f
  | none => mem

/-- Assign through an optional pointer (`last2->prev->next = ...`). -/
def setRec2At (mem : List Row) (p : Option Nat) (f : RedoLogRecord → RedoLogRecord) :
    List Row :=
  match p with
  | some q => setRec2 mem q f
  | none => mem

/-- The local variables of `flush` inside the walk, the rows of the chunk chain
as they stand in memory (`mem`), the calls issued so far (`events`) and the
walk position of the next row (`idx`). -/
structure FlushState where
  mem : List Row
  events : List Event
  idx : Nat := 0
  type : Nat := 0
  first1 : Option Nat := none
  first2 : Option Nat := none
  last1 : Option Nat := none
  last2 : Option Nat := none
  prevScn : Nat := 0
  deriving DecidableEq, Repr

/-- The six row-piece opcodes of the first `case` group of `flush`. -/
def isPieceOp (op : Nat) : Bool :=
  op == 0x05010B02 || op == 0x05010B03 || op == 0x05010B05 || op == 0x05010B06 ||
    op == 0x05010B08 || op == 0x05010B10

/-- The assignments to `type` at a row piece. -/
def nextType (env : Env) (type op : Nat) : Nat :=
  if type = 0 then
    if op = 0x05010B02 then env.TRANSACTION_INSERT
    else if op = 0x05010B03 then env.TRANSACTION_DELETE
    else env.TRANSACTION_UPDATE
  else if type = env.TRANSACTION_INSERT then
    if op = 0x05010B03 ∨ op = 0x05010B05 ∨ op = 0x05010B06 ∨ op = 0x05010B08 then
      env.TRANSACTION_UPDATE
    else type
  else if type = env.TRANSACTION_DELETE then
    if op = 0x05010B02 ∨ op = 0x05010B05 ∨ op = 0x05010B06 ∨ op = 0x05010B08 then
      env.TRANSACTION_UPDATE
    else type
  else type

/-- Chain linkage, `type == TRANSACTION_INSERT`: the piece at `p` becomes the
head of the chain, in front of `first1`/`first2`. -/
def linkFront (st : FlushState) (p f1 f2 : Nat) : FlushState :=
  let mem := st.mem
  let mem := setRec1 mem p fun r => { r with next := some f1 }
  let mem := setRec2 mem p fun r => { r with next := some f2 }
  let mem := setRec1 mem f1 fun r => { r with prev := some p }
  let mem := setRec2 mem f2 fun r => { r with prev := some p }
  { st with mem := mem, first1 := some p, first2 := some p }

/-- Chain linkage, overwrite after an insert piece whose `prev` is null: the
piece at `p` becomes the head and `last1`/`last2` stay the tail. -/
def linkBeforeOnlyTail (st : FlushState) (p l1 l2 : Nat) : FlushState :=
  let mem := st.mem
  let mem := setRec1 mem p fun r => { r with next := some l1 }
  let mem := setRec2 mem p fun r => { r with next := some l2 }
  let mem := setRec1 mem l1 fun r => { r with prev := some p }
  let mem := setRec2 mem l2 fun r => { r with prev := some p }
  { st with mem := mem, first1 := some p, first2 := some p }

/-- The assignment `redoLogRecord1->prev = last1->prev`. -/
def copyPrev1 (mem : List Row) (p l1 : Nat) : List Row :=
  setRec1 mem p fun r => { r with prev := (rec1 mem l1).prev }

/-- The assignment `redoLogRecord2->prev = last2->prev`. -/
def copyPrev2 (mem : List Row) (p l2 : Nat) : List Row :=
  setRec2 mem p fun r => { r with prev := (rec2 mem l2).prev }

/-- The assignment `last1->prev->next = redoLogRecord1`. -/
def setPrevNext1 (mem : List Row) (l1 p : Nat) : List Row :=
  setRec1At mem (rec1 mem l1).prev fun r => { r with next := some p }

/-- The assignment `last2->prev->next = redoLogRecord2`. -/
def setPrevNext2 (mem : List Row) (l2 p : Nat) : List Row :=
  setRec2At mem (rec2 mem l2).prev fun r => { r with next := some p }

/-- Chain linkage, overwrite after an insert piece that has a predecessor: the
piece at `p` is linked between that predecessor and the tail. -/
def linkBeforeTail (st : FlushState) (p l1 l2 : Nat) : FlushState :=
  let mem := st.mem
  let mem := copyPrev1 mem p l1
  let mem := copyPrev2 mem p l2
  let mem := setRec1 mem p fun r => { r with next := some l1 }
  let mem := setRec2 mem p fun r => { r with next := some l2 }
  let mem := setPrevNext1 mem l1 p
  let mem := setPrevNext2 mem l2 p
  let mem := setRec1 mem l1 fun r => { r with prev := some p }
  let mem := setRec2 mem l2 fun r => { r with prev := some p }
  { st with mem := mem }

/-- Chain linkage, every other case: the piece at `p` becomes the tail. -/
def linkBack (st : FlushState) (p l1 l2 : Nat) : FlushState :=
  let mem := st.mem
  let mem := setRec1 mem l1 fun r => { r with next := some p }
  let mem := setRec2 mem l2 fun r => { r with next := some p }
  let mem := setRec1 mem p fun r => { r with prev := some l1 }
  let mem := setRec2 mem p fun r => { r with prev := some l2 }
  { st with mem := mem, last1 := some p, last2 := some p }

/-- The chain linkage of `flush` for the piece at pointer `p` when a chain is
open (`first1 != nullptr`): the state afterwards, or the fatal condition. -/
def linkPiece (env : Env) (st : FlushState) (p op : Nat) (f1 f2 l1 l2 : Nat) :
    Except String FlushState :=
  if (rec1 st.mem l1).suppLogBdba = (rec1 st.mem p).suppLogBdba ∧
      (rec1 st.mem l1).suppLogSlot = (rec1 st.mem p).suppLogSlot ∧
      (rec1 st.mem f1).object = (rec1 st.mem p).object ∧
      (rec2 st.mem f2).object = (rec2 st.mem p).object then
    if st.type = env.TRANSACTION_INSERT then .ok (linkFront st p f1 f2)
    else if op = 0x05010B06 ∧ (rec2 st.mem l2).opCode = 0x0B02 then
      if (rec1 st.mem l1).prev = none then .ok (linkBeforeOnlyTail st p l1 l2)
      else .ok (linkBeforeTail st p l1 l2)
    else .ok (linkBack st p l1 l2)
  else .error "next BDBA/SLOT does not match"

/-- The row-piece case of the `switch (op)` of `flush`. -/
def flushPiece (env : Env) (st : FlushState) (p op : Nat) :
    Except String (FlushState × Bool) :=
  let mem := setRec2 st.mem p fun r => { r with suppLogAfter := (rec1 st.mem p).suppLogAfter }
  let st := { st with mem := mem, type := nextType env st.type op }
  if (rec1 st.mem p).suppLogType = 0 then .error "SUPPLEMENTAL_LOG_DATA_MIN missing"
  else
    let linked : Except String FlushState :=
      match st.first1 with
      | none =>
        .ok { st with first1 := some p, first2 := some p, last1 := some p, last2 := some p }
      | some f1 => linkPiece env st p op f1 (st.first2.getD 0) (st.last1.getD 0) (st.last2.getD 0)
    match linked with
    | .error e => .error e
    | .ok st =>
      if ((rec1 st.mem p).suppLogFb &&& env.FB_L) ≠ 0 then
        .ok ({ st with events := st.events ++
          [Event.parseDML (st.first1.getD 0) (st.first2.getD 0) st.type st.mem] }, true)
      else .ok (st, false)

/-- The `switch (op)` of `flush` for the row at pointer `p`: the state
afterwards and the value of `opFlush`, or the fatal condition. -/
def flushSwitch (env : Env) (st : FlushState) (p op : Nat) :
    Except String (FlushState × Bool) :=
  if isPieceOp op then flushPiece env st p op
  else if op = 0x05010B0B then
    .ok ({ st with events := st.events ++ [Event.parseInsertMultiple p p] }, true)
  else if op = 0x05010B0C then
    .ok ({ st with events := st.events ++ [Event.parseDeleteMultiple p p] }, true)
  else if op = 0x18010000 then
    .ok ({ st with events := st.events ++ [Event.parseDDL p] }, true)
  else .error "Unknown OpCode"

/-- The test "split very big transactions" of `flush`, in 64-bit arithmetic. -/
def bigTransaction (env : Env) (events : List Event) : Bool :=
  decide (env.maxMessageMb > 0) &&
    decide ((env.currentMessageSize events + env.DATA_BUFFER_SIZE) % 2 ^ 64 >
      (env.maxMessageMb * 1024 * 1024) % 2 ^ 64)

/-- The part of an iteration of `flush` that follows the `switch`: the forced
commit of a big transaction, the reset of the chain after an emit, and
`prevScn = scn`. -/
def flushAfter (env : Env) (t : Transaction) (st : FlushState) (opFlush : Bool) (row : Row) :
    FlushState :=
  let st :=
    if bigTransaction env st.events then
      { st with events := st.events ++
        [Event.processCommit, Event.processBegin t.lastScn t.commitTime t.xid] }
    else st
  let st :=
    if opFlush then
      { st with first1 := none, last1 := none, first2 := none, last2 := none, type := 0 }
    else st
  { st with prevScn := row.scn, idx := st.idx + 1 }

/-- One iteration of the inner `for` loop of `flush`, for the row at walk
position `st.idx`. The release of walked chunks (`deallocTc`) is memory
management and has no counterpart here. -/
def flushRow (env : Env) (t : Transaction) (st : FlushState) (row : Row) :
    Except String FlushState :=
  match flushSwitch env st st.idx row.op with
  | .error e => .error e
  | .ok (st1, opFlush) => .ok (flushAfter env t st1 opFlush row)

/-- The inner `for` loop of `flush` over the tuples of one chunk. -/
def flushRows (env : Env) (t : Transaction) : FlushState → List Row → Except String FlushState
  | st, [] => .ok st
  | st, row :: rows =>
    match flushRow env t st row with
    | .error e => .error e
    | .ok st1 => flushRows env t st1 rows

/-- The outer `while (tc != nullptr)` loop of `flush`. -/
def flushChunks (env : Env) (t : Transaction) :
    FlushState → List TransactionChunk → Except String FlushState
  | st, [] => .ok st
  | st, tc :: tcs =>
    match flushRows env t st tc.rows with
    | .error e => .error e
    | .ok st1 => flushChunks env t st1 tcs

/-- The part of `flush` after `flushSplitBlocks()`. -/
def flushCommitted (env : Env) (t : Transaction) : Except String (Transaction × List Event) :=
  if t.opCodes > 0 ∧ ¬ t.isRollback then
    match flushChunks env t
        { mem := t.rows, events := [Event.processBegin t.lastScn t.commitTime t.xid] }
        t.chunks with
    | .error e => .error e
    | .ok st =>
      .ok ({ t with chunks := [], lastRedoLogRecord1 := none, lastRedoLogRecord2 := none,
                    opCodes := 0 }, st.events ++ [Event.processCommit])
  else .ok (t, [])

/-- `Transaction::flush`: the transaction afterwards and the calls issued on the
output buffer and its writer, or the fatal condition. -/
def flush (env : Env) (t : Transaction) : Except String (Transaction × List Event) :=
  match flushSplitBlocks env t with
  | .error e => .error e
  | .ok t1 => flushCommitted env t1

end Transaction

/-! ## Output buffer (producer side) -/

/-- Macros of `OutputBuffer.h` and `types.h`, which are not among the sources,
and the contents of the memory handed out by `getMemoryChunk`: `garbage c` is
what chunk number `c` holds when it is obtained. -/
structure BufferEnv where
  MEMORY_CHUNK_SIZE : Nat
  OUTPUT_BUFFER_DATA : Nat
  OUTPUT_BUFFER_LENGTH_SIZE : Nat
  garbage : Nat → Nat → Nat

/-- A memory chunk of the output buffer. The words at `OUTPUT_BUFFER_NEXT` and
`OUTPUT_BUFFER_END` are the fields `next` and `endPos` (they lie in the header,
below `OUTPUT_BUFFER_DATA`); `bytes` gives the byte at each offset. -/
structure BufferChunk where
  next : Option Nat
  endPos : Nat
  bytes : Nat → Nat

/-- The memory-related members of `OutputBuffer` and its two default
character-set ids. A chunk pointer is the number of the chunk in the order of
allocation; `chunks` is the memory obtained so far. -/
structure OutputBuffer where
  chunks : List BufferChunk := []
  messageLength : Nat := 0
  defaultCharacterMapId : Nat := 0
  defaultCharacterNcharMapId : Nat := 0
  buffersAllocated : Nat := 0
  firstBufferPos : Nat := 0
  firstBuffer : Option Nat := none
  curBuffer : Option Nat := none
  curBufferPos : Nat := 0
  lastBuffer : Option Nat := none
  lastBufferPos : Nat := 0

namespace OutputBuffer

/-- The state set up by the constructor `OutputBuffer::OutputBuffer`. -/
def new : OutputBuffer := {}

/-- `oracleAnalyser->getMemoryChunk("BUFFER", ...)`: the buffer with one more
chunk of memory, and the pointer to that chunk. -/
def getMemoryChunk (L : BufferEnv) (b : OutputBuffer) : OutputBuffer × Nat :=
  ({ b with chunks := b.chunks ++
      [{ next := none, endPos := 0, bytes := L.garbage b.chunks.length }] },
    b.chunks.length)

/-- Assign to the memory of the chunk a pointer refers to. -/
def setChunk (b : OutputBuffer) (p : Option Nat) (f : BufferChunk → BufferChunk) :
    OutputBuffer :=
  match p with
  | some c =>
    match b.chunks[c]? with
    | some chunk => { b with chunks := b.chunks.set c (f chunk) }
    | none => b
  | none => b

/-- The byte `i` of the 64-bit value `v` in memory order (least significant
byte first). -/
def u64Byte (v i : Nat) : Nat := v / 256 ^ i % 256

/-- Store a 64-bit word at an offset: `*((uint64_t*)(buffer + pos)) = v`. -/
def storeU64 (bytes : Nat → Nat) (pos v : Nat) : Nat → Nat :=
  fun i => if pos ≤ i ∧ i < pos + 8 then u64Byte v (i - pos) else bytes i

/-- Load the 64-bit word at an offset. -/
def loadU64 (bytes : Nat → Nat) (pos : Nat) : Nat :=
  ((List.range 8).map fun i => bytes (pos + i) % 256 * 256 ^ i).sum

/-- `OutputBuffer::initialize`, called `initializeBuffer` here. -/
def initializeBuffer (L : BufferEnv) (b : OutputBuffer) : OutputBuffer :=
  let b := { b with buffersAllocated := 1 }
  let (b, p) := getMemoryChunk L b
  let b := { b with firstBuffer := some p }
  let b := setChunk b b.firstBuffer fun c => { c with next := none }
  let b := setChunk b b.firstBuffer fun c => { c with endPos := L.OUTPUT_BUFFER_DATA }
  { b with firstBufferPos := L.OUTPUT_BUFFER_DATA, lastBuffer := b.firstBuffer,
           lastBufferPos := L.OUTPUT_BUFFER_DATA }

/-- `OutputBuffer::bufferShift`. -/
def bufferShift (L : BufferEnv) (b : OutputBuffer) (bytes : Nat) : OutputBuffer :=
  let b := { b with lastBufferPos := (b.lastBufferPos + bytes) % 2 ^ 64 }
  if b.lastBufferPos ≥ L.MEMORY_CHUNK_SIZE then
    let (b, nextBuffer) := getMemoryChunk L b
    let b := setChunk b (some nextBuffer) fun c => { c with next := none }
    let b := setChunk b (some nextBuffer) fun c => { c with endPos := L.OUTPUT_BUFFER_DATA }
    let b := setChunk b b.lastBuffer fun c => { c with next := some nextBuffer }
    let b := setChunk b b.lastBuffer fun c => { c with endPos := L.MEMORY_CHUNK_SIZE }
    { b with buffersAllocated := (b.buffersAllocated + 1) % 2 ^ 64,
             lastBuffer := some nextBuffer, lastBufferPos := L.OUTPUT_BUFFER_DATA }
  else b

/-- `OutputBuffer::bufferAppend`; the `uint8_t` argument is a natural number. -/
def bufferAppend (L : BufferEnv) (b : OutputBuffer) (character : Nat) : OutputBuffer :=
  let b := setChunk b b.lastBuffer fun c =>
    { c with bytes := Function.update c.bytes b.lastBufferPos character }
  let b := { b with messageLength := (b.messageLength + 1) % 2 ^ 64 }
  bufferShift L b 1

/-- `OutputBuffer::beginMessage`. -/
def beginMessage (L : BufferEnv) (b : OutputBuffer) : OutputBuffer :=
  let b := { b with curBuffer := b.lastBuffer, curBufferPos := b.lastBufferPos,
                    messageLength := 0 }
  let b := setChunk b b.lastBuffer fun c =>
    { c with bytes := storeU64 c.bytes b.lastBufferPos 0 }
  bufferShift L b L.OUTPUT_BUFFER_LENGTH_SIZE

/-- `OutputBuffer::commitMessage`. The warning on an empty message and the
notification of the writers have no effect on the memory. -/
def commitMessage (L : BufferEnv) (b : OutputBuffer) : OutputBuffer :=
  let b := bufferShift L b ((8 - (b.messageLength &&& 7)) &&& 7)
  let b := setChunk b b.curBuffer fun c =>
    { c with bytes := storeU64 c.bytes b.curBufferPos b.messageLength }
  let b :=
    if b.curBuffer ≠ b.lastBuffer then
      setChunk b b.curBuffer fun c => { c with endPos := L.MEMORY_CHUNK_SIZE }
    else b
  setChunk b b.lastBuffer fun c => { c with endPos := b.lastBufferPos }

/-- `OutputBuffer::currentMessageSize`. -/
def currentMessageSize (L : BufferEnv) (b : OutputBuffer) : Nat :=
  (b.messageLength + L.OUTPUT_BUFFER_LENGTH_SIZE) % 2 ^ 64

/-- One message: `beginMessage()`, a `bufferAppend` for each byte of the
payload, `commitMessage()`. -/
def writeMessage (L : BufferEnv) (b : OutputBuffer) (payload : List Nat) : OutputBuffer :=
  commitMessage L (payload.foldl (bufferAppend L) (beginMessage L b))

/-- A sequence of messages, in the order given. -/
def writeMessages (L : BufferEnv) (b : OutputBuffer) (payloads : List (List Nat)) :
    OutputBuffer :=
  payloads.foldl (writeMessage L) b

/-- A read position of the consumer: a chunk pointer and an offset. When the
offset has reached `MEMORY_CHUNK_SIZE` the reader moves to the `NEXT` chunk at
`OUTPUT_BUFFER_DATA`. -/
def readerNext (L : BufferEnv) (b : OutputBuffer) (r : Option Nat × Nat) : Option Nat × Nat :=
  if r.2 ≥ L.MEMORY_CHUNK_SIZE then
    match r.1 with
    | some c => ((b.chunks[c]?.map BufferChunk.next).getD none, L.OUTPUT_BUFFER_DATA)
    | none => (none, L.OUTPUT_BUFFER_DATA)
  else r

/-- The byte under a read position. -/
def readerByte (b : OutputBuffer) (r : Option Nat × Nat) : Option Nat :=
  match r.1 with
  | some c => b.chunks[c]?.map fun chunk => chunk.bytes r.2
  | none => none

/-- Read `n` payload bytes from a read position, moving on after each byte. -/
def readBytes (L : BufferEnv) (b : OutputBuffer) :
    Nat → Option Nat × Nat → Option (List Nat × (Option Nat × Nat))
  | 0, r => some ([], r)
  | n + 1, r =>
    match readerByte b r with
    | none => none
    | some x =>
      match readBytes L b n (readerNext L b (r.1, r.2 + 1)) with
      | none => none
      | some (xs, r1) => some (x :: xs, r1)

/-- The reader of the chunk chain described with the wire format: from a read
position, while the position is below the `END` of its chunk, a frame
`[u64 length][payload][pad to 8-byte boundary]` is read and its payload
collected. `fuel` bounds the number of frames. -/
def decodeFrom (L : BufferEnv) (b : OutputBuffer) :
    Nat → Option Nat × Nat → Option (List (List Nat))
  | 0, _ => none
  | fuel + 1, r =>
    match r.1 with
    | none => none
    | some c =>
      match b.chunks[c]? with
      | none => none
      | some chunk =>
        if r.2 ≥ chunk.endPos then some []
        else
          let length := loadU64 chunk.bytes r.2
          match readBytes L b length (readerNext L b (r.1, r.2 + 8)) with
          | none => none
          | some (payload, r1) =>
            match decodeFrom L b fuel (readerNext L b (r1.1, r1.2 + (8 - length % 8) % 8)) with
            | none => none
            | some rest => some (payload :: rest)

/-- Decode the chunk chain from `firstBuffer` at `OUTPUT_BUFFER_DATA`. -/
def decode (L : BufferEnv) (b : OutputBuffer) (fuel : Nat) : Option (List (List Nat)) :=
  decodeFrom L b fuel (b.firstBuffer, L.OUTPUT_BUFFER_DATA)

/-- The constants fit the frame format: the data area starts and ends on an
8-byte boundary, is not empty, the length word has 8 bytes, and offsets fit in
64 bits. -/
def Aligned (L : BufferEnv) : Prop :=
  8 ∣ L.OUTPUT_BUFFER_DATA ∧ 8 ∣ L.MEMORY_CHUNK_SIZE ∧
    L.OUTPUT_BUFFER_DATA < L.MEMORY_CHUNK_SIZE ∧ L.OUTPUT_BUFFER_LENGTH_SIZE = 8 ∧
    L.MEMORY_CHUNK_SIZE + 8 ≤ 2 ^ 64

end OutputBuffer

/-- A small instance of the output-buffer macros, used to evaluate the model:
chunks of 40 bytes whose data area starts at offset 16. -/
def sampleBufferEnv : BufferEnv :=
  { MEMORY_CHUNK_SIZE := 40
    OUTPUT_BUFFER_DATA := 16
    OUTPUT_BUFFER_LENGTH_SIZE := 8
    garbage := fun c i => c + i }

/-! ## Call sequences and reference descriptions used by the statements -/

/-- An instance of the missing macros and callbacks, used to evaluate the model
on concrete inputs: `ZERO_SCN` is the all-ones 64-bit value, the flag bits and
the three transaction types have the values of the repository headers, nothing
is on the rollback list, and the output message has a constant size. -/
def sampleEnv : Env :=
  { ZERO_SCN := 0xFFFFFFFFFFFFFFFF
    OPFLAG_BEGIN_TRANS := 1
    FB_L := 4
    FLG_MULTIBLOCKUNDOHEAD := 0x0001
    FLG_MULTIBLOCKUNDOMID := 0x0100
    FLG_MULTIBLOCKUNDOTAIL := 0x0002
    FLG_LASTBUFFERSPLIT := 0x0004
    TRANSACTION_INSERT := 1
    TRANSACTION_DELETE := 2
    TRANSACTION_UPDATE := 3
    DATA_BUFFER_SIZE := 1048576
    ROW_HEADER_TOTAL := 64
    ROW_HEADER_REDO1 := 4
    ROW_HEADER_REDO2 := 24
    ROW_HEADER_SIZE := 48
    CHUNK_SIZE := 65536
    SPLIT_BLOCK_DATA1 := 32
    SPLIT_BLOCK_DATA2 := 64
    maxMessageMb := 0
    bigEndian := false
    currentMessageSize := fun _ => 8
    onRollbackList := fun _ _ => false
    process0501 := fun r => r
    strayRecord2 := fun _ => {} }

/-- A call on a transaction made by the engine during assembly. -/
inductive Call where
  | touch (scn sequence : Nat)
  | add (redoLogRecord1 redoLogRecord2 : RedoLogRecord) (sequence scn : Nat)
  | rollbackPartOp (rollbackRedoLogRecord1 rollbackRedoLogRecord2 : RedoLogRecord) (scn : Nat)
  | rollbackLastOp (scn : Nat)
  deriving DecidableEq, Repr

/-- The transaction after one call. -/
def Transaction.call (env : Env) (t : Transaction) : Call → Transaction
  | .touch scn sequence => t.touch env scn sequence
  | .add r1 r2 sequence scn => t.add env r1 r2 sequence scn
  | .rollbackPartOp rb1 rb2 scn => (t.rollbackPartOp env rb1 rb2 scn).2
  | .rollbackLastOp scn => t.rollbackLastOp env scn

/-- The transaction after a sequence of calls. -/
def Transaction.calls (env : Env) (t : Transaction) (cs : List Call) : Transaction :=
  cs.foldl (Transaction.call env) t

/-- Every `rollbackLastOp` of the sequence is made while the chunk store holds
a tuple. -/
def lastOpGuarded (env : Env) : Transaction → List Call → Bool
  | _, [] => true
  | t, c :: cs =>
    (match c with
      | .rollbackLastOp _ => decide (t.rows ≠ [])
      | _ => true) && lastOpGuarded env (t.call env c) cs

/-- A call of one of the two overloads of `addSplitBlock`. -/
inductive SplitCall where
  | one (redoLogRecord : RedoLogRecord)
  | two (redoLogRecord1 redoLogRecord2 : RedoLogRecord)
  deriving DecidableEq, Repr

/-- The transaction after a sequence of `addSplitBlock` calls. -/
def Transaction.addSplitBlocks (env : Env) (t : Transaction) (cs : List SplitCall) :
    Transaction :=
  cs.foldl (fun t c =>
    match c with
    | .one r => t.addSplitBlock env r
    | .two r1 r2 => t.addSplitBlock2 env r1 r2) t

/-- The key `(scn, subScn)` of frame `a` is at most that of frame `b`,
lexicographically. -/
def splitKeyLe (a b : SplitBlock) : Prop :=
  a.record1.scn < b.record1.scn ∨
    (a.record1.scn = b.record1.scn ∧ a.record1.subScn ≤ b.record1.subScn)

instance (a b : SplitBlock) : Decidable (splitKeyLe a b) := by
  unfold splitKeyLe; infer_instance

/-- Whether a call is `processBegin` or `processCommit`. -/
def Event.isBracket : Event → Bool
  | .processBegin _ _ _ => true
  | .processCommit => true
  | _ => false

/-- Whether a call is `processBegin`. -/
def Event.isBegin : Event → Bool
  | .processBegin _ _ _ => true
  | _ => false

/-- Whether a call is `processCommit`. -/
def Event.isCommit : Event → Bool
  | .processCommit => true
  | _ => false

/-- A sequence of bracket calls of the form `(commit, begin)*, commit`. -/
def closesBracket : List Event → Bool
  | [c] => c.isCommit
  | c :: b :: rest => c.isCommit && b.isBegin && closesBracket rest
  | [] => false

/-- A sequence of bracket calls that is empty or of the form
`begin, (commit, begin)*, commit`. -/
def wellBracketed : List Event → Bool
  | [] => true
  | b :: rest => b.isBegin && closesBracket rest

/-- A sequence of bracket calls of the form `(commit, begin)*`. -/
def bracketPairs : List Event → Bool
  | [] => true
  | [_] => false
  | c :: b :: rest => c.isCommit && b.isBegin && bracketPairs rest

/-- The three transaction types are set (not `0`, the value of `type` before
the first piece) and differ from one another. -/
def Env.typesDistinct (env : Env) : Prop :=
  env.TRANSACTION_INSERT ≠ 0 ∧ env.TRANSACTION_DELETE ≠ 0 ∧ env.TRANSACTION_UPDATE ≠ 0 ∧
    env.TRANSACTION_INSERT ≠ env.TRANSACTION_DELETE ∧
    env.TRANSACTION_INSERT ≠ env.TRANSACTION_UPDATE ∧
    env.TRANSACTION_DELETE ≠ env.TRANSACTION_UPDATE

/-- The type of a row chain as the specification words it, from the `op2`
sequence `o1 .. on` of its pieces: INSERT when `o1` is `0B02` and no later
piece is `0B03/0B05/0B06/0B08`, DELETE when `o1` is `0B03` and no later piece
is `0B02/0B05/0B06/0B08`, UPDATE in every other case (`0` for no piece). -/
def classifyType (env : Env) : List Nat → Nat
  | [] => 0
  | o1 :: later =>
    if o1 = 0x05010B02 ∧
        later.all (fun o => !(o == 0x05010B03 || o == 0x05010B05 || o == 0x05010B06 ||
          o == 0x05010B08)) = true then env.TRANSACTION_INSERT
    else if o1 = 0x05010B03 ∧
        later.all (fun o => !(o == 0x05010B02 || o == 0x05010B05 || o == 0x05010B06 ||
          o == 0x05010B08)) = true then env.TRANSACTION_DELETE
    else env.TRANSACTION_UPDATE

/-- The types of the row chains of a walk, as the specification words them:
`pending` is the `op2` sequence of the pieces stored since the previous emit;
a piece with `FB_L` closes a chain, every other emitting row drops the pending
pieces. -/
def chainTypes (env : Env) : List Nat → List Row → List Nat
  | _, [] => []
  | pending, row :: rows =>
    if Transaction.isPieceOp row.op then
      if (row.redoLogRecord1.suppLogFb &&& env.FB_L) ≠ 0 then
        classifyType env (pending ++ [row.op]) :: chainTypes env [] rows
      else chainTypes env (pending ++ [row.op]) rows
    else chainTypes env [] rows

/-- The `type` arguments of the `parseDML` calls of a call sequence. -/
def dmlTypes (events : List Event) : List Nat :=
  events.filterMap fun
    | .parseDML _ _ type _ => some type
    | _ => none

/-- For each `parseDML` call: the pointer `first1`, and the `next` link of the
record it refers to in the memory handed over. -/
def dmlHeads (events : List Event) : List (Nat × Option Nat) :=
  events.filterMap fun
    | .parseDML first1 _ _ mem => some (first1, (Transaction.rec1 mem first1).next)
    | _ => none

/-! ### Concrete inputs -/

/-- Head fragment of a split undo record, with its companion `splitCompanion`. -/
def splitHead : RedoLogRecord :=
  { opCode := 0x0501, scn := 10, subScn := 1, slt := 7, rci := 3, flg := 0x0001,
    length := 12, fieldCnt := 2, fieldPos := 8, fieldLengthsDelta := 0,
    data := [0, 0, 4, 0, 0, 0, 0, 0, 1, 2, 3, 4], suppLogType := 1, suppLogFb := 4 }

/-- Tail fragment of the same split undo record. -/
def splitTail : RedoLogRecord :=
  { opCode := 0x0501, scn := 10, subScn := 2, slt := 7, rci := 3, flg := 0x0002,
    length := 12, fieldCnt := 3, fieldPos := 8, fieldLengthsDelta := 0,
    data := [0, 0, 0, 0, 0, 0, 4, 0, 5, 6, 7, 8] }

/-- Companion redo record of `splitHead`. -/
def splitCompanion : RedoLogRecord := { opCode := 0x0B02 }

/-- A transaction with the two fragments pending. -/
def splitTx : Transaction :=
  ((Transaction.new sampleEnv 1).addSplitBlock2 sampleEnv splitHead splitCompanion).addSplitBlock
    sampleEnv splitTail

/-- The undo record that the merge of `splitHead` and `splitTail` produces. -/
def splitMerged : RedoLogRecord :=
  { splitHead with
    length := 16, fieldCnt := 3, fieldPos := 8,
    data := [3, 0, 4, 0, 0, 0, 4, 0, 1, 2, 3, 4, 5, 6, 7, 8] ++ List.replicate 18 0 }

/-- First insert piece of scenario S1 (undo record). -/
def s1r1a : RedoLogRecord :=
  { opCode := 0x0501, scn := 100, suppLogType := 1, suppLogBdba := 7, suppLogSlot := 2,
    object := 9 }

/-- Last insert piece of scenario S1 (undo record, `FB_L` set). -/
def s1r1b : RedoLogRecord :=
  { opCode := 0x0501, scn := 101, suppLogType := 1, suppLogBdba := 7, suppLogSlot := 2,
    object := 9, suppLogFb := 4 }

/-- Companion insert record of both pieces of scenario S1. -/
def s1r2 : RedoLogRecord := { opCode := 0x0B02, object := 9 }

/-- The committed transaction of scenario S1. -/
def s1Tx : Transaction :=
  { ((Transaction.new sampleEnv 5).add sampleEnv s1r1a s1r2 1 100).add sampleEnv s1r1b s1r2 1 101
    with isCommit := true }

/-- The stored pair of scenario S4 (undo record and companion). -/
def s4r1 : RedoLogRecord := { opCode := 0x0501, slt := 7, rci := 3, uba := 11, scn := 100 }

/-- The companion record of scenario S4. -/
def s4r2 : RedoLogRecord := { opCode := 0x0B02, dba := 13, slot := 17 }

/-- The first rollback record of scenario S4. -/
def s4rb1 : RedoLogRecord := { uba := 11, dba := 13, slot := 17 }

/-- The second rollback record of scenario S4. -/
def s4rb2 : RedoLogRecord := { slt := 7, rci := 3, scn := 150 }

/-- No chunk of the chain is empty (the chunk store unlinks a chunk that is
left without tuples). -/
def noEmptyChunk (chunks : List TransactionChunk) : Prop := ∀ tc ∈ chunks, tc.rows ≠ []

/-- A record without its chain links: what `flush` never changes in a
`redoLogRecord1`. -/
def stripLinks (r : RedoLogRecord) : RedoLogRecord := { r with next := none, prev := none }

/-- The instance `sampleEnv` with the writer limit `maxMessageMb = 1`: with
`DATA_BUFFER_SIZE` of one MiB the forced commit follows every record. -/
def sampleEnvSplit : Env := { sampleEnv with maxMessageMb := 1 }

/-- The two stored tuples of scenario S1. -/
def s1RowA : Row :=
  { op := 0x05010B02, redoLogRecord1 := s1r1a, redoLogRecord2 := s1r2, scn := 100, size := 64 }

/-- The second stored tuple of scenario S1 (the piece with `FB_L`). -/
def s1RowB : Row :=
  { op := 0x05010B02, redoLogRecord1 := s1r1b, redoLogRecord2 := s1r2, scn := 101, size := 64 }

/-- Companion delete record of the last piece of scenario S2. -/
def s2r2b : RedoLogRecord := { opCode := 0x0B03, object := 9 }

/-- The committed transaction of scenario S2: an insert piece, then a delete
piece with `FB_L`. -/
def s2Tx : Transaction :=
  { ((Transaction.new sampleEnv 5).add sampleEnv s1r1a s1r2 1 100).add sampleEnv s1r1b s2r2b 1 101
    with isCommit := true }

/-- What `flush` returns on `s2Tx`. -/
def s2Out : Transaction × List Event :=
  (Except.toOption (Transaction.flush sampleEnv s2Tx)).getD (s2Tx, [])

/-- What `flush` returns on `s1Tx` when every record forces a commit. -/
def s1SplitOut : Transaction × List Event :=
  (Except.toOption (Transaction.flush sampleEnvSplit s1Tx)).getD (s1Tx, [])

/-- Scenario S1 for a pair of insert pieces: a committed transaction without
pending split blocks that stores exactly the tuples `a` (without `FB_L`) and
`b` (with `FB_L`), both with `op2 = 0x05010B02` and nonzero `suppLogType`, with
matching `suppLogBdba`, `suppLogSlot` and objects. -/
def scenarioS1 (env : Env) (t : Transaction) (a b : Row) : Prop :=
  t.splitBlockList = [] ∧ t.rows = [a, b] ∧ t.isCommit = true ∧ t.isRollback = false ∧
    0 < t.opCodes ∧ a.op = 0x05010B02 ∧ b.op = 0x05010B02 ∧
    a.redoLogRecord1.suppLogType ≠ 0 ∧ b.redoLogRecord1.suppLogType ≠ 0 ∧
    (a.redoLogRecord1.suppLogFb &&& env.FB_L) = 0 ∧
    (b.redoLogRecord1.suppLogFb &&& env.FB_L) ≠ 0 ∧
    a.redoLogRecord1.suppLogBdba = b.redoLogRecord1.suppLogBdba ∧
    a.redoLogRecord1.suppLogSlot = b.redoLogRecord1.suppLogSlot ∧
    a.redoLogRecord1.object = b.redoLogRecord1.object ∧
    a.redoLogRecord2.object = b.redoLogRecord2.object

instance (env : Env) (t : Transaction) (a b : Row) : Decidable (scenarioS1 env t a b) := by
  unfold scenarioS1; infer_instance

instance (env : Env) : Decidable env.typesDistinct := by
  unfold Env.typesDistinct; infer_instance

/-- A transaction holding the pair of scenario S4 whose `isCommit` flag is set. -/
def committedTx : Transaction :=
  { (Transaction.new sampleEnv 1).add sampleEnv s4r1 s4r2 1 100 with isCommit := true }

/-- The transaction of scenario S1 before its commit record: `isCommit` is
false. -/
def uncommittedTx : Transaction := { s1Tx with isCommit := false }

/-- What `flush` returns on `uncommittedTx`. -/
def uncommittedOut : Transaction × List Event :=
  (Except.toOption (Transaction.flush sampleEnv uncommittedTx)).getD (uncommittedTx, [])

/-- A committed transaction of two single-piece inserts (each with `FB_L`)
whose `shutdown` flag is set. -/
def shutdownTx : Transaction :=
  { ((Transaction.new sampleEnv 5).add sampleEnv s1r1b s1r2 1 100).add sampleEnv s1r1b s1r2 1 101
    with isCommit := true, shutdown := true }

/-- What `flush` returns on `shutdownTx`. -/
def shutdownOut : Transaction × List Event :=
  (Except.toOption (Transaction.flush sampleEnv shutdownTx)).getD (shutdownTx, [])

/-- A companion record without its chain links and without `suppLogAfter`:
what `flush` never changes in a `redoLogRecord2`. -/
def stripLinks2 (r : RedoLogRecord) : RedoLogRecord :=
  { r with next := none, prev := none, suppLogAfter := 0 }

/-- The state of the walk of `flush` before the first row: the rows as stored,
`processBegin` issued, no chain open. -/
def walkStart (t : Transaction) : Transaction.FlushState :=
  { mem := t.rows, events := [Event.processBegin t.lastScn t.commitTime t.xid] }

/-- The state of `flush` at the row piece at pointer `p`, after the assignments
to `redoLogRecord2->suppLogAfter` and to `type` and before the check of
`suppLogType`. -/
def pieceEntry (env : Env) (st : Transaction.FlushState) (p op : Nat) : Transaction.FlushState :=
  { st with
    mem := Transaction.setRec2 st.mem p fun r =>
      { r with suppLogAfter := (Transaction.rec1 st.mem p).suppLogAfter }
    type := Transaction.nextType env st.type op }

/-- The test of the chain linkage of `flush` for the piece at pointer `p`
against the tail `l1` and the head `f1`/`f2` of the open chain. -/
def chainMatches (mem : List Row) (p f1 f2 l1 : Nat) : Prop :=
  (Transaction.rec1 mem l1).suppLogBdba = (Transaction.rec1 mem p).suppLogBdba ∧
    (Transaction.rec1 mem l1).suppLogSlot = (Transaction.rec1 mem p).suppLogSlot ∧
    (Transaction.rec1 mem f1).object = (Transaction.rec1 mem p).object ∧
    (Transaction.rec2 mem f2).object = (Transaction.rec2 mem p).object

instance (mem : List Row) (p f1 f2 l1 : Nat) : Decidable (chainMatches mem p f1 f2 l1) := by
  unfold chainMatches
  exact inferInstance

/-- A complete single-piece insert followed by a record whose `op2` is
`0x05130B02`, which is none of the cases of the `switch` of `flush`. -/
def unknownOpTx : Transaction :=
  { ((Transaction.new sampleEnv 5).add sampleEnv s1r1b s1r2 1 100).add sampleEnv
      { opCode := 0x0513, scn := 101 } s1r2 1 101 with isCommit := true }

/-- The first piece of scenario S1 followed by a piece without supplemental
log data (`suppLogType = 0`). -/
def noSuppLogTx : Transaction :=
  { ((Transaction.new sampleEnv 5).add sampleEnv s1r1a s1r2 1 100).add sampleEnv
      { s1r1b with suppLogType := 0 } s1r2 1 101 with isCommit := true }

/-- The first piece of scenario S1 followed by a piece of another block
(`suppLogBdba = 8`). -/
def mismatchTx : Transaction :=
  { ((Transaction.new sampleEnv 5).add sampleEnv s1r1a s1r2 1 100).add sampleEnv
      { s1r1b with suppLogBdba := 8 } s1r2 1 101 with isCommit := true }

/-- The first piece of scenario S1 followed by a piece of another block
(`suppLogBdba = 8`) that has no supplemental log data either. -/
def mismatchNoSuppTx : Transaction :=
  { ((Transaction.new sampleEnv 5).add sampleEnv s1r1a s1r2 1 100).add sampleEnv
      { s1r1b with suppLogBdba := 8, suppLogType := 0 } s1r2 1 101 with isCommit := true }

/-- The state of the walk of `flush` on transaction `t` after its first `n`
rows (the state before the first row when one of them raises). -/
def walkAfter (env : Env) (t : Transaction) (n : Nat) : Transaction.FlushState :=
  (Except.toOption (Transaction.flushRows env t (walkStart t) (t.rows.take n))).getD (walkStart t)

/-- What the chain linkage of `flush` compares, for the row a pointer refers
to: the object, `suppLogBdba` and `suppLogSlot` of its undo record and the
object of its companion record. -/
def rowKey (mem : List Row) (q : Nat) : Nat × Nat × Nat × Nat :=
  ((Transaction.rec1 mem q).object, (Transaction.rec1 mem q).suppLogBdba,
    (Transaction.rec1 mem q).suppLogSlot, (Transaction.rec2 mem q).object)

/-- The same four fields for a stored tuple. -/
def Row.key (r : Row) : Nat × Nat × Nat × Nat :=
  (r.redoLogRecord1.object, r.redoLogRecord1.suppLogBdba, r.redoLogRecord1.suppLogSlot,
    r.redoLogRecord2.object)

/-- The chain pointers of a walk state refer to rows from position `s` on, and
all rows from `s` up to the walk position agree on `rowKey`: `s` is where the
open chain started. -/
def chainSince (st : Transaction.FlushState) (s : Nat) : Prop :=
  s ≤ st.idx ∧ (st.first1 = none → s = st.idx) ∧
    (∀ f, st.first1 = some f → ∃ f2 l, st.first2 = some f2 ∧ st.last1 = some l ∧
      s ≤ f ∧ f < st.idx ∧ s ≤ f2 ∧ f2 < st.idx ∧ s ≤ l ∧ l < st.idx) ∧
    ∀ q, s ≤ q → q < st.idx → rowKey st.mem q = rowKey st.mem s

/-- A stored tuple whose two records have null chain links, as the walk of
`flush` expects to find them. -/
def Row.nullLinks (r : Row) : Prop :=
  r.redoLogRecord1.next = none ∧ r.redoLogRecord1.prev = none ∧
    r.redoLogRecord2.next = none ∧ r.redoLogRecord2.prev = none

instance (r : Row) : Decidable r.nullLinks := by
  unfold Row.nullLinks
  exact inferInstance

/-- Well-formedness of the chain links of a walk state with respect to a
position `n`: rows from `n` on have null links, every link refers to a row below
`n`, the links of the companion records mirror those of the undo records, and
either no chain is open or head and tail are rows below `n`, the head has no
predecessor and a tail other than the head has one. -/
def linkedBelow (st : Transaction.FlushState) (n : Nat) : Prop :=
  (∀ q, n ≤ q → (Transaction.rec1 st.mem q).next = none ∧ (Transaction.rec1 st.mem q).prev = none) ∧
    (∀ q x, (Transaction.rec1 st.mem q).prev = some x → x < n) ∧
    (∀ q x, (Transaction.rec1 st.mem q).next = some x → x < n) ∧
    (∀ q, (Transaction.rec2 st.mem q).next = (Transaction.rec1 st.mem q).next ∧
      (Transaction.rec2 st.mem q).prev = (Transaction.rec1 st.mem q).prev) ∧
    ((st.first1 = none ∧ st.first2 = none ∧ st.last1 = none ∧ st.last2 = none) ∨
      ∃ f l, st.first1 = some f ∧ st.first2 = some f ∧ st.last1 = some l ∧ st.last2 = some l ∧
        f < n ∧ l < n ∧ (Transaction.rec1 st.mem f).prev = none ∧
        (f ≠ l → (Transaction.rec1 st.mem l).prev ≠ none))

/-- An insert piece without `FB_L` followed by an overwrite piece (`op2 =
0x05010B06`) of the same row. -/
def overwriteTx : Transaction :=
  { ((Transaction.new sampleEnv 5).add sampleEnv s1r1a s1r2 1 100).add sampleEnv s1r1b
      { opCode := 0x0B06, object := 9 } 1 101 with isCommit := true }

/-- The second stored tuple of `overwriteTx`. -/
def overwriteRow : Row :=
  { op := 0x05010B06, redoLogRecord1 := s1r1b, redoLogRecord2 := { opCode := 0x0B06, object := 9 },
    scn := 101, size := 64 }

/-- What the row-piece case of `flush` returns at the second tuple of
`overwriteTx`. -/
def overwriteOut : Transaction.FlushState × Bool :=
  (Except.toOption (Transaction.flushPiece sampleEnv (walkAfter sampleEnv overwriteTx 1) 1
    0x05010B06)).getD (walkStart overwriteTx, false)

/-! ### Views of the output buffer used by the round-trip proof -/

namespace OutputBuffer

/-- The byte at offset `pos` of chunk `c`, when the chunk exists. -/
def chunkByte (b : OutputBuffer) (c pos : Nat) : Option Nat :=
  b.chunks[c]?.map fun chunk => chunk.bytes pos

/-- The `NEXT` word of chunk `c`, when the chunk exists. -/
def nextOf (b : OutputBuffer) (c : Nat) : Option (Option Nat) :=
  b.chunks[c]?.map BufferChunk.next

/-- The `END` word of chunk `c`, when the chunk exists. -/
def endOf (b : OutputBuffer) (c : Nat) : Option Nat :=
  b.chunks[c]?.map BufferChunk.endPos

/-- Where `bufferShift` takes the write position `(k, p)` when asked to move by
`n` bytes: to the start of the data of the next chunk once the end of the chunk
is reached. -/
def move (L : BufferEnv) (k p n : Nat) : Nat × Nat :=
  if p + n ≥ L.MEMORY_CHUNK_SIZE then (k + 1, L.OUTPUT_BUFFER_DATA) else (k, p + n)

/-- Buffer `b1` holds what `b` holds between the positions `(kl, pl)`
(included) and `(kh, ph)` (excluded): the same bytes, and the same `NEXT` words
for the chunks from `kl` up to `kh` (excluded). -/
def Pres (b b1 : OutputBuffer) (kl pl kh ph : Nat) : Prop :=
  (∀ c pos, (kl < c ∨ (kl = c ∧ pl ≤ pos)) → (c < kh ∨ (c = kh ∧ pos < ph)) →
      chunkByte b1 c pos = chunkByte b c pos) ∧
    ∀ c, kl ≤ c → c < kh → nextOf b1 c = nextOf b c

/-- The chunk chain of a buffer whose write position is `(k, p)`: chunks
`0 .. k`, linked in this order, every chunk before the last closed at
`MEMORY_CHUNK_SIZE`. -/
def Chain (L : BufferEnv) (b : OutputBuffer) (k p : Nat) : Prop :=
  b.lastBuffer = some k ∧ b.lastBufferPos = p ∧ b.chunks.length = k + 1 ∧
    L.OUTPUT_BUFFER_DATA ≤ p ∧ p < L.MEMORY_CHUNK_SIZE ∧ b.firstBuffer = some 0 ∧
    ∀ c, c < k → nextOf b c = some (some (c + 1)) ∧ endOf b c = some L.MEMORY_CHUNK_SIZE

/-- A buffer between two messages: the write position is on an 8-byte boundary
and is the `END` of the last chunk. -/
def Committed (L : BufferEnv) (b : OutputBuffer) (k p : Nat) : Prop :=
  Chain L b k p ∧ endOf b k = some p ∧ 8 ∣ p

/-- The stores of `commitMessage` that follow its `bufferShift`: the length
word of the message and the `END` words. -/
def commitTail (L : BufferEnv) (b : OutputBuffer) : OutputBuffer :=
  let b := setChunk b b.curBuffer fun c =>
    { c with bytes := storeU64 c.bytes b.curBufferPos b.messageLength }
  let b :=
    if b.curBuffer ≠ b.lastBuffer then
      setChunk b b.curBuffer fun c => { c with endPos := L.MEMORY_CHUNK_SIZE }
    else b
  setChunk b b.lastBuffer fun c => { c with endPos := b.lastBufferPos }

/-- A buffer inside a message that started at `(kc, pc)` and has `len` payload
bytes so far. -/
def Writing (L : BufferEnv) (b : OutputBuffer) (kc pc k p len : Nat) : Prop :=
  Chain L b k p ∧ b.curBuffer = some kc ∧ b.curBufferPos = pc ∧ b.messageLength = len ∧
    p % 8 = len % 8 ∧ (kc < k ∨ (kc = k ∧ pc + 8 ≤ p))

end OutputBuffer

/-- Whether a call is one of the four emits of the writer (`parseDML`,
`parseInsertMultiple`, `parseDeleteMultiple`, `parseDDL`). -/
def Event.isEmit : Event → Bool
  | .parseDML _ _ _ _ => true
  | .parseInsertMultiple _ _ => true
  | .parseDeleteMultiple _ _ => true
  | .parseDDL _ => true
  | _ => false

/-- The frame that a call of `addSplitBlock` builds and links into the list. -/
def SplitCall.frame (env : Env) : SplitCall → SplitBlock
  | .one r =>
    { size := env.SPLIT_BLOCK_DATA1 + r.length, op1 := r.opCode, op2 := 0, record1 := r,
      record2 := none }
  | .two r1 r2 =>
    { size := env.SPLIT_BLOCK_DATA2 + r1.length + r2.length, op1 := r1.opCode,
      op2 := r2.opCode, record1 := r1, record2 := some r2 }

/-- The calls of the tie of two fragments: both with `(scn, subScn) = (7, 0)`,
told apart by their `slt`. -/
def tieCalls : List SplitCall :=
  [.one { scn := 7, slt := 1 }, .one { scn := 7, slt := 2 }]

/-- Scenario S6 on the small instance: after `initialize` and `beginMessage`,
thirteen calls of `bufferAppend` take the write head to offset 37 of the first
chunk, three bytes short of its 40 bytes. -/
def s6Buffer : OutputBuffer :=
  (List.range 13).foldl (OutputBuffer.bufferAppend sampleBufferEnv)
    (OutputBuffer.beginMessage sampleBufferEnv
      (OutputBuffer.initializeBuffer sampleBufferEnv OutputBuffer.new))

/-! ## Character sets -/

/-- The registrations `characterMap[id] = new CharacterSet...(name, ...)` of the
constructor `OutputBuffer::OutputBuffer`, in the order of the source: the id and
the name passed to the class, `none` for the thirteen classes that are
constructed without a name argument. -/
def characterMapEntries : List (Nat × Option String) :=
  [(1, some "US7ASCII"), (2, some "WE8DEC"), (3, some "WE8HP"), (4, some "US8PC437"),
   (10, some "WE8PC850"), (11, some "D7DEC"), (13, some "S7DEC"), (14, some "E7DEC"),
   (15, some "SF7ASCII"), (16, some "NDK7DEC"), (17, some "I7DEC"), (21, some "SF7DEC"),
   (25, some "IN8ISCII"), (28, some "WE8PC858"), (31, some "WE8ISO8859P1"),
   (32, some "EE8ISO8859P2"), (33, some "SE8ISO8859P3"), (34, some "NEE8ISO8859P4"),
   (35, some "CL8ISO8859P5"), (36, some "AR8ISO8859P6"), (37, some "EL8ISO8859P7"),
   (38, some "IW8ISO8859P8"), (39, some "WE8ISO8859P9"), (40, some "NE8ISO8859P10"),
   (41, some "TH8TISASCII"), (43, some "BN8BSCII"), (44, some "VN8VN3"),
   (45, some "VN8MSWIN1258"), (46, some "WE8ISO8859P15"), (47, some "BLT8ISO8859P13"),
   (48, some "CEL8ISO8859P14"), (49, some "CL8ISOIR111"), (50, some "WE8NEXTSTEP"),
   (51, some "CL8KOI8U"), (52, some "AZ8ISO8859P9E"), (61, some "AR8ASMO708PLUS"),
   (81, some "EL8DEC"), (82, some "TR8DEC"), (110, some "EEC8EUROASCI"),
   (113, some "EEC8EUROPA3"), (114, some "LA8PASSPORT"), (140, some "BG8PC437S"),
   (150, some "EE8PC852"), (152, some "RU8PC866"), (153, some "RU8BESTA"),
   (154, some "IW8PC1507"), (155, some "RU8PC855"), (156, some "TR8PC857"),
   (159, some "CL8MACCYRILLICS"), (160, some "WE8PC860"), (161, some "IS8PC861"),
   (162, some "EE8MACCES"), (163, some "EE8MACCROATIANS"), (164, some "TR8MACTURKISHS"),
   (165, some "IS8MACICELANDICS"), (166, some "EL8MACGREEKS"), (167, some "IW8MACHEBREWS"),
   (170, some "EE8MSWIN1250"), (171, some "CL8MSWIN1251"), (172, some "ET8MSWIN923"),
   (173, some "BG8MSWIN"), (174, some "EL8MSWIN1253"), (175, some "IW8MSWIN1255"),
   (176, some "LT8MSWIN921"), (177, some "TR8MSWIN1254"), (178, some "WE8MSWIN1252"),
   (179, some "BLT8MSWIN1257"), (190, some "N8PC865"), (191, some "BLT8CP921"),
   (192, some "LV8PC1117"), (193, some "LV8PC8LR"), (195, some "LV8RST104090"),
   (196, some "CL8KOI8R"), (197, some "BLT8PC775"), (202, some "E7SIEMENS9780X"),
   (203, some "S7SIEMENS9780X"), (204, some "DK7SIEMENS9780X"), (206, some "I7SIEMENS9780X"),
   (205, some "N7SIEMENS9780X"), (207, some "D7SIEMENS9780X"), (241, some "WE8DG"),
   (251, some "WE8NCR4970"), (261, some "WE8ROMAN8"), (352, some "WE8MACROMAN8S"),
   (354, some "TH8MACTHAIS"), (368, some "HU8CWI2"), (380, some "EL8PC437S"),
   (382, some "EL8PC737"), (383, some "LT8PC772"), (384, some "LT8PC774"),
   (385, some "EL8PC869"), (386, some "EL8PC851"), (390, some "CDN8PC863"),
   (401, some "HU8ABMOD"), (500, some "AR8ASMO8X"), (504, some "AR8NAFITHA711T"),
   (505, some "AR8SAKHR707T"), (506, some "AR8MUSSAD768T"), (507, some "AR8ADOS710T"),
   (508, some "AR8ADOS720T"), (509, some "AR8APTEC715T"), (511, some "AR8NAFITHA721T"),
   (514, some "AR8HPARABIC8T"), (554, some "AR8NAFITHA711"), (555, some "AR8SAKHR707"),
   (556, some "AR8MUSSAD768"), (557, some "AR8ADOS710"), (558, some "AR8ADOS720"),
   (559, some "AR8APTEC715"), (560, some "AR8MSWIN1256"), (561, some "AR8NAFITHA721"),
   (563, some "AR8SAKHR706"), (566, some "AR8ARABICMACS"), (590, some "LA8ISO6937"),
   (829, some "JA16VMS"), (830, none), (831, some "JA16EUCYEN"), (832, none),
   (834, some "JA16SJISYEN"), (837, none), (838, none), (840, some "KO16KSC5601"), (845, none),
   (846, some "KO16MSWIN949"), (850, some "ZHS16CGB231280"), (852, none), (854, none),
   (860, none), (863, none), (865, some "ZHT16BIG5"), (866, some "ZHT16CCDC"),
   (867, some "ZHT16MSWIN950"), (868, some "ZHT16HKSCS"), (871, none), (873, none), (992, none),
   (1002, some "TIMESTEN8"), (2000, none)]

/-- The elements `(id, name)` of `characterMap` after the constructor.
`className id` is the name that the class registered under `id` gives itself
when it is constructed without a name argument; these classes are declared
outside the sources at hand. -/
def characterMap (className : Nat → String) : List (Nat × String) :=
  characterMapEntries.map fun e => (e.1, e.2.getD (className e.1))

namespace OutputBuffer

/-- One `for (auto elem: characterMap)` loop of `setNlsCharset`: the id of the
first element visited whose name equals the name looked for, and the value the
member had before when there is none. `elems` lists the elements in the order
the loop visits them. Names are C strings without NUL characters, for which
`strcmp(...) == 0` is equality. -/
def findCharset (elems : List (Nat × String)) (name : String) (current : Nat) : Nat :=
  match elems.find? (fun elem => name == elem.2) with
  | some elem => elem.1
  | none => current

/-- `OutputBuffer::setNlsCharset`, over the elements of `characterMap` in the
order of iteration. -/
def setNlsCharset (elems : List (Nat × String)) (b : OutputBuffer)
    (nlsCharset nlsNcharCharset : String) : Except String OutputBuffer :=
  let b := { b with
    defaultCharacterMapId := findCharset elems nlsCharset b.defaultCharacterMapId }
  if b.defaultCharacterMapId = 0 then .error "unsupported NLS_CHARACTERSET value"
  else
    let b := { b with
      defaultCharacterNcharMapId :=
        findCharset elems nlsNcharCharset b.defaultCharacterNcharMapId }
    if b.defaultCharacterNcharMapId = 0 then .error "unsupported NLS_NCHAR_CHARACTERSET value"
    else .ok b

end OutputBuffer

/-- An instance of the names of the classes constructed without a name
argument, used to evaluate the model: the class name without its prefix
`CharacterSet`. -/
def sampleClassName (id : Nat) : String :=
  if id = 830 then "JA16EUC" else if id = 832 then "JA16SJIS"
  else if id = 837 then "JA16EUCTILDE" else if id = 838 then "JA16SJISTILDE"
  else if id = 845 then "KO16KSCCS" else if id = 852 then "ZHS16GBK"
  else if id = 854 then "ZHS32GB18030" else if id = 860 then "ZHT32EUC"
  else if id = 863 then "ZHT32TRIS" else if id = 871 then "UTF8"
  else if id = 873 then "AL32UTF8" else if id = 992 then "ZHT16HKSCS31"
  else if id = 2000 then "AL16UTF16" else ""

/-- The two default ids after a call of `setNlsCharset`, `none` when the call
raises. -/
def charsetIds (r : Except String OutputBuffer) : Option (Nat × Nat) :=
  match r with
  | .ok b => some (b.defaultCharacterMapId, b.defaultCharacterNcharMapId)
  | .error _ => none

/-! ## Chunk memory -/

/-- The byte-level view of a chunk of the chunk store: `elements`, `size`, and
the memory that `buffer` points into, addressed by the signed offset from
`buffer`. -/
structure ChunkMemory where
  elements : Nat
  size : Nat
  buffer : Int → Nat

/-- The 64-bit word at a signed offset: `*((uint64_t*)(buffer + off))`. -/
def ChunkMemory.word (buffer : Int → Nat) (off : Int) : Nat :=
  OutputBuffer.loadU64 (fun i => buffer (off + i)) 0

/-- `Transaction::updateLastRecord` on the byte-level view of `lastTc`: the new
values of `lastRedoLogRecord1` and `lastRedoLogRecord2`, as offsets from
`lastTc->buffer`, or the fatal condition. -/
def Transaction.updateLastRecord (env : Env) (lastTc : Option ChunkMemory) :
    Except String (Int × Int) :=
  match lastTc with
  | none => .error "updating last element of empty transaction"
  | some tc =>
    if tc.elements = 0 then .error "updating last element of empty transaction"
    else
      let lastSize : Nat := ChunkMemory.word tc.buffer
        ((tc.size : Int) - env.ROW_HEADER_TOTAL + env.ROW_HEADER_SIZE)
      .ok ((tc.size : Int) - lastSize + env.ROW_HEADER_REDO1,
        (tc.size : Int) - lastSize + env.ROW_HEADER_REDO2)

/-- The bytes that a list of tuples takes in a chunk. -/
def tupleBytes (rows : List Row) : Nat := (rows.map Row.size).sum

/-- Modelled from the spec: the size words of tuples laid back to back from
offset `off` on (`TransactionBuffer.cpp`, which writes the tuples, is not among
the sources). Section 3: a chunk holds a sequence of records
`[op2 | RedoLogRecord1 | RedoLogRecord2 | data1 | data2 | scn | size]`; each
tuple carries the word with its own size in its trailer, at offset
`ROW_HEADER_SIZE` past its data, which is `ROW_HEADER_TOTAL - ROW_HEADER_SIZE`
bytes before its end. -/
def tuplesAt (env : Env) (buffer : Int → Nat) : Int → List Row → Prop
  | _, [] => True
  | off, row :: rows =>
    ChunkMemory.word buffer (off + row.size - env.ROW_HEADER_TOTAL + env.ROW_HEADER_SIZE) =
        row.size ∧
      tuplesAt env buffer (off + row.size) rows

/-- Modelled from the spec: the chunk memory holds exactly the tuples `rows`
(`TransactionBuffer.cpp` is not among the sources). Section 3: `elements` is
their count, `size` the used bytes, and the tuples lie back to back from the
start of the buffer in insertion order. -/
def ChunkMemory.holds (env : Env) (tc : ChunkMemory) (rows : List Row) : Prop :=
  tc.elements = rows.length ∧ tc.size = tupleBytes rows ∧ tuplesAt env tc.buffer 0 rows

/-- A chunk memory for `sampleEnv` that holds the two tuples of scenario S1, of
64 bytes each: the size words lie at the offsets 48 and 112. -/
def s1ChunkMemory : ChunkMemory :=
  { elements := 2
    size := 128
    buffer := fun i => if i = 48 ∨ i = 112 then 64 else 0 }

/-! ## Split-block groups -/

/-- A HEAD fragment: of the three role bits its undo record carries
`FLG_MULTIBLOCKUNDOHEAD` only, and the frame stores the companion record. -/
def SplitBlock.isHead (env : Env) (b : SplitBlock) : Bool :=
  ((b.record1.flg &&& env.FLG_MULTIBLOCKUNDOHEAD) != 0) &&
    ((b.record1.flg &&& env.FLG_MULTIBLOCKUNDOMID) == 0) &&
    ((b.record1.flg &&& env.FLG_MULTIBLOCKUNDOTAIL) == 0) && b.record2.isSome

/-- A MID fragment: of the three role bits its undo record carries
`FLG_MULTIBLOCKUNDOMID` only. -/
def SplitBlock.isMid (env : Env) (b : SplitBlock) : Bool :=
  ((b.record1.flg &&& env.FLG_MULTIBLOCKUNDOHEAD) == 0) &&
    ((b.record1.flg &&& env.FLG_MULTIBLOCKUNDOMID) != 0) &&
    ((b.record1.flg &&& env.FLG_MULTIBLOCKUNDOTAIL) == 0)

/-- A TAIL fragment: of the three role bits its undo record carries
`FLG_MULTIBLOCKUNDOTAIL` only. -/
def SplitBlock.isTail (env : Env) (b : SplitBlock) : Bool :=
  ((b.record1.flg &&& env.FLG_MULTIBLOCKUNDOHEAD) == 0) &&
    ((b.record1.flg &&& env.FLG_MULTIBLOCKUNDOMID) == 0) &&
    ((b.record1.flg &&& env.FLG_MULTIBLOCKUNDOTAIL) != 0)

/-- A complete group: fragments that share `(slt, rci)`, each a HEAD, MID or
TAIL fragment, with exactly one HEAD, exactly one TAIL and at most one MID, in
any order. -/
def completeGroup (env : Env) (g : List SplitBlock) : Prop :=
  (∃ s r, ∀ b ∈ g, b.record1.slt = s ∧ b.record1.rci = r) ∧
    (∀ b ∈ g, b.isHead env = true ∨ b.isMid env = true ∨ b.isTail env = true) ∧
    g.countP (SplitBlock.isHead env) = 1 ∧ g.countP (SplitBlock.isTail env) = 1 ∧
    g.countP (SplitBlock.isMid env) ≤ 1

namespace Transaction

/-- The part of `mergeSplitBlocks` under the comments `mid` and `tail`: the head
record after the fragments are merged into it. -/
def mergeHead (env : Env) (head : RedoLogRecord) (mid : Option RedoLogRecord)
    (tail : RedoLogRecord) : RedoLogRecord :=
  let head :=
    match mid with
    | some mid =>
      (mergeSplitBlocksToBuffer env (List.replicate (head.length + mid.length) 0) head mid).1
    | none => head
  (mergeSplitBlocksToBuffer env (List.replicate (head.length + tail.length) 0) head tail).1

/-- The offset `fieldPos + 20` in `mergeSplitBlocks` at which the flag word of
the merged record is read and written. -/
def flagWordPos (env : Env) (head : RedoLogRecord) : Nat :=
  (head.fieldPos % 65536 +
    ((read16 env head.data (head.fieldLengthsDelta + 1 * 2) + 3) &&& 0xFFFC)) % 65536 + 20

/-- The bits that `mergeSplitBlocks` clears in the flag word. -/
def splitFlagMask (env : Env) : Nat :=
  env.FLG_MULTIBLOCKUNDOHEAD ||| env.FLG_MULTIBLOCKUNDOMID ||| env.FLG_MULTIBLOCKUNDOTAIL |||
    env.FLG_LASTBUFFERSPLIT

/-- The part of `mergeSplitBlocks` that rewrites the flag word of the merged
record. -/
def clearSplitFlags (env : Env) (head : RedoLogRecord) : RedoLogRecord :=
  { head with
    data := write16 env head.data (flagWordPos env head)
      (read16 env head.data (flagWordPos env head) ^^^
        (read16 env head.data (flagWordPos env head) &&& splitFlagMask env)) }

/-- The record that `mergeSplitBlocks` hands to `add` for a group: the merged
head with its flag word rewritten, after `OpCode0501::process`. -/
def mergedUndo (env : Env) (head : RedoLogRecord) (mid : Option RedoLogRecord)
    (tail : RedoLogRecord) : RedoLogRecord :=
  env.process0501 (clearSplitFlags env (mergeHead env head mid tail))

/-- The assignment that the second half of the loop body of `flushSplitBlocks`
makes for a fragment whose frame stores what its role needs. -/
def assignRole (env : Env) (c : SplitCursor) (b : SplitBlock) : SplitCursor :=
  if (b.record1.flg &&& env.FLG_MULTIBLOCKUNDOHEAD) ≠ 0 then
    { c with headRedoLogRecord1 := some b.record1, redoLogRecord2 := b.record2 }
  else if (b.record1.flg &&& env.FLG_MULTIBLOCKUNDOTAIL) ≠ 0 then
    { c with tailRedoLogRecord1 := some b.record1 }
  else { c with midRedoLogRecord1 := some b.record1 }

/-- The cursor holds a group that `mergeSplitBlocks` accepts and adds: a head
with its companion, a tail, and a companion that the rollback list does not
match. -/
def cursorComplete (env : Env) (c : SplitCursor) : Prop :=
  c.curRedoLogRecord ≠ none ∧
    ∃ h tl r2, c.headRedoLogRecord1 = some h ∧ c.tailRedoLogRecord1 = some tl ∧
      c.redoLogRecord2 = some r2 ∧ ∀ r1, env.onRollbackList r1 r2 = false

end Transaction

/-- The value that the fragments of `g` leave in a field of the cursor which the
fragments satisfying `p` assign with `f`: that of the first such fragment, and
`d`, the value before, when there is none. -/
def pickFragment (g : List SplitBlock) (p : SplitBlock → Bool)
    (f : SplitBlock → Option RedoLogRecord) (d : Option RedoLogRecord) : Option RedoLogRecord :=
  match g.find? p with
  | some b => f b
  | none => d

/-- A MID fragment of the split undo record of `splitHead`. -/
def splitMid : RedoLogRecord :=
  { opCode := 0x0501, scn := 10, subScn := 2, slt := 7, rci := 3, flg := 0x0100,
    length := 8, fieldCnt := 2, fieldPos := 8, fieldLengthsDelta := 0,
    data := [0, 0, 0, 0, 0, 0, 0, 0] }

/-! ## Split-block merge: the transaction when the merge raises -/

namespace Transaction

/-- The loop of `flushSplitBlocks` together with the transaction as it stands
when the loop ends or a fatal condition is raised in it. `mergeSplitBlocks`
raises in its first statement, so at a raise the transaction is the one the
iteration has reached. -/
def flushSplitLoopAt (env : Env) :
    Transaction → SplitCursor → List SplitBlock → Transaction × Except String SplitCursor
  | t, c, [] => (t, .ok c)
  | t, c, block :: rest =>
    match splitBlockGroup env t c block.record1 with
    | .error e => (t, .error e)
    | .ok (t1, c1) =>
      flushSplitLoopAt env { t1 with splitBlockList := rest } (splitBlockRole env c1 block) rest

/-- The merge of the group of the cursor that closes `flushSplitBlocks`, with
the transaction as it stands when it returns or raises. -/
def closeGroupAt (env : Env) (t : Transaction) (r : Except String SplitCursor) : Transaction :=
  match r with
  | .error _ => t
  | .ok c =>
    if c.curRedoLogRecord ≠ none then
      match mergeSplitBlocks env t c.headRedoLogRecord1 c.midRedoLogRecord1
          c.tailRedoLogRecord1 c.redoLogRecord2 with
      | .ok t1 => t1
      | .error _ => t
    else t

/-- The transaction as it stands when `flushSplitBlocks` returns or raises. -/
def flushSplitBlocksAt (env : Env) (t : Transaction) : Transaction :=
  if t.splitBlockList = [] then t
  else
    closeGroupAt env (flushSplitLoopAt env t {} t.splitBlockList).1
      (flushSplitLoopAt env t {} t.splitBlockList).2

/-- A transaction without its pending fragments. -/
def clearSplit (t : Transaction) : Transaction := { t with splitBlockList := [] }

end Transaction

/-- A TAIL fragment with `slt = 8`, for which no HEAD fragment is pending. -/
def loneTail : SplitBlock := (SplitCall.one { splitTail with slt := 8 }).frame sampleEnv

/-- The complete group of `splitHead` and `splitTail`. -/
def headTailGroup : List SplitBlock :=
  [(SplitCall.two splitHead splitCompanion).frame sampleEnv,
    (SplitCall.one splitTail).frame sampleEnv]

/-- A transaction with a complete group pending, followed by `loneTail`. -/
def incompleteTx : Transaction :=
  { Transaction.new sampleEnv 1 with splitBlockList := headTailGroup ++ [loneTail] ++ [] }

/-! ## Split-block merge: placeholder fragments -/

/-- The offset in the data of the second record from which
`mergeSplitBlocksToBuffer` copies (`fieldPos2`): past its first two fields. -/
def Transaction.secondDataPos (env : Env) (r : RedoLogRecord) : Nat :=
  (r.fieldPos +
    ((read16 env r.data (r.fieldLengthsDelta + 2) + 3) &&& 0xFFFC) +
    ((read16 env r.data (r.fieldLengthsDelta + 4) + 3) &&& 0xFFFC)) % 65536

/-- An empty-payload placeholder MID: `fieldCnt = 2`, and the data ends right
after the two delimiter fields. -/
def placeholderMid (env : Env) (mid : RedoLogRecord) : Prop :=
  mid.fieldCnt = 2 ∧ mid.length = Transaction.secondDataPos env mid

/-- The layout of a record as the redo log stores it: the list of 16-bit field
lengths, then, from the next 4-byte boundary on, the field data padded to
4 bytes; all of it within the 16-bit offsets of the structure. -/
def canonicalLayout (r : RedoLogRecord) : Prop :=
  (r.fieldCnt + 1) * 2 + 2 < 65536 ∧
    r.fieldPos = r.fieldLengthsDelta + ((((r.fieldCnt + 1) * 2) + 2) &&& 0xFFFC) ∧
    r.fieldPos < 65536 ∧ r.fieldPos ≤ r.length ∧ (r.length - r.fieldPos) % 4 = 0 ∧
    r.length - r.fieldPos + 3 < 65536

/-- A HEAD fragment in canonical layout that carries `FLG_LASTBUFFERSPLIT`. -/
def splitHeadLast : RedoLogRecord := { splitHead with flg := 0x0005 }

/-! ## The order of transactions -/

/-- `Transaction::operator<`: the comparison of this transaction with `p`. -/
def Transaction.lt (t p : Transaction) : Bool :=
  if t.isCommit && !p.isCommit then true
  else if !t.isCommit && p.isCommit then false
  else
    let ret := decide (t.lastScn < p.lastScn)
    if ret != false then ret
    else decide (t.lastScn = p.lastScn) && decide (t.xid < p.xid)

/-- The key that the order compares: uncommitted after committed, then the last
SCN, then the transaction id. -/
def Transaction.orderKey (t : Transaction) : Bool × Nat × Nat :=
  (!t.isCommit, t.lastScn, t.xid)

/-- A transaction with the given key fields and nothing stored. -/
def orderSample (isCommit : Bool) (lastScn xid : Nat) : Transaction :=
  { Transaction.new sampleEnv xid with isCommit := isCommit, lastScn := lastScn }

/-! ## The column images of an update -/

/-- The part of `OracleColumn` that `checkUpdate` reads. -/
structure OracleColumn where
  numPk : Nat
  deriving DecidableEq, Repr

/-- The part of `OracleObject` that `checkUpdate` reads: `columns[i]` is `none`
for a null pointer. -/
structure OracleObject where
  maxSegCol : Nat
  columns : List (Option OracleColumn)
  deriving DecidableEq, Repr

/-- The per-column arrays of the output buffer. A position is an offset into the
data of the record of the same column; `0` stands for "no image". -/
structure ColumnImages where
  beforePos : Nat → Nat
  afterPos : Nat → Nat
  beforeLen : Nat → Nat
  afterLen : Nat → Nat
  beforeRecord : Nat → Option RedoLogRecord
  afterRecord : Nat → Option RedoLogRecord

/-- The bytes that a record pointer gives access to. -/
def recordData : Option RedoLogRecord → List Nat
  | some r => r.data
  | none => []

/-- The body of the loop of `OutputBuffer::checkUpdate` for the column `i`, whose
descriptor has the given `numPk`. -/
def OutputBuffer.checkColumn (numPk i : Nat) (c : ColumnImages) : ColumnImages :=
  let c :=
    if numPk = 0 ∧ c.beforePos i > 0 ∧ c.afterPos i > 0 ∧ c.beforeLen i = c.afterLen i then
      if c.beforeLen i = 0 ∨
          slice (recordData (c.beforeRecord i)) (c.beforePos i) (c.beforeLen i) =
            slice (recordData (c.afterRecord i)) (c.afterPos i) (c.beforeLen i) then
        { c with
          beforePos := Function.update c.beforePos i 0
          afterPos := Function.update c.afterPos i 0
          beforeLen := Function.update c.beforeLen i 0
          afterLen := Function.update c.afterLen i 0 }
      else c
    else c
  let c :=
    if c.beforePos i > 0 ∧ c.beforeLen i = 0 ∧ c.afterPos i = 0 then
      if numPk = 0 then { c with beforePos := Function.update c.beforePos i 0 }
      else
        { c with
          afterPos := Function.update c.afterPos i (c.beforePos i)
          afterLen := Function.update c.afterLen i (c.beforeLen i)
          afterRecord := Function.update c.afterRecord i (c.beforeRecord i) }
    else c
  if c.afterPos i > 0 ∧ c.afterLen i = 0 ∧ c.beforePos i = 0 then
    if numPk = 0 then { c with afterPos := Function.update c.afterPos i 0 }
    else
      { c with
        beforePos := Function.update c.beforePos i (c.afterPos i)
        beforeLen := Function.update c.beforeLen i (c.afterLen i)
        beforeRecord := Function.update c.beforeRecord i (c.afterRecord i) }
  else c

/-- One turn of the loop of `OutputBuffer::checkUpdate`: a null column is
skipped. -/
def OutputBuffer.checkUpdateStep (object : OracleObject) (c : ColumnImages) (i : Nat) :
    ColumnImages :=
  match object.columns.getD i none with
  | none => c
  | some column => OutputBuffer.checkColumn column.numPk i c

/-- `OutputBuffer::checkUpdate`: the column arrays afterwards. The macro
`COLUMN_FORMAT_INS_DEC` (`types.h`) and the member `columnFormat` are
parameters; `bdba`, `slot` and `xid` are not read. -/
def OutputBuffer.checkUpdate (COLUMN_FORMAT_INS_DEC columnFormat : Nat) (object : OracleObject)
    (c : ColumnImages) : ColumnImages :=
  if columnFormat ≤ COLUMN_FORMAT_INS_DEC then
    (List.range object.maxSegCol).foldl (OutputBuffer.checkUpdateStep object) c
  else c

/-- Two states of the arrays that agree on column `j`. -/
def sameColumn (j : Nat) (c d : ColumnImages) : Prop :=
  c.beforePos j = d.beforePos j ∧ c.afterPos j = d.afterPos j ∧
    c.beforeLen j = d.beforeLen j ∧ c.afterLen j = d.afterLen j ∧
    c.beforeRecord j = d.beforeRecord j ∧ c.afterRecord j = d.afterRecord j

/-- A table of one column that is not part of any primary key. -/
def heapObject : OracleObject := { maxSegCol := 1, columns := [some { numPk := 0 }] }

/-- A record whose data holds the two bytes `7, 9` at offset 4. -/
def imageRecord : RedoLogRecord := { s1r1a with data := [0, 0, 0, 0, 7, 9, 0, 0], length := 8 }

/-- Column 0 has a before image and an after image of the same two bytes. -/
def unchangedImages : ColumnImages :=
  { beforePos := fun i => if i = 0 then 4 else 0
    afterPos := fun i => if i = 0 then 4 else 0
    beforeLen := fun i => if i = 0 then 2 else 0
    afterLen := fun i => if i = 0 then 2 else 0
    beforeRecord := fun i => if i = 0 then some imageRecord else none
    afterRecord := fun i => if i = 0 then some imageRecord else none }

/-- A table whose only column is its primary key. -/
def keyObject : OracleObject := { maxSegCol := 1, columns := [some { numPk := 1 }] }

/-- Column 0 has a before image of length 0 and no after image. -/
def beforeOnlyImages : ColumnImages :=
  { beforePos := fun i => if i = 0 then 4 else 0
    afterPos := fun _ => 0
    beforeLen := fun _ => 0
    afterLen := fun _ => 0
    beforeRecord := fun i => if i = 0 then some imageRecord else none
    afterRecord := fun _ => none }

/-! ## Split-block merge: counts and lengths -/

/-- Rounding up to the next multiple of 4, as the specification writes it
(`align4`). -/
def align4 (x : Nat) : Nat := (x + 3) / 4 * 4

/-- The first record as `mergeSplitBlocksToBuffer` uses it after the branch on
`FLG_LASTBUFFERSPLIT`: with the flag, its field count is one less. -/
def Transaction.headCount (env : Env) (r : RedoLogRecord) : Nat :=
  if (r.flg &&& env.FLG_LASTBUFFERSPLIT) != 0 then (r.fieldCnt + 65535) % 65536 else r.fieldCnt

/-- The data of the second record after the branch on `FLG_LASTBUFFERSPLIT`:
with the flag, the length of its third field has the last field length of the
first record added. -/
def Transaction.fusedData (env : Env) (r1 r2 : RedoLogRecord) : List Nat :=
  if (r1.flg &&& env.FLG_LASTBUFFERSPLIT) != 0 then
    write16 env r2.data (r2.fieldLengthsDelta + 6)
      (read16 env r1.data (r1.fieldLengthsDelta + r1.fieldCnt * 2) +
        read16 env r2.data (r2.fieldLengthsDelta + 6))
  else r2.data

/-- A well-formed fragment, for the bound on the size of a merge: the field
data starts right after the aligned list of field lengths and lies inside the
record, whose length is a multiple of 4. -/
def wellFormedFragment (r : RedoLogRecord) : Prop :=
  r.fieldPos = r.fieldLengthsDelta + align4 (2 * (r.fieldCnt + 1)) ∧ r.fieldPos ≤ r.length ∧
    r.length % 4 = 0

/-- A fragment that can stand second in a merge: it has its two delimiter
fields, and they lie inside it. -/
def wellFormedTail (env : Env) (r : RedoLogRecord) : Prop :=
  wellFormedFragment r ∧ 2 ≤ r.fieldCnt ∧
    r.fieldPos + align4 (read16 env r.data (r.fieldLengthsDelta + 2)) +
      align4 (read16 env r.data (r.fieldLengthsDelta + 4)) ≤ r.length

/-! ## The row chain as a list -/

/-- A doubly linked list through the link functions `N` (next) and `P` (prev):
the elements of `ch` in order, each joined to its successor by `N` and back by
`P`, the first without predecessor and the last without successor. -/
def DoublyLinked (N P : Nat → Option Nat) (ch : List Nat) : Prop :=
  List.Chain' (fun a b => N a = some b ∧ P b = some a) ch ∧
    (∀ f ∈ ch.head?, P f = none) ∧ ∀ l ∈ ch.getLast?, N l = none

/-- The undo records (`redoLogRecord1`) of the rows `ch` form a doubly linked
list in memory. -/
def doublyLinked (mem : List Row) (ch : List Nat) : Prop :=
  DoublyLinked (fun q => (Transaction.rec1 mem q).next) (fun q => (Transaction.rec1 mem q).prev) ch

/-- The companion records (`redoLogRecord2`) of the rows `ch` form a doubly
linked list in memory. -/
def doublyLinked2 (mem : List Row) (ch : List Nat) : Prop :=
  DoublyLinked (fun q => (Transaction.rec2 mem q).next) (fun q => (Transaction.rec2 mem q).prev) ch

/-- What a reader finds who follows `next` from the undo record at `start`, as
the writer does from `first1`; `fuel` bounds the number of records read. -/
def followNext (mem : List Row) : Nat → Option Nat → List Nat
  | 0, _ => []
  | _ + 1, none => []
  | fuel + 1, some p => p :: followNext mem fuel (Transaction.rec1 mem p).next

/-- The same for the companion records, from `first2`. -/
def followNext2 (mem : List Row) : Nat → Option Nat → List Nat
  | 0, _ => []
  | _ + 1, none => []
  | fuel + 1, some p => p :: followNext2 mem fuel (Transaction.rec2 mem p).next

/-- The order of the chain after the linkage of `flush` has added the piece `p`
to the open chain `ch`, in the state `E` in which `linkPiece` runs: in front
when the type is INSERT, right before the tail for an overwrite after an insert
piece, and else at the end. -/
def linkChain (env : Env) (E : Transaction.FlushState) (op p : Nat) (ch : List Nat) : List Nat :=
  if E.type = env.TRANSACTION_INSERT then p :: ch
  else if op = 0x05010B06 ∧ (Transaction.rec2 E.mem (E.last2.getD 0)).opCode = 0x0B02 then
    ch.dropLast ++ p :: ch.getLast?.toList
  else ch ++ [p]

/-- The order of the chain after the row piece at the walk position of `st`:
the piece alone when no chain is open. -/
def pieceChain (env : Env) (st : Transaction.FlushState) (op : Nat) (ch : List Nat) : List Nat :=
  match st.first1 with
  | none => [st.idx]
  | some _ => linkChain env (pieceEntry env st st.idx op) op st.idx ch

/-- The walk state `st` has the chain `ch` open, made of the rows from position
`s` up to the walk position, each once: well-formed links, `first1` and `last1`
the two ends of `ch` (no chain open when `ch` is empty), and `type` is 0 while
no chain is open. -/
def chainInv (st : Transaction.FlushState) (s : Nat) (ch : List Nat) : Prop :=
  linkedBelow st st.idx ∧ st.first1 = ch.head? ∧ st.last1 = ch.getLast? ∧ ch.Nodup ∧
    (∀ q, q ∈ ch ↔ s ≤ q ∧ q < st.idx) ∧ doublyLinked st.mem ch ∧ s ≤ st.idx ∧
    (st.first1 = none → st.type = 0)

/-- Whether the walk of `flush` resets the chain at a stored row: at every
self-contained record and at a row piece with `FB_L`. -/
def Row.emits (env : Env) (r : Row) : Bool :=
  !Transaction.isPieceOp r.op || ((r.redoLogRecord1.suppLogFb &&& env.FB_L) != 0)

/-- The walk position that follows the last row of `pre` at which the chain is
reset: where the rows added since the previous emit start. -/
def chainStart (env : Env) (pre : List Row) : Nat :=
  pre.length - (pre.reverse.takeWhile fun r => !r.emits env).length

/-- An insert piece without `FB_L`, a multi-row insert (`op2 = 0x05010B0B`) and
then a complete single-piece insert. -/
def resetTx : Transaction :=
  { (((Transaction.new sampleEnv 5).add sampleEnv s1r1a s1r2 1 100).add sampleEnv
      { opCode := 0x0501, scn := 100 } { opCode := 0x0B0B } 1 100).add sampleEnv s1r1b s1r2 1 101
    with isCommit := true }

/-- The stored tuple of the multi-row insert of `resetTx`. -/
def multiRow : Row :=
  { op := 0x05010B0B, redoLogRecord1 := { opCode := 0x0501, scn := 100 },
    redoLogRecord2 := { opCode := 0x0B0B }, scn := 100, size := 64 }

/-- The scn argument of a call. -/
def Call.scn : Call → Nat
  | .touch scn _ => scn
  | .add _ _ _ scn => scn
  | .rollbackPartOp _ _ scn => scn
  | .rollbackLastOp scn => scn

/-- A well-formed HEAD fragment that carries `FLG_LASTBUFFERSPLIT` and has no
field: its field data starts at `fieldLengthsDelta + align4(2)` and is empty. -/
def splitHeadEmpty : RedoLogRecord :=
  { opCode := 0x0501, scn := 10, subScn := 1, slt := 7, rci := 3, flg := 0x0005,
    length := 4, fieldCnt := 0, fieldPos := 4, fieldLengthsDelta := 0,
    data := [0, 0, 0, 0] }

/-! ## Split-block merge: fragments that merge inside the buffers -/

/-- The head record after the part of `mergeSplitBlocks` under the comment
`mid`: merged with the MID fragment when there is one. -/
def Transaction.mergeMid (env : Env) (head : RedoLogRecord) (mid : Option RedoLogRecord) :
    RedoLogRecord :=
  match mid with
  | some mid =>
    (Transaction.mergeSplitBlocksToBuffer env (List.replicate (head.length + mid.length) 0)
      head mid).1
  | none => head

/-- A well-formed HEAD fragment: a well-formed fragment that has its first two
fields, and a third one when it carries `FLG_LASTBUFFERSPLIT`, and in which the
first 22 bytes of the second field, which end with the flag word, lie inside
the fragment. -/
def wellFormedHead (env : Env) (r : RedoLogRecord) : Prop :=
  wellFormedFragment r ∧ 2 ≤ r.fieldCnt ∧
    ((r.flg &&& env.FLG_LASTBUFFERSPLIT) ≠ 0 → 3 ≤ r.fieldCnt) ∧
    r.fieldPos + align4 (read16 env r.data (r.fieldLengthsDelta + 2)) + 22 ≤ r.length

instance (r : RedoLogRecord) : Decidable (wellFormedFragment r) := by
  unfold wellFormedFragment; infer_instance

instance (env : Env) (r : RedoLogRecord) : Decidable (wellFormedTail env r) := by
  unfold wellFormedTail; infer_instance

instance (env : Env) (r : RedoLogRecord) : Decidable (wellFormedHead env r) := by
  unfold wellFormedHead; infer_instance

/-- The writes of `mergeSplitBlocks` for a group stay inside the buffers that it
allocates: the merge with the MID fragment fills a buffer of
`head.length + mid.length` bytes, the merge with the TAIL fragment one of
`head.length + tail.length` bytes (`head.length` being the merged length when
there is a MID fragment), the flag word lies inside the merged record, which
lies inside the buffer, and the buffer has its size after the flag word is
rewritten. -/
def Transaction.mergeWithinBuffers (env : Env) (head : RedoLogRecord)
    (mid : Option RedoLogRecord) (tail : RedoLogRecord) : Prop :=
  (∀ m, mid = some m →
    (Transaction.mergeSplitBlocksToBuffer env (List.replicate (head.length + m.length) 0)
      head m).1.data.length = head.length + m.length) ∧
    (Transaction.mergeHead env head mid tail).data.length =
      (Transaction.mergeMid env head mid).length + tail.length ∧
    Transaction.flagWordPos env (Transaction.mergeHead env head mid tail) + 2 ≤
      (Transaction.mergeHead env head mid tail).length ∧
    (Transaction.mergeHead env head mid tail).length ≤
      (Transaction.mergeMid env head mid).length + tail.length ∧
    (Transaction.clearSplitFlags env (Transaction.mergeHead env head mid tail)).data.length =
      (Transaction.mergeMid env head mid).length + tail.length

/-- Head fragment of a split undo record of three fields: the field list
(count word and three lengths, 8 bytes), a first field of 4 bytes, a second
field of 24 bytes with the flag word `0x0009` at its offset 20 (offset 32 of
the data), and the first 4 bytes of the third field. -/
def undoHead : RedoLogRecord :=
  { opCode := 0x0501, scn := 10, subScn := 1, slt := 7, rci := 3, flg := 0x0001,
    length := 40, fieldCnt := 3, fieldPos := 8, fieldLengthsDelta := 0,
    data := [3, 0, 4, 0, 24, 0, 4, 0, 1, 2, 3, 4,
      0, 0, 0, 0, 0, 0, 0, 0, 0, 0, 0, 0, 0, 0, 0, 0, 0, 0, 0, 0, 9, 0, 0, 0,
      5, 6, 7, 8] }

/-- Mid fragment of the same record: two delimiter fields of 4 bytes and 4
bytes of payload. -/
def undoMid : RedoLogRecord :=
  { opCode := 0x0501, scn := 10, subScn := 2, slt := 7, rci := 3, flg := 0x0100,
    length := 20, fieldCnt := 3, fieldPos := 8, fieldLengthsDelta := 0,
    data := [3, 0, 4, 0, 4, 0, 4, 0, 0, 0, 0, 0, 0, 0, 0, 0, 9, 10, 11, 12] }

/-- Tail fragment of the same record: two delimiter fields of 4 bytes and 4
bytes of payload. -/
def undoTail : RedoLogRecord :=
  { opCode := 0x0501, scn := 10, subScn := 3, slt := 7, rci := 3, flg := 0x0002,
    length := 20, fieldCnt := 3, fieldPos := 8, fieldLengthsDelta := 0,
    data := [3, 0, 4, 0, 4, 0, 4, 0, 0, 0, 0, 0, 0, 0, 0, 0, 13, 14, 15, 16] }

/-- Two complete groups: TAIL, MID and HEAD of the undo record with `slt = 7`,
then HEAD and TAIL of one with `slt = 8`. -/
def s3Groups : List (List SplitBlock) :=
  [[(SplitCall.one undoTail).frame sampleEnv, (SplitCall.one undoMid).frame sampleEnv,
      (SplitCall.two undoHead splitCompanion).frame sampleEnv],
    [(SplitCall.two { undoHead with slt := 8 } splitCompanion).frame sampleEnv,
      (SplitCall.one { undoTail with slt := 8 }).frame sampleEnv]]

/-- A transaction with the fragments of `s3Groups` pending. -/
def s3Tx : Transaction :=
  { Transaction.new sampleEnv 1 with splitBlockList := s3Groups.flatten }

/-- A HEAD fragment stored by the one-record `addSplitBlock`, without a
companion record. -/
def orphanHead : SplitBlock := (SplitCall.one undoHead).frame sampleEnv

/-- A transaction with `orphanHead` alone pending. -/
def orphanTx : Transaction :=
  { Transaction.new sampleEnv 1 with splitBlockList := [] ++ [orphanHead] ++ [] }

/-- The data of `wideTail`: 64K zero bytes. -/
def wideData : List Nat := List.replicate 65536 0

/-- A well-formed TAIL fragment of 64K: four fields, the field list at offset
65524, the field data from offset 65536 on, all bytes zero. -/
def wideTail : RedoLogRecord :=
  { opCode := 0x0501, scn := 10, subScn := 2, slt := 7, rci := 3, flg := 0x0002,
    length := 65536, fieldCnt := 4, fieldPos := 65536, fieldLengthsDelta := 65524,
    data := wideData }

/-! ## Theorems -/

/-- C1: `matchesForRollback(r1, r2, rb1, rb2)` is true if and only if `r1.slt = rb2.slt`,
`r1.rci = rb2.rci`, `r1.uba = rb1.uba`, `r1.scn ≤ rb2.scn`, and either `rb2.opFlags` has the
`OPFLAG_BEGIN_TRANS` bit set or `r2.dba = rb1.dba` and `r2.slot = rb1.slot`. -/
theorem matchesForRollback_iff (env : Env) (r1 r2 rb1 rb2 : RedoLogRecord) :
    Transaction.matchesForRollback env r1 r2 rb1 rb2 = true ↔
      (r1.slt = rb2.slt ∧ r1.rci = rb2.rci ∧ r1.uba = rb1.uba ∧ r1.scn ≤ rb2.scn ∧
        ((rb2.opFlags &&& env.OPFLAG_BEGIN_TRANS) ≠ 0 ∨
          (r2.dba = rb1.dba ∧ r2.slot = rb1.slot))) := by
  simp only [Transaction.matchesForRollback, Bool.and_eq_true, Bool.or_eq_true, beq_iff_eq,
    decide_eq_true_eq, bne_iff_ne, ne_eq]
  tauto

/-! ### Split-block list order -/

theorem insertSplitBlock_pairwise (b : SplitBlock) :
    ∀ l : List SplitBlock, l.Pairwise (fun x y => splitKeyLe y x) →
      (Transaction.insertSplitBlock b l).Pairwise (fun x y => splitKeyLe y x)
  | [], _ => by simp [Transaction.insertSplitBlock]
  | a :: l, h => by
    have hmem : ∀ l : List SplitBlock, ∀ x ∈ Transaction.insertSplitBlock b l, x = b ∨ x ∈ l := by
      intro l
      induction l with
      | nil => intro x hx; simpa [Transaction.insertSplitBlock] using hx
      | cons c l ih =>
        intro x hx
        unfold Transaction.insertSplitBlock at hx
        split at hx
        · simpa using hx
        · rcases List.mem_cons.1 hx with h1 | h1
          · right; simp [h1]
          · rcases ih x h1 with h2 | h2
            · left; exact h2
            · right; simp [h2]
    unfold Transaction.insertSplitBlock
    split
    · rename_i hc
      refine List.pairwise_cons.2 ⟨?_, h⟩
      intro x hx
      rcases List.mem_cons.1 hx with h1 | h1
      · subst h1; exact hc
      · have := (List.pairwise_cons.1 h).1 x h1
        unfold splitKeyLe at *
        omega
    · rename_i hc
      rcases List.pairwise_cons.1 h with ⟨h1, h2⟩
      refine List.pairwise_cons.2 ⟨?_, insertSplitBlock_pairwise b l h2⟩
      intro x hx
      rcases hmem l x hx with h3 | h3
      · subst h3
        unfold splitKeyLe
        omega
      · exact h1 x h3

theorem addSplitBlocks_pairwise (env : Env) (cs : List SplitCall) :
    ∀ t : Transaction, t.splitBlockList.Pairwise (fun x y => splitKeyLe y x) →
      (t.addSplitBlocks env cs).splitBlockList.Pairwise (fun x y => splitKeyLe y x) := by
  induction cs with
  | nil => intro t h; simpa [Transaction.addSplitBlocks] using h
  | cons c cs ih =>
    intro t h
    simp only [Transaction.addSplitBlocks, List.foldl_cons]
    apply ih
    cases c with
    | one r => exact insertSplitBlock_pairwise _ _ h
    | two r1 r2 => exact insertSplitBlock_pairwise _ _ h

/-- C6 (as amended): after any sequence of `addSplitBlock` calls, of either overload, on a
transaction whose `splitBlockList` is empty, the list read from its head is ordered by
non-increasing `(scn, subScn)`: each frame has a key at least that of every later frame. -/
theorem addSplitBlocks_sorted_desc (env : Env) (t : Transaction) (cs : List SplitCall)
    (h : t.splitBlockList = []) :
    (t.addSplitBlocks env cs).splitBlockList.Pairwise (fun x y => splitKeyLe y x) :=
  addSplitBlocks_pairwise env cs t (by simp [h])

theorem addSplitBlocks_sorted_desc_witness :
    (Transaction.new sampleEnv 1).splitBlockList = [] ∧
    ((Transaction.new sampleEnv 1).addSplitBlocks sampleEnv
      [.one { scn := 1 }, .two { scn := 2 } { opCode := 0x0B02 }]).splitBlockList.Pairwise
        (fun x y => splitKeyLe y x) :=
  ⟨rfl, addSplitBlocks_sorted_desc sampleEnv _ _ rfl⟩

/-- C6 (counterexample): adding a fragment with scn 1 and then one with scn 2 gives the list
scn 2, scn 1, which is not in non-decreasing order. -/
theorem addSplitBlocks_not_ascending :
    ((Transaction.new sampleEnv 1).addSplitBlocks sampleEnv
        [.one { scn := 1 }, .one { scn := 2 }]).splitBlockList.map
          (fun b => (b.record1.scn, b.record1.subScn)) = [(2, 0), (1, 0)] ∧
    ¬ ((Transaction.new sampleEnv 1).addSplitBlocks sampleEnv
        [.one { scn := 1 }, .one { scn := 2 }]).splitBlockList.Pairwise splitKeyLe := by
  decide

/-! ### Pending split blocks -/

@[simp] theorem touch_splitBlockList (env : Env) (t : Transaction) (scn sequence : Nat) :
    (t.touch env scn sequence).splitBlockList = t.splitBlockList := by
  unfold Transaction.touch
  simp only []
  split_ifs <;> rfl

@[simp] theorem add_splitBlockList (env : Env) (t : Transaction) (r1 r2 : RedoLogRecord)
    (sequence scn : Nat) :
    (t.add env r1 r2 sequence scn).splitBlockList = t.splitBlockList := by
  simp [Transaction.add, TransactionBuffer.addTransactionChunk]

theorem mergeSplitBlocks_splitBlockList (env : Env) (t t1 : Transaction)
    (h m tl r2 : Option RedoLogRecord)
    (hok : Transaction.mergeSplitBlocks env t h m tl r2 = .ok t1) :
    t1.splitBlockList = t.splitBlockList := by
  unfold Transaction.mergeSplitBlocks at hok
  split at hok
  · simp only [] at hok
    split at hok
    · cases hok; rfl
    · cases hok; simp
  · cases hok

theorem splitBlockGroup_splitBlockList (env : Env) (t t1 : Transaction)
    (c c1 : Transaction.SplitCursor) (r : RedoLogRecord)
    (hok : Transaction.splitBlockGroup env t c r = .ok (t1, c1)) :
    t1.splitBlockList = t.splitBlockList := by
  unfold Transaction.splitBlockGroup at hok
  split at hok
  · cases hok; rfl
  · split at hok
    · split at hok
      · rename_i t2 hm
        cases hok
        exact mergeSplitBlocks_splitBlockList env _ _ _ _ _ _ hm
      · cases hok
    · cases hok; rfl

theorem flushSplitLoop_splitBlockList (env : Env) :
    ∀ (l : List SplitBlock) (t : Transaction) (c : Transaction.SplitCursor)
      (t1 : Transaction) (c1 : Transaction.SplitCursor),
      t.splitBlockList = l → Transaction.flushSplitLoop env t c l = .ok (t1, c1) →
      t1.splitBlockList = []
  | [], t, c, t1, c1, hl, hok => by
    simp only [Transaction.flushSplitLoop] at hok
    cases hok; exact hl
  | block :: rest, t, c, t1, c1, hl, hok => by
    simp only [Transaction.flushSplitLoop] at hok
    split at hok
    · cases hok
    · exact flushSplitLoop_splitBlockList env rest _ _ t1 c1 rfl hok

theorem flushSplitBlocks_splitBlockList (env : Env) (t t1 : Transaction)
    (hok : Transaction.flushSplitBlocks env t = .ok t1) : t1.splitBlockList = [] := by
  unfold Transaction.flushSplitBlocks at hok
  split at hok
  · cases hok; assumption
  · split at hok
    · cases hok
    · rename_i t2 c hl
      have h2 := flushSplitLoop_splitBlockList env _ t _ t2 c rfl hl
      split at hok
      · rw [mergeSplitBlocks_splitBlockList env _ _ _ _ _ _ hok, h2]
      · cases hok; exact h2

theorem flushCommitted_splitBlockList (env : Env) (t t1 : Transaction) (evs : List Event)
    (hok : Transaction.flushCommitted env t = .ok (t1, evs)) :
    t1.splitBlockList = t.splitBlockList := by
  unfold Transaction.flushCommitted at hok
  split at hok
  · split at hok
    · cases hok
    · cases hok; rfl
  · cases hok; rfl

/-- C7: whenever `flushSplitBlocks()` returns normally, `splitBlockList` is empty, and so it
is whenever `flush()` returns normally, whatever `opCodes` and `isRollback` are. -/
theorem flushSplitBlocks_empties (env : Env) (t t1 : Transaction) (evs : List Event)
    (h : Transaction.flushSplitBlocks env t = .ok t1 ∨ Transaction.flush env t = .ok (t1, evs)) :
    t1.splitBlockList = [] := by
  rcases h with h | h
  · exact flushSplitBlocks_splitBlockList env t t1 h
  · unfold Transaction.flush at h
    split at h
    · cases h
    · rename_i t2 h2
      rw [flushCommitted_splitBlockList env _ _ _ h, flushSplitBlocks_splitBlockList env t t2 h2]

theorem flushSplitBlocks_empties_witness :
    Transaction.flushSplitBlocks sampleEnv splitTx =
        .ok ((Transaction.new sampleEnv 1).add sampleEnv splitMerged splitCompanion 0 10) ∧
      ((Transaction.new sampleEnv 1).add sampleEnv splitMerged splitCompanion 0 10).splitBlockList
        = [] :=
  ⟨by rfl, flushSplitBlocks_empties sampleEnv splitTx _ [] (Or.inl (by rfl))⟩

/-! ### Chunk store -/

theorem flatMap_appendRow (cap : Nat) (row : Row) :
    ∀ chunks : List TransactionChunk,
      (TransactionBuffer.appendRow cap row chunks).flatMap TransactionChunk.rows =
        chunks.flatMap TransactionChunk.rows ++ [row]
  | [] => by simp [TransactionBuffer.appendRow]
  | [tc] => by
    simp only [TransactionBuffer.appendRow]
    split <;> simp
  | tc :: tc2 :: tcs => by
    have ih := flatMap_appendRow cap row (tc2 :: tcs)
    simp only [TransactionBuffer.appendRow] at ih ⊢
    simp only [List.flatMap_cons] at ih ⊢
    rw [ih]; simp

theorem noEmptyChunk_appendRow (cap : Nat) (row : Row) :
    ∀ chunks : List TransactionChunk, noEmptyChunk chunks →
      noEmptyChunk (TransactionBuffer.appendRow cap row chunks)
  | [], _ => by
    intro tc htc
    simp [TransactionBuffer.appendRow] at htc
    simp [htc]
  | [tc], h => by
    intro x hx
    simp only [TransactionBuffer.appendRow] at hx
    split at hx
    · simp at hx; simp [hx]
    · simp at hx
      rcases hx with hx | hx
      · exact h x (by simp [hx])
      · simp [hx]
  | tc :: tc2 :: tcs, h => by
    have ih := noEmptyChunk_appendRow cap row (tc2 :: tcs)
      (fun x hx => h x (List.mem_cons_of_mem _ hx))
    intro x hx
    simp only [TransactionBuffer.appendRow] at hx ih
    rcases List.mem_cons.1 hx with hx | hx
    · exact h x (by simp [hx])
    · exact ih x hx

theorem flatMap_popRow :
    ∀ chunks : List TransactionChunk, noEmptyChunk chunks →
      (TransactionBuffer.popRow chunks).flatMap TransactionChunk.rows =
        (chunks.flatMap TransactionChunk.rows).dropLast
  | [], _ => by simp [TransactionBuffer.popRow]
  | [tc], _ => by
    simp only [TransactionBuffer.popRow]
    split
    · rename_i h; simp [h]
    · simp
  | tc :: tc2 :: tcs, h => by
    have h2 : noEmptyChunk (tc2 :: tcs) := fun x hx => h x (List.mem_cons_of_mem _ hx)
    have ih := flatMap_popRow (tc2 :: tcs) h2
    simp only [TransactionBuffer.popRow] at ih ⊢
    simp only [List.flatMap_cons] at ih ⊢
    rw [ih]
    have hne : tc2.rows ++ tcs.flatMap TransactionChunk.rows ≠ [] := by
      have := h tc2 (by simp)
      simp [this]
    rw [List.dropLast_append_of_ne_nil _ hne]

theorem noEmptyChunk_popRow :
    ∀ chunks : List TransactionChunk, noEmptyChunk chunks →
      noEmptyChunk (TransactionBuffer.popRow chunks)
  | [], _ => by intro x hx; simp [TransactionBuffer.popRow] at hx
  | [tc], _ => by
    intro x hx
    simp only [TransactionBuffer.popRow] at hx
    split at hx
    · simp at hx
    · rename_i hne
      simp at hx; subst hx; exact hne
  | tc :: tc2 :: tcs, h => by
    have ih := noEmptyChunk_popRow (tc2 :: tcs) (fun x hx => h x (List.mem_cons_of_mem _ hx))
    intro x hx
    simp only [TransactionBuffer.popRow] at hx ih
    rcases List.mem_cons.1 hx with hx | hx
    · exact h x (by simp [hx])
    · exact ih x hx

theorem spliceRows_none (p : Row → Bool) :
    ∀ rows : List Row, TransactionBuffer.spliceRows p rows = none ↔ ∀ r ∈ rows, p r = false
  | [] => by simp [TransactionBuffer.spliceRows]
  | r :: rs => by
    have ih := spliceRows_none p rs
    simp only [TransactionBuffer.spliceRows]
    cases h : TransactionBuffer.spliceRows p rs with
    | some x =>
      simp only [false_iff, reduceCtorEq]
      intro hall
      have := ih.2 (fun r hr => hall r (List.mem_cons_of_mem _ hr))
      rw [h] at this; cases this
    | none =>
      have h2 := ih.1 h
      by_cases hp : p r = true
      · simp [hp]
      · simp only [hp, Bool.false_eq_true, ↓reduceIte, true_iff]
        intro x hx
        rcases List.mem_cons.1 hx with hx | hx
        · subst hx; simpa using hp
        · exact h2 x hx

theorem spliceRows_length (p : Row → Bool) :
    ∀ (rows rs1 : List Row), TransactionBuffer.spliceRows p rows = some rs1 →
      rs1.length + 1 = rows.length
  | [], _, h => by simp [TransactionBuffer.spliceRows] at h
  | r :: rs, rs1, h => by
    simp only [TransactionBuffer.spliceRows] at h
    cases h2 : TransactionBuffer.spliceRows p rs with
    | some x =>
      rw [h2] at h
      cases h
      have := spliceRows_length p rs x h2
      simp [this]
    | none =>
      rw [h2] at h
      by_cases hp : p r = true
      · simp only [hp, ↓reduceIte, Option.some.injEq] at h
        subst h; simp
      · simp [hp] at h

theorem spliceChunks_none (p : Row → Bool) :
    ∀ chunks : List TransactionChunk,
      TransactionBuffer.spliceChunks p chunks = none ↔
        ∀ r ∈ chunks.flatMap TransactionChunk.rows, p r = false
  | [] => by simp [TransactionBuffer.spliceChunks]
  | tc :: tcs => by
    have ih := spliceChunks_none p tcs
    simp only [TransactionBuffer.spliceChunks]
    cases h : TransactionBuffer.spliceChunks p tcs with
    | some x =>
      simp only [false_iff, reduceCtorEq]
      intro hall
      have := ih.2 (fun r hr => hall r (by simp only [List.flatMap_cons, List.mem_append]; exact Or.inr hr))
      rw [h] at this; cases this
    | none =>
      have h2 := ih.1 h
      cases h3 : TransactionBuffer.spliceRows p tc.rows with
      | some y =>
        simp only [false_iff, reduceCtorEq]
        intro hall
        have := (spliceRows_none p tc.rows).2
          (fun r hr => hall r (by simp only [List.flatMap_cons, List.mem_append]; exact Or.inl hr))
        rw [h3] at this; cases this
      | none =>
        simp only [true_iff]
        intro r hr
        simp only [List.flatMap_cons, List.mem_append] at hr
        rcases hr with hr | hr
        · exact (spliceRows_none p tc.rows).1 h3 r hr
        · exact h2 r hr

theorem spliceChunks_length (p : Row → Bool) :
    ∀ (chunks cs1 : List TransactionChunk), TransactionBuffer.spliceChunks p chunks = some cs1 →
      (cs1.flatMap TransactionChunk.rows).length + 1 =
        (chunks.flatMap TransactionChunk.rows).length
  | [], _, h => by simp [TransactionBuffer.spliceChunks] at h
  | tc :: tcs, cs1, h => by
    simp only [TransactionBuffer.spliceChunks] at h
    cases h2 : TransactionBuffer.spliceChunks p tcs with
    | some x =>
      rw [h2] at h
      cases h
      have := spliceChunks_length p tcs x h2
      simp only [List.flatMap_cons, List.length_append]
      omega
    | none =>
      rw [h2] at h
      cases h3 : TransactionBuffer.spliceRows p tc.rows with
      | some y =>
        rw [h3] at h
        cases h
        have := spliceRows_length p tc.rows y h3
        split
        · rename_i hy
          subst hy
          simp only [List.flatMap_cons, List.length_append]
          simp at this
          omega
        · simp only [List.flatMap_cons, List.length_append]
          omega
      | none => rw [h3] at h; cases h

theorem noEmptyChunk_spliceChunks (p : Row → Bool) :
    ∀ (chunks cs1 : List TransactionChunk), noEmptyChunk chunks →
      TransactionBuffer.spliceChunks p chunks = some cs1 → noEmptyChunk cs1
  | [], _, _, h => by simp [TransactionBuffer.spliceChunks] at h
  | tc :: tcs, cs1, hne, h => by
    have hne2 : noEmptyChunk tcs := fun x hx => hne x (List.mem_cons_of_mem _ hx)
    simp only [TransactionBuffer.spliceChunks] at h
    cases h2 : TransactionBuffer.spliceChunks p tcs with
    | some x =>
      rw [h2] at h
      cases h
      have := noEmptyChunk_spliceChunks p tcs x hne2 h2
      intro y hy
      rcases List.mem_cons.1 hy with hy | hy
      · exact hne y (by simp [hy])
      · exact this y hy
    | none =>
      rw [h2] at h
      cases h3 : TransactionBuffer.spliceRows p tc.rows with
      | some y =>
        rw [h3] at h
        cases h
        split
        · exact hne2
        · rename_i hy
          intro z hz
          rcases List.mem_cons.1 hz with hz | hz
          · subst hz; exact hy
          · exact hne2 z hz
      | none => rw [h3] at h; cases h

/-! ### Counters and SCN bounds -/

@[simp] theorem touch_opCodes (env : Env) (t : Transaction) (scn sequence : Nat) :
    (t.touch env scn sequence).opCodes = t.opCodes := by
  unfold Transaction.touch
  simp only []
  split_ifs <;> rfl

@[simp] theorem touch_chunks (env : Env) (t : Transaction) (scn sequence : Nat) :
    (t.touch env scn sequence).chunks = t.chunks := by
  unfold Transaction.touch
  simp only []
  split_ifs <;> rfl

theorem touch_lastScn (env : Env) (t : Transaction) (scn sequence : Nat) :
    (t.touch env scn sequence).lastScn =
      if t.lastScn = env.ZERO_SCN ∨ t.lastScn < scn then scn else t.lastScn := by
  unfold Transaction.touch
  simp only []
  split_ifs <;> simp_all

theorem touch_firstScn (env : Env) (t : Transaction) (scn sequence : Nat) :
    (t.touch env scn sequence).firstScn =
      if t.firstScn = env.ZERO_SCN ∨ t.firstScn > scn then scn else t.firstScn := by
  unfold Transaction.touch
  simp only []
  split_ifs <;> simp_all

theorem touch_scn_le (env : Env) (t : Transaction) (scn sequence : Nat) :
    (t.touch env scn sequence).firstScn ≤ (t.touch env scn sequence).lastScn := by
  rw [touch_firstScn, touch_lastScn]
  split_ifs <;> omega

theorem add_opCodes (env : Env) (t : Transaction) (r1 r2 : RedoLogRecord) (sequence scn : Nat) :
    (t.add env r1 r2 sequence scn).opCodes = (t.opCodes + 1) % 2 ^ 64 := by
  simp [Transaction.add, TransactionBuffer.addTransactionChunk]

theorem add_rows (env : Env) (t : Transaction) (r1 r2 : RedoLogRecord) (sequence scn : Nat) :
    (t.add env r1 r2 sequence scn).rows = t.rows ++
      [{ op := (r1.opCode <<< 16) ||| r2.opCode, redoLogRecord1 := r1, redoLogRecord2 := r2,
         scn := r1.scn, size := r1.length + r2.length + env.ROW_HEADER_TOTAL }] := by
  simp [Transaction.add, Transaction.rows, TransactionBuffer.addTransactionChunk,
    flatMap_appendRow]

theorem add_noEmptyChunk (env : Env) (t : Transaction) (r1 r2 : RedoLogRecord)
    (sequence scn : Nat) (h : noEmptyChunk t.chunks) :
    noEmptyChunk (t.add env r1 r2 sequence scn).chunks := by
  simp only [Transaction.add, touch_chunks, TransactionBuffer.addTransactionChunk]
  exact noEmptyChunk_appendRow _ _ _ h

theorem add_scn_le (env : Env) (t : Transaction) (r1 r2 : RedoLogRecord) (sequence scn : Nat) :
    (t.add env r1 r2 sequence scn).firstScn ≤ (t.add env r1 r2 sequence scn).lastScn := by
  unfold Transaction.add
  exact touch_scn_le _ _ _ _

theorem rollbackLastOp_opCodes (env : Env) (t : Transaction) (scn : Nat) :
    (t.rollbackLastOp env scn).opCodes = (t.opCodes + (2 ^ 64 - 1)) % 2 ^ 64 := by
  unfold Transaction.rollbackLastOp
  simp only []
  split_ifs <;> simp [TransactionBuffer.rollbackTransactionChunk, TransactionBuffer.updateTail]

theorem rollbackLastOp_chunks (env : Env) (t : Transaction) (scn : Nat) :
    (t.rollbackLastOp env scn).chunks = TransactionBuffer.popRow t.chunks := by
  unfold Transaction.rollbackLastOp
  simp only []
  split_ifs <;> simp [TransactionBuffer.rollbackTransactionChunk, TransactionBuffer.updateTail]

theorem rollbackLastOp_lastScn (env : Env) (t : Transaction) (scn : Nat) :
    (t.rollbackLastOp env scn).lastScn =
      if t.lastScn = env.ZERO_SCN ∨ t.lastScn < scn then scn else t.lastScn := by
  unfold Transaction.rollbackLastOp
  simp only [TransactionBuffer.rollbackTransactionChunk, TransactionBuffer.updateTail]
  split_ifs <;> rfl

theorem rollbackLastOp_firstScn (env : Env) (t : Transaction) (scn : Nat) :
    (t.rollbackLastOp env scn).firstScn = t.firstScn := by
  unfold Transaction.rollbackLastOp
  simp only [TransactionBuffer.rollbackTransactionChunk, TransactionBuffer.updateTail]
  split_ifs <;> rfl

/-- What `rollbackPartOp` does when a stored pair matches. -/
theorem rollbackPartOp_found (env : Env) (t : Transaction) (rb1 rb2 : RedoLogRecord) (scn : Nat)
    (chunks1 : List TransactionChunk)
    (h : TransactionBuffer.spliceChunks (fun row => Transaction.matchesForRollback env
      row.redoLogRecord1 row.redoLogRecord2 rb1 rb2) t.chunks = some chunks1) :
    (t.rollbackPartOp env rb1 rb2 scn).1 = true ∧
    (t.rollbackPartOp env rb1 rb2 scn).2.chunks = chunks1 ∧
    (t.rollbackPartOp env rb1 rb2 scn).2.opCodes = (t.opCodes + (2 ^ 64 - 1)) % 2 ^ 64 ∧
    (t.rollbackPartOp env rb1 rb2 scn).2.firstScn = t.firstScn ∧
    (t.rollbackPartOp env rb1 rb2 scn).2.lastScn =
      if t.lastScn = env.ZERO_SCN ∨ t.lastScn < scn then scn else t.lastScn := by
  unfold Transaction.rollbackPartOp TransactionBuffer.deleteTransactionPart
  rw [h]
  simp only [TransactionBuffer.updateTail]
  split_ifs <;> simp_all

/-- What `rollbackPartOp` does when no stored pair matches. -/
theorem rollbackPartOp_not_found (env : Env) (t : Transaction) (rb1 rb2 : RedoLogRecord)
    (scn : Nat)
    (h : TransactionBuffer.spliceChunks (fun row => Transaction.matchesForRollback env
      row.redoLogRecord1 row.redoLogRecord2 rb1 rb2) t.chunks = none) :
    t.rollbackPartOp env rb1 rb2 scn = (false, t) := by
  unfold Transaction.rollbackPartOp TransactionBuffer.deleteTransactionPart
  rw [h]



theorem exists_match_splice (env : Env) (t : Transaction) (rb1 rb2 : RedoLogRecord)
    (h : ∃ row ∈ t.rows, Transaction.matchesForRollback env row.redoLogRecord1
      row.redoLogRecord2 rb1 rb2 = true) :
    ∃ chunks1, TransactionBuffer.spliceChunks (fun row => Transaction.matchesForRollback env
      row.redoLogRecord1 row.redoLogRecord2 rb1 rb2) t.chunks = some chunks1 := by
  cases hs : TransactionBuffer.spliceChunks (fun row => Transaction.matchesForRollback env
      row.redoLogRecord1 row.redoLogRecord2 rb1 rb2) t.chunks with
  | some chunks1 => exact ⟨chunks1, rfl⟩
  | none =>
    obtain ⟨row, hrow, hm⟩ := h
    have := (spliceChunks_none _ _).1 hs row hrow
    simp only [] at this
    rw [hm] at this
    cases this



theorem touch_rows (env : Env) (t : Transaction) (scn sequence : Nat) :
    (t.touch env scn sequence).rows = t.rows := by
  simp [Transaction.rows]

theorem call_counts (env : Env) (t : Transaction) (c : Call)
    (hne : noEmptyChunk t.chunks) (hop : t.opCodes = t.rows.length)
    (hlt : t.rows.length + 1 < 2 ^ 64) (hg : lastOpGuarded env t [c] = true) :
    noEmptyChunk (t.call env c).chunks ∧ (t.call env c).opCodes = (t.call env c).rows.length ∧
      (t.call env c).rows.length ≤ t.rows.length + 1 := by
  cases c with
  | touch scn sequence =>
    simp only [Transaction.call, touch_chunks, touch_opCodes, touch_rows]
    exact ⟨hne, hop, by omega⟩
  | add r1 r2 sequence scn =>
    simp only [Transaction.call]
    refine ⟨add_noEmptyChunk env t r1 r2 sequence scn hne, ?_, ?_⟩
    · rw [add_opCodes, add_rows, hop]
      simp only [List.length_append, List.length_singleton]
      omega
    · rw [add_rows]; simp
  | rollbackPartOp rb1 rb2 scn =>
    simp only [Transaction.call]
    cases hs : TransactionBuffer.spliceChunks (fun row => Transaction.matchesForRollback env
      row.redoLogRecord1 row.redoLogRecord2 rb1 rb2) t.chunks with
    | some chunks1 =>
      obtain ⟨-, h2, h3, -, -⟩ := rollbackPartOp_found env t rb1 rb2 scn chunks1 hs
      have hl := spliceChunks_length _ _ _ hs
      have hrows : (t.rollbackPartOp env rb1 rb2 scn).2.rows.length + 1 = t.rows.length := by
        simp only [Transaction.rows, h2]; exact hl
      refine ⟨?_, ?_, by omega⟩
      · rw [h2]; exact noEmptyChunk_spliceChunks _ _ _ hne hs
      · rw [h3, hop]; omega
    | none =>
      rw [rollbackPartOp_not_found env t rb1 rb2 scn hs]
      exact ⟨hne, hop, Nat.le_succ _⟩
  | rollbackLastOp scn =>
    simp only [lastOpGuarded, Bool.and_true, decide_eq_true_eq] at hg
    simp only [Transaction.call]
    have hrows : (t.rollbackLastOp env scn).rows = t.rows.dropLast := by
      simp only [Transaction.rows, rollbackLastOp_chunks]
      exact flatMap_popRow _ hne
    have hpos : 0 < t.rows.length := List.length_pos.2 hg
    refine ⟨?_, ?_, ?_⟩
    · rw [rollbackLastOp_chunks]; exact noEmptyChunk_popRow _ hne
    · rw [rollbackLastOp_opCodes, hrows, hop, List.length_dropLast]; omega
    · rw [hrows, List.length_dropLast]; omega

theorem calls_counts (env : Env) :
    ∀ (cs : List Call) (t : Transaction), noEmptyChunk t.chunks → t.opCodes = t.rows.length →
      t.rows.length + cs.length < 2 ^ 64 → lastOpGuarded env t cs = true →
      (t.calls env cs).opCodes = (t.calls env cs).rows.length
  | [], t, _, hop, _, _ => by simpa [Transaction.calls] using hop
  | c :: cs, t, hne, hop, hlt, hg => by
    simp only [List.length_cons] at hlt
    have hg1 : lastOpGuarded env t [c] = true := by
      simp only [lastOpGuarded, Bool.and_true]
      simp only [lastOpGuarded, Bool.and_eq_true] at hg
      exact hg.1
    have hg2 : lastOpGuarded env (t.call env c) cs = true := by
      simp only [lastOpGuarded, Bool.and_eq_true] at hg
      exact hg.2
    obtain ⟨h1, h2, h3⟩ := call_counts env t c hne hop (by omega) hg1
    have := calls_counts env cs (t.call env c) h1 h2 (by omega) hg2
    simpa [Transaction.calls] using this

theorem add_then_splice (env : Env) (t : Transaction) (r1 r2 rb1 rb2 : RedoLogRecord)
    (sequence scn : Nat) (hm : Transaction.matchesForRollback env r1 r2 rb1 rb2 = true) :
    ∃ row ∈ (t.add env r1 r2 sequence scn).rows, Transaction.matchesForRollback env
      row.redoLogRecord1 row.redoLogRecord2 rb1 rb2 = true := by
  refine ⟨{ op := (r1.opCode <<< 16) ||| r2.opCode, redoLogRecord1 := r1, redoLogRecord2 := r2,
            scn := r1.scn, size := r1.length + r2.length + env.ROW_HEADER_TOTAL }, ?_, hm⟩
  rw [add_rows]; exact List.mem_append_right _ (List.mem_singleton.2 rfl)


/-! ### Commit flush: the walk -/

open Transaction

theorem rec1_setRec1 (mem : List Row) (p q : Nat) (f : RedoLogRecord → RedoLogRecord) :
    rec1 (setRec1 mem p f) q = if q = p ∧ p < mem.length then f (rec1 mem p) else rec1 mem q := by
  unfold setRec1 rec1
  cases h : mem[p]? with
  | none =>
    have : ¬ p < mem.length := by
      intro hlt
      rw [List.getElem?_eq_getElem hlt] at h
      cases h
    simp [this]
  | some row =>
    have hlt : p < mem.length := by
      by_contra hc
      rw [List.getElem?_eq_none (by omega)] at h
      cases h
    by_cases hq : q = p
    · subst hq
      simp [hlt]
    · have hq2 : ¬ p = q := fun h => hq h.symm
      simp [hq, List.getElem?_set, hq2]

theorem rec1_setRec2 (mem : List Row) (p q : Nat) (f : RedoLogRecord → RedoLogRecord) :
    rec1 (setRec2 mem p f) q = rec1 mem q := by
  unfold setRec2 rec1
  cases h : mem[p]? with
  | none => rfl
  | some row =>
    by_cases hq : p = q
    · subst hq
      by_cases hlt : p < mem.length
      · simp [List.getElem?_set, hlt, h]
      · rw [List.getElem?_eq_none (by omega)] at h
        cases h
    · simp [List.getElem?_set, hq]

theorem rec1_setRec2At (mem : List Row) (p : Option Nat) (q : Nat)
    (f : RedoLogRecord → RedoLogRecord) : rec1 (setRec2At mem p f) q = rec1 mem q := by
  cases p with
  | none => rfl
  | some x => exact rec1_setRec2 mem x q f

theorem strip_setRec1_next (mem : List Row) (p q : Nat) (v : Option Nat) :
    stripLinks (rec1 (setRec1 mem p fun r => { r with next := v }) q) =
      stripLinks (rec1 mem q) := by
  rw [rec1_setRec1]
  split_ifs with h
  · rw [h.1]; rfl
  · rfl

theorem strip_setRec1_prev (mem : List Row) (p q : Nat) (v : Option Nat) :
    stripLinks (rec1 (setRec1 mem p fun r => { r with prev := v }) q) =
      stripLinks (rec1 mem q) := by
  rw [rec1_setRec1]
  split_ifs with h
  · rw [h.1]; rfl
  · rfl

theorem strip_setRec1At_next (mem : List Row) (p : Option Nat) (q : Nat) (v : Option Nat) :
    stripLinks (rec1 (setRec1At mem p fun r => { r with next := v }) q) =
      stripLinks (rec1 mem q) := by
  cases p with
  | none => rfl
  | some x => exact strip_setRec1_next mem x q v

theorem linkFront_strip (st : FlushState) (p f1 f2 q : Nat) :
    stripLinks (rec1 (linkFront st p f1 f2).mem q) = stripLinks (rec1 st.mem q) := by
  simp only [linkFront, rec1_setRec2, strip_setRec1_next, strip_setRec1_prev]

theorem linkBeforeOnlyTail_strip (st : FlushState) (p l1 l2 q : Nat) :
    stripLinks (rec1 (linkBeforeOnlyTail st p l1 l2).mem q) = stripLinks (rec1 st.mem q) := by
  simp only [linkBeforeOnlyTail, rec1_setRec2, strip_setRec1_next, strip_setRec1_prev]

theorem linkBeforeTail_strip (st : FlushState) (p l1 l2 q : Nat) :
    stripLinks (rec1 (linkBeforeTail st p l1 l2).mem q) = stripLinks (rec1 st.mem q) := by
  simp only [linkBeforeTail, copyPrev1, copyPrev2, setPrevNext1, setPrevNext2, rec1_setRec2,
    rec1_setRec2At, strip_setRec1_next, strip_setRec1_prev, strip_setRec1At_next]

theorem linkBack_strip (st : FlushState) (p l1 l2 q : Nat) :
    stripLinks (rec1 (linkBack st p l1 l2).mem q) = stripLinks (rec1 st.mem q) := by
  simp only [linkBack, rec1_setRec2, strip_setRec1_next, strip_setRec1_prev]

theorem linkPiece_cases (env : Env) (st st1 : FlushState) (p op f1 f2 l1 l2 : Nat)
    (h : linkPiece env st p op f1 f2 l1 l2 = .ok st1) :
    st1 = linkFront st p f1 f2 ∨ st1 = linkBeforeOnlyTail st p l1 l2 ∨
      st1 = linkBeforeTail st p l1 l2 ∨ st1 = linkBack st p l1 l2 := by
  unfold linkPiece at h
  by_cases h1 : (rec1 st.mem l1).suppLogBdba = (rec1 st.mem p).suppLogBdba ∧
      (rec1 st.mem l1).suppLogSlot = (rec1 st.mem p).suppLogSlot ∧
      (rec1 st.mem f1).object = (rec1 st.mem p).object ∧
      (rec2 st.mem f2).object = (rec2 st.mem p).object
  · rw [if_pos h1] at h
    by_cases h2 : st.type = env.TRANSACTION_INSERT
    · rw [if_pos h2] at h
      exact Or.inl (Except.ok.inj h).symm
    · rw [if_neg h2] at h
      by_cases h3 : op = 0x05010B06 ∧ (rec2 st.mem l2).opCode = 0x0B02
      · rw [if_pos h3] at h
        by_cases h4 : (rec1 st.mem l1).prev = none
        · rw [if_pos h4] at h
          exact Or.inr (Or.inl (Except.ok.inj h).symm)
        · rw [if_neg h4] at h
          exact Or.inr (Or.inr (Or.inl (Except.ok.inj h).symm))
      · rw [if_neg h3] at h
        exact Or.inr (Or.inr (Or.inr (Except.ok.inj h).symm))
  · rw [if_neg h1] at h
    cases h

theorem linkPiece_ok (env : Env) (st st1 : FlushState) (p op f1 f2 l1 l2 : Nat)
    (h : linkPiece env st p op f1 f2 l1 l2 = .ok st1) :
    st1.events = st.events ∧ st1.type = st.type ∧ st1.idx = st.idx ∧
      ∀ q, stripLinks (rec1 st1.mem q) = stripLinks (rec1 st.mem q) := by
  rcases linkPiece_cases env st st1 p op f1 f2 l1 l2 h with h | h | h | h
  · rw [h]; exact ⟨rfl, rfl, rfl, linkFront_strip st p f1 f2⟩
  · rw [h]; exact ⟨rfl, rfl, rfl, linkBeforeOnlyTail_strip st p l1 l2⟩
  · rw [h]
    refine ⟨?_, ?_, ?_, linkBeforeTail_strip st p l1 l2⟩ <;> simp only [linkBeforeTail]
  · rw [h]; exact ⟨rfl, rfl, rfl, linkBack_strip st p l1 l2⟩

theorem nextType_classify (env : Env) (hd : env.typesDistinct) (pending : List Nat) (op : Nat) :
    nextType env (classifyType env pending) op = classifyType env (pending ++ [op]) := by
  obtain ⟨hI, hD, hU, hID, hIU, hDU⟩ := hd
  cases pending with
  | nil =>
    simp only [classifyType, nextType, List.nil_append, List.all_nil, and_true, ↓reduceIte]
  | cons o1 later =>
    have hc : (op = 0x05010B03 ∨ op = 0x05010B05 ∨ op = 0x05010B06 ∨ op = 0x05010B08) ↔
        (!(op == 0x05010B03 || op == 0x05010B05 || op == 0x05010B06 || op == 0x05010B08)) =
          false := by simp; tauto
    have hd : (op = 0x05010B02 ∨ op = 0x05010B05 ∨ op = 0x05010B06 ∨ op = 0x05010B08) ↔
        (!(op == 0x05010B02 || op == 0x05010B05 || op == 0x05010B06 || op == 0x05010B08)) =
          false := by simp; tauto
    simp only [classifyType, nextType, List.cons_append, List.all_append, List.all_cons,
      List.all_nil, Bool.and_true, hc, hd]
    generalize (!(op == 0x05010B03 || op == 0x05010B05 || op == 0x05010B06 ||
      op == 0x05010B08)) = c
    generalize (!(op == 0x05010B02 || op == 0x05010B05 || op == 0x05010B06 ||
      op == 0x05010B08)) = d
    generalize (later.all fun o => !(o == 0x05010B03 || o == 0x05010B05 || o == 0x05010B06 ||
      o == 0x05010B08)) = a
    generalize (later.all fun o => !(o == 0x05010B02 || o == 0x05010B05 || o == 0x05010B06 ||
      o == 0x05010B08)) = b
    have hIs := Ne.symm hID
    have hUs := Ne.symm hIU
    have hUd := Ne.symm hDU
    by_cases h2 : o1 = 0x05010B02
    · subst h2
      cases a <;> cases b <;> cases c <;> cases d <;> simp [*]
    · by_cases h3 : o1 = 0x05010B03
      · subst h3
        cases a <;> cases b <;> cases c <;> cases d <;> simp [*]
      · cases a <;> cases b <;> cases c <;> cases d <;> simp [*]


theorem dmlTypes_append (a b : List Event) : dmlTypes (a ++ b) = dmlTypes a ++ dmlTypes b := by
  simp [dmlTypes, List.filterMap_append]

/-- What the row-piece case of the `switch` does when it raises nothing. -/
theorem flushPiece_ok (env : Env) (st st1 : FlushState) (p op : Nat) (fl : Bool)
    (h : flushPiece env st p op = .ok (st1, fl)) :
    st1.idx = st.idx ∧ (∀ q, stripLinks (rec1 st1.mem q) = stripLinks (rec1 st.mem q)) ∧
      st1.type = nextType env st.type op ∧
      fl = decide (((rec1 st.mem p).suppLogFb &&& env.FB_L) ≠ 0) ∧
      (fl = true → ∃ f1 f2 mem,
        st1.events = st.events ++ [Event.parseDML f1 f2 (nextType env st.type op) mem]) ∧
      (fl = false → st1.events = st.events) := by
  unfold flushPiece at h
  simp only [] at h
  split at h
  · cases h
  · split at h
    · cases h
    · rename_i st2 hlink
      have hst2 : st2.events = st.events ∧ st2.type = nextType env st.type op ∧
          st2.idx = st.idx ∧ ∀ q, stripLinks (rec1 st2.mem q) = stripLinks (rec1 st.mem q) := by
        split at hlink
        · have := Except.ok.inj hlink
          subst this
          refine ⟨rfl, rfl, rfl, fun q => ?_⟩
          simp only [rec1_setRec2]
        · obtain ⟨h1, h2, h3, h4⟩ := linkPiece_ok env _ _ _ _ _ _ _ _ hlink
          refine ⟨h1, h2, h3, fun q => ?_⟩
          rw [h4 q]
          simp only [rec1_setRec2]
      obtain ⟨he, ht, hi, hs⟩ := hst2
      have hfb : (rec1 st2.mem p).suppLogFb = (rec1 st.mem p).suppLogFb := by
        have := congrArg RedoLogRecord.suppLogFb (hs p)
        exact this
      rw [hfb] at h
      by_cases hl : ((rec1 st.mem p).suppLogFb &&& env.FB_L) ≠ 0
      · rw [if_pos hl] at h
        obtain ⟨e1, e2⟩ := Prod.mk.inj (Except.ok.inj h)
        subst e1 e2
        refine ⟨hi, hs, ht, by simp [hl],
          fun _ => ⟨st2.first1.getD 0, st2.first2.getD 0, st2.mem, ?_⟩, fun hc => ?_⟩
        · simp only [he, ht]
        · cases hc
      · rw [if_neg hl] at h
        obtain ⟨e1, e2⟩ := Prod.mk.inj (Except.ok.inj h)
        subst e1 e2
        refine ⟨hi, hs, ht, by simp [hl], fun hc => ?_, fun _ => he⟩
        cases hc

/-- What the `switch` does for a row that is not a row piece, when it raises
nothing: one call that is neither a bracket nor `parseDML`. -/
theorem flushSwitch_other (env : Env) (st st1 : FlushState) (p op : Nat) (fl : Bool)
    (hp : isPieceOp op = false) (h : flushSwitch env st p op = .ok (st1, fl)) :
    fl = true ∧ st1.idx = st.idx ∧ st1.mem = st.mem ∧
      ∃ e, st1.events = st.events ++ [e] ∧ e.isBracket = false ∧ dmlTypes [e] = [] := by
  unfold flushSwitch at h
  rw [hp] at h
  simp only [Bool.false_eq_true, if_false] at h
  by_cases h1 : op = 0x05010B0B
  · rw [if_pos h1] at h
    obtain ⟨e1, e2⟩ := Prod.mk.inj (Except.ok.inj h)
    subst e1 e2
    exact ⟨rfl, rfl, rfl, _, rfl, rfl, rfl⟩
  · rw [if_neg h1] at h
    by_cases h2 : op = 0x05010B0C
    · rw [if_pos h2] at h
      obtain ⟨e1, e2⟩ := Prod.mk.inj (Except.ok.inj h)
      subst e1 e2
      exact ⟨rfl, rfl, rfl, _, rfl, rfl, rfl⟩
    · rw [if_neg h2] at h
      by_cases h3 : op = 0x18010000
      · rw [if_pos h3] at h
        obtain ⟨e1, e2⟩ := Prod.mk.inj (Except.ok.inj h)
        subst e1 e2
        exact ⟨rfl, rfl, rfl, _, rfl, rfl, rfl⟩
      · rw [if_neg h3] at h
        cases h

theorem flushSwitch_piece (env : Env) (st : FlushState) (p op : Nat)
    (hp : isPieceOp op = true) : flushSwitch env st p op = flushPiece env st p op := by
  unfold flushSwitch
  rw [if_pos hp]

/-- The brackets that the rest of an iteration adds. -/
theorem flushAfter_ok (env : Env) (t : Transaction) (st : FlushState) (fl : Bool) (row : Row) :
    (flushAfter env t st fl row).idx = st.idx + 1 ∧
      (flushAfter env t st fl row).mem = st.mem ∧
      (flushAfter env t st fl row).type = (if fl then 0 else st.type) ∧
      dmlTypes (flushAfter env t st fl row).events = dmlTypes st.events ∧
      ((flushAfter env t st fl row).events.filter Event.isBracket =
          st.events.filter Event.isBracket ∨
        (flushAfter env t st fl row).events.filter Event.isBracket =
          st.events.filter Event.isBracket ++
            [Event.processCommit, Event.processBegin t.lastScn t.commitTime t.xid]) := by
  unfold flushAfter
  by_cases hb : bigTransaction env st.events = true <;> cases fl <;>
    simp [hb, dmlTypes_append, dmlTypes, Event.isBracket]


theorem filter_isBracket_dml (evs : List Event) (f1 f2 ty : Nat) (mem : List Row) :
    (evs ++ [Event.parseDML f1 f2 ty mem]).filter Event.isBracket =
      evs.filter Event.isBracket := by
  simp [List.filter_append, Event.isBracket]

/-- One iteration of the walk of `flush`, when it raises nothing. -/
theorem flushRow_ok (env : Env) (t : Transaction) (st st2 : FlushState) (row : Row)
    (h : flushRow env t st row = .ok st2) :
    st2.idx = st.idx + 1 ∧ (∀ q, stripLinks (rec1 st2.mem q) = stripLinks (rec1 st.mem q)) ∧
      (st2.events.filter Event.isBracket = st.events.filter Event.isBracket ∨
        st2.events.filter Event.isBracket = st.events.filter Event.isBracket ++
          [Event.processCommit, Event.processBegin t.lastScn t.commitTime t.xid]) ∧
      (isPieceOp row.op = true →
        (((rec1 st.mem st.idx).suppLogFb &&& env.FB_L) ≠ 0 →
          dmlTypes st2.events = dmlTypes st.events ++ [nextType env st.type row.op] ∧
            st2.type = 0) ∧
        (((rec1 st.mem st.idx).suppLogFb &&& env.FB_L) = 0 →
          dmlTypes st2.events = dmlTypes st.events ∧
            st2.type = nextType env st.type row.op)) ∧
      (isPieceOp row.op = false → dmlTypes st2.events = dmlTypes st.events ∧ st2.type = 0) := by
  unfold flushRow at h
  split at h
  · cases h
  · rename_i st1 fl hsw
    have h2 := Except.ok.inj h
    subst h2
    obtain ⟨a1, a2, a3, a4, a5⟩ := flushAfter_ok env t st1 fl row
    by_cases hp : isPieceOp row.op = true
    · rw [flushSwitch_piece env st st.idx row.op hp] at hsw
      obtain ⟨b1, b2, b3, b4, b5, b6⟩ := flushPiece_ok env st st1 st.idx row.op fl hsw
      have hbr : st1.events.filter Event.isBracket = st.events.filter Event.isBracket := by
        cases hfl : fl with
        | true =>
          obtain ⟨f1, f2, mem, he⟩ := b5 hfl
          rw [he, filter_isBracket_dml]
        | false => rw [b6 hfl]
      refine ⟨by omega, fun q => by rw [a2, b2 q], by rw [hbr] at a5; exact a5, fun _ => ⟨?_, ?_⟩,
        fun hc => by rw [hp] at hc; cases hc⟩
      · intro hl
        have hfl : fl = true := by rw [b4]; simp [hl]
        obtain ⟨f1, f2, mem, he⟩ := b5 hfl
        rw [a4, a3, he, dmlTypes_append, hfl]
        exact ⟨rfl, rfl⟩
      · intro hl
        have hfl : fl = false := by rw [b4]; simp [hl]
        rw [a4, a3, b6 hfl, hfl, b3]
        exact ⟨rfl, rfl⟩
    · have hp' : isPieceOp row.op = false := by simpa using hp
      obtain ⟨c1, c2, c3, e, c4, c5, c6⟩ := flushSwitch_other env st st1 st.idx row.op fl hp' hsw
      have hbr : st1.events.filter Event.isBracket = st.events.filter Event.isBracket := by
        rw [c4, List.filter_append]
        simp [c5]
      refine ⟨by omega, fun q => by rw [a2, c3], by rw [hbr] at a5; exact a5,
        fun hc => absurd hc hp, fun _ => ?_⟩
      rw [a4, a3, c4, dmlTypes_append, c6, c1]
      simp

theorem flushRows_append (env : Env) (t : Transaction) :
    ∀ (xs ys : List Row) (st : FlushState),
      flushRows env t st (xs ++ ys) =
        match flushRows env t st xs with
        | .error e => .error e
        | .ok st1 => flushRows env t st1 ys
  | [], ys, st => by simp [flushRows]
  | x :: xs, ys, st => by
    simp only [List.cons_append, flushRows]
    cases flushRow env t st x with
    | error e => rfl
    | ok st1 => exact flushRows_append env t xs ys st1

/-- The walk over the chunk chain visits the rows in walk order. -/
theorem flushChunks_eq (env : Env) (t : Transaction) :
    ∀ (chunks : List TransactionChunk) (st : FlushState),
      flushChunks env t st chunks = flushRows env t st (chunks.flatMap TransactionChunk.rows)
  | [], st => by simp [flushChunks, flushRows]
  | tc :: tcs, st => by
    simp only [flushChunks, List.flatMap_cons, flushRows_append]
    cases flushRows env t st tc.rows with
    | error e => rfl
    | ok st1 => exact flushChunks_eq env t tcs st1

theorem bracketPairs_append (c b : Event) (hc : c.isCommit = true) (hb : b.isBegin = true) :
    ∀ l : List Event, bracketPairs l = true → bracketPairs (l ++ [c, b]) = true
  | [], _ => by simp [bracketPairs, hc, hb]
  | [_], h => by simp [bracketPairs] at h
  | x :: y :: rest, h => by
    simp only [bracketPairs, Bool.and_eq_true] at h
    simp only [List.cons_append, bracketPairs, Bool.and_eq_true]
    exact ⟨h.1, bracketPairs_append c b hc hb rest h.2⟩

theorem closesBracket_append (c : Event) (hc : c.isCommit = true) :
    ∀ l : List Event, bracketPairs l = true → closesBracket (l ++ [c]) = true
  | [], _ => by simp [closesBracket, hc]
  | [_], h => by simp [bracketPairs] at h
  | x :: y :: rest, h => by
    simp only [bracketPairs, Bool.and_eq_true] at h
    have ih := closesBracket_append c hc rest h.2
    cases rest with
    | nil => simp [closesBracket, h.1.1, h.1.2, hc]
    | cons z rest2 =>
      simp only [List.cons_append, closesBracket, Bool.and_eq_true]
      exact ⟨h.1, by simpa using ih⟩

/-- The brackets issued by the walk: a `processBegin` followed by
`(processCommit, processBegin)` pairs. -/
theorem flushRows_brackets (env : Env) (t : Transaction) :
    ∀ (rows : List Row) (st st1 : FlushState) (b : Event) (rest : List Event),
      flushRows env t st rows = .ok st1 →
      st.events.filter Event.isBracket = b :: rest → bracketPairs rest = true →
      ∃ rest1, st1.events.filter Event.isBracket = b :: rest1 ∧ bracketPairs rest1 = true
  | [], st, st1, b, rest, h, hb, hp => by
    simp only [flushRows] at h
    cases h
    exact ⟨rest, hb, hp⟩
  | row :: rows, st, st1, b, rest, h, hb, hp => by
    simp only [flushRows] at h
    cases hr : flushRow env t st row with
    | error e => rw [hr] at h; cases h
    | ok st2 =>
      rw [hr] at h
      obtain ⟨-, -, hbr, -, -⟩ := flushRow_ok env t st st2 row hr
      rcases hbr with hbr | hbr
      · exact flushRows_brackets env t rows st2 st1 b rest h (by rw [hbr, hb]) hp
      · refine flushRows_brackets env t rows st2 st1 b
          (rest ++ [Event.processCommit, Event.processBegin t.lastScn t.commitTime t.xid]) h
          (by rw [hbr, hb]; rfl)
          (bracketPairs_append Event.processCommit
            (Event.processBegin t.lastScn t.commitTime t.xid) rfl rfl rest hp)

theorem bracketPairs_counts :
    ∀ l : List Event, bracketPairs l = true →
      (l.filter Event.isBegin).length = (l.filter Event.isCommit).length
  | [], _ => rfl
  | [_], h => by simp [bracketPairs] at h
  | c :: b :: rest, h => by
    simp only [bracketPairs, Bool.and_eq_true] at h
    have ih := bracketPairs_counts rest h.2
    have hc : c.isBegin = false := by
      cases c <;> simp_all [Event.isCommit, Event.isBegin]
    have hb : b.isCommit = false := by
      cases b <;> simp_all [Event.isCommit, Event.isBegin]
    simp [List.filter_cons, hc, hb, h.1.1, h.1.2, ih]

theorem filter_isBegin_isBracket (evs : List Event) :
    (evs.filter Event.isBracket).filter Event.isBegin = evs.filter Event.isBegin := by
  rw [List.filter_filter]
  congr 1
  funext e
  cases e <;> rfl

theorem filter_isCommit_isBracket (evs : List Event) :
    (evs.filter Event.isBracket).filter Event.isCommit = evs.filter Event.isCommit := by
  rw [List.filter_filter]
  congr 1
  funext e
  cases e <;> rfl

/-- The output of the part of `flush` that follows `flushSplitBlocks()`. -/
theorem flushCommitted_brackets (env : Env) (t t1 : Transaction) (evs : List Event)
    (h : Transaction.flushCommitted env t = .ok (t1, evs)) :
    evs = [] ∨ ∃ rest, bracketPairs rest = true ∧
      evs.filter Event.isBracket =
        Event.processBegin t.lastScn t.commitTime t.xid :: (rest ++ [Event.processCommit]) := by
  unfold Transaction.flushCommitted at h
  split at h
  · rw [flushChunks_eq] at h
    cases hr : flushRows env t
        { mem := t.rows, events := [Event.processBegin t.lastScn t.commitTime t.xid] }
        (t.chunks.flatMap TransactionChunk.rows) with
    | error e => rw [hr] at h; cases h
    | ok st =>
      rw [hr] at h
      obtain ⟨-, e2⟩ := Prod.mk.inj (Except.ok.inj h)
      obtain ⟨rest1, h1, h2⟩ := flushRows_brackets env t _ _ st
        (Event.processBegin t.lastScn t.commitTime t.xid) [] hr rfl rfl
      right
      refine ⟨rest1, h2, ?_⟩
      rw [← e2, List.filter_append, h1]
      rfl
  · obtain ⟨-, e2⟩ := Prod.mk.inj (Except.ok.inj h)
    left; exact e2.symm

/-- C3: when `flush()` returns normally, the `processBegin`/`processCommit` calls it issued
are none at all or have the form begin, (commit, begin)*, commit, and the number of
`processBegin` calls equals the number of `processCommit` calls. -/
theorem flush_brackets (env : Env) (t t1 : Transaction) (evs : List Event)
    (h : Transaction.flush env t = .ok (t1, evs)) :
    wellBracketed (evs.filter Event.isBracket) = true ∧
      (evs.filter Event.isBegin).length = (evs.filter Event.isCommit).length := by
  unfold Transaction.flush at h
  split at h
  · cases h
  · rename_i t0 h0
    rcases flushCommitted_brackets env t0 t1 evs h with he | ⟨rest, hp, he⟩
    · subst he; exact ⟨rfl, rfl⟩
    · refine ⟨?_, ?_⟩
      · rw [he]
        simp only [wellBracketed, Event.isBegin, Bool.true_and]
        exact closesBracket_append Event.processCommit rfl rest hp
      · rw [← filter_isBegin_isBracket, ← filter_isCommit_isBracket, he]
        have := bracketPairs_counts rest hp
        simp [List.filter_cons, List.filter_append, Event.isBegin, Event.isCommit, this]

/-! ### Commit flush: chain types -/

theorem drop_cons_head (orig : List Row) (n : Nat) (row : Row) (rows : List Row)
    (h : row :: rows = orig.drop n) : rec1 orig n = row.redoLogRecord1 ∧ rows = orig.drop (n + 1) := by
  have h1 : (orig.drop n)[0]? = some row := by rw [← h]; simp
  rw [List.getElem?_drop] at h1
  have h2 : (orig.drop n).tail = rows := by rw [← h]; rfl
  refine ⟨?_, ?_⟩
  · unfold rec1
    simp only [Nat.add_zero] at h1
    rw [h1]; rfl
  · rw [← h2, List.tail_drop]

/-- The types handed to `parseDML` during the walk are those of the reference
description. -/
theorem flushRows_types (env : Env) (t : Transaction) (hd : env.typesDistinct)
    (orig : List Row) :
    ∀ (rows : List Row) (st st1 : FlushState) (pending : List Nat),
      rows = orig.drop st.idx →
      (∀ q, stripLinks (rec1 st.mem q) = stripLinks (rec1 orig q)) →
      st.type = classifyType env pending →
      flushRows env t st rows = .ok st1 →
      dmlTypes st1.events = dmlTypes st.events ++ chainTypes env pending rows
  | [], st, st1, pending, _, _, _, h => by
    simp only [flushRows] at h
    cases h
    simp [chainTypes]
  | row :: rows, st, st1, pending, hrows, hmem, hty, h => by
    simp only [flushRows] at h
    cases hr : flushRow env t st row with
    | error e => rw [hr] at h; cases h
    | ok st2 =>
      rw [hr] at h
      obtain ⟨hrec, hrest⟩ := drop_cons_head orig st.idx row rows hrows
      obtain ⟨hidx, hstrip, -, hpiece, hother⟩ := flushRow_ok env t st st2 row hr
      have hfb : (rec1 st.mem st.idx).suppLogFb = row.redoLogRecord1.suppLogFb := by
        have := congrArg RedoLogRecord.suppLogFb (hmem st.idx)
        rw [hrec] at this
        exact this
      have hmem2 : ∀ q, stripLinks (rec1 st2.mem q) = stripLinks (rec1 orig q) :=
        fun q => by rw [hstrip q, hmem q]
      have hrows2 : rows = orig.drop st2.idx := by rw [hidx]; exact hrest
      rw [hfb] at hpiece
      by_cases hp : isPieceOp row.op = true
      · by_cases hl : (row.redoLogRecord1.suppLogFb &&& env.FB_L) ≠ 0
        · obtain ⟨h1, h2⟩ := (hpiece hp).1 hl
          have ih := flushRows_types env t hd orig rows st2 st1 [] hrows2 hmem2
            (by rw [h2]; rfl) h
          rw [ih, h1, hty, nextType_classify env hd]
          simp only [chainTypes, hp, if_true, if_pos hl, List.append_assoc, List.singleton_append]
        · have hl0 : (row.redoLogRecord1.suppLogFb &&& env.FB_L) = 0 := by
            by_contra hc; exact hl hc
          obtain ⟨h1, h2⟩ := (hpiece hp).2 hl0
          have ih := flushRows_types env t hd orig rows st2 st1 (pending ++ [row.op]) hrows2 hmem2
            (by rw [h2, hty, nextType_classify env hd]) h
          rw [ih, h1]
          simp only [chainTypes, hp, if_true, if_neg hl]
      · have hp' : isPieceOp row.op = false := by simpa using hp
        obtain ⟨h1, h2⟩ := hother hp'
        have ih := flushRows_types env t hd orig rows st2 st1 [] hrows2 hmem2
          (by rw [h2]; rfl) h
        rw [ih, h1]
        simp only [chainTypes, hp', Bool.false_eq_true, if_false]

theorem classifyType_insert (env : Env) (hd : env.typesDistinct) (o1 : Nat) (later : List Nat) :
    classifyType env (o1 :: later) = env.TRANSACTION_INSERT ↔
      (o1 = 0x05010B02 ∧ ∀ o ∈ later, o ≠ 0x05010B03 ∧ o ≠ 0x05010B05 ∧ o ≠ 0x05010B06 ∧
        o ≠ 0x05010B08) := by
  obtain ⟨hI, hD, hU, hID, hIU, hDU⟩ := hd
  have hall : (later.all fun o => !(o == 0x05010B03 || o == 0x05010B05 || o == 0x05010B06 ||
      o == 0x05010B08)) = true ↔ ∀ o ∈ later, o ≠ 0x05010B03 ∧ o ≠ 0x05010B05 ∧
        o ≠ 0x05010B06 ∧ o ≠ 0x05010B08 := by
    simp only [List.all_eq_true, Bool.not_eq_true', Bool.or_eq_false_iff, beq_eq_false_iff_ne,
      ne_eq, and_assoc]
  rw [← hall]
  simp only [classifyType]
  by_cases h1 : o1 = 0x05010B02 ∧ (later.all fun o => !(o == 0x05010B03 || o == 0x05010B05 ||
      o == 0x05010B06 || o == 0x05010B08)) = true
  · rw [if_pos h1]; exact ⟨fun _ => h1, fun _ => rfl⟩
  · rw [if_neg h1]
    by_cases h2 : o1 = 0x05010B03 ∧ (later.all fun o => !(o == 0x05010B02 || o == 0x05010B05 ||
        o == 0x05010B06 || o == 0x05010B08)) = true
    · rw [if_pos h2]; exact ⟨fun h => absurd h.symm hID, fun h => absurd h h1⟩
    · rw [if_neg h2]; exact ⟨fun h => absurd h.symm hIU, fun h => absurd h h1⟩

theorem classifyType_delete (env : Env) (hd : env.typesDistinct) (o1 : Nat) (later : List Nat) :
    classifyType env (o1 :: later) = env.TRANSACTION_DELETE ↔
      (o1 = 0x05010B03 ∧ ∀ o ∈ later, o ≠ 0x05010B02 ∧ o ≠ 0x05010B05 ∧ o ≠ 0x05010B06 ∧
        o ≠ 0x05010B08) := by
  obtain ⟨hI, hD, hU, hID, hIU, hDU⟩ := hd
  have hall : (later.all fun o => !(o == 0x05010B02 || o == 0x05010B05 || o == 0x05010B06 ||
      o == 0x05010B08)) = true ↔ ∀ o ∈ later, o ≠ 0x05010B02 ∧ o ≠ 0x05010B05 ∧
        o ≠ 0x05010B06 ∧ o ≠ 0x05010B08 := by
    simp only [List.all_eq_true, Bool.not_eq_true', Bool.or_eq_false_iff, beq_eq_false_iff_ne,
      ne_eq, and_assoc]
  rw [← hall]
  simp only [classifyType]
  by_cases h1 : o1 = 0x05010B02 ∧ (later.all fun o => !(o == 0x05010B03 || o == 0x05010B05 ||
      o == 0x05010B06 || o == 0x05010B08)) = true
  · rw [if_pos h1]
    have h3 : ¬ o1 = 0x05010B03 := by rw [h1.1]; decide
    exact ⟨fun h => absurd h hID, fun h => absurd h.1 h3⟩
  · rw [if_neg h1]
    by_cases h2 : o1 = 0x05010B03 ∧ (later.all fun o => !(o == 0x05010B02 || o == 0x05010B05 ||
        o == 0x05010B06 || o == 0x05010B08)) = true
    · rw [if_pos h2]; exact ⟨fun _ => h2, fun _ => rfl⟩
    · rw [if_neg h2]; exact ⟨fun h => absurd h.symm hDU, fun h => absurd h h2⟩


/-- C4: the types passed to `parseDML` by a `flush()` that returns normally are, chain by
chain, those of `classifyType` applied to the `op2` sequence of the pieces stored since the
previous emit: INSERT iff the first is `0B02` and no later piece is `0B03/0B05/0B06/0B08`,
DELETE iff the first is `0B03` and no later piece is `0B02/0B05/0B06/0B08`, UPDATE otherwise;
the sequence `0B02, 0B03` gives UPDATE, and no chain depends on the pieces of an earlier one. -/
theorem flush_chain_types (env : Env) (t t0 t1 : Transaction) (evs : List Event)
    (hd : env.typesDistinct) (h0 : Transaction.flushSplitBlocks env t = .ok t0)
    (h : Transaction.flush env t = .ok (t1, evs)) :
    dmlTypes evs =
        (if t0.opCodes > 0 ∧ ¬ t0.isRollback then chainTypes env [] t0.rows else []) ∧
      (∀ o1 later, classifyType env (o1 :: later) = env.TRANSACTION_INSERT ↔
        (o1 = 0x05010B02 ∧ ∀ o ∈ later, o ≠ 0x05010B03 ∧ o ≠ 0x05010B05 ∧ o ≠ 0x05010B06 ∧
          o ≠ 0x05010B08)) ∧
      (∀ o1 later, classifyType env (o1 :: later) = env.TRANSACTION_DELETE ↔
        (o1 = 0x05010B03 ∧ ∀ o ∈ later, o ≠ 0x05010B02 ∧ o ≠ 0x05010B05 ∧ o ≠ 0x05010B06 ∧
          o ≠ 0x05010B08)) ∧
      (∀ o1 later, classifyType env (o1 :: later) ≠ env.TRANSACTION_INSERT →
        classifyType env (o1 :: later) ≠ env.TRANSACTION_DELETE →
        classifyType env (o1 :: later) = env.TRANSACTION_UPDATE) ∧
      classifyType env [0x05010B02, 0x05010B03] = env.TRANSACTION_UPDATE := by
  refine ⟨?_, classifyType_insert env hd, classifyType_delete env hd, ?_, ?_⟩
  · unfold Transaction.flush at h
    rw [h0] at h
    simp only [] at h
    unfold Transaction.flushCommitted at h
    by_cases hc : t0.opCodes > 0 ∧ ¬ t0.isRollback
    · rw [if_pos hc] at h
      rw [if_pos hc]
      rw [flushChunks_eq] at h
      cases hr : flushRows env t0
          { mem := t0.rows, events := [Event.processBegin t0.lastScn t0.commitTime t0.xid] }
          (t0.chunks.flatMap TransactionChunk.rows) with
      | error e => rw [hr] at h; cases h
      | ok st =>
        rw [hr] at h
        obtain ⟨-, e2⟩ := Prod.mk.inj (Except.ok.inj h)
        have := flushRows_types env t0 hd t0.rows _ _ st [] (by rfl) (fun _ => rfl) rfl hr
        rw [← e2, dmlTypes_append, this]
        simp [dmlTypes, Transaction.rows]
    · rw [if_neg hc] at h
      rw [if_neg hc]
      obtain ⟨-, e2⟩ := Prod.mk.inj (Except.ok.inj h)
      rw [← e2]; rfl
  · intro o1 later h1 h2
    simp only [classifyType] at h1 h2 ⊢
    by_cases c1 : o1 = 0x05010B02 ∧ (later.all fun o => !(o == 0x05010B03 || o == 0x05010B05 ||
        o == 0x05010B06 || o == 0x05010B08)) = true
    · rw [if_pos c1] at h1; exact absurd rfl h1
    · rw [if_neg c1] at h2 ⊢
      by_cases c2 : o1 = 0x05010B03 ∧ (later.all fun o => !(o == 0x05010B02 ||
          o == 0x05010B05 || o == 0x05010B06 || o == 0x05010B08)) = true
      · rw [if_pos c2] at h2; exact absurd rfl h2
      · rw [if_neg c2]
  · simp [classifyType]

theorem flush_chain_types_witness :
    sampleEnv.typesDistinct ∧ Transaction.flushSplitBlocks sampleEnv s2Tx = .ok s2Tx ∧
      Transaction.flush sampleEnv s2Tx = .ok s2Out ∧
      s2Tx.rows.map Row.op = [0x05010B02, 0x05010B03] ∧
      dmlTypes s2Out.2 = [sampleEnv.TRANSACTION_UPDATE] :=
  ⟨by decide, by rfl, by rfl, by decide,
    (flush_chain_types sampleEnv s2Tx s2Tx s2Out.1 s2Out.2 (by decide) (by rfl) (by rfl)).1.trans
      (by decide)⟩

theorem flush_brackets_witness :
    Transaction.flush sampleEnvSplit s1Tx = .ok s1SplitOut ∧
      (s1SplitOut.2.filter Event.isBegin).length = 3 ∧
      wellBracketed (s1SplitOut.2.filter Event.isBracket) = true :=
  ⟨by rfl, by decide, (flush_brackets sampleEnvSplit s1Tx s1SplitOut.1 s1SplitOut.2 (by rfl)).1⟩

/-! ### Commit flush: scenario S1 -/

theorem bigTransaction_off (env : Env) (hm : env.maxMessageMb = 0) (evs : List Event) :
    bigTransaction env evs = false := by
  simp [bigTransaction, hm]

theorem isPieceOp_insert : isPieceOp 0x05010B02 = true := by decide

theorem rec1_cons_zero (a : Row) (l : List Row) : rec1 (a :: l) 0 = a.redoLogRecord1 := by simp [rec1]
theorem rec1_cons_one (a b : Row) (l : List Row) : rec1 (a :: b :: l) 1 = b.redoLogRecord1 := by simp [rec1]
theorem rec2_cons_zero (a : Row) (l : List Row) : rec2 (a :: l) 0 = a.redoLogRecord2 := by simp [rec2]
theorem rec2_cons_one (a b : Row) (l : List Row) : rec2 (a :: b :: l) 1 = b.redoLogRecord2 := by simp [rec2]
theorem setRec1_cons_zero (a : Row) (l : List Row) (f : RedoLogRecord → RedoLogRecord) :
    setRec1 (a :: l) 0 f = { a with redoLogRecord1 := f a.redoLogRecord1 } :: l := by simp [setRec1]
theorem setRec2_cons_zero (a : Row) (l : List Row) (f : RedoLogRecord → RedoLogRecord) :
    setRec2 (a :: l) 0 f = { a with redoLogRecord2 := f a.redoLogRecord2 } :: l := by simp [setRec2]
theorem setRec1_cons_one (a b : Row) (l : List Row) (f : RedoLogRecord → RedoLogRecord) :
    setRec1 (a :: b :: l) 1 f = a :: { b with redoLogRecord1 := f b.redoLogRecord1 } :: l := by simp [setRec1]
theorem setRec2_cons_one (a b : Row) (l : List Row) (f : RedoLogRecord → RedoLogRecord) :
    setRec2 (a :: b :: l) 1 f = a :: { b with redoLogRecord2 := f b.redoLogRecord2 } :: l := by simp [setRec2]

theorem nextType_insert_insert (env : Env) :
    nextType env env.TRANSACTION_INSERT 0x05010B02 = env.TRANSACTION_INSERT := by
  unfold nextType
  by_cases h : env.TRANSACTION_INSERT = 0
  · rw [if_pos h, if_pos rfl]
  · rw [if_neg h, if_pos rfl]
    simp

theorem nextType_zero_insert (env : Env) :
    nextType env 0 0x05010B02 = env.TRANSACTION_INSERT := by
  simp [nextType]

/-- The walk of `flush` over the two insert pieces of scenario S1. -/
theorem flushRows_s1 (env : Env) (t : Transaction) (a b : Row) (hs : scenarioS1 env t a b)
    (hm : env.maxMessageMb = 0) (E : List Event) :
    ∃ st mem, flushRows env t { mem := [a, b], events := E } [a, b] = .ok st ∧
      st.events = E ++ [Event.parseDML 1 1 env.TRANSACTION_INSERT mem] ∧
      rec1 mem 1 = { b.redoLogRecord1 with next := some 0 } ∧
      rec1 mem 0 = { a.redoLogRecord1 with prev := some 1 } ∧
      (rec2 mem 1).next = some 0 ∧ (rec2 mem 0).prev = some 1 := by
  obtain ⟨h1, h2, h3, h4, h5, h6, h7, h8, h9, h10, h11, h12, h13, h14, h15⟩ := hs
  have h12' := eq_true h12
  have h13' := eq_true h13
  have h14' := eq_true h14
  have h15' := eq_true h15
  simp only [flushRows, flushRow, flushSwitch, h6, h7, isPieceOp_insert, if_true, flushPiece,
    rec1_cons_zero, rec1_cons_one, rec2_cons_zero, rec2_cons_one, setRec1_cons_zero,
    setRec2_cons_zero, setRec1_cons_one, setRec2_cons_one, h8, h9, if_false, h10, h11,
    ne_eq, not_true_eq_false, not_false_eq_true, flushAfter, bigTransaction_off env hm,
    Bool.false_eq_true, linkPiece, linkFront, Option.getD_some, h12', h13', h14', h15',
    and_self, nextType_insert_insert, nextType_zero_insert, Nat.zero_add]
  refine ⟨_, _, rfl, rfl, ?_, ?_, ?_, ?_⟩
  · simp [rec1]
  · simp [rec1]
  · simp [rec2]
  · simp [rec2]

/-- C5 (as amended): in scenario S1, with the forced split disabled (`maxMessageMb = 0`),
`flush()` issues exactly one `processBegin`, one `parseDML` of type INSERT and one
`processCommit`; the head record `first1` handed to `parseDML` is the last piece `r1b`, whose
`next` link leads to `r1a` (an INSERT chain is built by prepending). -/
theorem flush_s1 (env : Env) (t : Transaction) (a b : Row) (hs : scenarioS1 env t a b)
    (hm : env.maxMessageMb = 0) :
    ∃ t1 mem, Transaction.flush env t =
        .ok (t1, [Event.processBegin t.lastScn t.commitTime t.xid,
          Event.parseDML 1 1 env.TRANSACTION_INSERT mem, Event.processCommit]) ∧
      rec1 mem 1 = { b.redoLogRecord1 with next := some 0 } ∧
      rec1 mem 0 = { a.redoLogRecord1 with prev := some 1 } ∧
      (rec2 mem 1).next = some 0 ∧ (rec2 mem 0).prev = some 1 := by
  obtain ⟨st, mem, hw, he, r1, r2, r3, r4⟩ := flushRows_s1 env t a b hs hm
    [Event.processBegin t.lastScn t.commitTime t.xid]
  obtain ⟨h1, h2, h3, h4, h5, -⟩ := hs
  have hsplit : Transaction.flushSplitBlocks env t = .ok t := by
    unfold Transaction.flushSplitBlocks
    rw [if_pos h1]
  have hcond : t.opCodes > 0 ∧ ¬ t.isRollback = true := ⟨h5, by simp [h4]⟩
  have hrows : t.chunks.flatMap TransactionChunk.rows = [a, b] := h2
  refine ⟨{ t with chunks := [], lastRedoLogRecord1 := none, lastRedoLogRecord2 := none,
                   opCodes := 0 }, mem, ?_, r1, r2, r3, r4⟩
  unfold Transaction.flush
  rw [hsplit]
  simp only []
  unfold Transaction.flushCommitted
  rw [if_pos hcond, flushChunks_eq, hrows, h2, hw]
  simp only [he]
  rfl

theorem flush_s1_witness :
    scenarioS1 sampleEnv s1Tx s1RowA s1RowB ∧ sampleEnv.maxMessageMb = 0 ∧
      (Except.toOption (Transaction.flush sampleEnv s1Tx)).map
          (fun r => (r.2.map Event.isBracket, dmlHeads r.2, dmlTypes r.2)) =
        some ([true, false, true], [(1, some 0)], [sampleEnv.TRANSACTION_INSERT]) := by
  refine ⟨by decide, rfl, ?_⟩
  obtain ⟨t1, mem, h, h1, -⟩ := flush_s1 sampleEnv s1Tx s1RowA s1RowB (by decide) rfl
  rw [h]
  simp [Except.toOption, Event.isBracket, dmlHeads, dmlTypes, h1]

/-- C5 (counterexample): on the transaction of scenario S1 with `maxMessageMb = 1`, the
single `parseDML` receives as head the row at position 1 (`r1b`, linked to `r1a` at position
0), and `flush()` issues three `processBegin` and three `processCommit`. -/
theorem flush_s1_head_is_last_piece :
    scenarioS1 sampleEnvSplit s1Tx s1RowA s1RowB ∧
      (Except.toOption (Transaction.flush sampleEnvSplit s1Tx)).map
          (fun r => (dmlHeads r.2, (r.2.filter Event.isBegin).length,
            (r.2.filter Event.isCommit).length)) = some ([(1, some 0)], 3, 3) := by
  decide

/-! ### Guards of `rollbackPartOp`, `add` and `flush` -/

/-- C11: `rollbackPartOp` returns what `deleteTransactionPart` returns, which is
false exactly when no stored pair matches the rollback records; and when it
returns false the transaction is unchanged, in particular `opCodes`,
`firstScn`, `lastScn` and `firstSequence`. -/
theorem rollbackPartOp_all_or_nothing (env : Env) (t : Transaction) (rb1 rb2 : RedoLogRecord)
    (scn : Nat) :
    (t.rollbackPartOp env rb1 rb2 scn).1 =
        (TransactionBuffer.deleteTransactionPart env t rb1 rb2).1 ∧
      ((t.rollbackPartOp env rb1 rb2 scn).1 = false ↔
        ∀ row ∈ t.rows, Transaction.matchesForRollback env row.redoLogRecord1
          row.redoLogRecord2 rb1 rb2 = false) ∧
      ((t.rollbackPartOp env rb1 rb2 scn).1 = false →
        (t.rollbackPartOp env rb1 rb2 scn).2 = t ∧
        (t.rollbackPartOp env rb1 rb2 scn).2.opCodes = t.opCodes ∧
        (t.rollbackPartOp env rb1 rb2 scn).2.firstScn = t.firstScn ∧
        (t.rollbackPartOp env rb1 rb2 scn).2.lastScn = t.lastScn ∧
        (t.rollbackPartOp env rb1 rb2 scn).2.firstSequence = t.firstSequence) := by
  cases hs : TransactionBuffer.spliceChunks (fun row => Transaction.matchesForRollback env
      row.redoLogRecord1 row.redoLogRecord2 rb1 rb2) t.chunks with
  | some chunks1 =>
    have hf := (rollbackPartOp_found env t rb1 rb2 scn chunks1 hs).1
    have hd : (TransactionBuffer.deleteTransactionPart env t rb1 rb2).1 = true := by
      unfold TransactionBuffer.deleteTransactionPart; rw [hs]
    refine ⟨by rw [hf, hd], ⟨fun h => ?_, fun h => ?_⟩, fun h => ?_⟩
    · rw [hf] at h; cases h
    · have := (spliceChunks_none _ _).2 h
      rw [hs] at this; cases this
    · rw [hf] at h; cases h
  | none =>
    have hn := rollbackPartOp_not_found env t rb1 rb2 scn hs
    have hd : (TransactionBuffer.deleteTransactionPart env t rb1 rb2).1 = false := by
      unfold TransactionBuffer.deleteTransactionPart; rw [hs]
    refine ⟨by rw [hn, hd], ⟨fun _ => (spliceChunks_none _ _).1 hs, fun _ => by rw [hn]⟩,
      fun _ => ?_⟩
    rw [hn]; exact ⟨rfl, rfl, rfl, rfl, rfl⟩

theorem rollbackPartOp_all_or_nothing_witness :
    (committedTx.rollbackPartOp sampleEnv s4rb1 { s4rb2 with slt := 8 } 150).1 = false ∧
      (committedTx.rollbackPartOp sampleEnv s4rb1 { s4rb2 with slt := 8 } 150).2 = committedTx :=
  ⟨by decide,
    ((rollbackPartOp_all_or_nothing sampleEnv committedTx s4rb1 { s4rb2 with slt := 8 } 150).2.2
      (by decide)).1⟩

theorem touch_isCommit (env : Env) (t : Transaction) (scn sequence : Nat) :
    (t.touch env scn sequence).isCommit = t.isCommit := by
  unfold Transaction.touch
  simp only []
  split_ifs <;> rfl

/-- C12, as amended: `add` does not test `isCommit`. On a transaction whose
`isCommit` flag is set (and whose counter is below 2^64 - 1) it stores the pair
as the last tuple, increases `opCodes` by one and leaves the flag set. -/
theorem add_ignores_isCommit (env : Env) (t : Transaction) (r1 r2 : RedoLogRecord)
    (sequence scn : Nat) (hc : t.isCommit = true) (hlt : t.opCodes + 1 < 2 ^ 64) :
    (t.add env r1 r2 sequence scn).rows = t.rows ++
        [{ op := (r1.opCode <<< 16) ||| r2.opCode, redoLogRecord1 := r1, redoLogRecord2 := r2,
           scn := r1.scn, size := r1.length + r2.length + env.ROW_HEADER_TOTAL }] ∧
      (t.add env r1 r2 sequence scn).opCodes = t.opCodes + 1 ∧
      (t.add env r1 r2 sequence scn).isCommit = true := by
  refine ⟨add_rows env t r1 r2 sequence scn, ?_, ?_⟩
  · rw [add_opCodes]; omega
  · unfold Transaction.add
    rw [touch_isCommit]
    exact hc

theorem add_ignores_isCommit_witness :
    committedTx.isCommit = true ∧ committedTx.opCodes + 1 < 2 ^ 64 ∧
      (committedTx.add sampleEnv s4r1 s4r2 1 110).rows.length = 2 ∧
      (committedTx.add sampleEnv s4r1 s4r2 1 110).opCodes = 2 :=
  ⟨rfl, by decide,
    by rw [(add_ignores_isCommit sampleEnv committedTx s4r1 s4r2 1 110 rfl (by decide)).1]; rfl,
    (add_ignores_isCommit sampleEnv committedTx s4r1 s4r2 1 110 rfl (by decide)).2.1⟩

/-- C12, counterexample: a transaction with `isCommit = true`, one stored pair
and `opCodes = 1` holds two pairs and has `opCodes = 2` after `add`. -/
theorem add_on_committed :
    committedTx.isCommit = true ∧ committedTx.rows.length = 1 ∧ committedTx.opCodes = 1 ∧
      (committedTx.add sampleEnv s4r1 s4r2 1 110).rows.length = 2 ∧
      (committedTx.add sampleEnv s4r1 s4r2 1 110).opCodes = 2 := by
  decide

theorem flushPiece_events_prefix (env : Env) (st st1 : FlushState) (p op : Nat) (fl : Bool)
    (h : flushPiece env st p op = .ok (st1, fl)) : ∃ suf, st1.events = st.events ++ suf := by
  obtain ⟨-, -, -, -, h5, h6⟩ := flushPiece_ok env st st1 p op fl h
  cases fl with
  | true =>
    obtain ⟨f1, f2, mem, he⟩ := h5 rfl
    exact ⟨_, he⟩
  | false => exact ⟨[], by rw [h6 rfl, List.append_nil]⟩

theorem flushRow_events_prefix (env : Env) (t : Transaction) (st st2 : FlushState) (row : Row)
    (h : flushRow env t st row = .ok st2) : ∃ suf, st2.events = st.events ++ suf := by
  unfold flushRow at h
  cases hsw : flushSwitch env st st.idx row.op with
  | error e => rw [hsw] at h; cases h
  | ok r =>
    obtain ⟨st1, fl⟩ := r
    rw [hsw] at h
    have h2 := Except.ok.inj h
    subst h2
    have h1 : ∃ suf, st1.events = st.events ++ suf := by
      by_cases hp : isPieceOp row.op = true
      · rw [flushSwitch_piece env st st.idx row.op hp] at hsw
        exact flushPiece_events_prefix env st st1 st.idx row.op fl hsw
      · have hp2 : isPieceOp row.op = false := by simpa using hp
        obtain ⟨-, -, -, e, he, -⟩ := flushSwitch_other env st st1 st.idx row.op fl hp2 hsw
        exact ⟨[e], he⟩
    obtain ⟨suf, hs⟩ := h1
    unfold flushAfter
    by_cases hb : bigTransaction env st1.events = true
    · refine ⟨suf ++ [Event.processCommit, Event.processBegin t.lastScn t.commitTime t.xid], ?_⟩
      simp only [hb, if_true]
      cases fl <;> simp [hs]
    · refine ⟨suf, ?_⟩
      simp only [hb]
      cases fl <;> simp [hs]

theorem flushRows_events_prefix (env : Env) (t : Transaction) :
    ∀ (rows : List Row) (st st1 : FlushState), flushRows env t st rows = .ok st1 →
      ∃ suf, st1.events = st.events ++ suf
  | [], st, st1, h => by
    simp only [flushRows] at h
    cases h
    exact ⟨[], by simp⟩
  | row :: rows, st, st1, h => by
    simp only [flushRows] at h
    cases hr : flushRow env t st row with
    | error e => rw [hr] at h; cases h
    | ok st2 =>
      rw [hr] at h
      obtain ⟨s1, h1⟩ := flushRow_events_prefix env t st st2 row hr
      obtain ⟨s2, h2⟩ := flushRows_events_prefix env t rows st2 st1 h
      exact ⟨s1 ++ s2, by rw [h2, h1, List.append_assoc]⟩

/-- C13, as amended: when `flush` returns normally it issues calls exactly when,
after the pending split blocks are merged, `opCodes > 0` and `isRollback` is
false, and then the first call is `processBegin` and the last `processCommit`;
`isCommit` is not consulted. -/
theorem flush_output_gate (env : Env) (t t0 t1 : Transaction) (evs : List Event)
    (h0 : Transaction.flushSplitBlocks env t = .ok t0)
    (h : Transaction.flush env t = .ok (t1, evs)) :
    (evs ≠ [] ↔ (0 < t0.opCodes ∧ t0.isRollback = false)) ∧
      (evs ≠ [] → evs.head? = some (Event.processBegin t0.lastScn t0.commitTime t0.xid) ∧
        evs.getLast? = some Event.processCommit) := by
  unfold Transaction.flush at h
  rw [h0] at h
  simp only [] at h
  unfold Transaction.flushCommitted at h
  by_cases hc : t0.opCodes > 0 ∧ ¬ t0.isRollback = true
  · rw [if_pos hc, flushChunks_eq] at h
    cases hr : flushRows env t0
        { mem := t0.rows, events := [Event.processBegin t0.lastScn t0.commitTime t0.xid] }
        (t0.chunks.flatMap TransactionChunk.rows) with
    | error e => rw [hr] at h; cases h
    | ok st =>
      rw [hr] at h
      obtain ⟨-, e2⟩ := Prod.mk.inj (Except.ok.inj h)
      obtain ⟨suf, hsuf⟩ := flushRows_events_prefix env t0 _ _ st hr
      have hne : evs ≠ [] := by rw [← e2]; simp
      have hhead : st.events.head? =
          some (Event.processBegin t0.lastScn t0.commitTime t0.xid) := by
        rw [hsuf]; rfl
      refine ⟨⟨fun _ => ⟨hc.1, by simpa using hc.2⟩, fun _ => hne⟩, fun _ => ⟨?_, ?_⟩⟩
      · rw [← e2]
        cases hst : st.events with
        | nil => rw [hst] at hhead; cases hhead
        | cons x xs => rw [hst] at hhead; simpa using hhead
      · rw [← e2]; simp
  · rw [if_neg hc] at h
    obtain ⟨-, e2⟩ := Prod.mk.inj (Except.ok.inj h)
    refine ⟨⟨fun hne => absurd e2.symm hne, fun hg => absurd ⟨hg.1, by simp [hg.2]⟩ hc⟩,
      fun hne => absurd e2.symm hne⟩

theorem flush_output_gate_witness :
    Transaction.flushSplitBlocks sampleEnv uncommittedTx = .ok uncommittedTx ∧
      Transaction.flush sampleEnv uncommittedTx = .ok uncommittedOut ∧
      uncommittedOut.2 ≠ [] ∧ uncommittedTx.isCommit = false :=
  ⟨by rfl, by rfl,
    ((flush_output_gate sampleEnv uncommittedTx uncommittedTx uncommittedOut.1 uncommittedOut.2
      (by rfl) (by rfl)).1).2 (by decide),
    rfl⟩

/-- C13, counterexample: the transaction of scenario S1 with `isCommit = false`
is flushed with a `processBegin` first and a `processCommit` last. -/
theorem flush_emits_without_isCommit :
    uncommittedTx.isCommit = false ∧ 0 < uncommittedTx.opCodes ∧
      Transaction.flush sampleEnv uncommittedTx = .ok uncommittedOut ∧
      uncommittedOut.2.head? = some (Event.processBegin 101 0 5) ∧
      uncommittedOut.2.getLast? = some Event.processCommit :=
  ⟨rfl, by decide, by rfl, by rfl, by rfl⟩

/-! ### The `shutdown` flag -/

theorem touch_shutdown (env : Env) (t : Transaction) (b : Bool) (scn sequence : Nat) :
    touch env { t with shutdown := b } scn sequence =
      { touch env t scn sequence with shutdown := b } := by
  unfold Transaction.touch
  simp only []
  split_ifs <;> rfl

theorem add_shutdown (env : Env) (t : Transaction) (b : Bool) (r1 r2 : RedoLogRecord)
    (sequence scn : Nat) :
    add env { t with shutdown := b } r1 r2 sequence scn =
      { add env t r1 r2 sequence scn with shutdown := b } := by
  unfold Transaction.add
  simp only []
  rw [← touch_shutdown]
  rfl

theorem mergeSplitBlocks_shutdown (env : Env) (t : Transaction) (b : Bool)
    (h m tl r2 : Option RedoLogRecord) :
    mergeSplitBlocks env { t with shutdown := b } h m tl r2 =
      (mergeSplitBlocks env t h m tl r2).map fun t1 => { t1 with shutdown := b } := by
  unfold Transaction.mergeSplitBlocks
  cases h with
  | none => rfl
  | some head =>
    cases tl with
    | none => rfl
    | some tail =>
      cases r2 with
      | none => rfl
      | some record2 =>
        simp only []
        split_ifs
        · rfl
        · rw [add_shutdown]; rfl

theorem splitBlockGroup_shutdown (env : Env) (t : Transaction) (b : Bool) (c : SplitCursor)
    (r : RedoLogRecord) :
    splitBlockGroup env { t with shutdown := b } c r =
      (splitBlockGroup env t c r).map fun x => ({ x.1 with shutdown := b }, x.2) := by
  unfold Transaction.splitBlockGroup
  cases hc : c.curRedoLogRecord with
  | none => rfl
  | some cur =>
    simp only []
    split_ifs
    · rw [mergeSplitBlocks_shutdown]
      cases mergeSplitBlocks env t c.headRedoLogRecord1 c.midRedoLogRecord1
        c.tailRedoLogRecord1 c.redoLogRecord2 <;> rfl
    · rfl

theorem flushSplitLoop_shutdown (env : Env) (b : Bool) :
    ∀ (blocks : List SplitBlock) (t : Transaction) (c : SplitCursor),
      flushSplitLoop env { t with shutdown := b } c blocks =
        (flushSplitLoop env t c blocks).map fun x => ({ x.1 with shutdown := b }, x.2)
  | [], t, c => rfl
  | block :: rest, t, c => by
    simp only [flushSplitLoop]
    rw [splitBlockGroup_shutdown]
    cases hg : splitBlockGroup env t c block.record1 with
    | error e => rfl
    | ok x =>
      obtain ⟨t1, c1⟩ := x
      simp only [Except.map]
      exact flushSplitLoop_shutdown env b rest { t1 with splitBlockList := rest }
        (splitBlockRole env c1 block)

theorem flushSplitBlocks_shutdown (env : Env) (t : Transaction) (b : Bool) :
    flushSplitBlocks env { t with shutdown := b } =
      (flushSplitBlocks env t).map fun t1 => { t1 with shutdown := b } := by
  unfold Transaction.flushSplitBlocks
  by_cases h : t.splitBlockList = []
  · rw [if_pos h, if_pos h]; rfl
  · rw [if_neg h, if_neg h]
    simp only []
    rw [flushSplitLoop_shutdown]
    cases hl : flushSplitLoop env t {} t.splitBlockList with
    | error e => rfl
    | ok x =>
      obtain ⟨t1, c⟩ := x
      simp only [Except.map]
      split_ifs
      · rw [mergeSplitBlocks_shutdown]; rfl
      · rfl

theorem flushRows_shutdown (env : Env) (t : Transaction) (b : Bool) :
    ∀ (rows : List Row) (st : FlushState),
      flushRows env { t with shutdown := b } st rows = flushRows env t st rows
  | [], st => rfl
  | row :: rows, st => by
    simp only [flushRows]
    have h : flushRow env { t with shutdown := b } st row = flushRow env t st row := rfl
    rw [h]
    cases flushRow env t st row with
    | error e => rfl
    | ok st1 => exact flushRows_shutdown env t b rows st1

theorem flushCommitted_shutdown (env : Env) (t : Transaction) (b : Bool) :
    flushCommitted env { t with shutdown := b } =
      (flushCommitted env t).map fun x => ({ x.1 with shutdown := b }, x.2) := by
  unfold Transaction.flushCommitted
  simp only [flushChunks_eq]
  have hr : Transaction.rows { t with shutdown := b } = t.rows := rfl
  by_cases hc : t.opCodes > 0 ∧ ¬ t.isRollback = true
  · rw [if_pos hc, if_pos hc, flushRows_shutdown, hr]
    cases flushRows env t
        { mem := t.rows, events := [Event.processBegin t.lastScn t.commitTime t.xid] }
        (t.chunks.flatMap TransactionChunk.rows) <;> rfl
  · rw [if_neg hc, if_neg hc]; rfl

/-- C14, as amended: `flush` never reads the `shutdown` flag. Run on a
transaction with the flag set to any value it issues the same calls, or raises
the same fatal condition, as on the transaction itself, and it leaves the
transaction in the same state except for the flag. -/
theorem flush_ignores_shutdown (env : Env) (t : Transaction) (b : Bool) :
    flush env { t with shutdown := b } =
      (flush env t).map fun x => ({ x.1 with shutdown := b }, x.2) := by
  unfold Transaction.flush
  rw [flushSplitBlocks_shutdown]
  cases flushSplitBlocks env t with
  | error e => rfl
  | ok t0 =>
    simp only [Except.map]
    exact flushCommitted_shutdown env t0 b

/-- C14, counterexample: a transaction with `shutdown = true` and two stored
records, each a complete single-piece insert: `flush` passes both to
`parseDML`, the second after the first. -/
theorem flush_walks_all_when_shutdown :
    shutdownTx.shutdown = true ∧ shutdownTx.rows.length = 2 ∧
      Transaction.flush sampleEnv shutdownTx = .ok shutdownOut ∧
      dmlHeads shutdownOut.2 = [(0, none), (1, none)] ∧ shutdownOut.2.length = 4 :=
  ⟨rfl, by rfl, by rfl, by rfl, by rfl⟩

/-! ### Commit flush: the walk, record by record -/

theorem setRec1_length (mem : List Row) (p : Nat) (f : RedoLogRecord → RedoLogRecord) :
    (setRec1 mem p f).length = mem.length := by
  unfold setRec1
  cases mem[p]? <;> simp

theorem setRec2_length (mem : List Row) (p : Nat) (f : RedoLogRecord → RedoLogRecord) :
    (setRec2 mem p f).length = mem.length := by
  unfold setRec2
  cases mem[p]? <;> simp

theorem rec2_setRec1 (mem : List Row) (p q : Nat) (f : RedoLogRecord → RedoLogRecord) :
    rec2 (setRec1 mem p f) q = rec2 mem q := by
  unfold setRec1 rec2
  cases h : mem[p]? with
  | none => rfl
  | some row =>
    by_cases hq : p = q
    · subst hq
      simp only [List.getElem?_set_self (List.getElem?_eq_some_iff.1 h).1, h]
      rfl
    · simp only [List.getElem?_set_ne hq]

theorem rec2_setRec2 (mem : List Row) (p q : Nat) (f : RedoLogRecord → RedoLogRecord) :
    rec2 (setRec2 mem p f) q = if q = p ∧ p < mem.length then f (rec2 mem p) else rec2 mem q := by
  unfold setRec2 rec2
  cases h : mem[p]? with
  | none =>
    have : ¬ p < mem.length := by
      intro hlt
      rw [List.getElem?_eq_getElem hlt] at h
      cases h
    simp [this]
  | some row =>
    have hlt : p < mem.length := (List.getElem?_eq_some_iff.1 h).1
    by_cases hq : q = p
    · subst hq
      simp only [List.getElem?_set_self hlt, h, hlt, and_self, if_true]
      rfl
    · have hq2 : p ≠ q := fun e => hq e.symm
      simp only [List.getElem?_set_ne hq2, hq, false_and, if_false]

theorem rec2_setRec1At (mem : List Row) (p : Option Nat) (q : Nat)
    (f : RedoLogRecord → RedoLogRecord) : rec2 (setRec1At mem p f) q = rec2 mem q := by
  cases p with
  | none => rfl
  | some x => exact rec2_setRec1 mem x q f

theorem strip2_setRec2_next (mem : List Row) (p q : Nat) (v : Option Nat) :
    stripLinks2 (rec2 (setRec2 mem p fun r => { r with next := v }) q) =
      stripLinks2 (rec2 mem q) := by
  rw [rec2_setRec2]
  split_ifs with h
  · rw [h.1]; rfl
  · rfl

theorem strip2_setRec2_prev (mem : List Row) (p q : Nat) (v : Option Nat) :
    stripLinks2 (rec2 (setRec2 mem p fun r => { r with prev := v }) q) =
      stripLinks2 (rec2 mem q) := by
  rw [rec2_setRec2]
  split_ifs with h
  · rw [h.1]; rfl
  · rfl

theorem strip2_setRec2_after (mem : List Row) (p q : Nat) (v : Nat) :
    stripLinks2 (rec2 (setRec2 mem p fun r => { r with suppLogAfter := v }) q) =
      stripLinks2 (rec2 mem q) := by
  rw [rec2_setRec2]
  split_ifs with h
  · rw [h.1]; rfl
  · rfl

theorem strip2_setRec2At_next (mem : List Row) (p : Option Nat) (q : Nat) (v : Option Nat) :
    stripLinks2 (rec2 (setRec2At mem p fun r => { r with next := v }) q) =
      stripLinks2 (rec2 mem q) := by
  cases p with
  | none => rfl
  | some x => exact strip2_setRec2_next mem x q v

theorem linkFront_strip2 (st : FlushState) (p f1 f2 q : Nat) :
    stripLinks2 (rec2 (linkFront st p f1 f2).mem q) = stripLinks2 (rec2 st.mem q) := by
  simp only [linkFront, rec2_setRec1, strip2_setRec2_next, strip2_setRec2_prev]

theorem linkBeforeOnlyTail_strip2 (st : FlushState) (p l1 l2 q : Nat) :
    stripLinks2 (rec2 (linkBeforeOnlyTail st p l1 l2).mem q) = stripLinks2 (rec2 st.mem q) := by
  simp only [linkBeforeOnlyTail, rec2_setRec1, strip2_setRec2_next, strip2_setRec2_prev]

theorem linkBeforeTail_strip2 (st : FlushState) (p l1 l2 q : Nat) :
    stripLinks2 (rec2 (linkBeforeTail st p l1 l2).mem q) = stripLinks2 (rec2 st.mem q) := by
  simp only [linkBeforeTail, copyPrev1, copyPrev2, setPrevNext1, setPrevNext2, rec2_setRec1,
    rec2_setRec1At, strip2_setRec2_next, strip2_setRec2_prev, strip2_setRec2At_next]

theorem linkBack_strip2 (st : FlushState) (p l1 l2 q : Nat) :
    stripLinks2 (rec2 (linkBack st p l1 l2).mem q) = stripLinks2 (rec2 st.mem q) := by
  simp only [linkBack, rec2_setRec1, strip2_setRec2_next, strip2_setRec2_prev]

theorem linkPiece_strip2 (env : Env) (st st1 : FlushState) (p op f1 f2 l1 l2 : Nat)
    (h : linkPiece env st p op f1 f2 l1 l2 = .ok st1) (q : Nat) :
    stripLinks2 (rec2 st1.mem q) = stripLinks2 (rec2 st.mem q) := by
  rcases linkPiece_cases env st st1 p op f1 f2 l1 l2 h with h | h | h | h
  · rw [h]; exact linkFront_strip2 st p f1 f2 q
  · rw [h]; exact linkBeforeOnlyTail_strip2 st p l1 l2 q
  · rw [h]; exact linkBeforeTail_strip2 st p l1 l2 q
  · rw [h]; exact linkBack_strip2 st p l1 l2 q

theorem strip2_fields (a b : RedoLogRecord) (h : stripLinks2 a = stripLinks2 b) :
    a.object = b.object ∧ a.opCode = b.opCode := by
  have h1 := congrArg RedoLogRecord.object h
  have h2 := congrArg RedoLogRecord.opCode h
  exact ⟨h1, h2⟩

theorem strip_fields (a b : RedoLogRecord) (h : stripLinks a = stripLinks b) :
    a.object = b.object ∧ a.suppLogBdba = b.suppLogBdba ∧ a.suppLogSlot = b.suppLogSlot ∧
      a.suppLogType = b.suppLogType ∧ a.suppLogFb = b.suppLogFb := by
  have h1 := congrArg RedoLogRecord.object h
  have h2 := congrArg RedoLogRecord.suppLogBdba h
  have h3 := congrArg RedoLogRecord.suppLogSlot h
  have h4 := congrArg RedoLogRecord.suppLogType h
  have h5 := congrArg RedoLogRecord.suppLogFb h
  exact ⟨h1, h2, h3, h4, h5⟩

theorem flushPiece_eq (env : Env) (st : FlushState) (p op : Nat) :
    flushPiece env st p op =
      if (rec1 st.mem p).suppLogType = 0 then .error "SUPPLEMENTAL_LOG_DATA_MIN missing"
      else
        match (match st.first1 with
          | none => Except.ok { pieceEntry env st p op with
              first1 := some p, first2 := some p, last1 := some p, last2 := some p }
          | some f1 => linkPiece env (pieceEntry env st p op) p op f1 (st.first2.getD 0)
              (st.last1.getD 0) (st.last2.getD 0)) with
        | .error e => .error e
        | .ok st1 =>
          if ((rec1 st1.mem p).suppLogFb &&& env.FB_L) ≠ 0 then
            .ok ({ st1 with events := st1.events ++
              [Event.parseDML (st1.first1.getD 0) (st1.first2.getD 0) st1.type st1.mem] }, true)
          else .ok (st1, false) := by
  unfold flushPiece pieceEntry
  simp only [rec1_setRec2]
  try rfl

theorem pieceEntry_chainMatches (env : Env) (st : FlushState) (p op f1 f2 l1 : Nat) :
    chainMatches (pieceEntry env st p op).mem p f1 f2 l1 ↔ chainMatches st.mem p f1 f2 l1 := by
  unfold chainMatches pieceEntry
  simp only [rec1_setRec2]
  have h : ∀ q, (rec2 (setRec2 st.mem p fun r =>
      { r with suppLogAfter := (rec1 st.mem p).suppLogAfter }) q).object = (rec2 st.mem q).object :=
    fun q => (strip2_fields _ _ (strip2_setRec2_after st.mem p q _)).1
  rw [h f2, h p]

theorem linkPiece_error (env : Env) (st : FlushState) (p op f1 f2 l1 l2 : Nat)
    (h : ¬ chainMatches st.mem p f1 f2 l1) :
    linkPiece env st p op f1 f2 l1 l2 = .error "next BDBA/SLOT does not match" := by
  unfold linkPiece
  unfold chainMatches at h
  rw [if_neg h]

theorem linkPiece_some (env : Env) (st : FlushState) (p op f1 f2 l1 l2 : Nat)
    (h : chainMatches st.mem p f1 f2 l1) :
    ∃ st1, linkPiece env st p op f1 f2 l1 l2 = .ok st1 := by
  unfold linkPiece
  unfold chainMatches at h
  rw [if_pos h]
  by_cases h2 : st.type = env.TRANSACTION_INSERT
  · rw [if_pos h2]; exact ⟨_, rfl⟩
  · rw [if_neg h2]
    by_cases h3 : op = 0x05010B06 ∧ (rec2 st.mem l2).opCode = 0x0B02
    · rw [if_pos h3]
      by_cases h4 : (rec1 st.mem l1).prev = none
      · rw [if_pos h4]; exact ⟨_, rfl⟩
      · rw [if_neg h4]; exact ⟨_, rfl⟩
    · rw [if_neg h3]; exact ⟨_, rfl⟩

/-- The fatal conditions of a row piece: missing supplemental logging first,
then the linkage test when a chain is open. -/
theorem flushPiece_error (env : Env) (st : FlushState) (p op : Nat) :
    ((rec1 st.mem p).suppLogType = 0 →
        flushPiece env st p op = .error "SUPPLEMENTAL_LOG_DATA_MIN missing") ∧
      ((rec1 st.mem p).suppLogType ≠ 0 → st.first1 = none →
        ∃ r, flushPiece env st p op = .ok r) ∧
      (∀ f1, (rec1 st.mem p).suppLogType ≠ 0 → st.first1 = some f1 →
        chainMatches st.mem p f1 (st.first2.getD 0) (st.last1.getD 0) →
        ∃ r, flushPiece env st p op = .ok r) ∧
      (∀ f1, (rec1 st.mem p).suppLogType ≠ 0 → st.first1 = some f1 →
        ¬ chainMatches st.mem p f1 (st.first2.getD 0) (st.last1.getD 0) →
        flushPiece env st p op = .error "next BDBA/SLOT does not match") := by
  refine ⟨fun h => ?_, fun h hf => ?_, fun f1 h hf hm => ?_, fun f1 h hf hm => ?_⟩
  · rw [flushPiece_eq, if_pos h]
  · rw [flushPiece_eq, if_neg h, hf]
    simp only []
    split_ifs <;> exact ⟨_, rfl⟩
  · rw [flushPiece_eq, if_neg h, hf]
    simp only []
    obtain ⟨st1, h1⟩ := linkPiece_some env (pieceEntry env st p op) p op f1 (st.first2.getD 0)
      (st.last1.getD 0) (st.last2.getD 0) ((pieceEntry_chainMatches env st p op _ _ _).2 hm)
    rw [h1]
    simp only []
    split_ifs <;> exact ⟨_, rfl⟩
  · rw [flushPiece_eq, if_neg h, hf]
    simp only []
    rw [linkPiece_error env (pieceEntry env st p op) p op f1 (st.first2.getD 0)
      (st.last1.getD 0) (st.last2.getD 0)
      (fun hc => hm ((pieceEntry_chainMatches env st p op _ _ _).1 hc))]

theorem flushPiece_error_cases (env : Env) (st : FlushState) (p op : Nat) (e : String)
    (h : flushPiece env st p op = .error e) :
    e = "SUPPLEMENTAL_LOG_DATA_MIN missing" ∨ e = "next BDBA/SLOT does not match" := by
  obtain ⟨h1, h2, h3, h4⟩ := flushPiece_error env st p op
  by_cases hs : (rec1 st.mem p).suppLogType = 0
  · rw [h1 hs] at h
    exact Or.inl (Except.error.inj h).symm
  · cases hf : st.first1 with
    | none =>
      obtain ⟨r, hr⟩ := h2 hs hf
      rw [hr] at h; cases h
    | some f1 =>
      by_cases hm : chainMatches st.mem p f1 (st.first2.getD 0) (st.last1.getD 0)
      · obtain ⟨r, hr⟩ := h3 f1 hs hf hm
        rw [hr] at h; cases h
      · rw [h4 f1 hs hf hm] at h
        exact Or.inr (Except.error.inj h).symm

theorem flushPiece_strip2 (env : Env) (st st1 : FlushState) (p op : Nat) (fl : Bool)
    (h : flushPiece env st p op = .ok (st1, fl)) (q : Nat) :
    stripLinks2 (rec2 st1.mem q) = stripLinks2 (rec2 st.mem q) := by
  rw [flushPiece_eq] at h
  by_cases hs : (rec1 st.mem p).suppLogType = 0
  · rw [if_pos hs] at h; cases h
  · rw [if_neg hs] at h
    have hentry : stripLinks2 (rec2 (pieceEntry env st p op).mem q) = stripLinks2 (rec2 st.mem q) :=
      strip2_setRec2_after st.mem p q _
    cases hf : st.first1 with
    | none =>
      rw [hf] at h
      simp only [] at h
      split_ifs at h
      · obtain ⟨e1, -⟩ := Prod.mk.inj (Except.ok.inj h)
        rw [← e1]; exact hentry
      · obtain ⟨e1, -⟩ := Prod.mk.inj (Except.ok.inj h)
        rw [← e1]; exact hentry
    | some f1 =>
      rw [hf] at h
      simp only [] at h
      cases hl : linkPiece env (pieceEntry env st p op) p op f1 (st.first2.getD 0)
          (st.last1.getD 0) (st.last2.getD 0) with
      | error e => rw [hl] at h; cases h
      | ok st2 =>
        rw [hl] at h
        simp only [] at h
        have h2 := linkPiece_strip2 env _ _ _ _ _ _ _ _ hl q
        split_ifs at h
        · obtain ⟨e1, -⟩ := Prod.mk.inj (Except.ok.inj h)
          rw [← e1]; exact h2.trans hentry
        · obtain ⟨e1, -⟩ := Prod.mk.inj (Except.ok.inj h)
          rw [← e1]; exact h2.trans hentry

theorem flushAfter_mem (env : Env) (t : Transaction) (st : FlushState) (fl : Bool) (row : Row) :
    (flushAfter env t st fl row).mem = st.mem := by
  unfold flushAfter
  simp only []
  split_ifs <;> rfl

theorem flushRow_error_iff (env : Env) (t : Transaction) (st : FlushState) (row : Row)
    (e : String) :
    flushRow env t st row = .error e ↔ flushSwitch env st st.idx row.op = .error e := by
  unfold flushRow
  cases flushSwitch env st st.idx row.op with
  | error e1 => simp
  | ok r => simp

theorem flushRow_strip2 (env : Env) (t : Transaction) (st st2 : FlushState) (row : Row)
    (h : flushRow env t st row = .ok st2) (q : Nat) :
    stripLinks2 (rec2 st2.mem q) = stripLinks2 (rec2 st.mem q) := by
  unfold flushRow at h
  cases hsw : flushSwitch env st st.idx row.op with
  | error e => rw [hsw] at h; cases h
  | ok r =>
    obtain ⟨st1, fl⟩ := r
    rw [hsw] at h
    have h2 := Except.ok.inj h
    subst h2
    rw [flushAfter_mem]
    by_cases hp : isPieceOp row.op = true
    · rw [flushSwitch_piece env st st.idx row.op hp] at hsw
      exact flushPiece_strip2 env st st1 st.idx row.op fl hsw q
    · have hp2 : isPieceOp row.op = false := by simpa using hp
      obtain ⟨-, -, hm, -⟩ := flushSwitch_other env st st1 st.idx row.op fl hp2 hsw
      rw [hm]

/-- What the walk leaves alone: after the rows `rows` the position has advanced
by their number and every record in memory is as stored, except for its chain
links and the copy of `suppLogAfter`. -/
theorem flushRows_ok (env : Env) (t : Transaction) :
    ∀ (rows : List Row) (st st1 : FlushState), flushRows env t st rows = .ok st1 →
      st1.idx = st.idx + rows.length ∧
        (∀ q, stripLinks (rec1 st1.mem q) = stripLinks (rec1 st.mem q)) ∧
        (∀ q, stripLinks2 (rec2 st1.mem q) = stripLinks2 (rec2 st.mem q))
  | [], st, st1, h => by
    simp only [flushRows] at h
    cases h
    exact ⟨rfl, fun _ => rfl, fun _ => rfl⟩
  | row :: rows, st, st1, h => by
    simp only [flushRows] at h
    cases hr : flushRow env t st row with
    | error e => rw [hr] at h; cases h
    | ok st2 =>
      rw [hr] at h
      obtain ⟨a1, a2, -⟩ := flushRow_ok env t st st2 row hr
      have a3 := flushRow_strip2 env t st st2 row hr
      obtain ⟨b1, b2, b3⟩ := flushRows_ok env t rows st2 st1 h
      refine ⟨?_, fun q => (b2 q).trans (a2 q), fun q => (b3 q).trans (a3 q)⟩
      rw [b1, a1, List.length_cons]; omega

theorem flushRows_error (env : Env) (t : Transaction) :
    ∀ (rows : List Row) (st : FlushState) (e : String), flushRows env t st rows = .error e →
      ∃ pre row post st1, rows = pre ++ row :: post ∧ flushRows env t st pre = .ok st1 ∧
        flushRow env t st1 row = .error e
  | [], st, e, h => by
    simp only [flushRows] at h
    cases h
  | row :: rows, st, e, h => by
    simp only [flushRows] at h
    cases hr : flushRow env t st row with
    | error e1 =>
      rw [hr] at h
      have := Except.error.inj h
      subst this
      exact ⟨[], row, rows, st, rfl, rfl, hr⟩
    | ok st2 =>
      rw [hr] at h
      obtain ⟨pre, r, post, st1, h1, h2, h3⟩ := flushRows_error env t rows st2 e h
      refine ⟨row :: pre, r, post, st1, by rw [h1]; rfl, ?_, h3⟩
      simp only [flushRows, hr]
      exact h2

/-- The record the walk of `flush` has reached after the rows `pre`: it is the
stored one, up to chain links and `suppLogAfter`, and a fatal condition raised
at it is the outcome of `flush`. -/
theorem flush_reach (env : Env) (t t0 : Transaction) (pre post : List Row) (row : Row)
    (st1 : FlushState) (h0 : flushSplitBlocks env t = .ok t0) (hc : 0 < t0.opCodes)
    (hr : t0.isRollback = false) (hrows : t0.rows = pre ++ row :: post)
    (hpre : flushRows env t0 (walkStart t0) pre = .ok st1) :
    st1.idx = pre.length ∧ stripLinks (rec1 st1.mem st1.idx) = stripLinks row.redoLogRecord1 ∧
      stripLinks2 (rec2 st1.mem st1.idx) = stripLinks2 row.redoLogRecord2 ∧
      ∀ e, flushRow env t0 st1 row = .error e → flush env t = .error e := by
  obtain ⟨a1, a2, a3⟩ := flushRows_ok env t0 pre _ st1 hpre
  have hidx : st1.idx = pre.length := by rw [a1]; simp [walkStart]
  have hget : t0.rows[pre.length]? = some row := by
    rw [hrows, List.getElem?_append_right (Nat.le_refl _), Nat.sub_self]
    simp
  refine ⟨hidx, ?_, ?_, fun e he => ?_⟩
  · rw [a2, hidx]
    simp only [walkStart, rec1, hget]
    rfl
  · rw [a3, hidx]
    simp only [walkStart, rec2, hget]
    rfl
  · unfold Transaction.flush
    rw [h0]
    simp only []
    unfold Transaction.flushCommitted
    rw [if_pos ⟨hc, by simp [hr]⟩, flushChunks_eq]
    have hrows2 : t0.chunks.flatMap TransactionChunk.rows = pre ++ row :: post := hrows
    have hw : flushRows env t0 (walkStart t0) (pre ++ row :: post) = .error e := by
      rw [flushRows_append, hpre]
      simp only [flushRows, he]
    rw [hrows2]
    unfold walkStart at hw
    rw [hw]

/-! ### Fatal conditions of the walk -/

theorem isPieceOp_iff (op : Nat) :
    isPieceOp op = true ↔ op ∈ [0x05010B02, 0x05010B03, 0x05010B05, 0x05010B06, 0x05010B08,
      0x05010B10] := by
  unfold isPieceOp
  simp only [Bool.or_eq_true, beq_iff_eq, List.mem_cons, List.mem_singleton, List.mem_nil_iff,
    or_false, or_assoc]

theorem flushRow_unknown_iff (env : Env) (t : Transaction) (st : FlushState) (row : Row) :
    flushRow env t st row = .error "Unknown OpCode" ↔
      row.op ∉ [0x05010B02, 0x05010B03, 0x05010B05, 0x05010B06, 0x05010B08, 0x05010B10,
        0x05010B0B, 0x05010B0C, 0x18010000] := by
  rw [flushRow_error_iff]
  by_cases hp : isPieceOp row.op = true
  · rw [flushSwitch_piece env st st.idx row.op hp]
    have hmem := (isPieceOp_iff row.op).1 hp
    constructor
    · intro h
      rcases flushPiece_error_cases env st st.idx row.op _ h with h1 | h1
      · exact absurd h1 (by decide)
      · exact absurd h1 (by decide)
    · intro h
      exfalso
      apply h
      simp only [List.mem_cons, List.mem_singleton, List.mem_nil_iff, or_false] at hmem ⊢
      tauto
  · have hp2 : isPieceOp row.op = false := by simpa using hp
    have hnm := fun h => hp ((isPieceOp_iff row.op).2 h)
    unfold flushSwitch
    rw [hp2]
    simp only [Bool.false_eq_true, if_false]
    simp only [List.mem_cons, List.mem_singleton, List.mem_nil_iff, or_false] at hnm ⊢
    by_cases h1 : row.op = 0x05010B0B
    · rw [if_pos h1]
      constructor
      · intro h; cases h
      · intro h; exact absurd (by tauto) h
    · rw [if_neg h1]
      by_cases h2 : row.op = 0x05010B0C
      · rw [if_pos h2]
        constructor
        · intro h; cases h
        · intro h; exact absurd (by tauto) h
      · rw [if_neg h2]
        by_cases h3 : row.op = 0x18010000
        · rw [if_pos h3]
          constructor
          · intro h; cases h
          · intro h; exact absurd (by tauto) h
        · rw [if_neg h3]
          constructor
          · intro _; tauto
          · intro _; rfl

/-- C15: after the split blocks are merged, when the walk of `flush` reaches a
stored record whose `op2` is none of the nine opcodes of the `switch`, `flush`
raises `Unknown OpCode`; and when `flush` raises `Unknown OpCode` it does so at
a stored record whose `op2` is none of the nine. -/
theorem flush_unknown_opcode (env : Env) (t t0 : Transaction)
    (h0 : flushSplitBlocks env t = .ok t0) (hc : 0 < t0.opCodes) (hr : t0.isRollback = false) :
    (∀ (pre post : List Row) (row : Row) (st1 : FlushState),
        t0.rows = pre ++ row :: post → flushRows env t0 (walkStart t0) pre = .ok st1 →
        row.op ∉ [0x05010B02, 0x05010B03, 0x05010B05, 0x05010B06, 0x05010B08, 0x05010B10,
          0x05010B0B, 0x05010B0C, 0x18010000] →
        flush env t = .error "Unknown OpCode") ∧
      (flush env t = .error "Unknown OpCode" →
        ∃ (pre post : List Row) (row : Row) (st1 : FlushState),
          t0.rows = pre ++ row :: post ∧ flushRows env t0 (walkStart t0) pre = .ok st1 ∧
          row.op ∉ [0x05010B02, 0x05010B03, 0x05010B05, 0x05010B06, 0x05010B08, 0x05010B10,
            0x05010B0B, 0x05010B0C, 0x18010000]) := by
  refine ⟨fun pre post row st1 hrows hpre hop => ?_, fun h => ?_⟩
  · exact (flush_reach env t t0 pre post row st1 h0 hc hr hrows hpre).2.2.2 _
      ((flushRow_unknown_iff env t0 st1 row).2 hop)
  · unfold Transaction.flush at h
    rw [h0] at h
    simp only [] at h
    unfold Transaction.flushCommitted at h
    rw [if_pos ⟨hc, by simp [hr]⟩, flushChunks_eq] at h
    cases hw : flushRows env t0 (walkStart t0) (t0.chunks.flatMap TransactionChunk.rows) with
    | ok st =>
      unfold walkStart at hw
      rw [hw] at h
      cases h
    | error e =>
      have he : e = "Unknown OpCode" := by
        unfold walkStart at hw
        rw [hw] at h
        exact Except.error.inj h
      subst he
      obtain ⟨pre, row, post, st1, h1, h2, h3⟩ := flushRows_error env t0 _ _ _ hw
      exact ⟨pre, post, row, st1, h1, h2, (flushRow_unknown_iff env t0 st1 row).1 h3⟩

theorem flush_unknown_opcode_witness :
    flushSplitBlocks sampleEnv unknownOpTx = .ok unknownOpTx ∧ 0 < unknownOpTx.opCodes ∧
      unknownOpTx.isRollback = false ∧
      flush sampleEnv unknownOpTx = .error "Unknown OpCode" :=
  ⟨by rfl, by decide, rfl,
    (flush_unknown_opcode sampleEnv unknownOpTx unknownOpTx (by rfl) (by decide) rfl).1
      (unknownOpTx.rows.take 1) (unknownOpTx.rows.drop 2) ((unknownOpTx.rows.drop 1).headD s1RowA)
      (walkAfter sampleEnv unknownOpTx 1) (by rfl) (by rfl) (by decide)⟩

/-- C16: when the walk of `flush` reaches a row piece whose undo record has
`suppLogType = 0`, `flush` raises `SUPPLEMENTAL_LOG_DATA_MIN missing` at that
record, whatever the state of the chain: the piece is neither linked nor passed
to `parseDML`. -/
theorem flush_supplemental_missing (env : Env) (t t0 : Transaction) (pre post : List Row)
    (row : Row) (st1 : FlushState) (h0 : flushSplitBlocks env t = .ok t0)
    (hc : 0 < t0.opCodes) (hr : t0.isRollback = false) (hrows : t0.rows = pre ++ row :: post)
    (hpre : flushRows env t0 (walkStart t0) pre = .ok st1)
    (hp : isPieceOp row.op = true) (hs : row.redoLogRecord1.suppLogType = 0) :
    flushRow env t0 st1 row = .error "SUPPLEMENTAL_LOG_DATA_MIN missing" ∧
      flush env t = .error "SUPPLEMENTAL_LOG_DATA_MIN missing" := by
  obtain ⟨-, a2, -, a4⟩ := flush_reach env t t0 pre post row st1 h0 hc hr hrows hpre
  have hs1 : (rec1 st1.mem st1.idx).suppLogType = 0 := by
    rw [(strip_fields _ _ a2).2.2.2.1, hs]
  have he : flushRow env t0 st1 row = .error "SUPPLEMENTAL_LOG_DATA_MIN missing" := by
    rw [flushRow_error_iff, flushSwitch_piece env st1 st1.idx row.op hp]
    exact (flushPiece_error env st1 st1.idx row.op).1 hs1
  exact ⟨he, a4 _ he⟩

theorem flush_supplemental_missing_witness :
    flushSplitBlocks sampleEnv noSuppLogTx = .ok noSuppLogTx ∧ 0 < noSuppLogTx.opCodes ∧
      noSuppLogTx.isRollback = false ∧
      flush sampleEnv noSuppLogTx = .error "SUPPLEMENTAL_LOG_DATA_MIN missing" :=
  ⟨by rfl, by decide, rfl,
    (flush_supplemental_missing sampleEnv noSuppLogTx noSuppLogTx
      (noSuppLogTx.rows.take 1) (noSuppLogTx.rows.drop 2) ((noSuppLogTx.rows.drop 1).headD s1RowA)
      (walkAfter sampleEnv noSuppLogTx 1) (by rfl) (by decide) rfl (by rfl) (by rfl) (by decide)
      (by decide)).2⟩

/-- C17, as amended: at a row piece the walk of `flush` has reached, `next
BDBA/SLOT does not match` is never raised while no chain is open; while a chain
is open it is raised if and only if the undo record of the piece has nonzero
`suppLogType` and its `suppLogBdba` or `suppLogSlot` differs from the tail's, or
its object from the head's, or the object of its companion from that of the
head's companion. With `suppLogType = 0` the other fatal condition comes first. -/
theorem flush_chain_mismatch (env : Env) (t t0 : Transaction) (pre post : List Row)
    (row : Row) (st1 : FlushState) (h0 : flushSplitBlocks env t = .ok t0)
    (hc : 0 < t0.opCodes) (hr : t0.isRollback = false) (hrows : t0.rows = pre ++ row :: post)
    (hpre : flushRows env t0 (walkStart t0) pre = .ok st1) (hp : isPieceOp row.op = true) :
    (st1.first1 = none → flushRow env t0 st1 row ≠ .error "next BDBA/SLOT does not match") ∧
      (∀ f1 f2 l1, st1.first1 = some f1 → st1.first2 = some f2 → st1.last1 = some l1 →
        (flushRow env t0 st1 row = .error "next BDBA/SLOT does not match" ↔
          row.redoLogRecord1.suppLogType ≠ 0 ∧
            (row.redoLogRecord1.suppLogBdba ≠ (rec1 st1.mem l1).suppLogBdba ∨
              row.redoLogRecord1.suppLogSlot ≠ (rec1 st1.mem l1).suppLogSlot ∨
              row.redoLogRecord1.object ≠ (rec1 st1.mem f1).object ∨
              row.redoLogRecord2.object ≠ (rec2 st1.mem f2).object))) ∧
      (flushRow env t0 st1 row = .error "next BDBA/SLOT does not match" →
        flush env t = .error "next BDBA/SLOT does not match") := by
  obtain ⟨-, a2, a3, a4⟩ := flush_reach env t t0 pre post row st1 h0 hc hr hrows hpre
  obtain ⟨b1, b2, b3, b4, -⟩ := strip_fields _ _ a2
  obtain ⟨c1, -⟩ := strip2_fields _ _ a3
  obtain ⟨e1, e2, e3, e4⟩ := flushPiece_error env st1 st1.idx row.op
  refine ⟨fun hf h => ?_, fun f1 f2 l1 hf1 hf2 hl1 => ?_, a4 _⟩
  · rw [flushRow_error_iff, flushSwitch_piece env st1 st1.idx row.op hp] at h
    by_cases hs : (rec1 st1.mem st1.idx).suppLogType = 0
    · rw [e1 hs] at h
      exact absurd (Except.error.inj h) (by decide)
    · obtain ⟨r, hr2⟩ := e2 hs hf
      rw [hr2] at h; cases h
  · rw [flushRow_error_iff, flushSwitch_piece env st1 st1.idx row.op hp, ← b1, ← b2, ← b3, ← b4,
      ← c1]
    have hm : chainMatches st1.mem st1.idx f1 (st1.first2.getD 0) (st1.last1.getD 0) ↔
        ¬ ((rec1 st1.mem st1.idx).suppLogBdba ≠ (rec1 st1.mem l1).suppLogBdba ∨
          (rec1 st1.mem st1.idx).suppLogSlot ≠ (rec1 st1.mem l1).suppLogSlot ∨
          (rec1 st1.mem st1.idx).object ≠ (rec1 st1.mem f1).object ∨
          (rec2 st1.mem st1.idx).object ≠ (rec2 st1.mem f2).object) := by
      unfold chainMatches
      rw [hf2, hl1]
      simp only [Option.getD_some, ne_eq, not_or, not_not]
      constructor
      · rintro ⟨x1, x2, x3, x4⟩; exact ⟨x1.symm, x2.symm, x3.symm, x4.symm⟩
      · rintro ⟨x1, x2, x3, x4⟩; exact ⟨x1.symm, x2.symm, x3.symm, x4.symm⟩
    by_cases hs : (rec1 st1.mem st1.idx).suppLogType = 0
    · rw [e1 hs]
      constructor
      · intro h; exact absurd (Except.error.inj h) (by decide)
      · intro h; exact absurd hs h.1
    · by_cases hc2 : chainMatches st1.mem st1.idx f1 (st1.first2.getD 0) (st1.last1.getD 0)
      · obtain ⟨r, hr2⟩ := e3 f1 hs hf1 hc2
        rw [hr2]
        constructor
        · intro h; cases h
        · intro h; exact absurd h.2 (hm.1 hc2)
      · rw [e4 f1 hs hf1 hc2]
        constructor
        · intro _
          refine ⟨hs, ?_⟩
          by_contra hn
          exact hc2 (hm.2 hn)
        · intro _; rfl

theorem flush_chain_mismatch_witness :
    flushSplitBlocks sampleEnv mismatchTx = .ok mismatchTx ∧ 0 < mismatchTx.opCodes ∧
      mismatchTx.isRollback = false ∧
      flush sampleEnv mismatchTx = .error "next BDBA/SLOT does not match" :=
  ⟨by rfl, by decide, rfl,
    (flush_chain_mismatch sampleEnv mismatchTx mismatchTx
      (mismatchTx.rows.take 1) (mismatchTx.rows.drop 2) ((mismatchTx.rows.drop 1).headD s1RowA)
      (walkAfter sampleEnv mismatchTx 1) (by rfl) (by decide) rfl (by rfl) (by rfl)
      (by decide)).2.2 (by rfl)⟩

/-- C17, counterexample: with the first piece of scenario S1 as the open chain,
a further insert piece whose `suppLogBdba` is 8, not the tail's 7, and whose
`suppLogType` is 0 raises `SUPPLEMENTAL_LOG_DATA_MIN missing`, not `next
BDBA/SLOT does not match`. -/
theorem flush_mismatch_behind_supplemental :
    (walkAfter sampleEnv mismatchNoSuppTx 1).first1 = some 0 ∧
      (walkAfter sampleEnv mismatchNoSuppTx 1).last1 = some 0 ∧
      (rec1 (walkAfter sampleEnv mismatchNoSuppTx 1).mem 0).suppLogBdba = 7 ∧
      (mismatchNoSuppTx.rows.map fun r => (r.op, r.redoLogRecord1.suppLogBdba,
        r.redoLogRecord1.suppLogType)) = [(0x05010B02, 7, 1), (0x05010B02, 8, 0)] ∧
      flush sampleEnv mismatchNoSuppTx = .error "SUPPLEMENTAL_LOG_DATA_MIN missing" :=
  ⟨by rfl, by rfl, by rfl, by rfl, by rfl⟩

/-! ### Chains share the row key -/

theorem rowKey_of_strip (mem1 mem2 : List Row) (q : Nat)
    (h1 : stripLinks (rec1 mem1 q) = stripLinks (rec1 mem2 q))
    (h2 : stripLinks2 (rec2 mem1 q) = stripLinks2 (rec2 mem2 q)) :
    rowKey mem1 q = rowKey mem2 q := by
  obtain ⟨a1, a2, a3, -⟩ := strip_fields _ _ h1
  obtain ⟨b1, -⟩ := strip2_fields _ _ h2
  unfold rowKey
  rw [a1, a2, a3, b1]

theorem chainMatches_rowKey (mem : List Row) (p f1 f2 l1 : Nat)
    (h : chainMatches mem p f1 f2 l1) (hk : rowKey mem f1 = rowKey mem l1)
    (hk2 : rowKey mem f2 = rowKey mem l1) : rowKey mem p = rowKey mem l1 := by
  obtain ⟨h1, h2, h3, h4⟩ := h
  unfold rowKey at hk hk2 ⊢
  simp only [Prod.mk.injEq] at hk hk2 ⊢
  refine ⟨?_, h1.symm, h2.symm, ?_⟩
  · rw [← h3]; exact hk.1
  · rw [← h4]; exact hk2.2.2.2

/-- The pointers of the chain after a row piece: each is the piece itself or
what it was. -/
theorem flushPiece_pointers (env : Env) (st st1 : FlushState) (p op : Nat) (fl : Bool)
    (h : flushPiece env st p op = .ok (st1, fl)) :
    (st.first1 = none → st1.first1 = some p ∧ st1.first2 = some p ∧ st1.last1 = some p ∧
        st1.last2 = some p) ∧
      (∀ f1, st.first1 = some f1 →
        chainMatches st.mem p f1 (st.first2.getD 0) (st.last1.getD 0) ∧
        (st1.first1 = some p ∨ st1.first1 = st.first1) ∧
        (st1.first2 = some p ∨ st1.first2 = st.first2) ∧
        (st1.last1 = some p ∨ st1.last1 = st.last1) ∧
        (st1.last2 = some p ∨ st1.last2 = st.last2)) := by
  rw [flushPiece_eq] at h
  by_cases hs : (rec1 st.mem p).suppLogType = 0
  · rw [if_pos hs] at h; cases h
  · rw [if_neg hs] at h
    refine ⟨fun hf => ?_, fun f1 hf => ?_⟩
    · rw [hf] at h
      simp only [] at h
      split_ifs at h
      · obtain ⟨e1, -⟩ := Prod.mk.inj (Except.ok.inj h)
        rw [← e1]; exact ⟨rfl, rfl, rfl, rfl⟩
      · obtain ⟨e1, -⟩ := Prod.mk.inj (Except.ok.inj h)
        rw [← e1]; exact ⟨rfl, rfl, rfl, rfl⟩
    · rw [hf] at h
      simp only [] at h
      cases hl : linkPiece env (pieceEntry env st p op) p op f1 (st.first2.getD 0)
          (st.last1.getD 0) (st.last2.getD 0) with
      | error e => rw [hl] at h; cases h
      | ok st2 =>
        rw [hl] at h
        simp only [] at h
        have hm : chainMatches st.mem p f1 (st.first2.getD 0) (st.last1.getD 0) := by
          by_contra hn
          rw [linkPiece_error env (pieceEntry env st p op) p op f1 _ _ _
            (fun hc => hn ((pieceEntry_chainMatches env st p op _ _ _).1 hc))] at hl
          cases hl
        have hp2 : (st2.first1 = some p ∨ st2.first1 = st.first1) ∧
            (st2.first2 = some p ∨ st2.first2 = st.first2) ∧
            (st2.last1 = some p ∨ st2.last1 = st.last1) ∧
            (st2.last2 = some p ∨ st2.last2 = st.last2) := by
          rcases linkPiece_cases env _ st2 p op f1 _ _ _ hl with hx | hx | hx | hx
          · rw [hx]; exact ⟨Or.inl rfl, Or.inl rfl, Or.inr rfl, Or.inr rfl⟩
          · rw [hx]; exact ⟨Or.inl rfl, Or.inl rfl, Or.inr rfl, Or.inr rfl⟩
          · rw [hx]
            refine ⟨Or.inr ?_, Or.inr ?_, Or.inr ?_, Or.inr ?_⟩ <;> simp only [linkBeforeTail] <;> rfl
          · rw [hx]; exact ⟨Or.inr rfl, Or.inr rfl, Or.inl rfl, Or.inl rfl⟩
        split_ifs at h
        · obtain ⟨e1, -⟩ := Prod.mk.inj (Except.ok.inj h)
          rw [← e1]; exact ⟨hm, hp2⟩
        · obtain ⟨e1, -⟩ := Prod.mk.inj (Except.ok.inj h)
          rw [← e1]; exact ⟨hm, hp2⟩

theorem flushAfter_pointers (env : Env) (t : Transaction) (st : FlushState) (row : Row) :
    (flushAfter env t st false row).first1 = st.first1 ∧
      (flushAfter env t st false row).first2 = st.first2 ∧
      (flushAfter env t st false row).last1 = st.last1 ∧
      (flushAfter env t st false row).last2 = st.last2 ∧
      (flushAfter env t st true row).first1 = none ∧
      (flushAfter env t st true row).first2 = none ∧
      (flushAfter env t st true row).last1 = none ∧
      (flushAfter env t st true row).last2 = none := by
  unfold flushAfter
  by_cases hb : bigTransaction env st.events = true <;> simp [hb]

theorem flushRow_piece (env : Env) (t : Transaction) (st st2 : FlushState) (row : Row)
    (hp : isPieceOp row.op = true) (h : flushRow env t st row = .ok st2) :
    ∃ st1 fl, flushPiece env st st.idx row.op = .ok (st1, fl) ∧
      st2 = flushAfter env t st1 fl row ∧
      fl = decide (((rec1 st.mem st.idx).suppLogFb &&& env.FB_L) ≠ 0) := by
  unfold flushRow at h
  rw [flushSwitch_piece env st st.idx row.op hp] at h
  cases hf : flushPiece env st st.idx row.op with
  | error e => rw [hf] at h; cases h
  | ok r =>
    obtain ⟨st1, fl⟩ := r
    rw [hf] at h
    exact ⟨st1, fl, rfl, (Except.ok.inj h).symm, (flushPiece_ok env st st1 st.idx row.op fl hf).2.2.2.1⟩

theorem chainSince_key (env : Env) (st st1 : FlushState) (s op : Nat) (fl : Bool)
    (hinv : chainSince st s) (h : flushPiece env st st.idx op = .ok (st1, fl)) :
    rowKey st.mem st.idx = rowKey st.mem s := by
  obtain ⟨h1, h2, h3, h4⟩ := hinv
  cases hf : st.first1 with
  | none => rw [h2 hf]
  | some f =>
    obtain ⟨f2, l, e2, e3, a1, a2, a3, a4, a5, a6⟩ := h3 f hf
    obtain ⟨hm, -⟩ := (flushPiece_pointers env st st1 st.idx op fl h).2 f hf
    rw [e2, e3] at hm
    simp only [Option.getD_some] at hm
    have kf := h4 f a1 a2
    have kf2 := h4 f2 a3 a4
    have kl := h4 l a5 a6
    rw [chainMatches_rowKey st.mem st.idx f f2 l hm (kf.trans kl.symm) (kf2.trans kl.symm), kl]

theorem chainSince_step (env : Env) (t : Transaction) (st st2 : FlushState) (s : Nat) (row : Row)
    (hinv : chainSince st s) (hp : isPieceOp row.op = true)
    (hfb : ((rec1 st.mem st.idx).suppLogFb &&& env.FB_L) = 0)
    (h : flushRow env t st row = .ok st2) : chainSince st2 s := by
  obtain ⟨st1, fl, hpiece, hst2, hfl⟩ := flushRow_piece env t st st2 row hp h
  have hfl2 : fl = false := by rw [hfl]; simp [hfb]
  subst hfl2
  have hkey := chainSince_key env st st1 s row.op false hinv hpiece
  obtain ⟨hidx1, hstrip, -⟩ := flushPiece_ok env st st1 st.idx row.op false hpiece
  have hstrip2 := flushPiece_strip2 env st st1 st.idx row.op false hpiece
  have hk : ∀ q, rowKey st1.mem q = rowKey st.mem q :=
    fun q => rowKey_of_strip _ _ q (hstrip q) (hstrip2 q)
  obtain ⟨p1, p2, p3, p4, -⟩ := flushAfter_pointers env t st1 row
  obtain ⟨q1, q2⟩ := flushPiece_pointers env st st1 st.idx row.op false hpiece
  have hidx2 : st2.idx = st.idx + 1 := (flushRow_ok env t st st2 row h).1
  have hmem2 : st2.mem = st1.mem := by rw [hst2, flushAfter_mem]
  obtain ⟨h1, h2, h3, h4⟩ := hinv
  refine ⟨by omega, fun hn => ?_, fun f hf => ?_, fun q hq1 hq2 => ?_⟩
  · exfalso
    rw [hst2, p1] at hn
    cases hf : st.first1 with
    | none => rw [(q1 hf).1] at hn; cases hn
    | some f =>
      rcases (q2 f hf).2.1 with hx | hx
      · rw [hx] at hn; cases hn
      · rw [hx, hf] at hn; cases hn
  · have hidx3 : (flushAfter env t st1 false row).idx = st.idx + 1 := by
      rw [← hst2]; exact hidx2
    rw [hst2, p1] at hf
    rw [hst2, p2, p3, hidx3]
    cases hf0 : st.first1 with
    | none =>
      obtain ⟨x1, x2, x3, -⟩ := q1 hf0
      have hs := h2 hf0
      rw [x1] at hf
      have hfe : f = st.idx := (Option.some.inj hf).symm
      exact ⟨st.idx, st.idx, x2, x3, by omega, by omega, by omega, by omega, by omega, by omega⟩
    | some f0 =>
      obtain ⟨f2, l, e2, e3, a1, a2, a3, a4, a5, a6⟩ := h3 f0 hf0
      obtain ⟨-, y1, y2, y3, -⟩ := q2 f0 hf0
      have hfr : s ≤ f ∧ f < st.idx + 1 := by
        rcases y1 with hx | hx
        · rw [hx] at hf
          have := Option.some.inj hf
          omega
        · rw [hx, hf0] at hf
          have := Option.some.inj hf
          omega
      have hf2r : ∃ g, st1.first2 = some g ∧ s ≤ g ∧ g < st.idx + 1 := by
        rcases y2 with hx | hx
        · exact ⟨st.idx, hx, h1, by omega⟩
        · exact ⟨f2, by rw [hx, e2], a3, by omega⟩
      have hlr : ∃ g, st1.last1 = some g ∧ s ≤ g ∧ g < st.idx + 1 := by
        rcases y3 with hx | hx
        · exact ⟨st.idx, hx, h1, by omega⟩
        · exact ⟨l, by rw [hx, e3], a5, by omega⟩
      obtain ⟨g2, b1, b2, b3⟩ := hf2r
      obtain ⟨gl, c1, c2, c3⟩ := hlr
      exact ⟨g2, gl, b1, c1, hfr.1, hfr.2, b2, b3, c2, c3⟩
  · rw [hmem2, hk q, hk s]
    rw [hidx2] at hq2
    by_cases hq : q = st.idx
    · rw [hq]; exact hkey
    · exact h4 q hq1 (by omega)

theorem chainSince_walk (env : Env) (t : Transaction) (orig : List Row) :
    ∀ (seg tail : List Row) (st st1 : FlushState) (s : Nat),
      seg ++ tail = orig.drop st.idx →
      (∀ q, stripLinks (rec1 st.mem q) = stripLinks (rec1 orig q)) →
      chainSince st s →
      (∀ r ∈ seg, isPieceOp r.op = true ∧ (r.redoLogRecord1.suppLogFb &&& env.FB_L) = 0) →
      flushRows env t st seg = .ok st1 → chainSince st1 s
  | [], tail, st, st1, s, _, _, hinv, _, h => by
    simp only [flushRows] at h
    cases h
    exact hinv
  | row :: seg, tail, st, st1, s, hrows, hmem, hinv, hseg, h => by
    simp only [flushRows] at h
    cases hr : flushRow env t st row with
    | error e => rw [hr] at h; cases h
    | ok st2 =>
      rw [hr] at h
      obtain ⟨hrec, hrest⟩ := drop_cons_head orig st.idx row (seg ++ tail) hrows
      obtain ⟨hidx, hstrip, -⟩ := flushRow_ok env t st st2 row hr
      obtain ⟨hp, hfb⟩ := hseg row (List.mem_cons_self _ _)
      have hfb1 : ((rec1 st.mem st.idx).suppLogFb &&& env.FB_L) = 0 := by
        rw [(strip_fields _ _ (hmem st.idx)).2.2.2.2, hrec]
        exact hfb
      have hinv2 := chainSince_step env t st st2 s row hinv hp hfb1 hr
      exact chainSince_walk env t orig seg tail st2 st1 s (by rw [hidx]; exact hrest)
        (fun q => by rw [hstrip q, hmem q]) hinv2
        (fun r hr2 => hseg r (List.mem_cons_of_mem _ hr2)) h

theorem rowKey_getElem (mem : List Row) (q : Nat) (r : Row) (h : mem[q]? = some r) :
    rowKey mem q = r.key := by
  unfold rowKey rec1 rec2 Row.key
  rw [h]
  rfl

/-- C18: in the walk of `flush` over the stored rows, let no chain be open after
the rows `pre`, let `seg` be row pieces without `FB_L` and `last` a further row
piece, all walked without a fatal condition; these are the pieces of the chain
handed to `parseDML` when `last` has `FB_L`. Then every undo record of the chain
has the object, `suppLogBdba` and `suppLogSlot` of that of `last`, and every
companion record the object of that of `last`. -/
theorem flush_chain_uniform (env : Env) (t0 : Transaction) (pre seg post : List Row)
    (last : Row) (st1 st2 st3 : FlushState) (hrows : t0.rows = pre ++ seg ++ last :: post)
    (hpre : flushRows env t0 (walkStart t0) pre = .ok st1) (hclosed : st1.first1 = none)
    (hseg : ∀ r ∈ seg, isPieceOp r.op = true ∧ (r.redoLogRecord1.suppLogFb &&& env.FB_L) = 0)
    (hlast : isPieceOp last.op = true) (hwalk : flushRows env t0 st1 seg = .ok st2)
    (hl : flushRow env t0 st2 last = .ok st3) :
    ∀ r ∈ seg, r.redoLogRecord1.object = last.redoLogRecord1.object ∧
      r.redoLogRecord1.suppLogBdba = last.redoLogRecord1.suppLogBdba ∧
      r.redoLogRecord1.suppLogSlot = last.redoLogRecord1.suppLogSlot ∧
      r.redoLogRecord2.object = last.redoLogRecord2.object := by
  obtain ⟨a1, a2, a3⟩ := flushRows_ok env t0 pre _ st1 hpre
  obtain ⟨b1, b2, b3⟩ := flushRows_ok env t0 seg _ st2 hwalk
  have hidx1 : st1.idx = pre.length := by rw [a1]; simp [walkStart]
  have hinv1 : chainSince st1 pre.length := by
    refine ⟨by omega, fun _ => hidx1.symm, fun f hf => ?_, fun q h1 h2 => ?_⟩
    · rw [hclosed] at hf; cases hf
    · omega
  have hdrop : seg ++ last :: post = t0.rows.drop st1.idx := by
    rw [hidx1, hrows, List.append_assoc, List.drop_left]
  have hinv2 := chainSince_walk env t0 t0.rows seg (last :: post) st1 st2 pre.length hdrop
    (fun q => a2 q) hinv1 hseg hwalk
  obtain ⟨st4, fl, hpiece, -, -⟩ := flushRow_piece env t0 st2 st3 last hlast hl
  have hkey := chainSince_key env st2 st4 pre.length last.op fl hinv2 hpiece
  have hk : ∀ q, rowKey st2.mem q = rowKey t0.rows q := fun q =>
    rowKey_of_strip _ _ q ((b2 q).trans (a2 q)) ((b3 q).trans (a3 q))
  have hidx2 : st2.idx = pre.length + seg.length := by rw [b1, hidx1]
  have hlastKey : rowKey t0.rows (pre.length + seg.length) = last.key := by
    apply rowKey_getElem
    rw [hrows, List.append_assoc, List.getElem?_append_right (by omega),
      List.getElem?_append_right (by omega)]
    simp
  have hall : ∀ q, pre.length ≤ q → q < pre.length + seg.length →
      rowKey t0.rows q = last.key := by
    intro q h1 h2
    rw [← hlastKey, ← hk, ← hk (pre.length + seg.length), ← hidx2, hkey]
    exact hinv2.2.2.2 q h1 (by omega)
  intro r hr
  obtain ⟨i, hi, hget⟩ := List.getElem_of_mem hr
  have hrk : rowKey t0.rows (pre.length + i) = r.key := by
    apply rowKey_getElem
    rw [hrows, List.append_assoc, List.getElem?_append_right (by omega),
      List.getElem?_append_left (by simpa using hi)]
    simp [hget, hi]
  have := hall (pre.length + i) (by omega) (by omega)
  rw [hrk] at this
  unfold Row.key at this
  simp only [Prod.mk.injEq] at this
  exact this

theorem flush_chain_uniform_witness :
    s1RowA.redoLogRecord1.object = s1RowB.redoLogRecord1.object ∧
      s1RowA.redoLogRecord1.suppLogBdba = s1RowB.redoLogRecord1.suppLogBdba ∧
      s1RowA.redoLogRecord1.suppLogSlot = s1RowB.redoLogRecord1.suppLogSlot ∧
      s1RowA.redoLogRecord2.object = s1RowB.redoLogRecord2.object :=
  flush_chain_uniform sampleEnv s1Tx [] [s1RowA] [] s1RowB (walkStart s1Tx)
    (walkAfter sampleEnv s1Tx 1) (walkAfter sampleEnv s1Tx 2) (by rfl) (by rfl) rfl
    (by decide) (by decide) (by rfl) (by rfl) s1RowA (List.mem_singleton_self _)

theorem flush_ignores_shutdown_witness :
    flush sampleEnv shutdownTx =
      (flush sampleEnv { shutdownTx with shutdown := false }).map
        fun x => ({ x.1 with shutdown := true }, x.2) :=
  flush_ignores_shutdown sampleEnv { shutdownTx with shutdown := false } true

/-! ### Chain links in memory -/

theorem next_setRec1_next (mem : List Row) (p q : Nat) (v : Option Nat) :
    (rec1 (setRec1 mem p fun r => { r with next := v }) q).next =
      if q = p ∧ p < mem.length then v else (rec1 mem q).next := by
  rw [rec1_setRec1]
  split_ifs <;> rfl

theorem prev_setRec1_next (mem : List Row) (p q : Nat) (v : Option Nat) :
    (rec1 (setRec1 mem p fun r => { r with next := v }) q).prev = (rec1 mem q).prev := by
  rw [rec1_setRec1]
  split_ifs with h
  · rw [h.1]
  · rfl

theorem next_setRec1_prev (mem : List Row) (p q : Nat) (v : Option Nat) :
    (rec1 (setRec1 mem p fun r => { r with prev := v }) q).next = (rec1 mem q).next := by
  rw [rec1_setRec1]
  split_ifs with h
  · rw [h.1]
  · rfl

theorem prev_setRec1_prev (mem : List Row) (p q : Nat) (v : Option Nat) :
    (rec1 (setRec1 mem p fun r => { r with prev := v }) q).prev =
      if q = p ∧ p < mem.length then v else (rec1 mem q).prev := by
  rw [rec1_setRec1]
  split_ifs <;> rfl

theorem next_setRec2_next (mem : List Row) (p q : Nat) (v : Option Nat) :
    (rec2 (setRec2 mem p fun r => { r with next := v }) q).next =
      if q = p ∧ p < mem.length then v else (rec2 mem q).next := by
  rw [rec2_setRec2]
  split_ifs <;> rfl

theorem prev_setRec2_next (mem : List Row) (p q : Nat) (v : Option Nat) :
    (rec2 (setRec2 mem p fun r => { r with next := v }) q).prev = (rec2 mem q).prev := by
  rw [rec2_setRec2]
  split_ifs with h
  · rw [h.1]
  · rfl

theorem next_setRec2_prev (mem : List Row) (p q : Nat) (v : Option Nat) :
    (rec2 (setRec2 mem p fun r => { r with prev := v }) q).next = (rec2 mem q).next := by
  rw [rec2_setRec2]
  split_ifs with h
  · rw [h.1]
  · rfl

theorem prev_setRec2_prev (mem : List Row) (p q : Nat) (v : Option Nat) :
    (rec2 (setRec2 mem p fun r => { r with prev := v }) q).prev =
      if q = p ∧ p < mem.length then v else (rec2 mem q).prev := by
  rw [rec2_setRec2]
  split_ifs <;> rfl

theorem next_setRec2_after (mem : List Row) (p q : Nat) (v : Nat) :
    (rec2 (setRec2 mem p fun r => { r with suppLogAfter := v }) q).next = (rec2 mem q).next := by
  rw [rec2_setRec2]
  split_ifs with h
  · rw [h.1]
  · rfl

theorem prev_setRec2_after (mem : List Row) (p q : Nat) (v : Nat) :
    (rec2 (setRec2 mem p fun r => { r with suppLogAfter := v }) q).prev = (rec2 mem q).prev := by
  rw [rec2_setRec2]
  split_ifs with h
  · rw [h.1]
  · rfl

theorem setRec1At_length (mem : List Row) (p : Option Nat) (f : RedoLogRecord → RedoLogRecord) :
    (setRec1At mem p f).length = mem.length := by
  cases p with
  | none => rfl
  | some x => exact setRec1_length mem x f

theorem setRec2At_length (mem : List Row) (p : Option Nat) (f : RedoLogRecord → RedoLogRecord) :
    (setRec2At mem p f).length = mem.length := by
  cases p with
  | none => rfl
  | some x => exact setRec2_length mem x f

theorem next_setRec1At_next (mem : List Row) (x : Option Nat) (q : Nat) (v : Option Nat) :
    (rec1 (setRec1At mem x fun r => { r with next := v }) q).next =
      if x = some q ∧ q < mem.length then v else (rec1 mem q).next := by
  cases x with
  | none => simp [setRec1At]
  | some y =>
    simp only [setRec1At, next_setRec1_next, Option.some.injEq]
    by_cases h : q = y
    · subst h; simp
    · have h2 : ¬ y = q := fun e => h e.symm
      simp [h, h2]

theorem prev_setRec1At_next (mem : List Row) (x : Option Nat) (q : Nat) (v : Option Nat) :
    (rec1 (setRec1At mem x fun r => { r with next := v }) q).prev = (rec1 mem q).prev := by
  cases x with
  | none => rfl
  | some y => exact prev_setRec1_next mem y q v

theorem next_setRec2At_next (mem : List Row) (x : Option Nat) (q : Nat) (v : Option Nat) :
    (rec2 (setRec2At mem x fun r => { r with next := v }) q).next =
      if x = some q ∧ q < mem.length then v else (rec2 mem q).next := by
  cases x with
  | none => simp [setRec2At]
  | some y =>
    simp only [setRec2At, next_setRec2_next, Option.some.injEq]
    by_cases h : q = y
    · subst h; simp
    · have h2 : ¬ y = q := fun e => h e.symm
      simp [h, h2]

theorem prev_setRec2At_next (mem : List Row) (x : Option Nat) (q : Nat) (v : Option Nat) :
    (rec2 (setRec2At mem x fun r => { r with next := v }) q).prev = (rec2 mem q).prev := by
  cases x with
  | none => rfl
  | some y => exact prev_setRec2_next mem y q v

/-- The links after `linkFront`. -/
theorem linkFront_links (st : FlushState) (p f1 f2 q : Nat) :
    (rec1 (linkFront st p f1 f2).mem q).next =
        (if q = p ∧ p < st.mem.length then some f1 else (rec1 st.mem q).next) ∧
      (rec1 (linkFront st p f1 f2).mem q).prev =
        (if q = f1 ∧ f1 < st.mem.length then some p else (rec1 st.mem q).prev) ∧
      (rec2 (linkFront st p f1 f2).mem q).next =
        (if q = p ∧ p < st.mem.length then some f2 else (rec2 st.mem q).next) ∧
      (rec2 (linkFront st p f1 f2).mem q).prev =
        (if q = f2 ∧ f2 < st.mem.length then some p else (rec2 st.mem q).prev) ∧
      (linkFront st p f1 f2).mem.length = st.mem.length := by
  simp only [linkFront, rec1_setRec2, rec2_setRec1, next_setRec1_next, prev_setRec1_next,
    next_setRec1_prev, prev_setRec1_prev, next_setRec2_next, prev_setRec2_next, next_setRec2_prev,
    prev_setRec2_prev, setRec1_length, setRec2_length, and_self]

/-- The links after `linkBeforeOnlyTail`. -/
theorem linkBeforeOnlyTail_links (st : FlushState) (p l1 l2 q : Nat) :
    (rec1 (linkBeforeOnlyTail st p l1 l2).mem q).next =
        (if q = p ∧ p < st.mem.length then some l1 else (rec1 st.mem q).next) ∧
      (rec1 (linkBeforeOnlyTail st p l1 l2).mem q).prev =
        (if q = l1 ∧ l1 < st.mem.length then some p else (rec1 st.mem q).prev) ∧
      (rec2 (linkBeforeOnlyTail st p l1 l2).mem q).next =
        (if q = p ∧ p < st.mem.length then some l2 else (rec2 st.mem q).next) ∧
      (rec2 (linkBeforeOnlyTail st p l1 l2).mem q).prev =
        (if q = l2 ∧ l2 < st.mem.length then some p else (rec2 st.mem q).prev) ∧
      (linkBeforeOnlyTail st p l1 l2).mem.length = st.mem.length := by
  simp only [linkBeforeOnlyTail, rec1_setRec2, rec2_setRec1, next_setRec1_next, prev_setRec1_next,
    next_setRec1_prev, prev_setRec1_prev, next_setRec2_next, prev_setRec2_next, next_setRec2_prev,
    prev_setRec2_prev, setRec1_length, setRec2_length, and_self]

/-- The links after `linkBack`. -/
theorem linkBack_links (st : FlushState) (p l1 l2 q : Nat) :
    (rec1 (linkBack st p l1 l2).mem q).next =
        (if q = l1 ∧ l1 < st.mem.length then some p else (rec1 st.mem q).next) ∧
      (rec1 (linkBack st p l1 l2).mem q).prev =
        (if q = p ∧ p < st.mem.length then some l1 else (rec1 st.mem q).prev) ∧
      (rec2 (linkBack st p l1 l2).mem q).next =
        (if q = l2 ∧ l2 < st.mem.length then some p else (rec2 st.mem q).next) ∧
      (rec2 (linkBack st p l1 l2).mem q).prev =
        (if q = p ∧ p < st.mem.length then some l2 else (rec2 st.mem q).prev) ∧
      (linkBack st p l1 l2).mem.length = st.mem.length := by
  simp only [linkBack, rec1_setRec2, rec2_setRec1, next_setRec1_next, prev_setRec1_next,
    next_setRec1_prev, prev_setRec1_prev, next_setRec2_next, prev_setRec2_next, next_setRec2_prev,
    prev_setRec2_prev, setRec1_length, setRec2_length, and_self]

/-- The links after `linkBeforeTail`. -/
theorem linkBeforeTail_links (st : FlushState) (p l1 l2 q : Nat) :
    (rec1 (linkBeforeTail st p l1 l2).mem q).next =
        (if (rec1 st.mem l1).prev = some q ∧ q < st.mem.length then some p
          else if q = p ∧ p < st.mem.length then some l1 else (rec1 st.mem q).next) ∧
      (rec1 (linkBeforeTail st p l1 l2).mem q).prev =
        (if q = l1 ∧ l1 < st.mem.length then some p
          else if q = p ∧ p < st.mem.length then (rec1 st.mem l1).prev
          else (rec1 st.mem q).prev) ∧
      (rec2 (linkBeforeTail st p l1 l2).mem q).next =
        (if (rec2 st.mem l2).prev = some q ∧ q < st.mem.length then some p
          else if q = p ∧ p < st.mem.length then some l2 else (rec2 st.mem q).next) ∧
      (rec2 (linkBeforeTail st p l1 l2).mem q).prev =
        (if q = l2 ∧ l2 < st.mem.length then some p
          else if q = p ∧ p < st.mem.length then (rec2 st.mem l2).prev
          else (rec2 st.mem q).prev) ∧
      (linkBeforeTail st p l1 l2).mem.length = st.mem.length := by
  have e1 : (if l1 = p ∧ p < st.mem.length then (rec1 st.mem l1).prev else (rec1 st.mem l1).prev) =
      (rec1 st.mem l1).prev := by split_ifs <;> rfl
  have e2 : (if l2 = p ∧ p < st.mem.length then (rec2 st.mem l2).prev else (rec2 st.mem l2).prev) =
      (rec2 st.mem l2).prev := by split_ifs <;> rfl
  simp only [linkBeforeTail, copyPrev1, copyPrev2, setPrevNext1, setPrevNext2, rec1_setRec2,
    rec2_setRec1, rec1_setRec2At, rec2_setRec1At, next_setRec1_next, prev_setRec1_next,
    next_setRec1_prev, prev_setRec1_prev, next_setRec2_next, prev_setRec2_next, next_setRec2_prev,
    prev_setRec2_prev, next_setRec1At_next, prev_setRec1At_next, next_setRec2At_next,
    prev_setRec2At_next, setRec1_length, setRec2_length, setRec1At_length, setRec2At_length,
    e1, e2, and_self]

/-! ### Well-formed links along the walk -/

theorem linkedBelow_open (E : FlushState) (n f l : Nat) (hinv : linkedBelow E n)
    (hf : E.first1 = some f) (hl : E.last1 = some l) :
    E.first2 = some f ∧ E.last2 = some l ∧ f < n ∧ l < n ∧ (rec1 E.mem f).prev = none ∧
      (f ≠ l → (rec1 E.mem l).prev ≠ none) := by
  obtain ⟨-, -, -, -, i5⟩ := hinv
  rcases i5 with ⟨c1, -⟩ | ⟨f0, l0, c1, c2, c3, c4, c5, c6, c7, c8⟩
  · rw [hf] at c1; cases c1
  · rw [hf] at c1; rw [hl] at c3
    have e1 := Option.some.inj c1
    have e2 := Option.some.inj c3
    subst e1 e2
    exact ⟨c2, c4, c5, c6, c7, c8⟩

theorem linkFront_linked (E : FlushState) (p f l : Nat) (hinv : linkedBelow E p)
    (hf : E.first1 = some f) (hl : E.last1 = some l) (hp : p < E.mem.length) :
    linkedBelow (linkFront E p f f) (p + 1) := by
  obtain ⟨o1, o2, o3, o4, o5, o6⟩ := linkedBelow_open E p f l hinv hf hl
  obtain ⟨i1, i2, i3, i4, -⟩ := hinv
  have hN := fun q => (linkFront_links E p f f q).1
  have hP := fun q => (linkFront_links E p f f q).2.1
  have hN2 := fun q => (linkFront_links E p f f q).2.2.1
  have hP2 := fun q => (linkFront_links E p f f q).2.2.2.1
  refine ⟨fun q hq => ⟨?_, ?_⟩, fun q x hx => ?_, fun q x hx => ?_, fun q => ⟨?_, ?_⟩, Or.inr ?_⟩
  · rw [hN q, if_neg (by omega)]; exact (i1 q (by omega)).1
  · rw [hP q, if_neg (by omega)]; exact (i1 q (by omega)).2
  · rw [hP q] at hx
    split_ifs at hx with h
    · have := Option.some.inj hx; omega
    · have := i2 q x hx; omega
  · rw [hN q] at hx
    split_ifs at hx with h
    · have := Option.some.inj hx; omega
    · have := i3 q x hx; omega
  · rw [hN2 q, hN q, (i4 q).1]
  · rw [hP2 q, hP q, (i4 q).2]
  · refine ⟨p, l, rfl, rfl, hl, o2, by omega, by omega, ?_, fun hne => ?_⟩
    · rw [hP p, if_neg (by omega)]; exact (i1 p (Nat.le_refl _)).2
    · rw [hP l]
      by_cases hfl : f = l
      · rw [if_pos ⟨hfl.symm, by omega⟩]; simp
      · rw [if_neg (fun h => hfl h.1.symm)]; exact o6 hfl

theorem linkBack_linked (E : FlushState) (p f l : Nat) (hinv : linkedBelow E p)
    (hf : E.first1 = some f) (hl : E.last1 = some l) (hp : p < E.mem.length) :
    linkedBelow (linkBack E p l l) (p + 1) := by
  obtain ⟨o1, o2, o3, o4, o5, o6⟩ := linkedBelow_open E p f l hinv hf hl
  obtain ⟨i1, i2, i3, i4, -⟩ := hinv
  have hN := fun q => (linkBack_links E p l l q).1
  have hP := fun q => (linkBack_links E p l l q).2.1
  have hN2 := fun q => (linkBack_links E p l l q).2.2.1
  have hP2 := fun q => (linkBack_links E p l l q).2.2.2.1
  refine ⟨fun q hq => ⟨?_, ?_⟩, fun q x hx => ?_, fun q x hx => ?_, fun q => ⟨?_, ?_⟩, Or.inr ?_⟩
  · rw [hN q, if_neg (by omega)]; exact (i1 q (by omega)).1
  · rw [hP q, if_neg (by omega)]; exact (i1 q (by omega)).2
  · rw [hP q] at hx
    split_ifs at hx with h
    · have := Option.some.inj hx; omega
    · have := i2 q x hx; omega
  · rw [hN q] at hx
    split_ifs at hx with h
    · have := Option.some.inj hx; omega
    · have := i3 q x hx; omega
  · rw [hN2 q, hN q, (i4 q).1]
  · rw [hP2 q, hP q, (i4 q).2]
  · refine ⟨f, p, hf, o1, rfl, rfl, by omega, by omega, ?_, fun hne => ?_⟩
    · rw [hP f, if_neg (by omega)]; exact o5
    · rw [hP p, if_pos ⟨rfl, hp⟩]; simp

theorem linkBeforeOnlyTail_linked (E : FlushState) (p f l : Nat) (hinv : linkedBelow E p)
    (hf : E.first1 = some f) (hl : E.last1 = some l) (hp : p < E.mem.length) :
    linkedBelow (linkBeforeOnlyTail E p l l) (p + 1) := by
  obtain ⟨o1, o2, o3, o4, o5, o6⟩ := linkedBelow_open E p f l hinv hf hl
  obtain ⟨i1, i2, i3, i4, -⟩ := hinv
  have hN := fun q => (linkBeforeOnlyTail_links E p l l q).1
  have hP := fun q => (linkBeforeOnlyTail_links E p l l q).2.1
  have hN2 := fun q => (linkBeforeOnlyTail_links E p l l q).2.2.1
  have hP2 := fun q => (linkBeforeOnlyTail_links E p l l q).2.2.2.1
  refine ⟨fun q hq => ⟨?_, ?_⟩, fun q x hx => ?_, fun q x hx => ?_, fun q => ⟨?_, ?_⟩, Or.inr ?_⟩
  · rw [hN q, if_neg (by omega)]; exact (i1 q (by omega)).1
  · rw [hP q, if_neg (by omega)]; exact (i1 q (by omega)).2
  · rw [hP q] at hx
    split_ifs at hx with h
    · have := Option.some.inj hx; omega
    · have := i2 q x hx; omega
  · rw [hN q] at hx
    split_ifs at hx with h
    · have := Option.some.inj hx; omega
    · have := i3 q x hx; omega
  · rw [hN2 q, hN q, (i4 q).1]
  · rw [hP2 q, hP q, (i4 q).2]
  · refine ⟨p, l, rfl, rfl, hl, o2, by omega, by omega, ?_, fun hne => ?_⟩
    · rw [hP p, if_neg (by omega)]; exact (i1 p (Nat.le_refl _)).2
    · rw [hP l, if_pos ⟨rfl, by omega⟩]; simp

theorem linkBeforeTail_linked (E : FlushState) (p f l : Nat) (hinv : linkedBelow E p)
    (hf : E.first1 = some f) (hl : E.last1 = some l) (hp : p < E.mem.length)
    (hprev : (rec1 E.mem l).prev ≠ none) :
    linkedBelow (linkBeforeTail E p l l) (p + 1) := by
  obtain ⟨o1, o2, o3, o4, o5, o6⟩ := linkedBelow_open E p f l hinv hf hl
  obtain ⟨i1, i2, i3, i4, -⟩ := hinv
  have hN := fun q => (linkBeforeTail_links E p l l q).1
  have hP := fun q => (linkBeforeTail_links E p l l q).2.1
  have hN2 := fun q => (linkBeforeTail_links E p l l q).2.2.1
  have hP2 := fun q => (linkBeforeTail_links E p l l q).2.2.2.1
  have hfl : f ≠ l := fun e => hprev (by rw [← e]; exact o5)
  have e1 : (linkBeforeTail E p l l).first1 = E.first1 := by simp only [linkBeforeTail]
  have e2 : (linkBeforeTail E p l l).first2 = E.first2 := by simp only [linkBeforeTail]
  have e3 : (linkBeforeTail E p l l).last1 = E.last1 := by simp only [linkBeforeTail]
  have e4 : (linkBeforeTail E p l l).last2 = E.last2 := by simp only [linkBeforeTail]
  refine ⟨fun q hq => ⟨?_, ?_⟩, fun q x hx => ?_, fun q x hx => ?_, fun q => ⟨?_, ?_⟩, Or.inr ?_⟩
  · rw [hN q, if_neg (fun h => by have := i2 l q h.1; omega), if_neg (by omega)]
    exact (i1 q (by omega)).1
  · rw [hP q, if_neg (by omega), if_neg (by omega)]; exact (i1 q (by omega)).2
  · rw [hP q] at hx
    split_ifs at hx with h h2
    · have := Option.some.inj hx; omega
    · have := i2 l x hx; omega
    · have := i2 q x hx; omega
  · rw [hN q] at hx
    split_ifs at hx with h h2
    · have := Option.some.inj hx; omega
    · have := Option.some.inj hx; omega
    · have := i3 q x hx; omega
  · rw [hN2 q, hN q, (i4 q).1, (i4 l).2]
  · rw [hP2 q, hP q, (i4 q).2, (i4 l).2]
  · refine ⟨f, l, by rw [e1, hf], by rw [e2, o1], by rw [e3, hl], by rw [e4, o2], by omega,
      by omega, ?_, fun _ => ?_⟩
    · rw [hP f, if_neg (fun h => hfl h.1), if_neg (by omega)]; exact o5
    · rw [hP l, if_pos ⟨rfl, by omega⟩]; simp

theorem pieceEntry_linked (env : Env) (st : FlushState) (p op n : Nat)
    (hinv : linkedBelow st n) : linkedBelow (pieceEntry env st p op) n := by
  obtain ⟨i1, i2, i3, i4, i5⟩ := hinv
  have h1 : ∀ q, rec1 (pieceEntry env st p op).mem q = rec1 st.mem q := fun q => by
    simp only [pieceEntry, rec1_setRec2]
  have h2 : ∀ q, (rec2 (pieceEntry env st p op).mem q).next = (rec2 st.mem q).next := fun q => by
    simp only [pieceEntry, next_setRec2_after]
  have h3 : ∀ q, (rec2 (pieceEntry env st p op).mem q).prev = (rec2 st.mem q).prev := fun q => by
    simp only [pieceEntry, prev_setRec2_after]
  refine ⟨fun q hq => ?_, fun q x hx => ?_, fun q x hx => ?_, fun q => ?_, ?_⟩
  · rw [h1]; exact i1 q hq
  · rw [h1] at hx; exact i2 q x hx
  · rw [h1] at hx; exact i3 q x hx
  · rw [h1, h2, h3]; exact i4 q
  · rcases i5 with c | ⟨f, l, c1, c2, c3, c4, c5, c6, c7, c8⟩
    · exact Or.inl c
    · refine Or.inr ⟨f, l, c1, c2, c3, c4, c5, c6, ?_, fun hne => ?_⟩
      · rw [h1]; exact c7
      · rw [h1]; exact c8 hne

theorem pieceEntry_length (env : Env) (st : FlushState) (p op : Nat) :
    (pieceEntry env st p op).mem.length = st.mem.length := by
  simp only [pieceEntry, setRec2_length]

theorem linkPiece_linked (env : Env) (E st1 : FlushState) (p op f l : Nat)
    (hinv : linkedBelow E p) (hf : E.first1 = some f) (hl : E.last1 = some l)
    (hp : p < E.mem.length) (h : linkPiece env E p op f f l l = .ok st1) :
    linkedBelow st1 (p + 1) ∧ st1.mem.length = E.mem.length := by
  unfold linkPiece at h
  by_cases h1 : (rec1 E.mem l).suppLogBdba = (rec1 E.mem p).suppLogBdba ∧
      (rec1 E.mem l).suppLogSlot = (rec1 E.mem p).suppLogSlot ∧
      (rec1 E.mem f).object = (rec1 E.mem p).object ∧
      (rec2 E.mem f).object = (rec2 E.mem p).object
  · rw [if_pos h1] at h
    by_cases h2 : E.type = env.TRANSACTION_INSERT
    · rw [if_pos h2] at h
      rw [← Except.ok.inj h]
      exact ⟨linkFront_linked E p f l hinv hf hl hp, (linkFront_links E p f f 0).2.2.2.2⟩
    · rw [if_neg h2] at h
      by_cases h3 : op = 0x05010B06 ∧ (rec2 E.mem l).opCode = 0x0B02
      · rw [if_pos h3] at h
        by_cases h4 : (rec1 E.mem l).prev = none
        · rw [if_pos h4] at h
          rw [← Except.ok.inj h]
          exact ⟨linkBeforeOnlyTail_linked E p f l hinv hf hl hp,
            (linkBeforeOnlyTail_links E p l l 0).2.2.2.2⟩
        · rw [if_neg h4] at h
          rw [← Except.ok.inj h]
          exact ⟨linkBeforeTail_linked E p f l hinv hf hl hp h4,
            (linkBeforeTail_links E p l l 0).2.2.2.2⟩
      · rw [if_neg h3] at h
        rw [← Except.ok.inj h]
        exact ⟨linkBack_linked E p f l hinv hf hl hp, (linkBack_links E p l l 0).2.2.2.2⟩
  · rw [if_neg h1] at h
    cases h

theorem flushPiece_linked (env : Env) (st st1 : FlushState) (p op : Nat) (fl : Bool)
    (hinv : linkedBelow st p) (hp : p < st.mem.length)
    (h : flushPiece env st p op = .ok (st1, fl)) :
    linkedBelow st1 (p + 1) ∧ st1.mem.length = st.mem.length := by
  rw [flushPiece_eq] at h
  by_cases hs : (rec1 st.mem p).suppLogType = 0
  · rw [if_pos hs] at h; cases h
  · rw [if_neg hs] at h
    have hE := pieceEntry_linked env st p op p hinv
    have hlen := pieceEntry_length env st p op
    have key : ∀ st2 : FlushState, linkedBelow st2 (p + 1) ∧ st2.mem.length = st.mem.length →
        (if ((rec1 st2.mem p).suppLogFb &&& env.FB_L) ≠ 0 then
          Except.ok ({ st2 with events := st2.events ++
            [Event.parseDML (st2.first1.getD 0) (st2.first2.getD 0) st2.type st2.mem] }, true)
        else Except.ok (st2, false)) = (Except.ok (st1, fl) : Except String (FlushState × Bool)) →
        linkedBelow st1 (p + 1) ∧ st1.mem.length = st.mem.length := by
      intro st2 h2 h3
      split_ifs at h3
      · obtain ⟨e1, -⟩ := Prod.mk.inj (Except.ok.inj h3)
        rw [← e1]; exact h2
      · obtain ⟨e1, -⟩ := Prod.mk.inj (Except.ok.inj h3)
        rw [← e1]; exact h2
    cases hf : st.first1 with
    | none =>
      rw [hf] at h
      simp only [] at h
      refine key { pieceEntry env st p op with
        first1 := some p, first2 := some p, last1 := some p, last2 := some p } ⟨?_, hlen⟩ h
      obtain ⟨i1, i2, i3, i4, -⟩ := hE
      refine ⟨fun q hq => i1 q (by omega), fun q x hx => ?_, fun q x hx => ?_, i4,
        Or.inr ⟨p, p, rfl, rfl, rfl, rfl, by omega, by omega, (i1 p (Nat.le_refl _)).2,
          fun hne => absurd rfl hne⟩⟩
      · have := i2 q x hx; omega
      · have := i3 q x hx; omega
    | some f =>
      rw [hf] at h
      simp only [] at h
      have hfE : (pieceEntry env st p op).first1 = some f := hf
      obtain ⟨-, -, -, -, i5⟩ := hinv
      rcases i5 with ⟨c1, -⟩ | ⟨f0, l, c1, c2, c3, c4, -⟩
      · rw [hf] at c1; cases c1
      · rw [hf] at c1
        have e1 := Option.some.inj c1
        subst e1
        rw [c2, c3, c4] at h
        simp only [Option.getD_some] at h
        cases hl : linkPiece env (pieceEntry env st p op) p op f f l l with
        | error e => rw [hl] at h; cases h
        | ok st2 =>
          rw [hl] at h
          simp only [] at h
          have hlE : (pieceEntry env st p op).last1 = some l := c3
          obtain ⟨a1, a2⟩ := linkPiece_linked env _ st2 p op f l hE hfE hlE (by rw [hlen]; exact hp) hl
          exact key st2 ⟨a1, a2.trans hlen⟩ h

theorem flushAfter_linked (env : Env) (t : Transaction) (st : FlushState) (fl : Bool) (row : Row)
    (n : Nat) (hinv : linkedBelow st n) : linkedBelow (flushAfter env t st fl row) n := by
  obtain ⟨i1, i2, i3, i4, i5⟩ := hinv
  obtain ⟨p1, p2, p3, p4, p5, p6, p7, p8⟩ := flushAfter_pointers env t st row
  have hm := flushAfter_mem env t st fl row
  unfold linkedBelow
  rw [hm]
  refine ⟨i1, i2, i3, i4, ?_⟩
  cases fl with
  | true => exact Or.inl ⟨p5, p6, p7, p8⟩
  | false => rw [p1, p2, p3, p4]; exact i5

theorem flushRow_linked (env : Env) (t : Transaction) (st st2 : FlushState) (row : Row)
    (hinv : linkedBelow st st.idx) (hp : st.idx < st.mem.length)
    (h : flushRow env t st row = .ok st2) :
    linkedBelow st2 st2.idx ∧ st2.mem.length = st.mem.length := by
  have hidx : st2.idx = st.idx + 1 := (flushRow_ok env t st st2 row h).1
  rw [hidx]
  by_cases hpc : isPieceOp row.op = true
  · obtain ⟨st1, fl, h1, h2, -⟩ := flushRow_piece env t st st2 row hpc h
    obtain ⟨a1, a2⟩ := flushPiece_linked env st st1 st.idx row.op fl hinv hp h1
    rw [h2]
    exact ⟨flushAfter_linked env t st1 fl row _ a1, by rw [flushAfter_mem]; exact a2⟩
  · have hp2 : isPieceOp row.op = false := by simpa using hpc
    unfold flushRow at h
    cases hsw : flushSwitch env st st.idx row.op with
    | error e => rw [hsw] at h; cases h
    | ok r =>
      obtain ⟨st1, fl⟩ := r
      rw [hsw] at h
      have h2 := Except.ok.inj h
      obtain ⟨b1, -, b3, -⟩ := flushSwitch_other env st st1 st.idx row.op fl hp2 hsw
      subst b1
      obtain ⟨i1, i2, i3, i4, -⟩ := hinv
      obtain ⟨-, -, -, -, p5, p6, p7, p8⟩ := flushAfter_pointers env t st1 row
      have hm := flushAfter_mem env t st1 true row
      rw [← h2]
      refine ⟨?_, by rw [hm, b3]⟩
      unfold linkedBelow
      rw [hm, b3]
      refine ⟨fun q hq => i1 q (by omega), fun q x hx => ?_, fun q x hx => ?_, i4,
        Or.inl ⟨p5, p6, p7, p8⟩⟩
      · have := i2 q x hx; omega
      · have := i3 q x hx; omega

theorem flushRows_linked (env : Env) (t : Transaction) :
    ∀ (rows : List Row) (st st1 : FlushState), linkedBelow st st.idx →
      st.idx + rows.length ≤ st.mem.length → flushRows env t st rows = .ok st1 →
      linkedBelow st1 st1.idx ∧ st1.mem.length = st.mem.length
  | [], st, st1, hinv, _, h => by
    simp only [flushRows] at h
    cases h
    exact ⟨hinv, rfl⟩
  | row :: rows, st, st1, hinv, hlen, h => by
    simp only [flushRows] at h
    cases hr : flushRow env t st row with
    | error e => rw [hr] at h; cases h
    | ok st2 =>
      rw [hr] at h
      simp only [List.length_cons] at hlen
      obtain ⟨a1, a2⟩ := flushRow_linked env t st st2 row hinv (by omega) hr
      have hidx : st2.idx = st.idx + 1 := (flushRow_ok env t st st2 row hr).1
      obtain ⟨b1, b2⟩ := flushRows_linked env t rows st2 st1 a1 (by rw [hidx, a2]; omega) h
      exact ⟨b1, b2.trans a2⟩

theorem walkStart_linked (t : Transaction) (hnull : ∀ r ∈ t.rows, r.nullLinks) :
    linkedBelow (walkStart t) 0 := by
  have h1 : ∀ q, (rec1 t.rows q).next = none ∧ (rec1 t.rows q).prev = none ∧
      (rec2 t.rows q).next = none ∧ (rec2 t.rows q).prev = none := by
    intro q
    unfold rec1 rec2
    cases hq : t.rows[q]? with
    | none => exact ⟨rfl, rfl, rfl, rfl⟩
    | some r =>
      obtain ⟨hlt, hget⟩ := List.getElem?_eq_some_iff.1 hq
      exact hnull r (by rw [← hget]; exact List.getElem_mem hlt)
  refine ⟨fun q _ => ⟨(h1 q).1, (h1 q).2.1⟩, fun q x hx => ?_, fun q x hx => ?_, fun q => ?_,
    Or.inl ⟨rfl, rfl, rfl, rfl⟩⟩
  · have := (h1 q).2.1
    simp only [walkStart] at hx
    rw [this] at hx; cases hx
  · have := (h1 q).1
    simp only [walkStart] at hx
    rw [this] at hx; cases hx
  · simp only [walkStart]
    rw [(h1 q).1, (h1 q).2.1, (h1 q).2.2.1, (h1 q).2.2.2]
    exact ⟨rfl, rfl⟩

/-- When the stored records have null links, the state the walk of `flush` has
reached after the rows `pre` has well-formed links below the walk position. -/
theorem flush_reach_linked (env : Env) (t0 : Transaction) (pre post : List Row) (row : Row)
    (st1 : FlushState) (hnull : ∀ r ∈ t0.rows, r.nullLinks)
    (hrows : t0.rows = pre ++ row :: post)
    (hpre : flushRows env t0 (walkStart t0) pre = .ok st1) :
    linkedBelow st1 pre.length ∧ st1.idx = pre.length ∧ pre.length < st1.mem.length := by
  have hlen : (walkStart t0).mem.length = pre.length + (post.length + 1) := by
    simp only [walkStart, hrows, List.length_append, List.length_cons]
  obtain ⟨a1, a2⟩ := flushRows_linked env t0 pre (walkStart t0) st1
    (walkStart_linked t0 hnull) (by rw [hlen]; simp [walkStart]) hpre
  have hidx : st1.idx = pre.length := by
    rw [(flushRows_ok env t0 pre _ st1 hpre).1]; simp [walkStart]
  rw [hidx] at a1
  exact ⟨a1, hidx, by rw [a2, hlen]; omega⟩

/-! ### Where a piece is linked, and when the chain is emitted -/

theorem nextType_overwrite (env : Env) (hd : env.TRANSACTION_UPDATE ≠ env.TRANSACTION_INSERT)
    (ty : Nat) : nextType env ty 0x05010B06 ≠ env.TRANSACTION_INSERT := by
  unfold nextType
  by_cases h0 : ty = 0
  · rw [if_pos h0]
    simp only [show ¬ (0x05010B06 = 0x05010B02) by decide, show ¬ (0x05010B06 = 0x05010B03) by decide,
      if_false]
    exact hd
  · rw [if_neg h0]
    by_cases h1 : ty = env.TRANSACTION_INSERT
    · rw [if_pos h1]
      simp only [true_or, or_true, if_true]
      exact hd
    · rw [if_neg h1]
      by_cases h2 : ty = env.TRANSACTION_DELETE
      · rw [if_pos h2]
        simp only [true_or, or_true, if_true]
        exact hd
      · rw [if_neg h2]
        exact h1

/-- The row-piece case when a chain is open: the piece is linked by `linkPiece`
and the chain pointers and memory are those `linkPiece` leaves. -/
theorem flushPiece_open (env : Env) (st st2 : FlushState) (p op f : Nat) (fl : Bool)
    (hf : st.first1 = some f) (h : flushPiece env st p op = .ok (st2, fl)) :
    ∃ stl, linkPiece env (pieceEntry env st p op) p op f (st.first2.getD 0) (st.last1.getD 0)
        (st.last2.getD 0) = .ok stl ∧
      st2.mem = stl.mem ∧ st2.first1 = stl.first1 ∧ st2.first2 = stl.first2 ∧
      st2.last1 = stl.last1 ∧ st2.last2 = stl.last2 ∧ st2.type = stl.type ∧
      (fl = true → st2.events = st.events ++
        [Event.parseDML (stl.first1.getD 0) (stl.first2.getD 0) stl.type stl.mem]) ∧
      (fl = false → st2.events = st.events) := by
  rw [flushPiece_eq] at h
  by_cases hs : (rec1 st.mem p).suppLogType = 0
  · rw [if_pos hs] at h; cases h
  · rw [if_neg hs, hf] at h
    simp only [] at h
    cases hl : linkPiece env (pieceEntry env st p op) p op f (st.first2.getD 0)
        (st.last1.getD 0) (st.last2.getD 0) with
    | error e => rw [hl] at h; cases h
    | ok stl =>
      rw [hl] at h
      simp only [] at h
      have hev : stl.events = st.events := (linkPiece_ok env _ _ _ _ _ _ _ _ hl).1
      refine ⟨stl, rfl, ?_⟩
      split_ifs at h
      · obtain ⟨e1, e2⟩ := Prod.mk.inj (Except.ok.inj h)
        rw [← e1, ← e2]
        exact ⟨rfl, rfl, rfl, rfl, rfl, rfl, fun _ => by rw [hev], fun hc => (by cases hc)⟩
      · obtain ⟨e1, e2⟩ := Prod.mk.inj (Except.ok.inj h)
        rw [← e1, ← e2]
        exact ⟨rfl, rfl, rfl, rfl, rfl, rfl, fun hc => (by cases hc), fun _ => hev⟩

/-- The row-piece case when no chain is open: the piece becomes head and tail
of a new chain. -/
theorem flushPiece_first (env : Env) (st st2 : FlushState) (p op : Nat) (fl : Bool)
    (hf : st.first1 = none) (h : flushPiece env st p op = .ok (st2, fl)) :
    st2.mem = (pieceEntry env st p op).mem ∧ st2.first1 = some p ∧ st2.first2 = some p ∧
      st2.last1 = some p ∧ st2.last2 = some p ∧
      (fl = true → st2.events = st.events ++
        [Event.parseDML p p (nextType env st.type op) (pieceEntry env st p op).mem]) ∧
      (fl = false → st2.events = st.events) := by
  rw [flushPiece_eq] at h
  by_cases hs : (rec1 st.mem p).suppLogType = 0
  · rw [if_pos hs] at h; cases h
  · rw [if_neg hs, hf] at h
    simp only [] at h
    split_ifs at h
    · obtain ⟨e1, e2⟩ := Prod.mk.inj (Except.ok.inj h)
      rw [← e1, ← e2]
      exact ⟨rfl, rfl, rfl, rfl, rfl, fun _ => rfl, fun hc => (by cases hc)⟩
    · obtain ⟨e1, e2⟩ := Prod.mk.inj (Except.ok.inj h)
      rw [← e1, ← e2]
      exact ⟨rfl, rfl, rfl, rfl, rfl, fun hc => (by cases hc), fun _ => rfl⟩

/-- C19: let the stored records have null links and let the walk of `flush`
reach an overwrite piece (`op2 = 0x05010B06`) while a chain with head `f` and
tail `l` is open. If the companion record of the tail has opCode `0x0B02`, the
piece is linked immediately before the tail, which stays the tail: it becomes
the head when the tail was the only element, and otherwise it takes the place
between the tail and its former predecessor. In every other case the piece is
linked after the tail and becomes the new tail. -/
theorem flush_overwrite_linkage (env : Env) (t0 : Transaction) (pre post : List Row) (row : Row)
    (st1 st2 : FlushState) (fl : Bool) (f l : Nat)
    (hd : env.TRANSACTION_UPDATE ≠ env.TRANSACTION_INSERT)
    (hnull : ∀ r ∈ t0.rows, r.nullLinks) (hrows : t0.rows = pre ++ row :: post)
    (hpre : flushRows env t0 (walkStart t0) pre = .ok st1) (hop : row.op = 0x05010B06)
    (hf : st1.first1 = some f) (hl : st1.last1 = some l)
    (h : flushPiece env st1 st1.idx row.op = .ok (st2, fl)) :
    ((rec2 st1.mem l).opCode = 0x0B02 →
        st2.last1 = some l ∧ st2.last2 = some l ∧
        (rec1 st2.mem st1.idx).next = some l ∧ (rec1 st2.mem l).prev = some st1.idx ∧
        (rec2 st2.mem st1.idx).next = some l ∧ (rec2 st2.mem l).prev = some st1.idx ∧
        (f = l → st2.first1 = some st1.idx ∧ st2.first2 = some st1.idx ∧
          (rec1 st2.mem st1.idx).prev = none) ∧
        (f ≠ l → st2.first1 = some f ∧ st2.first2 = some f ∧
          ∃ x, (rec1 st1.mem l).prev = some x ∧ (rec1 st2.mem st1.idx).prev = some x ∧
            (rec1 st2.mem x).next = some st1.idx)) ∧
      ((rec2 st1.mem l).opCode ≠ 0x0B02 →
        st2.last1 = some st1.idx ∧ st2.last2 = some st1.idx ∧
        st2.first1 = some f ∧ st2.first2 = some f ∧
        (rec1 st2.mem l).next = some st1.idx ∧ (rec1 st2.mem st1.idx).prev = some l ∧
        (rec1 st2.mem st1.idx).next = none ∧
        (rec2 st2.mem l).next = some st1.idx ∧ (rec2 st2.mem st1.idx).prev = some l) := by
  obtain ⟨hinv0, hidx, hplen0⟩ := flush_reach_linked env t0 pre post row st1 hnull hrows hpre
  have hinv : linkedBelow st1 st1.idx := by rw [hidx]; exact hinv0
  have hplen : st1.idx < st1.mem.length := by rw [hidx]; exact hplen0
  generalize st1.idx = p at h hinv hplen ⊢
  obtain ⟨o1, o2, o3, o4, o5, o6⟩ := linkedBelow_open st1 p f l hinv hf hl
  obtain ⟨stl, hlink, m0, q1, q2, q3, q4, -⟩ := flushPiece_open env st1 st2 p row.op f fl hf h
  rw [o1, hl, o2] at hlink
  simp only [Option.getD_some] at hlink
  obtain ⟨-, -, -, c4, -⟩ := (flushPiece_linked env st1 st2 p row.op fl hinv hplen h).1
  obtain ⟨i1, i2, i3, i4, -⟩ := hinv
  have hE1 : ∀ q, rec1 (pieceEntry env st1 p row.op).mem q = rec1 st1.mem q := fun q => by
    simp only [pieceEntry, rec1_setRec2]
  have hElen : (pieceEntry env st1 p row.op).mem.length = st1.mem.length :=
    pieceEntry_length env st1 p row.op
  have hEop : (rec2 (pieceEntry env st1 p row.op).mem l).opCode = (rec2 st1.mem l).opCode :=
    (strip2_fields _ _ (strip2_setRec2_after st1.mem p l _)).2
  have hty : ¬ (pieceEntry env st1 p row.op).type = env.TRANSACTION_INSERT := by
    have : (pieceEntry env st1 p row.op).type = nextType env st1.type row.op := rfl
    rw [this, hop]
    exact nextType_overwrite env hd st1.type
  have hEf1 : (pieceEntry env st1 p row.op).first1 = some f := hf
  have hEf2 : (pieceEntry env st1 p row.op).first2 = some f := o1
  have hEl1 : (pieceEntry env st1 p row.op).last1 = some l := hl
  have hEl2 : (pieceEntry env st1 p row.op).last2 = some l := o2
  unfold linkPiece at hlink
  by_cases h1 : (rec1 (pieceEntry env st1 p row.op).mem l).suppLogBdba =
        (rec1 (pieceEntry env st1 p row.op).mem p).suppLogBdba ∧
      (rec1 (pieceEntry env st1 p row.op).mem l).suppLogSlot =
        (rec1 (pieceEntry env st1 p row.op).mem p).suppLogSlot ∧
      (rec1 (pieceEntry env st1 p row.op).mem f).object =
        (rec1 (pieceEntry env st1 p row.op).mem p).object ∧
      (rec2 (pieceEntry env st1 p row.op).mem f).object =
        (rec2 (pieceEntry env st1 p row.op).mem p).object
  swap
  · rw [if_neg h1] at hlink; cases hlink
  rw [if_pos h1, if_neg hty] at hlink
  refine ⟨fun hA => ?_, fun hB => ?_⟩
  · rw [if_pos ⟨hop, by rw [hEop]; exact hA⟩] at hlink
    by_cases h4 : (rec1 (pieceEntry env st1 p row.op).mem l).prev = none
    · rw [if_pos h4] at hlink
      have hs := Except.ok.inj hlink
      subst hs
      have hfl : f = l := by
        by_contra hne
        exact o6 hne (by rw [← hE1]; exact h4)
      have hN := fun q => (linkBeforeOnlyTail_links (pieceEntry env st1 p row.op) p l l q).1
      have hP := fun q => (linkBeforeOnlyTail_links (pieceEntry env st1 p row.op) p l l q).2.1
      have r1 : (rec1 st2.mem p).next = some l := by
        rw [m0, hN p, if_pos ⟨rfl, by rw [hElen]; exact hplen⟩]
      have r2 : (rec1 st2.mem l).prev = some p := by
        rw [m0, hP l, if_pos ⟨rfl, by rw [hElen]; omega⟩]
      refine ⟨by rw [q3]; exact hEl1, by rw [q4]; exact hEl2, r1, r2, by rw [(c4 p).1, r1],
        by rw [(c4 l).2, r2], fun _ => ⟨by rw [q1]; rfl, by rw [q2]; rfl, ?_⟩,
        fun hne => absurd hfl hne⟩
      rw [m0, hP p, if_neg (by omega), hE1]
      exact (i1 p (Nat.le_refl _)).2
    · rw [if_neg h4] at hlink
      have hs := Except.ok.inj hlink
      subst hs
      have hfl : f ≠ l := fun e => h4 (by rw [hE1, ← e]; exact o5)
      have hN := fun q => (linkBeforeTail_links (pieceEntry env st1 p row.op) p l l q).1
      have hP := fun q => (linkBeforeTail_links (pieceEntry env st1 p row.op) p l l q).2.1
      obtain ⟨x, hx⟩ := Option.ne_none_iff_exists'.1 h4
      have hx1 : (rec1 st1.mem l).prev = some x := by rw [← hE1]; exact hx
      have hxlt : x < p := i2 l x hx1
      have r1 : (rec1 st2.mem p).next = some l := by
        rw [m0, hN p, if_neg (by rw [hx]; intro hc; have := Option.some.inj hc.1; omega),
          if_pos ⟨rfl, by rw [hElen]; exact hplen⟩]
      have r2 : (rec1 st2.mem l).prev = some p := by
        rw [m0, hP l, if_pos ⟨rfl, by rw [hElen]; omega⟩]
      have e1 : (linkBeforeTail (pieceEntry env st1 p row.op) p l l).first1 = some f := by
        simp only [linkBeforeTail]; exact hEf1
      have e2 : (linkBeforeTail (pieceEntry env st1 p row.op) p l l).first2 = some f := by
        simp only [linkBeforeTail]; exact hEf2
      have e3 : (linkBeforeTail (pieceEntry env st1 p row.op) p l l).last1 = some l := by
        simp only [linkBeforeTail]; exact hEl1
      have e4 : (linkBeforeTail (pieceEntry env st1 p row.op) p l l).last2 = some l := by
        simp only [linkBeforeTail]; exact hEl2
      refine ⟨by rw [q3]; exact e3, by rw [q4]; exact e4, r1, r2, by rw [(c4 p).1, r1],
        by rw [(c4 l).2, r2], fun he => absurd he hfl,
        fun _ => ⟨by rw [q1]; exact e1, by rw [q2]; exact e2, x, hx1, ?_, ?_⟩⟩
      · rw [m0, hP p, if_neg (by omega), if_pos ⟨rfl, by rw [hElen]; exact hplen⟩, hx]
      · rw [m0, hN x, if_pos ⟨hx, by rw [hElen]; omega⟩]
  · rw [if_neg (fun hc => hB (by rw [← hEop]; exact hc.2))] at hlink
    have hs := Except.ok.inj hlink
    subst hs
    have hN := fun q => (linkBack_links (pieceEntry env st1 p row.op) p l l q).1
    have hP := fun q => (linkBack_links (pieceEntry env st1 p row.op) p l l q).2.1
    have r1 : (rec1 st2.mem l).next = some p := by
      rw [m0, hN l, if_pos ⟨rfl, by rw [hElen]; omega⟩]
    have r2 : (rec1 st2.mem p).prev = some l := by
      rw [m0, hP p, if_pos ⟨rfl, by rw [hElen]; exact hplen⟩]
    refine ⟨by rw [q3]; rfl, by rw [q4]; rfl, by rw [q1]; exact hEf1, by rw [q2]; exact hEf2,
      r1, r2, ?_, by rw [(c4 l).1, r1], by rw [(c4 p).2, r2]⟩
    rw [m0, hN p, if_neg (by omega), hE1]
    exact (i1 p (Nat.le_refl _)).1

theorem flush_overwrite_linkage_witness :
    (rec2 (walkAfter sampleEnv overwriteTx 1).mem 0).opCode = 0x0B02 ∧
      overwriteOut.1.first1 = some 1 ∧ overwriteOut.1.last1 = some 0 ∧
      (rec1 overwriteOut.1.mem 1).next = some 0 ∧ (rec1 overwriteOut.1.mem 0).prev = some 1 :=
  have h := (flush_overwrite_linkage sampleEnv overwriteTx [s1RowA] [] overwriteRow
    (walkAfter sampleEnv overwriteTx 1) overwriteOut.1 overwriteOut.2 0 0 (by decide) (by decide)
    (by rfl) (by rfl) rfl (by rfl) (by rfl) (by rfl)).1 (by rfl)
  ⟨by rfl, (h.2.2.2.2.2.2.1 rfl).1, h.1, h.2.2.1, h.2.2.2.1⟩

theorem flushAfter_events (env : Env) (t : Transaction) (st : FlushState) (fl : Bool) (row : Row) :
    (flushAfter env t st fl row).events = st.events ∨
      (flushAfter env t st fl row).events = st.events ++
        [Event.processCommit, Event.processBegin t.lastScn t.commitTime t.xid] := by
  unfold flushAfter
  by_cases hb : bigTransaction env st.events = true <;> cases fl <;> simp [hb]

theorem reach_record (env : Env) (t0 : Transaction) (pre post : List Row) (row : Row)
    (st1 : FlushState) (hrows : t0.rows = pre ++ row :: post)
    (hpre : flushRows env t0 (walkStart t0) pre = .ok st1) :
    st1.idx = pre.length ∧ stripLinks (rec1 st1.mem st1.idx) = stripLinks row.redoLogRecord1 ∧
      stripLinks2 (rec2 st1.mem st1.idx) = stripLinks2 row.redoLogRecord2 := by
  obtain ⟨a1, a2, a3⟩ := flushRows_ok env t0 pre _ st1 hpre
  have hidx : st1.idx = pre.length := by rw [a1]; simp [walkStart]
  have hget : t0.rows[pre.length]? = some row := by
    rw [hrows, List.getElem?_append_right (Nat.le_refl _), Nat.sub_self]
    simp
  refine ⟨hidx, ?_, ?_⟩
  · rw [a2, hidx]
    simp only [walkStart, rec1, hget]
    rfl
  · rw [a3, hidx]
    simp only [walkStart, rec2, hget]
    rfl

/-- C20: at a row piece the walk of `flush` has reached and processes without a
fatal condition, `parseDML` is called if and only if the `FB_L` bit of the
`suppLogFb` of its undo record is set. When it is set, the call passes the head
of the chain as it stands after this piece is linked, possibly followed by the
forced commit and begin of a big transaction, and afterwards no chain is open
and `type` is 0; when no chain was open, the head passed is the piece itself
and, the stored records having null links, it has no successor and no
predecessor. When the bit is clear, no `parseDML` is issued and the chain stays
open. -/
theorem flush_emit_on_last_piece (env : Env) (t0 : Transaction) (pre post : List Row)
    (row : Row) (st1 st2 : FlushState) (hrows : t0.rows = pre ++ row :: post)
    (hpre : flushRows env t0 (walkStart t0) pre = .ok st1) (hp : isPieceOp row.op = true)
    (h : flushRow env t0 st1 row = .ok st2) :
    ((row.redoLogRecord1.suppLogFb &&& env.FB_L) ≠ 0 →
        ∃ f1 f2 mem rest,
          st2.events = st1.events ++
            Event.parseDML f1 f2 (nextType env st1.type row.op) mem :: rest ∧
          (rest = [] ∨
            rest = [Event.processCommit, Event.processBegin t0.lastScn t0.commitTime t0.xid]) ∧
          st2.first1 = none ∧ st2.first2 = none ∧ st2.last1 = none ∧ st2.last2 = none ∧
          st2.type = 0 ∧
          (st1.first1 = none → f1 = st1.idx ∧ f2 = st1.idx ∧
            mem = (pieceEntry env st1 st1.idx row.op).mem) ∧
          (∀ f, st1.first1 = some f →
            ∃ stl, linkPiece env (pieceEntry env st1 st1.idx row.op) st1.idx row.op f
                (st1.first2.getD 0) (st1.last1.getD 0) (st1.last2.getD 0) = .ok stl ∧
              f1 = stl.first1.getD 0 ∧ f2 = stl.first2.getD 0 ∧ mem = stl.mem) ∧
          ((∀ r ∈ t0.rows, r.nullLinks) → st1.first1 = none →
            (rec1 mem st1.idx).next = none ∧ (rec1 mem st1.idx).prev = none ∧
            (rec2 mem st1.idx).next = none ∧ (rec2 mem st1.idx).prev = none ∧
            stripLinks (rec1 mem st1.idx) = stripLinks row.redoLogRecord1)) ∧
      ((row.redoLogRecord1.suppLogFb &&& env.FB_L) = 0 →
        dmlTypes st2.events = dmlTypes st1.events ∧ st2.first1 ≠ none ∧
        (st2.events = st1.events ∨ st2.events = st1.events ++
          [Event.processCommit, Event.processBegin t0.lastScn t0.commitTime t0.xid])) := by
  obtain ⟨hidx, hs1, -⟩ := reach_record env t0 pre post row st1 hrows hpre
  have hfbeq : (rec1 st1.mem st1.idx).suppLogFb = row.redoLogRecord1.suppLogFb :=
    (strip_fields _ _ hs1).2.2.2.2
  obtain ⟨sp, fl, hpiece, hst2, hfl⟩ := flushRow_piece env t0 st1 st2 row hp h
  rw [hfbeq] at hfl
  obtain ⟨p1, p2, p3, p4, p5, p6, p7, p8⟩ := flushAfter_pointers env t0 sp row
  have hty := (flushAfter_ok env t0 sp fl row).2.2.1
  have hev := flushAfter_events env t0 sp fl row
  refine ⟨fun hA => ?_, fun hB => ?_⟩
  · have hfl2 : fl = true := by rw [hfl]; simp [hA]
    subst hfl2
    have hrest : ∀ ev, sp.events = st1.events ++ [ev] → ∃ rest,
        st2.events = st1.events ++ ev :: rest ∧ (rest = [] ∨
          rest = [Event.processCommit, Event.processBegin t0.lastScn t0.commitTime t0.xid]) := by
      intro ev he
      rcases hev with h1 | h1
      · exact ⟨[], by rw [hst2, h1, he], Or.inl rfl⟩
      · exact ⟨_, by rw [hst2, h1, he, List.append_assoc]; rfl, Or.inr rfl⟩
    cases hf : st1.first1 with
    | none =>
      obtain ⟨m0, -, -, -, -, e1, -⟩ := flushPiece_first env st1 sp st1.idx row.op true hf hpiece
      obtain ⟨rest, r1, r2⟩ := hrest _ (e1 rfl)
      refine ⟨st1.idx, st1.idx, (pieceEntry env st1 st1.idx row.op).mem, rest, r1, r2,
        by rw [hst2, p5], by rw [hst2, p6], by rw [hst2, p7], by rw [hst2, p8],
        by rw [hst2, hty]; rfl, fun _ => ⟨rfl, rfl, rfl⟩, fun f hc => (by cases hc),
        fun hnull _ => ?_⟩
      obtain ⟨hinv0, -, -⟩ := flush_reach_linked env t0 pre post row st1 hnull hrows hpre
      rw [← hidx] at hinv0
      obtain ⟨i1, -, -, i4, -⟩ := hinv0
      have hE1 : rec1 (pieceEntry env st1 st1.idx row.op).mem st1.idx = rec1 st1.mem st1.idx := by
        simp only [pieceEntry, rec1_setRec2]
      have hE2 : (rec2 (pieceEntry env st1 st1.idx row.op).mem st1.idx).next =
          (rec2 st1.mem st1.idx).next := by
        simp only [pieceEntry, next_setRec2_after]
      have hE3 : (rec2 (pieceEntry env st1 st1.idx row.op).mem st1.idx).prev =
          (rec2 st1.mem st1.idx).prev := by
        simp only [pieceEntry, prev_setRec2_after]
      have hn := i1 st1.idx (Nat.le_refl _)
      refine ⟨by rw [hE1]; exact hn.1, by rw [hE1]; exact hn.2,
        by rw [hE2, (i4 st1.idx).1]; exact hn.1, by rw [hE3, (i4 st1.idx).2]; exact hn.2,
        by rw [hE1]; exact hs1⟩
    | some f =>
      obtain ⟨stl, hlink, m0, -, -, -, -, -, e1, -⟩ :=
        flushPiece_open env st1 sp st1.idx row.op f true hf hpiece
      have htl : stl.type = nextType env st1.type row.op :=
        (linkPiece_ok env _ _ _ _ _ _ _ _ hlink).2.1
      have e2 := e1 rfl
      rw [htl] at e2
      obtain ⟨rest, r1, r2⟩ := hrest _ e2
      exact ⟨stl.first1.getD 0, stl.first2.getD 0, stl.mem, rest, r1, r2,
        by rw [hst2, p5], by rw [hst2, p6], by rw [hst2, p7], by rw [hst2, p8],
        by rw [hst2, hty]; rfl, fun hc => (by cases hc),
        fun f2 hf2 => (by
          have := Option.some.inj hf2
          subst this
          exact ⟨stl, hlink, rfl, rfl, rfl⟩),
        fun _ hc => (by cases hc)⟩
  · have hfl2 : fl = false := by rw [hfl]; simp [hB]
    subst hfl2
    have hsp : sp.events = st1.events :=
      (flushPiece_ok env st1 sp st1.idx row.op false hpiece).2.2.2.2.2 rfl
    have hne : sp.first1 ≠ none := by
      cases hf : st1.first1 with
      | none =>
        rw [(flushPiece_first env st1 sp st1.idx row.op false hf hpiece).2.1]
        simp
      | some f =>
        rcases ((flushPiece_pointers env st1 sp st1.idx row.op false hpiece).2 f hf).2.1 with hx | hx
        · rw [hx]; simp
        · rw [hx, hf]; simp
    refine ⟨?_, by rw [hst2, p1]; exact hne, ?_⟩
    · rw [hst2, (flushAfter_ok env t0 sp false row).2.2.2.1, hsp]
    · rcases hev with h1 | h1
      · exact Or.inl (by rw [hst2, h1, hsp])
      · exact Or.inr (by rw [hst2, h1, hsp])

theorem flush_emit_on_last_piece_witness :
    (s1RowB.redoLogRecord1.suppLogFb &&& sampleEnv.FB_L) ≠ 0 ∧
      (walkStart shutdownTx).first1 = none ∧
      dmlHeads (walkAfter sampleEnv shutdownTx 1).events = [(0, none)] ∧
      (walkAfter sampleEnv shutdownTx 1).first1 = none :=
  have h := (flush_emit_on_last_piece sampleEnv shutdownTx [] (shutdownTx.rows.drop 1) s1RowB
    (walkStart shutdownTx) (walkAfter sampleEnv shutdownTx 1) (by rfl) (by rfl) (by decide)
    (by rfl)).1 (by decide)
  ⟨by decide, rfl, by rfl, by
    obtain ⟨f1, f2, mem, rest, -, -, h3, -⟩ := h
    exact h3⟩

section OutputBufferRoundTrip

open OutputBuffer

/-! ### Output buffer: memory lemmas -/

theorem setChunk_fields (b : OutputBuffer) (p : Option Nat) (f : BufferChunk → BufferChunk) :
    (setChunk b p f).lastBuffer = b.lastBuffer ∧ (setChunk b p f).lastBufferPos = b.lastBufferPos ∧
      (setChunk b p f).curBuffer = b.curBuffer ∧ (setChunk b p f).curBufferPos = b.curBufferPos ∧
      (setChunk b p f).messageLength = b.messageLength ∧
      (setChunk b p f).firstBuffer = b.firstBuffer ∧
      (setChunk b p f).chunks.length = b.chunks.length := by
  cases p with
  | none => exact ⟨rfl, rfl, rfl, rfl, rfl, rfl, rfl⟩
  | some c =>
    simp only [setChunk]
    split
    · exact ⟨rfl, rfl, rfl, rfl, rfl, rfl, by simp⟩
    · exact ⟨rfl, rfl, rfl, rfl, rfl, rfl, rfl⟩

theorem setChunk_get (b : OutputBuffer) (c q : Nat) (f : BufferChunk → BufferChunk) :
    (setChunk b (some c) f).chunks[q]? = if q = c then b.chunks[c]?.map f else b.chunks[q]? := by
  simp only [setChunk]
  split
  · rename_i chunk h
    have hlt : c < b.chunks.length := (List.getElem?_eq_some_iff.1 h).1
    by_cases hq : q = c
    · subst hq
      simp [List.getElem?_set_self hlt, h]
    · have hq2 : c ≠ q := fun e => hq e.symm
      simp [List.getElem?_set_ne hq2, hq]
  · rename_i h
    by_cases hq : q = c
    · subst hq; simp [h]
    · simp [hq]

theorem getMemoryChunk_get (L : BufferEnv) (b : OutputBuffer) (q : Nat) :
    (getMemoryChunk L b).1.chunks[q]? =
      if q = b.chunks.length then
        some { next := none, endPos := 0, bytes := L.garbage b.chunks.length }
      else b.chunks[q]? := by
  unfold getMemoryChunk
  simp only []
  by_cases hq : q = b.chunks.length
  · subst hq
    simp
  · rw [if_neg hq]
    by_cases hlt : q < b.chunks.length
    · rw [List.getElem?_append_left hlt]
    · have : b.chunks.length < q := by omega
      rw [List.getElem?_eq_none (by simp; omega), List.getElem?_eq_none (by omega)]

theorem bufferShift_stay (L : BufferEnv) (b : OutputBuffer) (n : Nat)
    (h : (b.lastBufferPos + n) % 2 ^ 64 < L.MEMORY_CHUNK_SIZE) :
    bufferShift L b n = { b with lastBufferPos := (b.lastBufferPos + n) % 2 ^ 64 } := by
  unfold bufferShift
  simp only []
  rw [if_neg (by omega)]

theorem bufferShift_wrap (L : BufferEnv) (b : OutputBuffer) (n k : Nat)
    (hk : b.lastBuffer = some k) (hlen : b.chunks.length = k + 1)
    (h : (b.lastBufferPos + n) % 2 ^ 64 ≥ L.MEMORY_CHUNK_SIZE) :
    (bufferShift L b n).lastBuffer = some (k + 1) ∧
      (bufferShift L b n).lastBufferPos = L.OUTPUT_BUFFER_DATA ∧
      (bufferShift L b n).curBuffer = b.curBuffer ∧
      (bufferShift L b n).curBufferPos = b.curBufferPos ∧
      (bufferShift L b n).messageLength = b.messageLength ∧
      (bufferShift L b n).firstBuffer = b.firstBuffer ∧
      (bufferShift L b n).chunks.length = k + 2 ∧
      ∀ q, (bufferShift L b n).chunks[q]? =
        if q = k then b.chunks[k]?.map fun ch =>
            { ch with next := some (k + 1), endPos := L.MEMORY_CHUNK_SIZE }
        else if q = k + 1 then
          some { next := none, endPos := L.OUTPUT_BUFFER_DATA, bytes := L.garbage (k + 1) }
        else b.chunks[q]? := by
  unfold bufferShift
  simp only []
  rw [if_pos h]
  simp only [getMemoryChunk, hlen, setChunk_fields, hk]
  refine ⟨trivial, trivial, trivial, trivial, trivial, trivial, ?_, fun q => ?_⟩
  · simp [hlen]
  · simp only [setChunk_get]
    by_cases h1 : q = k
    · subst h1
      have hlt : q < b.chunks.length := by omega
      have hne : ¬ q = q + 1 := by omega
      simp only [if_true, hne, if_false, List.getElem?_append_left hlt, Option.map_map]
      cases b.chunks[q]? <;> rfl
    · by_cases h2 : q = k + 1
      · subst h2
        have hne : ¬ k + 1 = k := by omega
        simp only [hne, if_false, if_true]
        have hget : (b.chunks ++ [({ next := none, endPos := 0, bytes := L.garbage (k + 1) } :
            BufferChunk)])[k + 1]? = some { next := none, endPos := 0, bytes := L.garbage (k + 1) } := by
          rw [← hlen]; simp
        rw [hget]
        rfl
      · simp only [h1, h2, if_false]
        by_cases hlt : q < b.chunks.length
        · rw [List.getElem?_append_left hlt]
        · rw [List.getElem?_eq_none (by simp; omega), List.getElem?_eq_none (by omega)]

/-- What `bufferShift` does to a well-formed chain: the write position moves as
`move` says, no byte of an existing chunk changes, and the chunks before the
last keep their `NEXT` and `END` words. -/
theorem bufferShift_spec (L : BufferEnv) (b : OutputBuffer) (n k p : Nat)
    (hL : L.OUTPUT_BUFFER_DATA < L.MEMORY_CHUNK_SIZE) (hc : Chain L b k p)
    (hn : p + n < 2 ^ 64) :
    Chain L (bufferShift L b n) (move L k p n).1 (move L k p n).2 ∧
      (bufferShift L b n).curBuffer = b.curBuffer ∧
      (bufferShift L b n).curBufferPos = b.curBufferPos ∧
      (bufferShift L b n).messageLength = b.messageLength ∧
      (∀ c pos, c ≤ k → chunkByte (bufferShift L b n) c pos = chunkByte b c pos) ∧
      (∀ c, c < k → nextOf (bufferShift L b n) c = nextOf b c ∧
        endOf (bufferShift L b n) c = endOf b c) ∧
      (p + n < L.MEMORY_CHUNK_SIZE → endOf (bufferShift L b n) k = endOf b k ∧
        nextOf (bufferShift L b n) k = nextOf b k) ∧
      (p + n ≥ L.MEMORY_CHUNK_SIZE →
        endOf (bufferShift L b n) (k + 1) = some L.OUTPUT_BUFFER_DATA) := by
  obtain ⟨c1, c2, c3, c4, c5, c6, c7⟩ := hc
  have hmod : (b.lastBufferPos + n) % 2 ^ 64 = p + n := by
    rw [c2]; exact Nat.mod_eq_of_lt hn
  by_cases hw : p + n ≥ L.MEMORY_CHUNK_SIZE
  · obtain ⟨w1, w2, w3, w4, w5, w6, w7, w8⟩ :=
      bufferShift_wrap L b n k c1 c3 (by rw [hmod]; exact hw)
    have hmv : move L k p n = (k + 1, L.OUTPUT_BUFFER_DATA) := by
      unfold move; rw [if_pos hw]
    rw [hmv]
    have hk : ∃ ch, b.chunks[k]? = some ch :=
      ⟨_, List.getElem?_eq_getElem (by omega : k < b.chunks.length)⟩
    obtain ⟨ch, hch⟩ := hk
    refine ⟨⟨w1, w2, w7, Nat.le_refl _, hL, by rw [w6]; exact c6, fun c hlt => ?_⟩, w3, w4, w5,
      fun c pos hle => ?_, fun c hlt => ?_, fun hlt => absurd hw (by omega), fun _ => ?_⟩
    · unfold nextOf endOf
      rw [w8 c]
      by_cases h1 : c = k
      · subst h1
        rw [if_pos rfl, hch]
        exact ⟨rfl, rfl⟩
      · rw [if_neg h1, if_neg (by omega)]
        exact c7 c (by omega)
    · unfold chunkByte
      rw [w8 c]
      by_cases h1 : c = k
      · subst h1
        rw [if_pos rfl, hch]
        rfl
      · rw [if_neg h1, if_neg (by omega)]
    · unfold nextOf endOf
      rw [w8 c, if_neg (by omega), if_neg (by omega)]
      exact ⟨rfl, rfl⟩
    · unfold endOf
      rw [w8 (k + 1), if_neg (by omega), if_pos rfl]
      rfl
  · have hlt : p + n < L.MEMORY_CHUNK_SIZE := by omega
    have hst := bufferShift_stay L b n (by rw [hmod]; exact hlt)
    have hmv : move L k p n = (k, p + n) := by
      unfold move; rw [if_neg hw]
    rw [hmv, hst, hmod]
    exact ⟨⟨c1, rfl, c3, by simp only []; omega, hlt, c6, c7⟩, rfl, rfl, rfl, fun _ _ _ => rfl,
      fun _ _ => ⟨rfl, rfl⟩, fun _ => ⟨rfl, rfl⟩, fun h => absurd h hw⟩

theorem setChunk_views (b : OutputBuffer) (c q : Nat) (f : BufferChunk → BufferChunk) :
    (∀ pos, chunkByte (setChunk b (some c) f) q pos =
        if q = c then b.chunks[c]?.map (fun ch => (f ch).bytes pos) else chunkByte b q pos) ∧
      nextOf (setChunk b (some c) f) q =
        (if q = c then b.chunks[c]?.map (fun ch => (f ch).next) else nextOf b q) ∧
      endOf (setChunk b (some c) f) q =
        (if q = c then b.chunks[c]?.map (fun ch => (f ch).endPos) else endOf b q) := by
  unfold chunkByte nextOf endOf
  rw [setChunk_get]
  by_cases h : q = c
  · simp only [if_pos h]
    refine ⟨fun pos => ?_, ?_, ?_⟩ <;> rw [Option.map_map] <;> rfl
  · simp only [if_neg h, implies_true, and_self]

theorem Pres_refl (b : OutputBuffer) (kl pl kh ph : Nat) : Pres b b kl pl kh ph :=
  ⟨fun _ _ _ _ => rfl, fun _ _ _ => rfl⟩

theorem Pres_trans (b b1 b2 : OutputBuffer) (kl pl kh ph : Nat) (h1 : Pres b b1 kl pl kh ph)
    (h2 : Pres b1 b2 kl pl kh ph) : Pres b b2 kl pl kh ph :=
  ⟨fun c pos hl hh => (h2.1 c pos hl hh).trans (h1.1 c pos hl hh),
    fun c hl hh => (h2.2 c hl hh).trans (h1.2 c hl hh)⟩

theorem Pres_mono (b b1 : OutputBuffer) (kl pl kh ph kl1 pl1 kh1 ph1 : Nat)
    (h : Pres b b1 kl pl kh ph) (hlo : kl < kl1 ∨ (kl = kl1 ∧ pl ≤ pl1))
    (hhi : kh1 < kh ∨ (kh1 = kh ∧ ph1 ≤ ph)) : Pres b b1 kl1 pl1 kh1 ph1 := by
  refine ⟨fun c pos hl hh => h.1 c pos ?_ ?_, fun c hl hh => h.2 c ?_ ?_⟩
  · rcases hlo with a | ⟨a1, a2⟩ <;> rcases hl with b | ⟨b1, b2⟩
    · exact Or.inl (by omega)
    · exact Or.inl (by omega)
    · exact Or.inl (by omega)
    · exact Or.inr ⟨by omega, by omega⟩
  · rcases hhi with a | ⟨a1, a2⟩ <;> rcases hh with b | ⟨b1, b2⟩
    · exact Or.inl (by omega)
    · exact Or.inl (by omega)
    · exact Or.inl (by omega)
    · exact Or.inr ⟨by omega, by omega⟩
  · rcases hlo with a | ⟨a1, a2⟩ <;> omega
  · rcases hhi with a | ⟨a1, a2⟩ <;> omega

theorem Chain_chunk (L : BufferEnv) (b : OutputBuffer) (k p c : Nat) (hc : Chain L b k p)
    (hle : c ≤ k) : ∃ ch, b.chunks[c]? = some ch :=
  ⟨_, List.getElem?_eq_getElem (by rw [hc.2.2.1]; omega)⟩

/-- What `bufferAppend` does inside a message. -/
theorem bufferAppend_spec (L : BufferEnv) (b : OutputBuffer) (x kc pc k p len : Nat)
    (hL : Aligned L) (hw : Writing L b kc pc k p len) (hlen : len + 1 < 2 ^ 64) :
    Writing L (bufferAppend L b x) kc pc (move L k p 1).1 (move L k p 1).2 (len + 1) ∧
      chunkByte (bufferAppend L b x) k p = some x ∧
      (∀ c pos, c ≤ k → (c = k → pos ≠ p) →
        chunkByte (bufferAppend L b x) c pos = chunkByte b c pos) ∧
      (∀ c, c < k → nextOf (bufferAppend L b x) c = nextOf b c) := by
  obtain ⟨hc, w2, w3, w4, w5, w6⟩ := hw
  obtain ⟨a1, a2, a3, a4, a5⟩ := hL
  obtain ⟨ch, hch⟩ := Chain_chunk L b k p k hc (Nat.le_refl _)
  obtain ⟨c1, c2, c3, c4, c5, c6, c7⟩ := hc
  obtain ⟨f1, f2, f3, f4, f5, f6, f7⟩ := setChunk_fields b (some k) fun c =>
    { c with bytes := Function.update c.bytes p x }
  have hv := fun c => setChunk_views b k c fun c =>
    { c with bytes := Function.update c.bytes p x }
  have hs : Chain L ({ setChunk b (some k) fun c =>
        { c with bytes := Function.update c.bytes p x } with
      messageLength := (b.messageLength + 1) % 2 ^ 64 }) k p := by
    refine ⟨f1.trans c1, f2.trans c2, f7.trans c3, c4, c5, f6.trans c6, fun c hlt => ?_⟩
    have e1 := (hv c).2.1
    have e2 := (hv c).2.2
    rw [if_neg (by omega)] at e1 e2
    exact ⟨e1.trans (c7 c hlt).1, e2.trans (c7 c hlt).2⟩
  have hb : ∀ c pos, chunkByte ({ setChunk b (some k) fun c =>
        { c with bytes := Function.update c.bytes p x } with
      messageLength := (b.messageLength + 1) % 2 ^ 64 }) c pos =
      if c = k then b.chunks[k]?.map (fun ch => Function.update ch.bytes p x pos)
      else chunkByte b c pos := fun c pos => (hv c).1 pos
  have hnx : ∀ c, nextOf ({ setChunk b (some k) fun c =>
        { c with bytes := Function.update c.bytes p x } with
      messageLength := (b.messageLength + 1) % 2 ^ 64 }) c =
      if c = k then b.chunks[k]?.map (fun ch => ch.next) else nextOf b c := fun c => (hv c).2.1
  have e : bufferAppend L b x = bufferShift L ({ setChunk b (some k) fun c =>
        { c with bytes := Function.update c.bytes p x } with
      messageLength := (b.messageLength + 1) % 2 ^ 64 }) 1 := by
    unfold bufferAppend
    simp only [c1, c2, f5]
  rw [e]
  obtain ⟨s1, s2, s3, s4, s5, s6, s7, s8⟩ := bufferShift_spec L _ 1 k p a3 hs (by omega)
  refine ⟨⟨s1, ?_, ?_, ?_, ?_, ?_⟩, ?_, fun c pos hle hne => ?_, fun c hlt => ?_⟩
  · rw [s2]; exact f3.trans w2
  · rw [s3]; exact f4.trans w3
  · rw [s4]
    show (b.messageLength + 1) % 2 ^ 64 = len + 1
    rw [w4]; exact Nat.mod_eq_of_lt hlen
  · unfold move
    by_cases hwr : p + 1 ≥ L.MEMORY_CHUNK_SIZE
    · rw [if_pos hwr]
      simp only []
      have : p + 1 = L.MEMORY_CHUNK_SIZE := by omega
      obtain ⟨d1, hd1⟩ := a1
      obtain ⟨d2, hd2⟩ := a2
      omega
    · rw [if_neg hwr]
      simp only []
      omega
  · unfold move
    by_cases hwr : p + 1 ≥ L.MEMORY_CHUNK_SIZE
    · rw [if_pos hwr]
      simp only []
      rcases w6 with h | h
      · exact Or.inl (by omega)
      · exact Or.inl (by omega)
    · rw [if_neg hwr]
      simp only []
      rcases w6 with h | h
      · exact Or.inl h
      · exact Or.inr ⟨h.1, by omega⟩
  · rw [s5 k p (Nat.le_refl _), hb, if_pos rfl, hch]
    simp
  · rw [s5 c pos hle, hb]
    by_cases hck : c = k
    · rw [if_pos hck, hck]
      unfold chunkByte
      rw [hch]
      simp [Function.update_noteq (hne hck)]
    · rw [if_neg hck]
  · rw [(s6 c hlt).1, hnx, if_neg (by omega)]

/-! ### Output buffer: reading what was written -/

theorem readerNext_move (L : BufferEnv) (b : OutputBuffer) (k p n : Nat)
    (h : p + n ≥ L.MEMORY_CHUNK_SIZE → nextOf b k = some (some (k + 1))) :
    readerNext L b (some k, p + n) = (some (move L k p n).1, (move L k p n).2) := by
  unfold readerNext move
  by_cases hw : p + n ≥ L.MEMORY_CHUNK_SIZE
  · have hn := h hw
    unfold nextOf at hn
    simp only [if_pos hw, hn]
    rfl
  · simp only [if_neg hw]

theorem appends_spec (L : BufferEnv) (hL : Aligned L) :
    ∀ (m : List Nat) (b : OutputBuffer) (kc pc k p len : Nat),
      Writing L b kc pc k p len → len + m.length < 2 ^ 64 →
      ∃ k1 p1, Writing L (m.foldl (bufferAppend L) b) kc pc k1 p1 (len + m.length) ∧
        (k < k1 ∨ (k = k1 ∧ p ≤ p1)) ∧
        Pres b (m.foldl (bufferAppend L) b) 0 0 k p ∧
        ∀ b2, Pres (m.foldl (bufferAppend L) b) b2 k p k1 p1 →
          readBytes L b2 m.length (some k, p) = some (m, (some k1, p1))
  | [], b, kc, pc, k, p, len, hw, _ =>
    ⟨k, p, hw, Or.inr ⟨rfl, Nat.le_refl _⟩, Pres_refl _ _ _ _ _, fun _ _ => rfl⟩
  | x :: xs, b, kc, pc, k, p, len, hw, hlen => by
    simp only [List.length_cons] at hlen
    obtain ⟨a1, a2, a3, a4⟩ := bufferAppend_spec L b x kc pc k p len hL hw (by omega)
    obtain ⟨k1, p1, i1, i2, i3, i4⟩ := appends_spec L hL xs (bufferAppend L b x) kc pc
      (move L k p 1).1 (move L k p 1).2 (len + 1) a1 (by omega)
    have hp : p < L.MEMORY_CHUNK_SIZE := hw.1.2.2.2.2.1
    have hmv : (move L k p 1 = (k + 1, L.OUTPUT_BUFFER_DATA) ∧ p + 1 ≥ L.MEMORY_CHUNK_SIZE) ∨
        (move L k p 1 = (k, p + 1) ∧ p + 1 < L.MEMORY_CHUNK_SIZE) := by
      unfold move
      by_cases hwr : p + 1 ≥ L.MEMORY_CHUNK_SIZE
      · rw [if_pos hwr]; exact Or.inl ⟨rfl, hwr⟩
      · rw [if_neg hwr]; exact Or.inr ⟨rfl, by omega⟩
    have hlt : k < (move L k p 1).1 ∨ (k = (move L k p 1).1 ∧ p < (move L k p 1).2) := by
      rcases hmv with ⟨e, _⟩ | ⟨e, _⟩ <;> rw [e] <;> simp
    have hlt1 : k < k1 ∨ (k = k1 ∧ p < p1) := by
      rcases hlt with h | ⟨h1, h2⟩ <;> rcases i2 with g | ⟨g1, g2⟩
      · exact Or.inl (by omega)
      · exact Or.inl (by omega)
      · exact Or.inl (by omega)
      · exact Or.inr ⟨by omega, by omega⟩
    have hP1 : Pres b (bufferAppend L b x) 0 0 k p := by
      refine ⟨fun c pos _ hh => a3 c pos ?_ ?_, fun c _ hh => a4 c hh⟩
      · rcases hh with h | h <;> omega
      · intro hck
        rcases hh with h | h <;> omega
    refine ⟨k1, p1, ?_, ?_, ?_, fun b2 hb2 => ?_⟩
    · have : len + (xs.length + 1) = len + 1 + xs.length := by omega
      simp only [List.foldl_cons, List.length_cons]
      rw [this]; exact i1
    · rcases hlt1 with h | h
      · exact Or.inl h
      · exact Or.inr ⟨h.1, by omega⟩
    · simp only [List.foldl_cons]
      refine Pres_trans _ _ _ _ _ _ _ hP1 (Pres_mono _ _ _ _ _ _ _ _ _ _ i3 (Or.inr ⟨rfl, Nat.le_refl _⟩) ?_)
      rcases hlt with h | h
      · exact Or.inl h
      · exact Or.inr ⟨h.1, by omega⟩
    · simp only [List.foldl_cons] at hb2
      simp only [List.length_cons, readBytes, readerByte]
      have hbyte : chunkByte b2 k p = some x := by
        rw [hb2.1 k p (Or.inr ⟨rfl, Nat.le_refl _⟩) hlt1, i3.1 k p (by omega) hlt, a2]
      have hbyte2 : (b2.chunks[k]?.map fun chunk => chunk.bytes p) = some x := hbyte
      rw [hbyte2]
      simp only []
      have hnext : readerNext L b2 (some k, p + 1) =
          (some (move L k p 1).1, (move L k p 1).2) := by
        apply readerNext_move
        intro hwr
        rcases hmv with ⟨e, _⟩ | ⟨e, h2⟩
        · have a1c := a1.1.2.2.2.2.2.2
          rw [e] at i2 i3 a1c
          simp only [] at i2 i3 a1c
          have hk1 : k < k1 := by rcases i2 with g | g <;> omega
          rw [hb2.2 k (Nat.le_refl _) hk1, i3.2 k (Nat.zero_le _) (by omega)]
          exact (a1c k (by omega)).1
        · omega
      rw [hnext]
      have hb3 : Pres (xs.foldl (bufferAppend L) (bufferAppend L b x)) b2
          (move L k p 1).1 (move L k p 1).2 k1 p1 :=
        Pres_mono _ _ _ _ _ _ _ _ _ _ hb2
          (by rcases hlt with h | h
              · exact Or.inl h
              · exact Or.inr ⟨h.1, by omega⟩)
          (Or.inr ⟨rfl, Nat.le_refl _⟩)
      rw [i4 b2 hb3]

theorem and_seven (x : Nat) : x &&& 7 = x % 8 := by
  have := Nat.and_pow_two_sub_one_eq_mod x 3
  simpa using this

theorem pad_eq (len : Nat) : ((8 - (len &&& 7)) &&& 7) = (8 - len % 8) % 8 := by
  rw [and_seven, and_seven]

theorem loadU64_congr (f g : Nat → Nat) (pos : Nat) (h : ∀ i, i < 8 → f (pos + i) = g (pos + i)) :
    loadU64 f pos = loadU64 g pos := by
  unfold loadU64
  rw [show List.range 8 = [0, 1, 2, 3, 4, 5, 6, 7] from rfl]
  simp only [List.map, h 0 (by omega), h 1 (by omega), h 2 (by omega), h 3 (by omega),
    h 4 (by omega), h 5 (by omega), h 6 (by omega), h 7 (by omega)]

theorem loadU64_storeU64 (bytes : Nat → Nat) (pos v : Nat) :
    loadU64 (storeU64 bytes pos v) pos = v % 2 ^ 64 := by
  unfold loadU64
  rw [show List.range 8 = [0, 1, 2, 3, 4, 5, 6, 7] from rfl]
  have hs : ∀ i, i < 8 → storeU64 bytes pos v (pos + i) = v / 256 ^ i % 256 := by
    intro i hi
    unfold storeU64 u64Byte
    rw [if_pos ⟨by omega, by omega⟩, Nat.add_sub_cancel_left]
  simp only [List.map, hs 0 (by omega), hs 1 (by omega), hs 2 (by omega), hs 3 (by omega),
    hs 4 (by omega), hs 5 (by omega), hs 6 (by omega), hs 7 (by omega), List.sum_cons,
    List.sum_nil, Nat.mod_mod]
  norm_num
  omega

theorem commitMessage_eq (L : BufferEnv) (b : OutputBuffer) :
    commitMessage L b = commitTail L (bufferShift L b ((8 - (b.messageLength &&& 7)) &&& 7)) :=
  rfl

theorem commitTail_spec (L : BufferEnv) (s : OutputBuffer) (kc pc len k1 p1 : Nat)
    (h1 : s.curBuffer = some kc) (h2 : s.curBufferPos = pc) (h3 : s.messageLength = len)
    (h4 : s.lastBuffer = some k1) (h5 : s.lastBufferPos = p1) :
    (commitTail L s).lastBuffer = some k1 ∧ (commitTail L s).lastBufferPos = p1 ∧
      (commitTail L s).firstBuffer = s.firstBuffer ∧
      (commitTail L s).chunks.length = s.chunks.length ∧
      (∀ q, (commitTail L s).chunks[q]? = s.chunks[q]?.map fun ch =>
        ({ next := ch.next
           endPos := if q = k1 then p1 else if q = kc then L.MEMORY_CHUNK_SIZE else ch.endPos
           bytes := if q = kc then storeU64 ch.bytes pc len else ch.bytes } : BufferChunk)) := by
  unfold commitTail
  by_cases hk : kc = k1
  · subst hk
    refine ⟨?_, ?_, ?_, ?_, fun q => ?_⟩
    · simp [setChunk_fields, h1, h4]
    · simp [setChunk_fields, h1, h4, h5]
    · simp [setChunk_fields, h1, h4]
    · simp [setChunk_fields, h1, h4]
    · simp only [setChunk_fields, h1, h2, h3, h4, h5, ne_eq, not_true_eq_false, if_false,
        setChunk_get]
      by_cases hq : q = kc
      · subst hq
        simp only [if_true, Option.map_map]
        cases s.chunks[q]? <;> rfl
      · simp only [hq, if_false]
        cases s.chunks[q]? <;> rfl
  · have hne : ¬ (some kc = some k1) := fun e => hk (Option.some.inj e)
    refine ⟨?_, ?_, ?_, ?_, fun q => ?_⟩
    · simp [setChunk_fields, h1, h4, hne]
    · simp [setChunk_fields, h1, h4, h5, hne]
    · simp [setChunk_fields, h1, h4, hne]
    · simp [setChunk_fields, h1, h4, hne]
    · simp only [setChunk_fields, h1, h2, h3, h4, h5, ne_eq, hne, not_false_eq_true, if_true,
        setChunk_get]
      by_cases hq : q = k1
      · subst hq
        have : ¬ q = kc := fun e => hk e.symm
        simp only [if_true, this, if_false, Option.map_map]
      · by_cases hq2 : q = kc
        · subst hq2
          simp only [hq, if_false, if_true, Option.map_map]
          cases s.chunks[q]? <;> rfl
        · simp only [hq, hq2, if_false]
          cases s.chunks[q]? <;> rfl

/-- What `beginMessage` does to a buffer between two messages. -/
theorem beginMessage_spec (L : BufferEnv) (b : OutputBuffer) (k p : Nat) (hL : Aligned L)
    (hc : Committed L b k p) :
    Writing L (beginMessage L b) k p (move L k p 8).1 (move L k p 8).2 0 ∧
      Pres b (beginMessage L b) 0 0 k p := by
  obtain ⟨hch, -, h8⟩ := hc
  obtain ⟨a1, a2, a3, a4, a5⟩ := hL
  obtain ⟨c1, c2, c3, c4, c5, c6, c7⟩ := hch
  obtain ⟨f1, f2, f3, f4, f5, f6, f7⟩ := setChunk_fields
    { b with curBuffer := b.lastBuffer, curBufferPos := b.lastBufferPos, messageLength := 0 }
    (some k) fun c => { c with bytes := storeU64 c.bytes p 0 }
  have hv := fun c => setChunk_views
    { b with curBuffer := b.lastBuffer, curBufferPos := b.lastBufferPos, messageLength := 0 }
    k c fun c => { c with bytes := storeU64 c.bytes p 0 }
  have hs : Chain L (setChunk
      { b with curBuffer := b.lastBuffer, curBufferPos := b.lastBufferPos, messageLength := 0 }
      (some k) fun c => { c with bytes := storeU64 c.bytes p 0 }) k p := by
    refine ⟨f1.trans c1, f2.trans c2, f7.trans c3, c4, c5, f6.trans c6, fun c hlt => ?_⟩
    have e1 := (hv c).2.1
    have e2 := (hv c).2.2
    rw [if_neg (by omega)] at e1 e2
    exact ⟨e1.trans (c7 c hlt).1, e2.trans (c7 c hlt).2⟩
  have e : beginMessage L b = bufferShift L (setChunk
      { b with curBuffer := b.lastBuffer, curBufferPos := b.lastBufferPos, messageLength := 0 }
      (some k) fun c => { c with bytes := storeU64 c.bytes p 0 }) 8 := by
    unfold beginMessage
    simp only [c1, c2, a4]
  rw [e]
  obtain ⟨s1, s2, s3, s4, s5, s6, s7, s8⟩ := bufferShift_spec L _ 8 k p a3 hs (by omega)
  have hmv : (move L k p 8 = (k + 1, L.OUTPUT_BUFFER_DATA)) ∨
      (move L k p 8 = (k, p + 8) ∧ p + 8 < L.MEMORY_CHUNK_SIZE) := by
    unfold move
    by_cases hwr : p + 8 ≥ L.MEMORY_CHUNK_SIZE
    · rw [if_pos hwr]; exact Or.inl rfl
    · rw [if_neg hwr]; exact Or.inr ⟨rfl, by omega⟩
  refine ⟨⟨s1, ?_, ?_, ?_, ?_, ?_⟩, fun c pos _ hh => ?_, fun c _ hh => ?_⟩
  · rw [s2]; exact f3.trans c1
  · rw [s3]; exact f4.trans c2
  · rw [s4]; exact f5
  · obtain ⟨d1, hd1⟩ := a1
    obtain ⟨d8, hd8⟩ := h8
    rcases hmv with e1 | ⟨e1, _⟩ <;> rw [e1] <;> simp only [] <;> omega
  · rcases hmv with e1 | ⟨e1, _⟩ <;> rw [e1]
    · exact Or.inl (Nat.lt_succ_self k)
    · exact Or.inr ⟨rfl, Nat.le_refl _⟩
  · rw [s5 c pos (by rcases hh with h | h <;> omega), (hv c).1 pos]
    by_cases hck : c = k
    · have hpos : pos < p := by rcases hh with h | h <;> omega
      rw [if_pos hck, hck]
      unfold chunkByte
      simp only []
      cases b.chunks[k]? with
      | none => rfl
      | some ch =>
        simp only [Option.map_some', storeU64]
        rw [if_neg (by omega)]
    · rw [if_neg hck]
      rfl
  · rw [(s6 c hh).1, (hv c).2.1, if_neg (by omega)]
    rfl

/-- What `commitMessage` does at the end of a message of `len` bytes. -/
theorem commitMessage_spec (L : BufferEnv) (b : OutputBuffer) (kc pc k p len : Nat)
    (hL : Aligned L) (hw : Writing L b kc pc k p len) (hlen : len < 2 ^ 64) :
    Committed L (commitMessage L b) (move L k p ((8 - len % 8) % 8)).1
        (move L k p ((8 - len % 8) % 8)).2 ∧
      (∃ ch, (commitMessage L b).chunks[kc]? = some ch ∧ loadU64 ch.bytes pc = len) ∧
      Pres b (commitMessage L b) 0 0 kc pc ∧ Pres b (commitMessage L b) kc (pc + 8) k p := by
  obtain ⟨hch, w2, w3, w4, w5, w6⟩ := hw
  obtain ⟨a1, a2, a3, a4, a5⟩ := hL
  have hp := hch.2.2.2.2.1
  rw [commitMessage_eq, w4, pad_eq]
  obtain ⟨s1, s2, s3, s4, s5, s6, -, -⟩ :=
    bufferShift_spec L b ((8 - len % 8) % 8) k p a3 hch (by omega)
  have hk1 : k ≤ (move L k p ((8 - len % 8) % 8)).1 := by
    unfold move; split_ifs <;> simp
  have h8 : 8 ∣ (move L k p ((8 - len % 8) % 8)).2 := by
    unfold move
    by_cases hwr : p + (8 - len % 8) % 8 ≥ L.MEMORY_CHUNK_SIZE
    · rw [if_pos hwr]; exact a1
    · rw [if_neg hwr]
      exact Nat.dvd_of_mod_eq_zero (by simp only []; omega)
  generalize (move L k p ((8 - len % 8) % 8)).1 = k1 at s1 hk1 h8 ⊢
  generalize (move L k p ((8 - len % 8) % 8)).2 = p1 at s1 h8 ⊢
  generalize bufferShift L b ((8 - len % 8) % 8) = s at s1 s2 s3 s4 s5 s6 ⊢
  obtain ⟨t1, t2, t3, t4, t5⟩ := commitTail_spec L s kc pc len k1 p1 (s2.trans w2)
    (s3.trans w3) (s4.trans w4) s1.1 s1.2.1
  have hkc : kc ≤ k := by rcases w6 with h | h <;> omega
  have hbyteR : ∀ c pos, chunkByte (commitTail L s) c pos =
      if c = kc then s.chunks[kc]?.map (fun ch => storeU64 ch.bytes pc len pos)
      else chunkByte s c pos := by
    intro c pos
    unfold chunkByte
    rw [t5 c, Option.map_map]
    by_cases hck : c = kc
    · subst hck
      rw [if_pos rfl]
      cases s.chunks[c]? with
      | none => rfl
      | some ch => simp
    · rw [if_neg hck]
      cases s.chunks[c]? with
      | none => rfl
      | some ch => simp [hck]
  have hnextR : ∀ c, nextOf (commitTail L s) c = nextOf s c := by
    intro c
    unfold nextOf
    rw [t5 c, Option.map_map]
    rfl
  have hendR : ∀ c, endOf (commitTail L s) c = s.chunks[c]?.map fun ch =>
      if c = k1 then p1 else if c = kc then L.MEMORY_CHUNK_SIZE else ch.endPos := by
    intro c
    unfold endOf
    rw [t5 c, Option.map_map]
    rfl
  refine ⟨⟨⟨t1, t2, t4.trans s1.2.2.1, s1.2.2.2.1, s1.2.2.2.2.1, t3.trans s1.2.2.2.2.2.1,
    fun c hlt => ?_⟩, ?_, h8⟩, ?_, ⟨fun c pos _ hh => ?_, fun c _ hh => ?_⟩,
    ⟨fun c pos hl hh => ?_, fun c hl hh => ?_⟩⟩
  · obtain ⟨n1, n2⟩ := s1.2.2.2.2.2.2 c hlt
    refine ⟨(hnextR c).trans n1, ?_⟩
    rw [hendR c]
    unfold endOf at n2
    cases hcs : s.chunks[c]? with
    | none => rw [hcs] at n2; cases n2
    | some ch =>
      rw [hcs] at n2
      have he : ch.endPos = L.MEMORY_CHUNK_SIZE := Option.some.inj n2
      simp only [Option.map_some', if_neg (by omega : ¬ c = k1), he, ite_self]
  · rw [hendR k1]
    obtain ⟨ch, hch1⟩ := Chain_chunk L s k1 p1 k1 s1 (Nat.le_refl _)
    rw [hch1]
    simp
  · obtain ⟨ch, hch1⟩ := Chain_chunk L s k1 p1 kc s1 (by omega)
    refine ⟨_, by rw [t5 kc, hch1]; rfl, ?_⟩
    simp only [if_true]
    rw [loadU64_storeU64, Nat.mod_eq_of_lt hlen]
  · have hck : c ≤ k := by rcases hh with h | h <;> omega
    rw [hbyteR, ← s5 c pos hck]
    by_cases hc2 : c = kc
    · have hpos : pos < pc := by rcases hh with h | h <;> omega
      rw [if_pos hc2, hc2]
      unfold chunkByte
      cases s.chunks[kc]? with
      | none => rfl
      | some ch =>
        simp only [Option.map_some', storeU64]
        rw [if_neg (by omega)]
    · rw [if_neg hc2]
  · rw [hnextR, (s6 c (by omega)).1]
  · have hck : c ≤ k := by rcases hh with h | h <;> omega
    rw [hbyteR, ← s5 c pos hck]
    by_cases hc2 : c = kc
    · have hpos : pc + 8 ≤ pos := by rcases hl with h | h <;> omega
      rw [if_pos hc2, hc2]
      unfold chunkByte
      cases s.chunks[kc]? with
      | none => rfl
      | some ch =>
        simp only [Option.map_some', storeU64]
        rw [if_neg (by omega)]
    · rw [if_neg hc2]
  · rw [hnextR, (s6 c hh).1]

theorem move_cases (L : BufferEnv) (k p n : Nat) :
    (move L k p n = (k + 1, L.OUTPUT_BUFFER_DATA) ∧ p + n ≥ L.MEMORY_CHUNK_SIZE) ∨
      (move L k p n = (k, p + n) ∧ p + n < L.MEMORY_CHUNK_SIZE) := by
  unfold move
  by_cases hwr : p + n ≥ L.MEMORY_CHUNK_SIZE
  · rw [if_pos hwr]; exact Or.inl ⟨rfl, hwr⟩
  · rw [if_neg hwr]; exact Or.inr ⟨rfl, by omega⟩

theorem move_le (L : BufferEnv) (k p n : Nat) :
    k < (move L k p n).1 ∨ (k = (move L k p n).1 ∧ p ≤ (move L k p n).2) := by
  rcases move_cases L k p n with ⟨e, _⟩ | ⟨e, _⟩ <;> rw [e]
  · exact Or.inl (Nat.lt_succ_self k)
  · exact Or.inr ⟨rfl, Nat.le_add_right _ _⟩

theorem move_wrap_fst (L : BufferEnv) (k p n : Nat) (h : p + n ≥ L.MEMORY_CHUNK_SIZE) :
    (move L k p n).1 = k + 1 := by
  unfold move
  rw [if_pos h]

/-- One message: what `writeMessage` leaves in the buffer is a frame that any
buffer agreeing with it up to the new write position decodes to the payload. -/
theorem writeMessage_spec (L : BufferEnv) (b0 : OutputBuffer) (k0 p0 : Nat) (m : List Nat)
    (hL : Aligned L) (hc : Committed L b0 k0 p0) (hlen : m.length < 2 ^ 64) :
    ∃ k1 p1, Committed L (writeMessage L b0 m) k1 p1 ∧ (k0 < k1 ∨ (k0 = k1 ∧ p0 + 8 ≤ p1)) ∧
      Pres b0 (writeMessage L b0 m) 0 0 k0 p0 ∧
      ∀ b2, Pres (writeMessage L b0 m) b2 0 0 k1 p1 →
        (∃ ch, b2.chunks[k0]? = some ch ∧ loadU64 ch.bytes p0 = m.length) ∧
        ∃ r1, readBytes L b2 m.length (readerNext L b2 (some k0, p0 + 8)) = some (m, r1) ∧
          readerNext L b2 (r1.1, r1.2 + (8 - m.length % 8) % 8) = (some k1, p1) := by
  obtain ⟨hB, hPB⟩ := beginMessage_spec L b0 k0 p0 hL hc
  have hB6 := hB.2.2.2.2.2
  obtain ⟨k2, p2, hA, hle2, hPA, hread⟩ := appends_spec L hL m (beginMessage L b0) k0 p0
    (move L k0 p0 8).1 (move L k0 p0 8).2 0 hB (by omega)
  rw [Nat.zero_add] at hA
  have hA6 := hA.2.2.2.2.2
  obtain ⟨hC, ⟨ch1, hch1, hload⟩, hPC1, hPC2⟩ :=
    commitMessage_spec L _ k0 p0 k2 p2 m.length hL hA hlen
  have hle1 := move_le L k2 p2 ((8 - m.length % 8) % 8)
  have hwC := move_wrap_fst L k2 p2 ((8 - m.length % 8) % 8)
  have hwB := move_wrap_fst L k0 p0 8
  have hnC := fun b2 => readerNext_move L b2 k2 p2 ((8 - m.length % 8) % 8)
  have hnB := fun b2 => readerNext_move L b2 k0 p0 8
  have hwm : writeMessage L b0 m =
      commitMessage L (m.foldl (bufferAppend L) (beginMessage L b0)) := rfl
  rw [hwm]
  generalize (move L k2 p2 ((8 - m.length % 8) % 8)).1 = k1 at hC hle1 hwC hnC
  generalize (move L k2 p2 ((8 - m.length % 8) % 8)).2 = p1 at hC hle1 hnC
  generalize (move L k0 p0 8).1 = kB at hB hB6 hle2 hPA hread hwB hnB
  generalize (move L k0 p0 8).2 = pB at hB hB6 hle2 hPA hread hnB
  generalize commitMessage L (m.foldl (bufferAppend L) (beginMessage L b0)) = b1
    at hC hch1 hPC1 hPC2 ⊢
  generalize m.foldl (bufferAppend L) (beginMessage L b0) = bA at hA hPA hread hPC1 hPC2
  generalize beginMessage L b0 = bB at hB hPB hPA
  have h01 : k0 < k1 ∨ (k0 = k1 ∧ p0 + 8 ≤ p1) := by
    rcases hA6 with h | ⟨h1, h2⟩ <;> rcases hle1 with g | ⟨g1, g2⟩
    · exact Or.inl (by omega)
    · exact Or.inl (by omega)
    · exact Or.inl (by omega)
    · exact Or.inr ⟨by omega, by omega⟩
  have h0B : k0 < kB ∨ (k0 = kB ∧ p0 ≤ pB) := by
    rcases hB6 with h | ⟨h1, h2⟩
    · exact Or.inl h
    · exact Or.inr ⟨h1, by omega⟩
  have hk21 : k2 ≤ k1 := by rcases hle1 with g | g <;> omega
  have hkB2 : kB ≤ k2 := by rcases hle2 with g | g <;> omega
  refine ⟨k1, p1, hC, h01, ?_, fun b2 hb2 => ⟨?_, (some k2, p2), ?_, ?_⟩⟩
  · exact Pres_trans _ _ _ _ _ _ _ (Pres_trans _ _ _ _ _ _ _ hPB
      (Pres_mono _ _ _ _ _ _ _ _ _ _ hPA (Or.inr ⟨rfl, Nat.le_refl _⟩) h0B)) hPC1
  · have hb : ∀ i, i < 8 → chunkByte b2 k0 (p0 + i) = chunkByte b1 k0 (p0 + i) := fun i hi =>
      hb2.1 k0 (p0 + i) (by omega) (by rcases h01 with h | h <;> omega)
    have h0 := hb 0 (by omega)
    unfold chunkByte at h0
    rw [hch1] at h0
    cases hc2 : b2.chunks[k0]? with
    | none => rw [hc2] at h0; cases h0
    | some ch2 =>
      refine ⟨ch2, rfl, ?_⟩
      rw [← hload]
      apply loadU64_congr
      intro i hi
      have := hb i hi
      unfold chunkByte at this
      rw [hch1, hc2] at this
      exact Option.some.inj this
  · have hnext : readerNext L b2 (some k0, p0 + 8) = (some kB, pB) := by
      apply hnB b2
      intro hwr
      have hkB : kB = k0 + 1 := hwB hwr
      have hk01 : k0 < k1 := by omega
      rw [hb2.2 k0 (Nat.zero_le _) hk01]
      exact (hC.1.2.2.2.2.2.2 k0 hk01).1
    rw [hnext]
    apply hread
    refine Pres_trans _ _ _ _ _ _ _ (Pres_mono _ _ _ _ _ _ _ _ _ _ hPC2 hB6
      (Or.inr ⟨rfl, Nat.le_refl _⟩)) (Pres_mono _ _ _ _ _ _ _ _ _ _ hb2 ?_ ?_)
    · by_cases h : 0 < kB
      · exact Or.inl h
      · exact Or.inr ⟨by omega, Nat.zero_le _⟩
    · rcases hle1 with g | ⟨g1, g2⟩
      · exact Or.inl g
      · exact Or.inr ⟨g1, g2⟩
  · apply hnC b2
    intro hwr
    have hk : k1 = k2 + 1 := hwC hwr
    have hk21s : k2 < k1 := by omega
    rw [hb2.2 k2 (Nat.zero_le _) hk21s]
    exact (hC.1.2.2.2.2.2.2 k2 hk21s).1

theorem initializeBuffer_committed (L : BufferEnv) (hL : Aligned L) :
    Committed L (initializeBuffer L OutputBuffer.new) 0 L.OUTPUT_BUFFER_DATA := by
  obtain ⟨a1, a2, a3, a4, a5⟩ := hL
  have hch : (initializeBuffer L OutputBuffer.new).chunks =
      [{ next := none, endPos := L.OUTPUT_BUFFER_DATA, bytes := L.garbage 0 }] := by
    simp [initializeBuffer, getMemoryChunk, setChunk, OutputBuffer.new]
  have h1 : (initializeBuffer L OutputBuffer.new).lastBuffer = some 0 := by
    simp [initializeBuffer, getMemoryChunk, setChunk, OutputBuffer.new]
  have h2 : (initializeBuffer L OutputBuffer.new).lastBufferPos = L.OUTPUT_BUFFER_DATA := by
    simp [initializeBuffer, getMemoryChunk, setChunk, OutputBuffer.new]
  have h3 : (initializeBuffer L OutputBuffer.new).firstBuffer = some 0 := by
    simp [initializeBuffer, getMemoryChunk, setChunk, OutputBuffer.new]
  refine ⟨⟨h1, h2, by rw [hch]; rfl, Nat.le_refl _, a3, h3, fun c hc => absurd hc (by omega)⟩,
    ?_, a1⟩
  unfold endOf
  rw [hch]
  rfl

/-- A sequence of messages written from a buffer between two messages decodes,
from the position where the first of them starts, to the payloads in order. -/
theorem writeMessages_decode (L : BufferEnv) (hL : Aligned L) :
    ∀ (msgs : List (List Nat)) (b0 : OutputBuffer) (k0 p0 : Nat), Committed L b0 k0 p0 →
      (∀ m ∈ msgs, m.length < 2 ^ 64) →
      ∃ k p, Committed L (writeMessages L b0 msgs) k p ∧ (k0 < k ∨ (k0 = k ∧ p0 ≤ p)) ∧
        Pres b0 (writeMessages L b0 msgs) 0 0 k0 p0 ∧
        decodeFrom L (writeMessages L b0 msgs) (msgs.length + 1) (some k0, p0) = some msgs
  | [], b0, k0, p0, hc, _ => by
    refine ⟨k0, p0, hc, Or.inr ⟨rfl, Nat.le_refl _⟩, Pres_refl _ _ _ _ _, ?_⟩
    obtain ⟨ch, hch⟩ := Chain_chunk L b0 k0 p0 k0 hc.1 (Nat.le_refl _)
    have he := hc.2.1
    unfold endOf at he
    rw [hch] at he
    have he2 : ch.endPos = p0 := Option.some.inj he
    show decodeFrom L b0 1 (some k0, p0) = some []
    rw [decodeFrom]
    simp only [hch]
    rw [if_pos (by omega)]
  | m :: rest, b0, k0, p0, hc, hlen => by
    obtain ⟨k1, p1, hC1, h01, hP1, hframe⟩ := writeMessage_spec L b0 k0 p0 m hL hc
      (hlen m (List.mem_cons_self _ _))
    obtain ⟨k, p, hC, h1k, hP, hdec⟩ := writeMessages_decode L hL rest (writeMessage L b0 m)
      k1 p1 hC1 (fun x hx => hlen x (List.mem_cons_of_mem _ hx))
    have hwm : writeMessages L b0 (m :: rest) = writeMessages L (writeMessage L b0 m) rest := rfl
    rw [hwm]
    generalize writeMessages L (writeMessage L b0 m) rest = bf at hC hP hdec ⊢
    obtain ⟨⟨ch, hch, hload⟩, r1, hread, hnext⟩ := hframe bf hP
    have h0k : k0 < k ∨ (k0 = k ∧ p0 + 8 ≤ p) := by
      rcases h01 with h | ⟨h1, h2⟩ <;> rcases h1k with g | ⟨g1, g2⟩
      · exact Or.inl (by omega)
      · exact Or.inl (by omega)
      · exact Or.inl (by omega)
      · exact Or.inr ⟨by omega, by omega⟩
    refine ⟨k, p, hC, ?_, ?_, ?_⟩
    · rcases h0k with h | h
      · exact Or.inl h
      · exact Or.inr ⟨h.1, by omega⟩
    · refine Pres_trans _ _ _ _ _ _ _ hP1 (Pres_mono _ _ _ _ _ _ _ _ _ _ hP
        (Or.inr ⟨rfl, Nat.le_refl _⟩) ?_)
      rcases h01 with h | h
      · exact Or.inl h
      · exact Or.inr ⟨h.1, by omega⟩
    · have hend : ¬ p0 ≥ ch.endPos := by
        rcases h0k with h | ⟨h1, h2⟩
        · have := (hC.1.2.2.2.2.2.2 k0 h).2
          unfold endOf at this
          rw [hch] at this
          have he : ch.endPos = L.MEMORY_CHUNK_SIZE := Option.some.inj this
          have := hc.1.2.2.2.2.1
          omega
        · have := hC.2.1
          rw [← h1] at this
          unfold endOf at this
          rw [hch] at this
          have he : ch.endPos = p := Option.some.inj this
          omega
      show decodeFrom L bf (rest.length + 1 + 1) (some k0, p0) = some (m :: rest)
      rw [decodeFrom]
      simp only [hch]
      rw [if_neg hend]
      simp only [hload, hread, hnext, hdec]

/-- C2: round trip of the output buffer. When the data area of a chunk starts
and ends on an 8-byte boundary, the length word has 8 bytes and offsets fit in
64 bits, then for every finite sequence of messages with payloads shorter than
2^64 bytes, each written from `initialize()` on as `beginMessage()`, one
`bufferAppend` per payload byte and `commitMessage()`, decoding the chunk chain
from `firstBuffer` at `OUTPUT_BUFFER_DATA` as frames of a length word, the
payload and the padding, moving to the `NEXT` chunk when the position reaches
`MEMORY_CHUNK_SIZE`, returns exactly the payloads in the order written. -/
theorem outputBuffer_round_trip (L : BufferEnv) (hL : Aligned L) (msgs : List (List Nat))
    (hlen : ∀ m ∈ msgs, m.length < 2 ^ 64) :
    decode L (writeMessages L (initializeBuffer L OutputBuffer.new) msgs) (msgs.length + 1) =
      some msgs := by
  obtain ⟨k, p, hC, -, -, hdec⟩ := writeMessages_decode L hL msgs _ 0 L.OUTPUT_BUFFER_DATA
    (initializeBuffer_committed L hL) hlen
  unfold decode
  rw [hC.1.2.2.2.2.2.1]
  exact hdec

theorem outputBuffer_round_trip_witness :
    Aligned sampleBufferEnv ∧
      decode sampleBufferEnv (writeMessages sampleBufferEnv
          (initializeBuffer sampleBufferEnv OutputBuffer.new)
          [[1, 2, 3], [], List.range 30, [7, 7, 7, 7, 7, 7, 7, 7]]) 5 =
        some [[1, 2, 3], [], List.range 30, [7, 7, 7, 7, 7, 7, 7, 7]] :=
  ⟨by unfold Aligned; decide, outputBuffer_round_trip sampleBufferEnv (by unfold Aligned; decide)
    [[1, 2, 3], [], List.range 30, [7, 7, 7, 7, 7, 7, 7, 7]] (by
      intro m hm
      simp only [List.mem_cons, List.mem_singleton, List.mem_nil_iff, or_false] at hm
      rcases hm with h | h | h | h <;> subst h <;> simp)⟩

end OutputBufferRoundTrip

/-! ### Split-block list: ties -/

theorem addSplitBlocks_cons (env : Env) (t : Transaction) (c : SplitCall) (cs : List SplitCall) :
    (t.addSplitBlocks env (c :: cs)).splitBlockList =
      ((({ t with splitBlockList := insertSplitBlock (c.frame env) t.splitBlockList } :
        Transaction)).addSplitBlocks env cs).splitBlockList := by
  cases c <;> rfl

theorem addSplitBlocks_list (env : Env) (cs : List SplitCall) : ∀ t : Transaction,
    (t.addSplitBlocks env cs).splitBlockList =
      cs.foldl (fun l c => insertSplitBlock (c.frame env) l) t.splitBlockList := by
  induction cs with
  | nil => intro t; rfl
  | cons c cs ih =>
    intro t
    rw [addSplitBlocks_cons, ih]
    rfl

theorem insertSplitBlock_sublist (b : SplitBlock) :
    ∀ l : List SplitBlock, l.Sublist (insertSplitBlock b l)
  | [] => by simp [insertSplitBlock]
  | a :: l => by
    unfold insertSplitBlock
    split
    · exact List.sublist_cons_self _ _
    · exact (insertSplitBlock_sublist b l).cons₂ a

theorem insertSplitBlock_mem (b : SplitBlock) : ∀ l : List SplitBlock, b ∈ insertSplitBlock b l
  | [] => by simp [insertSplitBlock]
  | a :: l => by
    unfold insertSplitBlock
    split
    · exact List.mem_cons_self _ _
    · exact List.mem_cons_of_mem _ (insertSplitBlock_mem b l)

theorem foldl_insert_sublist (env : Env) (cs : List SplitCall) : ∀ l : List SplitBlock,
    l.Sublist (cs.foldl (fun l c => insertSplitBlock (c.frame env) l) l) := by
  induction cs with
  | nil => intro l; exact List.Sublist.refl l
  | cons c cs ih =>
    intro l
    exact (insertSplitBlock_sublist _ l).trans (ih _)

/-- A new frame is linked in front of every frame of the list that has its key. -/
theorem insertSplitBlock_before_tie (a b : SplitBlock)
    (hk : a.record1.scn = b.record1.scn ∧ a.record1.subScn = b.record1.subScn) :
    ∀ l : List SplitBlock, a ∈ l → [b, a].Sublist (insertSplitBlock b l)
  | [], h => by cases h
  | c :: l, h => by
    unfold insertSplitBlock
    split
    · exact (List.singleton_sublist.2 h).cons₂ b
    · rename_i hc
      rcases List.mem_cons.1 h with h1 | h1
      · exact absurd (Or.inr ⟨h1 ▸ hk.1, Nat.le_of_eq (h1 ▸ hk.2)⟩) hc
      · exact (insertSplitBlock_before_tie a b hk l h1).cons c

/-- C30 (counterexample): two `addSplitBlock` calls with the same `(scn, subScn) = (7, 0)`,
the first with `slt = 1` and the second with `slt = 2`, leave the list `slt 2, slt 1`:
the fragment added first does not precede the fragment added later. -/
theorem addSplitBlocks_tie_not_insertion_order :
    ((Transaction.new sampleEnv 1).addSplitBlocks sampleEnv tieCalls).splitBlockList.map
        (fun b => (b.record1.scn, b.record1.subScn, b.record1.slt)) = [(7, 0, 2), (7, 0, 1)] ∧
      ¬ (tieCalls.map (SplitCall.frame sampleEnv)).Sublist
        ((Transaction.new sampleEnv 1).addSplitBlocks sampleEnv tieCalls).splitBlockList := by
  decide

/-- C30 (amended): fragments with equal `(scn, subScn)` are kept in reverse insertion
order. For every transaction and every sequence of `addSplitBlock` calls (both
overloads) in which call `a` comes before call `b` and both carry the same
`(scn, subScn)`, the frame of `b` precedes the frame of `a` in `splitBlockList`
read from its head. -/
theorem addSplitBlocks_ties_reversed (env : Env) (t : Transaction)
    (pre mid post : List SplitCall) (a b : SplitCall)
    (hscn : (a.frame env).record1.scn = (b.frame env).record1.scn)
    (hsub : (a.frame env).record1.subScn = (b.frame env).record1.subScn) :
    [b.frame env, a.frame env].Sublist
      (t.addSplitBlocks env (pre ++ a :: mid ++ b :: post)).splitBlockList := by
  rw [addSplitBlocks_list]
  simp only [List.foldl_append, List.foldl_cons]
  refine List.Sublist.trans ?_ (foldl_insert_sublist env post _)
  apply insertSplitBlock_before_tie _ _ ⟨hscn, hsub⟩
  exact (foldl_insert_sublist env mid _).subset (insertSplitBlock_mem _ _)

theorem addSplitBlocks_ties_reversed_witness :
    [(SplitCall.one { scn := 7, slt := 2 }).frame sampleEnv,
        (SplitCall.one { scn := 7, slt := 1 }).frame sampleEnv].Sublist
      ((Transaction.new sampleEnv 1).addSplitBlocks sampleEnv
        ([] ++ SplitCall.one { scn := 7, slt := 1 } :: [] ++
          SplitCall.one { scn := 7, slt := 2 } :: [])).splitBlockList :=
  addSplitBlocks_ties_reversed sampleEnv (Transaction.new sampleEnv 1) [] [] []
    (.one { scn := 7, slt := 1 }) (.one { scn := 7, slt := 2 }) rfl rfl

/-! ### Commit flush: the forced commit of a big transaction -/

theorem flushSwitch_events (env : Env) (st st1 : FlushState) (p op : Nat) (fl : Bool)
    (h : flushSwitch env st p op = .ok (st1, fl)) :
    (fl = false ∧ st1.events = st.events) ∨
      (fl = true ∧ ∃ e, e.isEmit = true ∧ st1.events = st.events ++ [e]) := by
  by_cases hp : isPieceOp op = true
  · rw [flushSwitch_piece env st p op hp] at h
    obtain ⟨-, -, -, -, h5, h6⟩ := flushPiece_ok env st st1 p op fl h
    cases fl
    · exact Or.inl ⟨rfl, h6 rfl⟩
    · obtain ⟨f1, f2, mem, he⟩ := h5 rfl
      exact Or.inr ⟨rfl, Event.parseDML f1 f2 _ mem, rfl, he⟩
  · unfold flushSwitch at h
    rw [if_neg hp] at h
    split_ifs at h
    all_goals
      obtain ⟨h1, h2⟩ := Prod.mk.inj (Except.ok.inj h)
      subst h1 h2
      refine Or.inr ⟨rfl, _, ?_, rfl⟩
      rfl

/-- C21 (counterexample): with `maxMessageMb = 1` and `DATA_BUFFER_SIZE` of one MiB,
`flush` on the two insert pieces of scenario S1 issues `processCommit` and
`processBegin` right after the first piece, which has no `FB_L` and produced no
emit: the split falls between the two pieces of one row chain. -/
theorem flush_splits_inside_chain :
    flush sampleEnvSplit s1Tx = .ok s1SplitOut ∧
      s1Tx.rows.map (fun r => decide ((r.redoLogRecord1.suppLogFb &&& sampleEnvSplit.FB_L) ≠ 0)) =
        [false, true] ∧
      s1SplitOut.2.map Event.isEmit = [false, false, false, true, false, false, false] ∧
      s1SplitOut.2.take 3 = [Event.processBegin 101 0 5, Event.processCommit,
        Event.processBegin 101 0 5] := by
  refine ⟨by rfl, by decide, by decide, by decide⟩

/-- C21 (amended): the test for a big transaction follows every record of the walk,
whether or not the record produced an emit. A record that `flush` processes
issues at most one emit (none for a row piece without `FB_L`), and right after
it the pair `processCommit`, `processBegin(lastScn, commitTime, xid)` exactly
when `maxMessageMb > 0` and `currentMessageSize() + DATA_BUFFER_SIZE >
maxMessageMb * 1024 * 1024` in 64-bit arithmetic at that point; nothing else is
issued for the record. -/
theorem flush_split_after_every_record (env : Env) (t : Transaction) (st st2 : FlushState)
    (row : Row) (h : flushRow env t st row = .ok st2) :
    ∃ emitted : List Event,
      (emitted = [] ∨ ∃ e, e.isEmit = true ∧ emitted = [e]) ∧
      st2.events = st.events ++ emitted ++
        (if env.maxMessageMb > 0 ∧
            (env.currentMessageSize (st.events ++ emitted) + env.DATA_BUFFER_SIZE) % 2 ^ 64 >
              (env.maxMessageMb * 1024 * 1024) % 2 ^ 64 then
          [Event.processCommit, Event.processBegin t.lastScn t.commitTime t.xid]
        else []) := by
  unfold flushRow at h
  cases hs : flushSwitch env st st.idx row.op with
  | error e => rw [hs] at h; cases h
  | ok r =>
    obtain ⟨st1, fl⟩ := r
    rw [hs] at h
    have h2 : st2 = flushAfter env t st1 fl row := (Except.ok.inj h).symm
    have hev : (flushAfter env t st1 fl row).events = st1.events ++
        (if bigTransaction env st1.events = true then
          [Event.processCommit, Event.processBegin t.lastScn t.commitTime t.xid] else []) := by
      unfold flushAfter
      by_cases hb : bigTransaction env st1.events = true <;> cases fl <;> simp [hb]
    have hbig : ∀ evs, (bigTransaction env evs = true) ↔ (env.maxMessageMb > 0 ∧
        (env.currentMessageSize evs + env.DATA_BUFFER_SIZE) % 2 ^ 64 >
          (env.maxMessageMb * 1024 * 1024) % 2 ^ 64) := by
      intro evs
      unfold bigTransaction
      simp
    rcases flushSwitch_events env st st1 st.idx row.op fl hs with ⟨-, he⟩ | ⟨-, e, he1, he⟩
    · refine ⟨[], Or.inl rfl, ?_⟩
      rw [h2, hev, he, List.append_nil]
      simp only [hbig]
    · refine ⟨[e], Or.inr ⟨e, he1, rfl⟩, ?_⟩
      rw [h2, hev, he]
      simp only [hbig]

theorem flush_split_after_every_record_witness :
    ∃ emitted : List Event,
      (emitted = [] ∨ ∃ e, e.isEmit = true ∧ emitted = [e]) ∧
      (walkAfter sampleEnvSplit s1Tx 1).events = (walkStart s1Tx).events ++ emitted ++
        (if sampleEnvSplit.maxMessageMb > 0 ∧
            (sampleEnvSplit.currentMessageSize ((walkStart s1Tx).events ++ emitted) +
              sampleEnvSplit.DATA_BUFFER_SIZE) % 2 ^ 64 >
              (sampleEnvSplit.maxMessageMb * 1024 * 1024) % 2 ^ 64 then
          [Event.processCommit, Event.processBegin s1Tx.lastScn s1Tx.commitTime s1Tx.xid]
        else []) :=
  flush_split_after_every_record sampleEnvSplit s1Tx (walkStart s1Tx) _ s1RowA (by rfl)

section OutputBufferMessages

open OutputBuffer

/-! ### Output buffer: one message -/

theorem pad_le_chunk (L : BufferEnv) (hL : Aligned L) (p len : Nat)
    (hp : p < L.MEMORY_CHUNK_SIZE) (hmod : p % 8 = len % 8) :
    p + (8 - len % 8) % 8 ≤ L.MEMORY_CHUNK_SIZE := by
  obtain ⟨-, ⟨d, hd⟩, -, -, -⟩ := hL
  omega

/-- C26: for a message begun at a committed write head `(k, p)`, `beginMessage`
snapshots `(curBuffer, curBufferPos) = (k, p)`; after `beginMessage()`, the `n`
calls of `bufferAppend` for the bytes of `m` and `commitMessage()`, the 8-byte
word at offset `p` of chunk `k` holds exactly `n` (for `n = 0` and for a message
that runs into later chunks alike); after any `i` of the appends
`currentMessageSize()` is `i + 8`; and `commitMessage` moves the write head by
exactly `(8 - n mod 8) mod 8` bytes, which never passes the end of the chunk
(on reaching it the head is at the start of the data of the next chunk). -/
theorem message_length_word (L : BufferEnv) (b : OutputBuffer) (k p : Nat) (m : List Nat)
    (hL : Aligned L) (hc : Committed L b k p) (hlen : m.length + 8 < 2 ^ 64) :
    (beginMessage L b).curBuffer = some k ∧ (beginMessage L b).curBufferPos = p ∧
      (∃ ch, (writeMessage L b m).chunks[k]? = some ch ∧ loadU64 ch.bytes p = m.length) ∧
      (∀ i, i ≤ m.length →
        currentMessageSize L ((m.take i).foldl (bufferAppend L) (beginMessage L b)) = i + 8) ∧
      ∃ k2 p2, (m.foldl (bufferAppend L) (beginMessage L b)).lastBuffer = some k2 ∧
        (m.foldl (bufferAppend L) (beginMessage L b)).lastBufferPos = p2 ∧
        p2 + (8 - m.length % 8) % 8 ≤ L.MEMORY_CHUNK_SIZE ∧
        (writeMessage L b m).lastBuffer = some (move L k2 p2 ((8 - m.length % 8) % 8)).1 ∧
        (writeMessage L b m).lastBufferPos = (move L k2 p2 ((8 - m.length % 8) % 8)).2 := by
  obtain ⟨hB, -⟩ := beginMessage_spec L b k p hL hc
  obtain ⟨k2, p2, hA, -, -, -⟩ := appends_spec L hL m (beginMessage L b) k p
    (move L k p 8).1 (move L k p 8).2 0 hB (by omega)
  rw [Nat.zero_add] at hA
  obtain ⟨hC, hword, -, -⟩ := commitMessage_spec L _ k p k2 p2 m.length hL hA (by omega)
  refine ⟨hB.2.1, hB.2.2.1, hword, fun i hi => ?_, k2, p2, hA.1.1, hA.1.2.1, ?_, hC.1.1,
    hC.1.2.1⟩
  · obtain ⟨k3, p3, hT, -, -, -⟩ := appends_spec L hL (m.take i) (beginMessage L b) k p
      (move L k p 8).1 (move L k p 8).2 0 hB (by rw [List.length_take]; omega)
    unfold currentMessageSize
    rw [hT.2.2.2.1, hL.2.2.2.1, List.length_take, Nat.zero_add, Nat.min_eq_left hi]
    exact Nat.mod_eq_of_lt (by omega)
  · exact pad_le_chunk L hL p2 m.length hA.1.2.2.2.2.1 hA.2.2.2.2.1

theorem message_length_word_witness :
    (beginMessage sampleBufferEnv (initializeBuffer sampleBufferEnv OutputBuffer.new)).curBuffer =
        some 0 ∧
      (beginMessage sampleBufferEnv
        (initializeBuffer sampleBufferEnv OutputBuffer.new)).curBufferPos =
          sampleBufferEnv.OUTPUT_BUFFER_DATA ∧
      (∃ ch, (writeMessage sampleBufferEnv (initializeBuffer sampleBufferEnv OutputBuffer.new)
          (List.range 30)).chunks[0]? = some ch ∧
        loadU64 ch.bytes sampleBufferEnv.OUTPUT_BUFFER_DATA = (List.range 30).length) ∧
      (∀ i, i ≤ (List.range 30).length →
        currentMessageSize sampleBufferEnv (((List.range 30).take i).foldl
          (bufferAppend sampleBufferEnv)
          (beginMessage sampleBufferEnv (initializeBuffer sampleBufferEnv OutputBuffer.new))) =
            i + 8) ∧
      ∃ k2 p2, ((List.range 30).foldl (bufferAppend sampleBufferEnv) (beginMessage sampleBufferEnv
          (initializeBuffer sampleBufferEnv OutputBuffer.new))).lastBuffer = some k2 ∧
        ((List.range 30).foldl (bufferAppend sampleBufferEnv) (beginMessage sampleBufferEnv
          (initializeBuffer sampleBufferEnv OutputBuffer.new))).lastBufferPos = p2 ∧
        p2 + (8 - (List.range 30).length % 8) % 8 ≤ sampleBufferEnv.MEMORY_CHUNK_SIZE ∧
        (writeMessage sampleBufferEnv (initializeBuffer sampleBufferEnv OutputBuffer.new)
          (List.range 30)).lastBuffer =
            some (move sampleBufferEnv k2 p2 ((8 - (List.range 30).length % 8) % 8)).1 ∧
        (writeMessage sampleBufferEnv (initializeBuffer sampleBufferEnv OutputBuffer.new)
          (List.range 30)).lastBufferPos =
            (move sampleBufferEnv k2 p2 ((8 - (List.range 30).length % 8) % 8)).2 :=
  message_length_word sampleBufferEnv _ 0 sampleBufferEnv.OUTPUT_BUFFER_DATA (List.range 30)
    (by unfold Aligned; decide) (initializeBuffer_committed sampleBufferEnv
      (by unfold Aligned; decide)) (by decide)

/-! ### Output buffer: the end of a chunk -/

/-- C27 (counterexample): on the instance with chunks of 40 bytes, with the write head
at offset 37 (three bytes short of the chunk), the next `bufferAppend` obtains
no memory and leaves `lastBuffer` on the same chunk; so does the one after it. -/
theorem bufferAppend_three_short_no_allocation :
    s6Buffer.lastBufferPos = sampleBufferEnv.MEMORY_CHUNK_SIZE - 3 ∧
      s6Buffer.lastBuffer = some 0 ∧ s6Buffer.chunks.length = 1 ∧
      (bufferAppend sampleBufferEnv s6Buffer 9).lastBuffer = some 0 ∧
      (bufferAppend sampleBufferEnv s6Buffer 9).chunks.length = 1 ∧
      (bufferAppend sampleBufferEnv s6Buffer 9).lastBufferPos = 38 ∧
      nextOf (bufferAppend sampleBufferEnv s6Buffer 9) 0 = some none := by
  refine ⟨by rfl, by rfl, by rfl, by rfl, by rfl, by rfl, by rfl⟩

/-- C27 (amended): inside a message, when the write head is 3 bytes short of the
capacity of the current chunk (`lastBufferPos = MEMORY_CHUNK_SIZE - 3`), the next
two calls of `bufferAppend` stay in that chunk and obtain no memory; the third,
which fills the chunk, obtains a new chunk, links it as `NEXT` of the old one
and makes it `lastBuffer` at `OUTPUT_BUFFER_DATA`. The bytes appended, these
three and any that follow, are read back in the order they were appended,
across the chunk boundary. -/
theorem bufferAppend_chunk_overflow (L : BufferEnv) (b : OutputBuffer)
    (kc pc k len x1 x2 x3 : Nat) (hL : Aligned L)
    (hw : Writing L b kc pc k (L.MEMORY_CHUNK_SIZE - 3) len) (hlen : len + 3 < 2 ^ 64) :
    (bufferAppend L b x1).lastBuffer = some k ∧
      (bufferAppend L b x1).chunks.length = k + 1 ∧
      (bufferAppend L b x1).lastBufferPos = L.MEMORY_CHUNK_SIZE - 2 ∧
      (bufferAppend L (bufferAppend L b x1) x2).lastBuffer = some k ∧
      (bufferAppend L (bufferAppend L b x1) x2).chunks.length = k + 1 ∧
      (bufferAppend L (bufferAppend L b x1) x2).lastBufferPos = L.MEMORY_CHUNK_SIZE - 1 ∧
      (bufferAppend L (bufferAppend L (bufferAppend L b x1) x2) x3).lastBuffer = some (k + 1) ∧
      (bufferAppend L (bufferAppend L (bufferAppend L b x1) x2) x3).chunks.length = k + 2 ∧
      (bufferAppend L (bufferAppend L (bufferAppend L b x1) x2) x3).lastBufferPos =
        L.OUTPUT_BUFFER_DATA ∧
      nextOf (bufferAppend L (bufferAppend L (bufferAppend L b x1) x2) x3) k =
        some (some (k + 1)) ∧
      ∀ m : List Nat, len + 3 + m.length < 2 ^ 64 →
        ∃ r, readBytes L
            (m.foldl (bufferAppend L) (bufferAppend L (bufferAppend L (bufferAppend L b x1) x2) x3))
            (3 + m.length) (some k, L.MEMORY_CHUNK_SIZE - 3) = some (x1 :: x2 :: x3 :: m, r) := by
  have hL0 := hL
  obtain ⟨a1, ⟨d, hd⟩, a3, a4, a5⟩ := hL
  have m1 : move L k (L.MEMORY_CHUNK_SIZE - 3) 1 = (k, L.MEMORY_CHUNK_SIZE - 2) := by
    unfold move; rw [if_neg (by omega)]
    exact congrArg (Prod.mk k) (by omega)
  have m2 : move L k (L.MEMORY_CHUNK_SIZE - 2) 1 = (k, L.MEMORY_CHUNK_SIZE - 1) := by
    unfold move; rw [if_neg (by omega)]
    exact congrArg (Prod.mk k) (by omega)
  have m3 : move L k (L.MEMORY_CHUNK_SIZE - 1) 1 = (k + 1, L.OUTPUT_BUFFER_DATA) := by
    unfold move; rw [if_pos (by omega)]
  obtain ⟨w1, -⟩ := bufferAppend_spec L b x1 kc pc k _ len hL0 hw (by omega)
  rw [m1] at w1
  obtain ⟨w2, -⟩ := bufferAppend_spec L _ x2 kc pc k _ (len + 1) hL0 w1 (by omega)
  rw [m2] at w2
  obtain ⟨w3, -⟩ := bufferAppend_spec L _ x3 kc pc k _ (len + 1 + 1) hL0 w2 (by omega)
  rw [m3] at w3
  refine ⟨w1.1.1, w1.1.2.2.1, w1.1.2.1, w2.1.1, w2.1.2.2.1, w2.1.2.1, w3.1.1, w3.1.2.2.1,
    w3.1.2.1, (w3.1.2.2.2.2.2.2 k (Nat.lt_succ_self k)).1, fun m hm => ?_⟩
  obtain ⟨k1, p1, -, -, -, hread⟩ := appends_spec L hL0 (x1 :: x2 :: x3 :: m) b kc pc k
    (L.MEMORY_CHUNK_SIZE - 3) len hw (by simp only [List.length_cons]; omega)
  refine ⟨(some k1, p1), ?_⟩
  have := hread _ (Pres_refl _ _ _ _ _)
  simp only [List.foldl_cons, List.length_cons] at this
  rw [show 3 + m.length = m.length + 1 + 1 + 1 by omega]
  exact this

theorem bufferAppend_chunk_overflow_witness :
    Writing sampleBufferEnv s6Buffer 0 16 0 (sampleBufferEnv.MEMORY_CHUNK_SIZE - 3) 13 ∧
      (bufferAppend sampleBufferEnv (bufferAppend sampleBufferEnv
        (bufferAppend sampleBufferEnv s6Buffer 1) 2) 3).lastBuffer = some (0 + 1) :=
  ⟨⟨⟨by rfl, by rfl, by rfl, by decide, by decide, by rfl, fun c hc => absurd hc (by omega)⟩,
      by rfl, by rfl, by rfl, by decide, Or.inr ⟨rfl, by decide⟩⟩,
    (bufferAppend_chunk_overflow sampleBufferEnv s6Buffer 0 16 0 13 1 2 3
      (by unfold Aligned; decide)
      ⟨⟨by rfl, by rfl, by rfl, by decide, by decide, by rfl, fun c hc => absurd hc (by omega)⟩,
        by rfl, by rfl, by rfl, by decide, Or.inr ⟨rfl, by decide⟩⟩ (by decide)).2.2.2.2.2.2.1⟩

end OutputBufferMessages

section CharacterSets

open OutputBuffer

/-! ### Character sets: lookup by name -/

theorem characterMapEntries_ids_nodup : (characterMapEntries.map Prod.fst).Nodup := by
  decide!

theorem characterMapEntries_names_unique :
    ∀ e1 ∈ characterMapEntries, ∀ e2 ∈ characterMapEntries,
      e1.2 ≠ none → e1.2 = e2.2 → e1.1 = e2.1 := by
  decide!

theorem characterMapEntries_ids_pos : ∀ e ∈ characterMapEntries, e.1 ≠ 0 := by
  decide!

theorem characterMap_mem (className : Nat → String) (e : Nat × String)
    (h : e ∈ characterMap className) :
    ∃ e0 ∈ characterMapEntries, e.1 = e0.1 ∧ e.2 = e0.2.getD (className e0.1) := by
  unfold characterMap at h
  obtain ⟨e0, h0, he⟩ := List.mem_map.1 h
  exact ⟨e0, h0, by rw [← he], by rw [← he]⟩

theorem mem_characterMap (className : Nat → String) (id : Nat) (name : String)
    (h : (id, some name) ∈ characterMapEntries) : (id, name) ∈ characterMap className := by
  unfold characterMap
  exact List.mem_map.2 ⟨_, h, rfl⟩

/-- The lookup of a name registered explicitly finds the id it was registered
under, in whatever order the map is visited. -/
theorem findCharset_registered (className : Nat → String) (elems : List (Nat × String))
    (id : Nat) (name : String) (current : Nat)
    (hreg : (id, some name) ∈ characterMapEntries)
    (helems : elems.Perm (characterMap className))
    (hcls : ∀ e ∈ characterMapEntries, e.2 = none → className e.1 ≠ name) :
    findCharset elems name current = id := by
  unfold findCharset
  have hin : (id, name) ∈ elems := helems.mem_iff.2 (mem_characterMap className id name hreg)
  cases hf : elems.find? (fun elem => name == elem.2) with
  | none =>
    have := List.find?_eq_none.1 hf _ hin
    simp at this
  | some e =>
    have hp := List.find?_some hf
    have hmem := List.mem_of_find?_eq_some hf
    simp only [beq_iff_eq] at hp
    obtain ⟨e0, h0, h1, h2⟩ := characterMap_mem className e (helems.mem_iff.1 hmem)
    show e.1 = id
    rw [h1]
    cases h02 : e0.2 with
    | none =>
      rw [h02] at h2
      exact absurd (h2.symm.trans hp.symm) (hcls e0 h0 h02)
    | some n =>
      rw [h02] at h2
      have hn : n = name := h2.symm.trans hp.symm
      refine (characterMapEntries_names_unique (id, some name) hreg e0 h0 (by simp) ?_).symm
      rw [h02, hn]

/-- C28 (evaluation at the failing input): on a freshly constructed buffer the call
`setNlsCharset("US7ASCII", "US7ASCII")` sets both ids to 1; no element of the map
has the name `NOSUCH`, and on a fresh buffer `setNlsCharset("NOSUCH", "NOSUCH")`
raises; but made after the first call, on the buffer that call leaves, it
returns normally with both ids still 1. -/
theorem setNlsCharset_second_call_no_error :
    charsetIds (setNlsCharset (characterMap sampleClassName) OutputBuffer.new
        "US7ASCII" "US7ASCII") = some (1, 1) ∧
      (characterMap sampleClassName).all (fun elem => elem.2 != "NOSUCH") = true ∧
      setNlsCharset (characterMap sampleClassName) OutputBuffer.new "NOSUCH" "NOSUCH" =
        .error "unsupported NLS_CHARACTERSET value" ∧
      charsetIds
        (match setNlsCharset (characterMap sampleClassName) OutputBuffer.new
            "US7ASCII" "US7ASCII" with
          | .ok b => setNlsCharset (characterMap sampleClassName) b "NOSUCH" "NOSUCH"
          | .error e => .error e) = some (1, 1) := by
  refine ⟨by decide!, by decide!, by rfl, by decide!⟩

/-- C29: for every character set that the constructor registers with an explicit
name, `setNlsCharset(name, name)` on a freshly constructed `OutputBuffer`
succeeds and sets `defaultCharacterMapId` and `defaultCharacterNcharMapId` to
the id under which that name was registered, in whatever order the map is
visited, provided none of the thirteen classes constructed without a name
argument carries that name. No id is registered twice and no two registrations
pass the same name. -/
theorem setNlsCharset_registered (className : Nat → String) (elems : List (Nat × String))
    (id : Nat) (name : String) (hreg : (id, some name) ∈ characterMapEntries)
    (helems : elems.Perm (characterMap className))
    (hcls : ∀ e ∈ characterMapEntries, e.2 = none → className e.1 ≠ name) :
    (∃ b, setNlsCharset elems OutputBuffer.new name name = .ok b ∧
        b.defaultCharacterMapId = id ∧ b.defaultCharacterNcharMapId = id) ∧
      (characterMapEntries.map Prod.fst).Nodup ∧
      (characterMapEntries.filterMap Prod.snd).Nodup := by
  have hid : id ≠ 0 := characterMapEntries_ids_pos _ hreg
  have hf := fun cur => findCharset_registered className elems id name cur hreg helems hcls
  refine ⟨?_, characterMapEntries_ids_nodup, by decide!⟩
  unfold setNlsCharset
  simp only [hf, if_neg hid]
  exact ⟨_, rfl, rfl, rfl⟩

theorem setNlsCharset_registered_witness :
    (∃ b, setNlsCharset (characterMap sampleClassName) OutputBuffer.new
          "WE8MSWIN1252" "WE8MSWIN1252" = .ok b ∧
        b.defaultCharacterMapId = 178 ∧ b.defaultCharacterNcharMapId = 178) ∧
      (characterMapEntries.map Prod.fst).Nodup ∧
      (characterMapEntries.filterMap Prod.snd).Nodup :=
  setNlsCharset_registered sampleClassName (characterMap sampleClassName) 178 "WE8MSWIN1252"
    (by decide!) (List.Perm.refl _) (by decide!)

end CharacterSets

/-! ### The tail pointers read back from the chunk -/

theorem tupleBytes_append (pre post : List Row) :
    tupleBytes (pre ++ post) = tupleBytes pre + tupleBytes post := by
  unfold tupleBytes
  rw [List.map_append, List.sum_append]

theorem tuplesAt_last (env : Env) (buffer : Int → Nat) (row : Row) :
    ∀ (pre : List Row) (off : Int), tuplesAt env buffer off (pre ++ [row]) →
      ChunkMemory.word buffer (off + tupleBytes pre + row.size - env.ROW_HEADER_TOTAL +
        env.ROW_HEADER_SIZE) = row.size
  | [], off, h => by
    have h1 := h.1
    simpa [tupleBytes] using h1
  | r :: pre, off, h => by
    have h2 := tuplesAt_last env buffer row pre (off + r.size) h.2
    have e : off + (tupleBytes (r :: pre) : Int) = off + r.size + tupleBytes pre := by
      simp only [tupleBytes, List.map_cons, List.sum_cons, Nat.cast_add]
      ring
    rw [e]
    exact h2

/-- C25: `updateLastRecord()` raises the fatal condition "updating last element of
empty transaction" if and only if `lastTc` is null or `lastTc.elements = 0`, and
raises nothing else. Otherwise it sets `lastRedoLogRecord1` and
`lastRedoLogRecord2` to the offsets `ROW_HEADER_REDO1` and `ROW_HEADER_REDO2` of
the place `lastSize` bytes before `lastTc.size`, where `lastSize` is the word
read in the trailer of the last tuple; when the chunk holds the tuples
`pre ++ [row]`, that place is the start of `row`, the last tuple, so the two
pointers are the record pair of the last tuple. -/
theorem updateLastRecord_last_tuple (env : Env) (lastTc : Option ChunkMemory) :
    (updateLastRecord env lastTc = .error "updating last element of empty transaction" ↔
        (lastTc = none ∨ ∃ tc, lastTc = some tc ∧ tc.elements = 0)) ∧
      (∀ e, updateLastRecord env lastTc = .error e →
        e = "updating last element of empty transaction") ∧
      (∀ tc, lastTc = some tc → tc.elements ≠ 0 →
        updateLastRecord env lastTc = .ok
          ((tc.size : Int) - ChunkMemory.word tc.buffer
              ((tc.size : Int) - env.ROW_HEADER_TOTAL + env.ROW_HEADER_SIZE) +
            env.ROW_HEADER_REDO1,
           (tc.size : Int) - ChunkMemory.word tc.buffer
              ((tc.size : Int) - env.ROW_HEADER_TOTAL + env.ROW_HEADER_SIZE) +
            env.ROW_HEADER_REDO2)) ∧
      ∀ tc pre row, lastTc = some tc → tc.holds env (pre ++ [row]) →
        updateLastRecord env lastTc = .ok
          ((tupleBytes pre : Int) + env.ROW_HEADER_REDO1,
           (tupleBytes pre : Int) + env.ROW_HEADER_REDO2) := by
  refine ⟨?_, ?_, ?_, ?_⟩
  · cases lastTc with
    | none => simp [updateLastRecord]
    | some tc =>
      by_cases h : tc.elements = 0
      · simp [updateLastRecord, h]
      · simp [updateLastRecord, h]
  · intro e he
    cases lastTc with
    | none =>
      simp only [updateLastRecord] at he
      exact (Except.error.inj he).symm
    | some tc =>
      by_cases h : tc.elements = 0
      · simp only [updateLastRecord, if_pos h] at he
        exact (Except.error.inj he).symm
      · simp only [updateLastRecord, if_neg h] at he
        cases he
  · intro tc htc hne
    subst htc
    simp only [updateLastRecord, if_neg hne]
  · intro tc pre row htc hh
    subst htc
    obtain ⟨h1, h2, h3⟩ := hh
    have hne : tc.elements ≠ 0 := by
      rw [h1, List.length_append]
      simp
    have hw := tuplesAt_last env tc.buffer row pre 0 h3
    have hs : (tc.size : Int) = tupleBytes pre + row.size := by
      rw [h2, tupleBytes_append]
      simp [tupleBytes]
    rw [Int.zero_add, ← hs] at hw
    simp only [updateLastRecord, if_neg hne, hw]
    rw [hs]
    congr 2 <;> ring

theorem updateLastRecord_last_tuple_witness :
    s1ChunkMemory.holds sampleEnv ([s1RowA] ++ [s1RowB]) ∧
      updateLastRecord sampleEnv (some s1ChunkMemory) = .ok
        ((tupleBytes [s1RowA] : Int) + sampleEnv.ROW_HEADER_REDO1,
         (tupleBytes [s1RowA] : Int) + sampleEnv.ROW_HEADER_REDO2) :=
  ⟨⟨rfl, rfl, by decide, by decide, trivial⟩,
    (updateLastRecord_last_tuple sampleEnv (some s1ChunkMemory)).2.2.2 s1ChunkMemory
      [s1RowA] s1RowB rfl ⟨rfl, rfl, by decide, by decide, trivial⟩⟩

/-! ### Byte buffers -/

theorem byteAt_writeAt (buffer : List Nat) (pos : Nat) (bytes : List Nat) (i : Nat) :
    byteAt (writeAt buffer pos bytes) i =
      if pos ≤ i ∧ i < pos + bytes.length then bytes.getD (i - pos) 0 else byteAt buffer i := by
  unfold byteAt writeAt
  simp only [List.getD_eq_getElem?_getD]
  have hpre : (buffer.take pos ++ List.replicate (pos - buffer.length) 0).length = pos := by
    simp only [List.length_append, List.length_take, List.length_replicate]
    omega
  by_cases h1 : i < pos
  · rw [if_neg (by omega), List.append_assoc, List.append_assoc, ← List.append_assoc,
      List.getElem?_append_left (by rw [hpre]; exact h1)]
    by_cases h2 : i < buffer.length
    · rw [List.getElem?_append_left (by simp only [List.length_take]; omega),
        List.getElem?_take_of_lt h1]
    · rw [List.getElem?_append_right (by simp only [List.length_take]; omega),
        List.getElem?_replicate, List.getElem?_eq_none (by omega)]
      split_ifs <;> rfl
  · rw [List.append_assoc, List.append_assoc, ← List.append_assoc,
      List.getElem?_append_right (by rw [hpre]; omega), hpre]
    by_cases h3 : i < pos + bytes.length
    · rw [if_pos ⟨by omega, h3⟩, List.getElem?_append_left (by omega)]
    · rw [if_neg (by omega), List.getElem?_append_right (by omega), List.getElem?_drop]
      congr 2
      omega

theorem read16_write16 (env : Env) (data : List Nat) (off val : Nat) :
    read16 env (write16 env data off val) off = val % 65536 := by
  unfold read16 write16
  cases hb : env.bigEndian
  · simp only [Bool.false_eq_true, if_false, byteAt_writeAt]
    simp
    omega
  · simp only [if_true, byteAt_writeAt]
    simp
    omega

theorem read16_lt (env : Env) (data : List Nat) (off : Nat) : read16 env data off < 65536 := by
  unfold read16
  split_ifs <;> omega

theorem clear_testBit (w mask i : Nat) :
    (w ^^^ (w &&& mask)).testBit i = (w.testBit i && !mask.testBit i) := by
  rw [Nat.testBit_xor, Nat.testBit_and]
  cases w.testBit i <;> cases mask.testBit i <;> rfl

/-! ### Split-block merge: one group -/

theorem mergeSplitBlocks_eq (env : Env) (t : Transaction) (h : RedoLogRecord)
    (m : Option RedoLogRecord) (tl r2 : RedoLogRecord) :
    mergeSplitBlocks env t (some h) m (some tl) (some r2) =
      if env.onRollbackList (mergedUndo env h m tl) r2 = true then .ok t
      else .ok (add env t (mergedUndo env h m tl) r2 t.firstSequence (mergedUndo env h m tl).scn) := by
  rfl

theorem mergeSplitBlocks_error_iff (env : Env) (t : Transaction)
    (h m tl r2 : Option RedoLogRecord) :
    (mergeSplitBlocks env t h m tl r2 = .error "merging of incomplete split UNDO block" ↔
        (h = none ∨ tl = none ∨ r2 = none)) ∧
      ∀ e, mergeSplitBlocks env t h m tl r2 = .error e →
        e = "merging of incomplete split UNDO block" ∧ (h = none ∨ tl = none ∨ r2 = none) := by
  cases h with
  | none => exact ⟨⟨fun _ => Or.inl rfl, fun _ => rfl⟩, fun e he => ⟨(Except.error.inj he).symm, Or.inl rfl⟩⟩
  | some h =>
    cases tl with
    | none =>
      exact ⟨⟨fun _ => Or.inr (Or.inl rfl), fun _ => rfl⟩,
        fun e he => ⟨(Except.error.inj he).symm, Or.inr (Or.inl rfl)⟩⟩
    | some tl =>
      cases r2 with
      | none =>
        exact ⟨⟨fun _ => Or.inr (Or.inr rfl), fun _ => rfl⟩,
          fun e he => ⟨(Except.error.inj he).symm, Or.inr (Or.inr rfl)⟩⟩
      | some r2 =>
        rw [mergeSplitBlocks_eq]
        refine ⟨⟨fun he => ?_, fun hn => ?_⟩, fun e he => ?_⟩
        · split_ifs at he
        · rcases hn with hn | hn | hn <;> cases hn
        · split_ifs at he

theorem mergeSplitBlocks_complete (env : Env) (t : Transaction) (c : SplitCursor)
    (hc : cursorComplete env c) :
    ∃ t1 row, mergeSplitBlocks env t c.headRedoLogRecord1 c.midRedoLogRecord1
        c.tailRedoLogRecord1 c.redoLogRecord2 = .ok t1 ∧
      t1.opCodes = (t.opCodes + 1) % 2 ^ 64 ∧ t1.rows = t.rows ++ [row] := by
  obtain ⟨-, h, tl, r2, e1, e2, e3, hrb⟩ := hc
  rw [e1, e2, e3, mergeSplitBlocks_eq, if_neg (by rw [hrb]; simp)]
  exact ⟨_, _, rfl, add_opCodes _ _ _ _ _ _, add_rows _ _ _ _ _ _⟩

theorem isHead_bits (env : Env) (b : SplitBlock) (h : b.isHead env = true) :
    (b.record1.flg &&& env.FLG_MULTIBLOCKUNDOHEAD) ≠ 0 ∧
      (b.record1.flg &&& env.FLG_MULTIBLOCKUNDOMID) = 0 ∧
      (b.record1.flg &&& env.FLG_MULTIBLOCKUNDOTAIL) = 0 ∧ ∃ r2, b.record2 = some r2 := by
  unfold SplitBlock.isHead at h
  simp only [Bool.and_eq_true, bne_iff_ne, beq_iff_eq, Option.isSome_iff_exists] at h
  exact ⟨h.1.1.1, h.1.1.2, h.1.2, h.2⟩

theorem isMid_bits (env : Env) (b : SplitBlock) (h : b.isMid env = true) :
    (b.record1.flg &&& env.FLG_MULTIBLOCKUNDOHEAD) = 0 ∧
      (b.record1.flg &&& env.FLG_MULTIBLOCKUNDOMID) ≠ 0 ∧
      (b.record1.flg &&& env.FLG_MULTIBLOCKUNDOTAIL) = 0 := by
  unfold SplitBlock.isMid at h
  simp only [Bool.and_eq_true, bne_iff_ne, beq_iff_eq] at h
  exact ⟨h.1.1, h.1.2, h.2⟩

theorem isTail_bits (env : Env) (b : SplitBlock) (h : b.isTail env = true) :
    (b.record1.flg &&& env.FLG_MULTIBLOCKUNDOHEAD) = 0 ∧
      (b.record1.flg &&& env.FLG_MULTIBLOCKUNDOMID) = 0 ∧
      (b.record1.flg &&& env.FLG_MULTIBLOCKUNDOTAIL) ≠ 0 := by
  unfold SplitBlock.isTail at h
  simp only [Bool.and_eq_true, bne_iff_ne, beq_iff_eq] at h
  exact ⟨h.1.1, h.1.2, h.2⟩

theorem isHead_excl (env : Env) (b : SplitBlock) (h : b.isHead env = true) :
    b.isMid env = false ∧ b.isTail env = false := by
  obtain ⟨h1, h2, h3, -⟩ := isHead_bits env b h
  unfold SplitBlock.isMid SplitBlock.isTail
  simp [h1, h2, h3]

theorem isMid_excl (env : Env) (b : SplitBlock) (h : b.isMid env = true) :
    b.isHead env = false ∧ b.isTail env = false := by
  obtain ⟨h1, h2, h3⟩ := isMid_bits env b h
  unfold SplitBlock.isHead SplitBlock.isTail
  simp [h1, h2, h3]

theorem isTail_excl (env : Env) (b : SplitBlock) (h : b.isTail env = true) :
    b.isHead env = false ∧ b.isMid env = false := by
  obtain ⟨h1, h2, h3⟩ := isTail_bits env b h
  unfold SplitBlock.isHead SplitBlock.isMid
  simp [h1, h2, h3]

theorem splitBlockRole_ok (env : Env) (c : SplitCursor) (b : SplitBlock)
    (h : b.isHead env = true ∨ b.isMid env = true ∨ b.isTail env = true) :
    splitBlockRole env c b = assignRole env c b := by
  unfold splitBlockRole assignRole
  rcases h with h | h | h
  · obtain ⟨h1, -, -, r2, h4⟩ := isHead_bits env b h
    rw [if_pos h1, if_pos h1, h4]
  · obtain ⟨h1, -, h3⟩ := isMid_bits env b h
    have n1 : ¬ (b.record1.flg &&& env.FLG_MULTIBLOCKUNDOHEAD) ≠ 0 := by rw [h1]; simp
    have n3 : ¬ (b.record1.flg &&& env.FLG_MULTIBLOCKUNDOTAIL) ≠ 0 := by rw [h3]; simp
    simp only [if_neg n1, if_neg n3]
  · obtain ⟨h1, -, h3⟩ := isTail_bits env b h
    have n1 : ¬ (b.record1.flg &&& env.FLG_MULTIBLOCKUNDOHEAD) ≠ 0 := by rw [h1]; simp
    simp only [if_neg n1, if_pos h3]

/-- The fields of the cursor after the assignment of a fragment. -/
theorem assignRole_fields (env : Env) (c : SplitCursor) (b : SplitBlock)
    (h : b.isHead env = true ∨ b.isMid env = true ∨ b.isTail env = true) :
    (assignRole env c b).curRedoLogRecord = c.curRedoLogRecord ∧
      (assignRole env c b).headRedoLogRecord1 =
        (if b.isHead env = true then some b.record1 else c.headRedoLogRecord1) ∧
      (assignRole env c b).redoLogRecord2 =
        (if b.isHead env = true then b.record2 else c.redoLogRecord2) ∧
      (assignRole env c b).midRedoLogRecord1 =
        (if b.isMid env = true then some b.record1 else c.midRedoLogRecord1) ∧
      (assignRole env c b).tailRedoLogRecord1 =
        (if b.isTail env = true then some b.record1 else c.tailRedoLogRecord1) := by
  unfold assignRole
  rcases h with h | h | h
  · obtain ⟨h1, -, -, -⟩ := isHead_bits env b h
    obtain ⟨e1, e2⟩ := isHead_excl env b h
    rw [if_pos h1, h, e1, e2]
    simp
  · obtain ⟨h1, -, h3⟩ := isMid_bits env b h
    obtain ⟨e1, e2⟩ := isMid_excl env b h
    rw [if_neg (by rw [h1]; simp), if_neg (by rw [h3]; simp), h, e1, e2]
    simp
  · obtain ⟨h1, -, h3⟩ := isTail_bits env b h
    obtain ⟨e1, e2⟩ := isTail_excl env b h
    rw [if_neg (by rw [h1]; simp), if_pos h3, h, e1, e2]
    simp

/-- The first half of the loop body when the fragment continues the group of the
cursor, or the cursor is empty: nothing is merged, and only `curRedoLogRecord`
can change. -/
theorem splitBlockGroup_continue (env : Env) (t : Transaction) (c : SplitCursor)
    (b : SplitBlock) (s r : Nat)
    (hcur : ∀ x, c.curRedoLogRecord = some x → x.slt = s ∧ x.rci = r)
    (hkey : b.record1.slt = s ∧ b.record1.rci = r)
    (hH : c.headRedoLogRecord1 ≠ none → b.isHead env = false)
    (hM : c.midRedoLogRecord1 ≠ none → b.isMid env = false)
    (hT : c.tailRedoLogRecord1 ≠ none → b.isTail env = false)
    (hrole : b.isHead env = true ∨ b.isMid env = true ∨ b.isTail env = true) :
    ∃ c1, splitBlockGroup env t c b.record1 = .ok (t, c1) ∧
      (∃ x, c1.curRedoLogRecord = some x ∧ x.slt = s ∧ x.rci = r) ∧
      c1.headRedoLogRecord1 = c.headRedoLogRecord1 ∧ c1.redoLogRecord2 = c.redoLogRecord2 ∧
      c1.midRedoLogRecord1 = c.midRedoLogRecord1 ∧
      c1.tailRedoLogRecord1 = c.tailRedoLogRecord1 := by
  unfold splitBlockGroup
  cases hc : c.curRedoLogRecord with
  | none => exact ⟨_, rfl, ⟨_, rfl, hkey⟩, rfl, rfl, rfl, rfl⟩
  | some x =>
    obtain ⟨k1, k2⟩ := hcur x hc
    have hno : ¬ (x.slt ≠ b.record1.slt ∨ x.rci ≠ b.record1.rci ∨
        ((b.record1.flg &&& env.FLG_MULTIBLOCKUNDOHEAD) ≠ 0 ∧ c.headRedoLogRecord1 ≠ none) ∨
        ((b.record1.flg &&& env.FLG_MULTIBLOCKUNDOMID) ≠ 0 ∧ c.midRedoLogRecord1 ≠ none) ∨
        ((b.record1.flg &&& env.FLG_MULTIBLOCKUNDOTAIL) ≠ 0 ∧ c.tailRedoLogRecord1 ≠ none)) := by
      rintro (h | h | ⟨h1, h2⟩ | ⟨h1, h2⟩ | ⟨h1, h2⟩)
      · exact h (k1.trans hkey.1.symm)
      · exact h (k2.trans hkey.2.symm)
      · rcases hrole with g | g | g
        · rw [hH h2] at g; cases g
        · exact h1 (isMid_bits env b g).1
        · exact h1 (isTail_bits env b g).1
      · rcases hrole with g | g | g
        · exact h1 (isHead_bits env b g).2.1
        · rw [hM h2] at g; cases g
        · exact h1 (isTail_bits env b g).2.1
      · rcases hrole with g | g | g
        · exact h1 (isHead_bits env b g).2.2.1
        · exact h1 (isMid_bits env b g).2.2
        · rw [hT h2] at g; cases g
    simp only []
    rw [if_neg hno]
    exact ⟨c, rfl, ⟨x, hc, k1, k2⟩, rfl, rfl, rfl, rfl⟩

theorem pickFragment_step (g : List SplitBlock) (p : SplitBlock → Bool)
    (f : SplitBlock → Option RedoLogRecord) (d : Option RedoLogRecord) (b : SplitBlock)
    (h : p b = true → g.countP p = 0) :
    pickFragment g p f (if p b = true then f b else d) = pickFragment (b :: g) p f d := by
  unfold pickFragment
  by_cases hp : p b = true
  · have hnone : g.find? p = none := by
      rw [List.find?_eq_none]
      intro x hx hpx
      exact (List.countP_eq_zero.1 (h hp)) x hx hpx
    rw [if_pos hp, hnone, List.find?_cons_of_pos _ hp]
  · rw [if_neg hp, List.find?_cons_of_neg _ hp]

theorem countP_cons_le (g : List SplitBlock) (p : SplitBlock → Bool) (b : SplitBlock) :
    (b :: g).countP p = g.countP p + (if p b = true then 1 else 0) := by
  rw [List.countP_cons]

/-- The loop of `flushSplitBlocks` over fragments that continue the group of the
cursor without repeating a role: nothing is merged and the fragments are
recorded in the cursor. -/
theorem flushSplitLoop_fill (env : Env) (s r : Nat) :
    ∀ (g : List SplitBlock) (t : Transaction) (c : SplitCursor) (l2 : List SplitBlock),
      (∀ x, c.curRedoLogRecord = some x → x.slt = s ∧ x.rci = r) →
      (∀ b ∈ g, b.record1.slt = s ∧ b.record1.rci = r) →
      (∀ b ∈ g, b.isHead env = true ∨ b.isMid env = true ∨ b.isTail env = true) →
      g.countP (SplitBlock.isHead env) + (if c.headRedoLogRecord1 = none then 0 else 1) ≤ 1 →
      g.countP (SplitBlock.isMid env) + (if c.midRedoLogRecord1 = none then 0 else 1) ≤ 1 →
      g.countP (SplitBlock.isTail env) + (if c.tailRedoLogRecord1 = none then 0 else 1) ≤ 1 →
      ∃ t' c', flushSplitLoop env t c (g ++ l2) = flushSplitLoop env t' c' l2 ∧
        t'.opCodes = t.opCodes ∧ t'.chunks = t.chunks ∧
        (∀ x, c'.curRedoLogRecord = some x → x.slt = s ∧ x.rci = r) ∧
        (g ≠ [] ∨ c.curRedoLogRecord ≠ none → c'.curRedoLogRecord ≠ none) ∧
        c'.headRedoLogRecord1 = pickFragment g (SplitBlock.isHead env)
          (fun b => some b.record1) c.headRedoLogRecord1 ∧
        c'.redoLogRecord2 = pickFragment g (SplitBlock.isHead env)
          SplitBlock.record2 c.redoLogRecord2 ∧
        c'.midRedoLogRecord1 = pickFragment g (SplitBlock.isMid env)
          (fun b => some b.record1) c.midRedoLogRecord1 ∧
        c'.tailRedoLogRecord1 = pickFragment g (SplitBlock.isTail env)
          (fun b => some b.record1) c.tailRedoLogRecord1
  | [], t, c, l2, hcur, _, _, _, _, _ =>
    ⟨t, c, rfl, rfl, rfl, hcur, fun h => h.elim (fun h => absurd rfl h) id, rfl, rfl, rfl, rfl⟩
  | b :: g, t, c, l2, hcur, hkey, hrole, hH, hM, hT => by
    have hrb := hrole b (List.mem_cons_self _ _)
    rw [countP_cons_le] at hH hM hT
    obtain ⟨c1, hg, ⟨x, hx, hxk⟩, f1, f2, f3, f4⟩ := splitBlockGroup_continue env t c b s r hcur
      (hkey b (List.mem_cons_self _ _))
      (fun hn => by
        by_contra hb
        rw [Bool.not_eq_false] at hb
        rw [if_neg hn, if_pos hb] at hH
        omega)
      (fun hn => by
        by_contra hb
        rw [Bool.not_eq_false] at hb
        rw [if_neg hn, if_pos hb] at hM
        omega)
      (fun hn => by
        by_contra hb
        rw [Bool.not_eq_false] at hb
        rw [if_neg hn, if_pos hb] at hT
        omega) hrb
    obtain ⟨a1, a2, a3, a4, a5⟩ := assignRole_fields env c1 b hrb
    rw [f1] at a2
    rw [f2] at a3
    rw [f3] at a4
    rw [f4] at a5
    have hstep : flushSplitLoop env t c (b :: g ++ l2) =
        flushSplitLoop env { t with splitBlockList := g ++ l2 } (assignRole env c1 b) (g ++ l2) := by
      simp only [List.cons_append, flushSplitLoop, hg, splitBlockRole_ok env c1 b hrb]
      rfl
    obtain ⟨t', c', i1, i2, i3, i4, i5, i6, i7, i8, i9⟩ := flushSplitLoop_fill env s r g
      { t with splitBlockList := g ++ l2 } (assignRole env c1 b) l2
      (fun y hy => by
        rw [a1, hx] at hy
        cases hy
        exact hxk)
      (fun b' hb' => hkey b' (List.mem_cons_of_mem _ hb'))
      (fun b' hb' => hrole b' (List.mem_cons_of_mem _ hb'))
      (by rw [a2]; split_ifs at hH ⊢ <;> simp_all)
      (by rw [a4]; split_ifs at hM ⊢ <;> simp_all)
      (by rw [a5]; split_ifs at hT ⊢ <;> simp_all)
    refine ⟨t', c', hstep.trans i1, i2, i3, i4, fun _ => i5 (Or.inr (by rw [a1, hx]; simp)),
      ?_, ?_, ?_, ?_⟩
    · rw [i6, a2]
      exact pickFragment_step g _ _ _ b (fun hb => by rw [if_pos hb] at hH; omega)
    · rw [i7, a3]
      exact pickFragment_step g _ _ _ b (fun hb => by rw [if_pos hb] at hH; omega)
    · rw [i8, a4]
      exact pickFragment_step g _ _ _ b (fun hb => by rw [if_pos hb] at hM; omega)
    · rw [i9, a5]
      exact pickFragment_step g _ _ _ b (fun hb => by rw [if_pos hb] at hT; omega)

theorem pickFragment_some (g : List SplitBlock) (p : SplitBlock → Bool)
    (f : SplitBlock → Option RedoLogRecord) (d : Option RedoLogRecord) (h : 0 < g.countP p) :
    ∃ b ∈ g, p b = true ∧ pickFragment g p f d = f b := by
  unfold pickFragment
  cases hf : g.find? p with
  | none =>
    obtain ⟨a, ha, hpa⟩ := List.countP_pos_iff.1 h
    exact absurd hpa (List.find?_eq_none.1 hf a ha)
  | some b => exact ⟨b, List.mem_of_find?_eq_some hf, List.find?_some hf, rfl⟩

theorem rows_of_chunks (t t1 : Transaction) (h : t1.chunks = t.chunks) : t1.rows = t.rows := by
  unfold rows
  rw [h]

/-- A cursor filled from the fragments of a complete group is complete. -/
theorem cursorComplete_of_group (env : Env) (c : SplitCursor) (g : List SplitBlock)
    (d1 d2 d3 : Option RedoLogRecord)
    (hcur : c.curRedoLogRecord ≠ none)
    (hh : c.headRedoLogRecord1 = pickFragment g (SplitBlock.isHead env)
      (fun b => some b.record1) d1)
    (h2 : c.redoLogRecord2 = pickFragment g (SplitBlock.isHead env) SplitBlock.record2 d2)
    (ht : c.tailRedoLogRecord1 = pickFragment g (SplitBlock.isTail env)
      (fun b => some b.record1) d3)
    (nH : 0 < g.countP (SplitBlock.isHead env)) (nT : 0 < g.countP (SplitBlock.isTail env))
    (hrb : ∀ b ∈ g, ∀ r2, b.record2 = some r2 → ∀ r1, env.onRollbackList r1 r2 = false) :
    cursorComplete env c := by
  obtain ⟨b1, m1, p1, e1⟩ := pickFragment_some g _ (fun b => some b.record1) d1 nH
  obtain ⟨b2, m2, p2, e2⟩ := pickFragment_some g _ SplitBlock.record2 d2 nH
  obtain ⟨b3, m3, p3, e3⟩ := pickFragment_some g _ (fun b => some b.record1) d3 nT
  obtain ⟨-, -, -, r2, hr2⟩ := isHead_bits env b2 p2
  exact ⟨hcur, b1.record1, b3.record1, r2, hh.trans e1, ht.trans e3,
    (h2.trans e2).trans hr2, hrb b2 m2 r2 hr2⟩

/-- The loop of `flushSplitBlocks` at a fragment that closes the group of a
complete cursor: the group is merged and added, and the fragments that follow
fill the new cursor. -/
theorem flushSplitLoop_boundary (env : Env) (s r : Nat) (t : Transaction) (c : SplitCursor)
    (f : SplitBlock) (g l2 : List SplitBlock) (hc : cursorComplete env c)
    (hbd : ∀ x, c.curRedoLogRecord = some x →
      (x.slt ≠ f.record1.slt ∨ x.rci ≠ f.record1.rci ∨
        ((f.record1.flg &&& env.FLG_MULTIBLOCKUNDOHEAD) ≠ 0 ∧ c.headRedoLogRecord1 ≠ none) ∨
        ((f.record1.flg &&& env.FLG_MULTIBLOCKUNDOMID) ≠ 0 ∧ c.midRedoLogRecord1 ≠ none) ∨
        ((f.record1.flg &&& env.FLG_MULTIBLOCKUNDOTAIL) ≠ 0 ∧ c.tailRedoLogRecord1 ≠ none)))
    (hkey : ∀ b ∈ f :: g, b.record1.slt = s ∧ b.record1.rci = r)
    (hrole : ∀ b ∈ f :: g, b.isHead env = true ∨ b.isMid env = true ∨ b.isTail env = true)
    (hH : (f :: g).countP (SplitBlock.isHead env) ≤ 1)
    (hM : (f :: g).countP (SplitBlock.isMid env) ≤ 1)
    (hT : (f :: g).countP (SplitBlock.isTail env) ≤ 1) :
    ∃ t' c' row, flushSplitLoop env t c (f :: g ++ l2) = flushSplitLoop env t' c' l2 ∧
      t'.opCodes = (t.opCodes + 1) % 2 ^ 64 ∧ t'.rows = t.rows ++ [row] ∧
      c'.curRedoLogRecord ≠ none ∧
      c'.headRedoLogRecord1 = pickFragment (f :: g) (SplitBlock.isHead env)
        (fun b => some b.record1) none ∧
      c'.redoLogRecord2 = pickFragment (f :: g) (SplitBlock.isHead env)
        SplitBlock.record2 none ∧
      c'.midRedoLogRecord1 = pickFragment (f :: g) (SplitBlock.isMid env)
        (fun b => some b.record1) none ∧
      c'.tailRedoLogRecord1 = pickFragment (f :: g) (SplitBlock.isTail env)
        (fun b => some b.record1) none := by
  obtain ⟨t1, row, hm, ho, hr⟩ := mergeSplitBlocks_complete env t c hc
  have hrf := hrole f (List.mem_cons_self _ _)
  obtain ⟨x, hx⟩ := Option.ne_none_iff_exists'.1 hc.1
  have hgrp : splitBlockGroup env t c f.record1 =
      .ok (t1, { curRedoLogRecord := some f.record1 }) := by
    unfold splitBlockGroup
    rw [hx]
    simp only []
    rw [if_pos (hbd x hx), hm]
  obtain ⟨a1, a2, a3, a4, a5⟩ := assignRole_fields env { curRedoLogRecord := some f.record1 } f hrf
  have hstep : flushSplitLoop env t c (f :: g ++ l2) =
      flushSplitLoop env { t1 with splitBlockList := g ++ l2 }
        (assignRole env { curRedoLogRecord := some f.record1 } f) (g ++ l2) := by
    simp only [List.cons_append, flushSplitLoop, hgrp, splitBlockRole_ok env _ f hrf]
    rfl
  rw [countP_cons_le] at hH hM hT
  obtain ⟨t', c', i1, i2, i3, i4, i5, i6, i7, i8, i9⟩ := flushSplitLoop_fill env s r g
    { t1 with splitBlockList := g ++ l2 }
    (assignRole env { curRedoLogRecord := some f.record1 } f) l2
    (fun y hy => by
      rw [a1] at hy
      cases hy
      exact hkey f (List.mem_cons_self _ _))
    (fun b' hb' => hkey b' (List.mem_cons_of_mem _ hb'))
    (fun b' hb' => hrole b' (List.mem_cons_of_mem _ hb'))
    (by rw [a2]; split_ifs at hH ⊢ <;> simp_all)
    (by rw [a4]; split_ifs at hM ⊢ <;> simp_all)
    (by rw [a5]; split_ifs at hT ⊢ <;> simp_all)
  refine ⟨t', c', row, hstep.trans i1, i2.trans ho, (rows_of_chunks _ _ i3).trans hr,
    i5 (Or.inr (by rw [a1]; simp)), ?_, ?_, ?_, ?_⟩
  · rw [i6, a2]
    exact pickFragment_step g _ _ _ f (fun hb => by rw [if_pos hb] at hH; omega)
  · rw [i7, a3]
    exact pickFragment_step g _ _ _ f (fun hb => by rw [if_pos hb] at hH; omega)
  · rw [i8, a4]
    exact pickFragment_step g _ _ _ f (fun hb => by rw [if_pos hb] at hM; omega)
  · rw [i9, a5]
    exact pickFragment_step g _ _ _ f (fun hb => by rw [if_pos hb] at hT; omega)

/-- The loop of `flushSplitBlocks` over a complete group that follows a complete
cursor: exactly one group is merged and added, and the cursor is complete
again. A MID fragment that opens the group is taken into the group before it
when that one has the same `(slt, rci)` and no MID. -/
theorem flushSplitLoop_group (env : Env) (t : Transaction) (c : SplitCursor)
    (g l2 : List SplitBlock) (hc : cursorComplete env c) (hg : completeGroup env g)
    (hrb : ∀ b ∈ g, ∀ r2, b.record2 = some r2 → ∀ r1, env.onRollbackList r1 r2 = false) :
    ∃ t' c' row, flushSplitLoop env t c (g ++ l2) = flushSplitLoop env t' c' l2 ∧
      t'.opCodes = (t.opCodes + 1) % 2 ^ 64 ∧ t'.rows = t.rows ++ [row] ∧
      cursorComplete env c' := by
  obtain ⟨⟨s, r, hkey⟩, hrole, nH, nT, nM⟩ := hg
  cases g with
  | nil => simp at nH
  | cons f g =>
    by_cases hbd : ∀ x, c.curRedoLogRecord = some x →
        (x.slt ≠ f.record1.slt ∨ x.rci ≠ f.record1.rci ∨
          ((f.record1.flg &&& env.FLG_MULTIBLOCKUNDOHEAD) ≠ 0 ∧ c.headRedoLogRecord1 ≠ none) ∨
          ((f.record1.flg &&& env.FLG_MULTIBLOCKUNDOMID) ≠ 0 ∧ c.midRedoLogRecord1 ≠ none) ∨
          ((f.record1.flg &&& env.FLG_MULTIBLOCKUNDOTAIL) ≠ 0 ∧ c.tailRedoLogRecord1 ≠ none))
    · obtain ⟨t', c', row, e, ho, hr, k1, k2, k3, -, k5⟩ := flushSplitLoop_boundary env s r t c f g
        l2 hc hbd hkey hrole (by omega) nM (by omega)
      exact ⟨t', c', row, e, ho, hr, cursorComplete_of_group env c' (f :: g) _ _ _ k1 k2 k3 k5
        (by omega) (by omega) hrb⟩
    · obtain ⟨hcur, h0, tl0, r0, e1, e2, e3, hrb0⟩ := hc
      push_neg at hbd
      obtain ⟨x, hx, b1, b2, b3, b4, b5⟩ := hbd
      have hfH : (f.record1.flg &&& env.FLG_MULTIBLOCKUNDOHEAD) = 0 := by
        by_contra hn
        exact absurd (b3 hn) (by rw [e1]; simp)
      have hfT : (f.record1.flg &&& env.FLG_MULTIBLOCKUNDOTAIL) = 0 := by
        by_contra hn
        exact absurd (b5 hn) (by rw [e2]; simp)
      have hrf := hrole f (List.mem_cons_self _ _)
      have hfM : f.isMid env = true := by
        rcases hrf with q | q | q
        · exact absurd hfH (isHead_bits env f q).1
        · exact q
        · exact absurd hfT (isTail_bits env f q).2.2
      have hcm : c.midRedoLogRecord1 = none := b4 (isMid_bits env f hfM).2.1
      obtain ⟨x1, x2⟩ := isMid_excl env f hfM
      obtain ⟨c1, hgr, ⟨y, hy, -⟩, f1, f2, f3, f4⟩ := splitBlockGroup_continue env t c f
        f.record1.slt f.record1.rci
        (fun z hz => by
          rw [hx] at hz
          cases hz
          exact ⟨b1, b2⟩)
        ⟨rfl, rfl⟩ (fun _ => x1) (fun hn => absurd hcm hn) (fun _ => x2) hrf
      obtain ⟨a1, a2, a3, a4, a5⟩ := assignRole_fields env c1 f hrf
      rw [x1, f1] at a2
      rw [x1, f2] at a3
      rw [x2, f4] at a5
      simp only [Bool.false_eq_true, if_false] at a2 a3 a5
      have hc2 : cursorComplete env (assignRole env c1 f) :=
        ⟨by rw [a1, hy]; simp, h0, tl0, r0, a2.trans e1, a5.trans e2, a3.trans e3, hrb0⟩
      have hstep : flushSplitLoop env t c (f :: g ++ l2) =
          flushSplitLoop env { t with splitBlockList := g ++ l2 } (assignRole env c1 f)
            (g ++ l2) := by
        simp only [List.cons_append, flushSplitLoop, hgr, splitBlockRole_ok env c1 f hrf]
        rfl
      rw [countP_cons_le] at nH nT nM
      rw [x1] at nH
      rw [x2] at nT
      rw [hfM] at nM
      simp only [Bool.false_eq_true, if_false, if_true, Nat.add_zero] at nH nT nM
      cases g with
      | nil => simp at nH
      | cons f2 g2 =>
        have hr2 := hrole f2 (List.mem_cons_of_mem _ (List.mem_cons_self _ _))
        have hnm : f2.isMid env = false := by
          by_contra hn
          rw [Bool.not_eq_false] at hn
          rw [countP_cons_le, if_pos hn] at nM
          omega
        have hbd2 : ∀ z, (assignRole env c1 f).curRedoLogRecord = some z →
            (z.slt ≠ f2.record1.slt ∨ z.rci ≠ f2.record1.rci ∨
              ((f2.record1.flg &&& env.FLG_MULTIBLOCKUNDOHEAD) ≠ 0 ∧
                (assignRole env c1 f).headRedoLogRecord1 ≠ none) ∨
              ((f2.record1.flg &&& env.FLG_MULTIBLOCKUNDOMID) ≠ 0 ∧
                (assignRole env c1 f).midRedoLogRecord1 ≠ none) ∨
              ((f2.record1.flg &&& env.FLG_MULTIBLOCKUNDOTAIL) ≠ 0 ∧
                (assignRole env c1 f).tailRedoLogRecord1 ≠ none)) := by
          intro z _
          rcases hr2 with q | q | q
          · exact Or.inr (Or.inr (Or.inl ⟨(isHead_bits env f2 q).1, by rw [a2, e1]; simp⟩))
          · rw [hnm] at q; cases q
          · exact Or.inr (Or.inr (Or.inr (Or.inr
              ⟨(isTail_bits env f2 q).2.2, by rw [a5, e2]; simp⟩)))
        obtain ⟨t', c', row, e, ho, hr, k1, k2, k3, -, k5⟩ := flushSplitLoop_boundary env s r
          { t with splitBlockList := f2 :: g2 ++ l2 } (assignRole env c1 f) f2 g2 l2 hc2 hbd2
          (fun b hb => hkey b (List.mem_cons_of_mem _ hb))
          (fun b hb => hrole b (List.mem_cons_of_mem _ hb)) (by omega) (by omega) (by omega)
        exact ⟨t', c', row, hstep.trans e, ho, hr,
          cursorComplete_of_group env c' (f2 :: g2) _ _ _ k1 k2 k3 k5 (by omega) (by omega)
            (fun b hb => hrb b (List.mem_cons_of_mem _ hb))⟩

/-- The loop of `flushSplitBlocks` over a sequence of complete groups that
follows a complete cursor: one merge and one add for each group. -/
theorem flushSplitLoop_groups (env : Env) :
    ∀ (groups : List (List SplitBlock)) (t : Transaction) (c : SplitCursor),
      cursorComplete env c → t.opCodes < 2 ^ 64 →
      (∀ g ∈ groups, completeGroup env g) →
      (∀ g ∈ groups, ∀ b ∈ g, ∀ r2, b.record2 = some r2 →
        ∀ r1, env.onRollbackList r1 r2 = false) →
      ∃ t' c' added, flushSplitLoop env t c groups.flatten = .ok (t', c') ∧
        t'.opCodes = (t.opCodes + groups.length) % 2 ^ 64 ∧ t'.rows = t.rows ++ added ∧
        added.length = groups.length ∧ cursorComplete env c'
  | [], t, c, hc, ho, _, _ =>
    ⟨t, c, [], rfl, (Nat.mod_eq_of_lt ho).symm, (List.append_nil _).symm, rfl, hc⟩
  | g :: groups, t, c, hc, _, hg, hrb => by
    obtain ⟨t1, c1, row, e1, o1, r1, hc1⟩ := flushSplitLoop_group env t c g groups.flatten hc
      (hg g (List.mem_cons_self _ _)) (hrb g (List.mem_cons_self _ _))
    obtain ⟨t2, c2, added, e2, o2, r2, n2, hc2⟩ := flushSplitLoop_groups env groups t1 c1 hc1
      (by rw [o1]; exact Nat.mod_lt _ (by norm_num))
      (fun g' hg' => hg g' (List.mem_cons_of_mem _ hg'))
      (fun g' hg' => hrb g' (List.mem_cons_of_mem _ hg'))
    refine ⟨t2, c2, row :: added, ?_, ?_, ?_, ?_, hc2⟩
    · rw [List.flatten_cons, e1, e2]
    · rw [o2, o1, List.length_cons]
      omega
    · rw [r2, r1, List.append_assoc]
      rfl
    · rw [List.length_cons, List.length_cons, n2]

theorem flushSplitBlocks_of_loop (env : Env) (t t2 : Transaction) (c2 : SplitCursor)
    (hne : t.splitBlockList ≠ [])
    (hloop : flushSplitLoop env t {} t.splitBlockList = .ok (t2, c2))
    (hcur : c2.curRedoLogRecord ≠ none) :
    flushSplitBlocks env t = mergeSplitBlocks env t2 c2.headRedoLogRecord1
      c2.midRedoLogRecord1 c2.tailRedoLogRecord1 c2.redoLogRecord2 := by
  unfold flushSplitBlocks
  rw [if_neg hne, hloop]
  simp only []
  rw [if_pos hcur]

/-- The loop of `flushSplitBlocks` over a first complete group: nothing is
merged, and the cursor holds the fragments of the group. -/
theorem flushSplitLoop_first (env : Env) (t : Transaction) (g l2 : List SplitBlock)
    (hg : completeGroup env g) :
    ∃ t' c', flushSplitLoop env t {} (g ++ l2) = flushSplitLoop env t' c' l2 ∧
      t'.opCodes = t.opCodes ∧ t'.chunks = t.chunks ∧ c'.curRedoLogRecord ≠ none ∧
      c'.headRedoLogRecord1 = pickFragment g (SplitBlock.isHead env)
        (fun b => some b.record1) none ∧
      c'.redoLogRecord2 = pickFragment g (SplitBlock.isHead env) SplitBlock.record2 none ∧
      c'.midRedoLogRecord1 = pickFragment g (SplitBlock.isMid env)
        (fun b => some b.record1) none ∧
      c'.tailRedoLogRecord1 = pickFragment g (SplitBlock.isTail env)
        (fun b => some b.record1) none := by
  obtain ⟨⟨s, r, hkey⟩, hrole, nH, nT, nM⟩ := hg
  obtain ⟨t', c', i1, i2, i3, -, i5, i6, i7, i8, i9⟩ := flushSplitLoop_fill env s r g t {} l2
    (fun x hx => by cases hx) hkey hrole (by rw [nH]; rfl) (by simpa using nM) (by rw [nT]; rfl)
  refine ⟨t', c', i1, i2, i3, i5 (Or.inl ?_), i6, i7, i8, i9⟩
  rintro rfl
  simp at nH

/-- The bits of the flag word that `mergeSplitBlocks` rewrites: the four split
flags are cleared and every other bit is kept. -/
theorem clearSplitFlags_word (env : Env) (m : RedoLogRecord) (i : Nat) :
    (read16 env (clearSplitFlags env m).data (flagWordPos env m)).testBit i =
      ((read16 env m.data (flagWordPos env m)).testBit i &&
        !(env.FLG_MULTIBLOCKUNDOHEAD.testBit i || env.FLG_MULTIBLOCKUNDOMID.testBit i ||
          env.FLG_MULTIBLOCKUNDOTAIL.testBit i || env.FLG_LASTBUFFERSPLIT.testBit i)) := by
  unfold clearSplitFlags
  simp only []
  rw [read16_write16, show (65536 : Nat) = 2 ^ 16 by norm_num, Nat.testBit_mod_two_pow,
    clear_testBit]
  unfold splitFlagMask
  simp only [Nat.testBit_or]
  by_cases hi : i < 16
  · simp [hi]
  · have hlt : read16 env m.data (flagWordPos env m) < 2 ^ i :=
      Nat.lt_of_lt_of_le (read16_lt env _ _)
        (by rw [show (65536 : Nat) = 2 ^ 16 by norm_num]
            exact Nat.pow_le_pow_right (by norm_num) (by omega))
    rw [Nat.testBit_lt_two_pow hlt]
    simp


/-! ### Split-block merge: incomplete groups -/

theorem flushSplitLoop_eq_at (env : Env) :
    ∀ (l : List SplitBlock) (t : Transaction) (c : SplitCursor),
      flushSplitLoop env t c l =
        match (flushSplitLoopAt env t c l).2 with
        | .ok c1 => .ok ((flushSplitLoopAt env t c l).1, c1)
        | .error e => .error e
  | [], t, c => rfl
  | b :: rest, t, c => by
    rw [flushSplitLoop, flushSplitLoopAt]
    cases hg : splitBlockGroup env t c b.record1 with
    | error e => rfl
    | ok p =>
      obtain ⟨t1, c1⟩ := p
      simp only []
      exact flushSplitLoop_eq_at env rest _ (splitBlockRole env c1 b)

theorem flushSplitBlocks_at (env : Env) (t t1 : Transaction)
    (h : flushSplitBlocks env t = .ok t1) : flushSplitBlocksAt env t = t1 := by
  unfold flushSplitBlocks at h
  unfold flushSplitBlocksAt
  by_cases hl : t.splitBlockList = []
  · rw [if_pos hl] at h ⊢
    exact Except.ok.inj h
  · rw [if_neg hl] at h ⊢
    rw [flushSplitLoop_eq_at] at h
    cases hr : (flushSplitLoopAt env t {} t.splitBlockList).2 with
    | error e => rw [hr] at h; cases h
    | ok c =>
      rw [hr] at h
      simp only [closeGroupAt] at h ⊢
      by_cases hc : c.curRedoLogRecord ≠ none
      · rw [if_pos hc] at h ⊢
        rw [h]
      · rw [if_neg hc] at h ⊢
        exact Except.ok.inj h

theorem add_clearSplit (env : Env) (t : Transaction) (r1 r2 : RedoLogRecord)
    (sequence scn : Nat) :
    clearSplit (add env t r1 r2 sequence scn) = add env (clearSplit t) r1 r2 sequence scn := by
  unfold add touch TransactionBuffer.addTransactionChunk clearSplit
  simp only []
  split_ifs <;> rfl

theorem clearSplit_with (t : Transaction) (l : List SplitBlock) :
    clearSplit { t with splitBlockList := l } = clearSplit t := rfl

theorem clearSplit_fields (t t1 : Transaction) (h : clearSplit t1 = clearSplit t) :
    t1.chunks = t.chunks ∧ t1.opCodes = t.opCodes ∧ t1.firstSequence = t.firstSequence :=
  ⟨by simpa [clearSplit] using congrArg Transaction.chunks h,
    by simpa [clearSplit] using congrArg Transaction.opCodes h,
    by simpa [clearSplit] using congrArg Transaction.firstSequence h⟩

/-- The outcome of `mergeSplitBlocks` does not depend on the pending fragments. -/
theorem mergeSplitBlocks_clearSplit (env : Env) (t ta : Transaction)
    (h m tl r2 : Option RedoLogRecord) (heq : clearSplit ta = clearSplit t) :
    (∀ e, mergeSplitBlocks env t h m tl r2 = .error e →
        mergeSplitBlocks env ta h m tl r2 = .error e) ∧
      ∀ t1, mergeSplitBlocks env t h m tl r2 = .ok t1 →
        ∃ ta1, mergeSplitBlocks env ta h m tl r2 = .ok ta1 ∧ clearSplit ta1 = clearSplit t1 := by
  cases h with
  | none => exact ⟨fun e he => he, fun t1 h1 => (by cases h1)⟩
  | some h =>
    cases tl with
    | none => exact ⟨fun e he => he, fun t1 h1 => (by cases h1)⟩
    | some tl =>
      cases r2 with
      | none => exact ⟨fun e he => he, fun t1 h1 => (by cases h1)⟩
      | some r2 =>
        rw [mergeSplitBlocks_eq, mergeSplitBlocks_eq]
        by_cases hrb : env.onRollbackList (mergedUndo env h m tl) r2 = true
        · rw [if_pos hrb, if_pos hrb]
          exact ⟨fun e he => (by cases he),
            fun t1 h1 => ⟨ta, rfl, by rw [← Except.ok.inj h1, heq]⟩⟩
        · rw [if_neg hrb, if_neg hrb]
          refine ⟨fun e he => (by cases he), fun t1 h1 => ⟨_, rfl, ?_⟩⟩
          rw [← Except.ok.inj h1, add_clearSplit, add_clearSplit, heq,
            (clearSplit_fields t ta heq).2.2]

theorem splitBlockGroup_clearSplit (env : Env) (t ta : Transaction) (c : SplitCursor)
    (r : RedoLogRecord) (heq : clearSplit ta = clearSplit t) :
    (∀ e, splitBlockGroup env t c r = .error e → splitBlockGroup env ta c r = .error e) ∧
      ∀ t1 c1, splitBlockGroup env t c r = .ok (t1, c1) →
        ∃ ta1, splitBlockGroup env ta c r = .ok (ta1, c1) ∧ clearSplit ta1 = clearSplit t1 := by
  unfold splitBlockGroup
  cases hc : c.curRedoLogRecord with
  | none =>
    refine ⟨fun e he => (by cases he), fun t1 c1 h1 => ?_⟩
    obtain ⟨h2, h3⟩ := Prod.mk.inj (Except.ok.inj h1)
    exact ⟨ta, by rw [← h3], by rw [← h2, heq]⟩
  | some x =>
    simp only []
    split_ifs with hcond
    · obtain ⟨m1, m2⟩ := mergeSplitBlocks_clearSplit env t ta c.headRedoLogRecord1
        c.midRedoLogRecord1 c.tailRedoLogRecord1 c.redoLogRecord2 heq
      cases hm : mergeSplitBlocks env t c.headRedoLogRecord1 c.midRedoLogRecord1
          c.tailRedoLogRecord1 c.redoLogRecord2 with
      | error e =>
        refine ⟨fun e1 he1 => ?_, fun t1 c1 h1 => (by cases h1)⟩
        rw [m1 e hm]
        exact he1
      | ok t2 =>
        obtain ⟨ta2, hta, hcl⟩ := m2 t2 hm
        refine ⟨fun e1 he1 => (by cases he1), fun t1 c1 h1 => ?_⟩
        obtain ⟨h2, h3⟩ := Prod.mk.inj (Except.ok.inj h1)
        rw [hta]
        exact ⟨ta2, by rw [← h3], by rw [← h2, hcl]⟩
    · refine ⟨fun e he => (by cases he), fun t1 c1 h1 => ?_⟩
      obtain ⟨h2, h3⟩ := Prod.mk.inj (Except.ok.inj h1)
      exact ⟨ta, by rw [← h3], by rw [← h2, heq]⟩

/-- The loop of `flushSplitBlocks` over the fragments `pre` of a longer list
runs as it does on `pre` alone, up to the pending fragments of the
transaction. -/
theorem flushSplitLoopAt_prefix (env : Env) (l2 : List SplitBlock) :
    ∀ (pre : List SplitBlock) (t ta : Transaction) (c : SplitCursor),
      clearSplit ta = clearSplit t →
      (∀ e, (flushSplitLoopAt env ta c pre).2 = .error e →
        ∃ tx, flushSplitLoopAt env t c (pre ++ l2) = (tx, .error e) ∧
          clearSplit tx = clearSplit (flushSplitLoopAt env ta c pre).1) ∧
      ∀ cp, (flushSplitLoopAt env ta c pre).2 = .ok cp →
        ∃ tx, flushSplitLoopAt env t c (pre ++ l2) = flushSplitLoopAt env tx cp l2 ∧
          clearSplit tx = clearSplit (flushSplitLoopAt env ta c pre).1
  | [], t, ta, c, heq => by
    refine ⟨fun e he => (by cases he), fun cp hcp => ?_⟩
    have : c = cp := Except.ok.inj hcp
    subst this
    exact ⟨t, rfl, heq.symm⟩
  | b :: rest, t, ta, c, heq => by
    obtain ⟨g1, g2⟩ := splitBlockGroup_clearSplit env ta t c b.record1 heq.symm
    rw [List.cons_append, flushSplitLoopAt, flushSplitLoopAt]
    cases hg : splitBlockGroup env ta c b.record1 with
    | error e =>
      rw [g1 e hg]
      refine ⟨fun e1 he1 => ⟨t, ?_, heq.symm⟩, fun cp hcp => (by cases hcp)⟩
      have : e = e1 := Except.error.inj he1
      rw [this]
    | ok p =>
      obtain ⟨ta1, c1⟩ := p
      obtain ⟨t1, ht1, hcl⟩ := g2 ta1 c1 hg
      rw [ht1]
      simp only []
      exact flushSplitLoopAt_prefix env l2 rest { t1 with splitBlockList := rest ++ l2 }
        { ta1 with splitBlockList := rest } (splitBlockRole env c1 b)
        ((clearSplit_with ta1 rest).trans (hcl.symm.trans (clearSplit_with t1 (rest ++ l2)).symm))

theorem splitBlockGroup_cur (env : Env) (t t1 : Transaction) (c c1 : SplitCursor)
    (r : RedoLogRecord) (h : splitBlockGroup env t c r = .ok (t1, c1)) :
    ∃ x, c1.curRedoLogRecord = some x ∧ x.slt = r.slt ∧ x.rci = r.rci := by
  unfold splitBlockGroup at h
  cases hc : c.curRedoLogRecord with
  | none =>
    rw [hc] at h
    obtain ⟨-, h3⟩ := Prod.mk.inj (Except.ok.inj h)
    exact ⟨r, by rw [← h3], rfl, rfl⟩
  | some x =>
    rw [hc] at h
    simp only [] at h
    split_ifs at h with hcond
    · cases hm : mergeSplitBlocks env t c.headRedoLogRecord1 c.midRedoLogRecord1
          c.tailRedoLogRecord1 c.redoLogRecord2 with
      | error e => rw [hm] at h; cases h
      | ok t2 =>
        rw [hm] at h
        obtain ⟨-, h3⟩ := Prod.mk.inj (Except.ok.inj h)
        exact ⟨r, by rw [← h3], rfl, rfl⟩
    · obtain ⟨-, h3⟩ := Prod.mk.inj (Except.ok.inj h)
      push_neg at hcond
      exact ⟨x, by rw [← h3, hc], hcond.1, hcond.2.1⟩

theorem splitBlockRole_fields (env : Env) (c : SplitCursor) (b : SplitBlock) :
    (splitBlockRole env c b).curRedoLogRecord = c.curRedoLogRecord ∧
      ((b.record1.flg &&& env.FLG_MULTIBLOCKUNDOHEAD) = 0 →
        (splitBlockRole env c b).headRedoLogRecord1 = c.headRedoLogRecord1) ∧
      ((b.record1.flg &&& env.FLG_MULTIBLOCKUNDOTAIL) = 0 →
        (splitBlockRole env c b).tailRedoLogRecord1 = c.tailRedoLogRecord1) := by
  unfold splitBlockRole
  split_ifs with h1 h2
  · exact ⟨rfl, fun h0 => absurd h0 h1, fun _ => rfl⟩
  · exact ⟨rfl, fun _ => rfl, fun h0 => absurd h0 h2⟩
  · exact ⟨rfl, fun _ => rfl, fun _ => rfl⟩

/-- After the loop has gone over a non-empty list, `curRedoLogRecord` has the
`(slt, rci)` of the last fragment of the list. -/
theorem flushSplitLoopAt_cur (env : Env) :
    ∀ (pre : List SplitBlock) (t : Transaction) (c cp : SplitCursor) (b : SplitBlock),
      (flushSplitLoopAt env t c pre).2 = .ok cp → pre.getLast? = some b →
      ∃ x, cp.curRedoLogRecord = some x ∧ x.slt = b.record1.slt ∧ x.rci = b.record1.rci
  | [], _, _, _, _, _, hl => by cases hl
  | a :: rest, t, c, cp, b, h, hl => by
    rw [flushSplitLoopAt] at h
    cases hg : splitBlockGroup env t c a.record1 with
    | error e => rw [hg] at h; cases h
    | ok p =>
      obtain ⟨t1, c1⟩ := p
      rw [hg] at h
      simp only [] at h
      cases rest with
      | nil =>
        have hcp : splitBlockRole env c1 a = cp := Except.ok.inj h
        have hb : a = b := by simpa using hl
        obtain ⟨x, hx, k1, k2⟩ := splitBlockGroup_cur env t t1 c c1 a.record1 hg
        rw [← hcp, ← hb, (splitBlockRole_fields env c1 a).1]
        exact ⟨x, hx, k1, k2⟩
      | cons a2 rest2 =>
        exact flushSplitLoopAt_cur env (a2 :: rest2) _ (splitBlockRole env c1 a) cp b h
          (by rw [List.getLast?_cons_cons] at hl; exact hl)

theorem splitBlockGroup_some (env : Env) (t : Transaction) (c : SplitCursor)
    (r x : RedoLogRecord) (hx : c.curRedoLogRecord = some x) :
    splitBlockGroup env t c r =
      if x.slt ≠ r.slt ∨ x.rci ≠ r.rci ∨
          ((r.flg &&& env.FLG_MULTIBLOCKUNDOHEAD) ≠ 0 ∧ c.headRedoLogRecord1 ≠ none) ∨
          ((r.flg &&& env.FLG_MULTIBLOCKUNDOMID) ≠ 0 ∧ c.midRedoLogRecord1 ≠ none) ∨
          ((r.flg &&& env.FLG_MULTIBLOCKUNDOTAIL) ≠ 0 ∧ c.tailRedoLogRecord1 ≠ none) then
        match mergeSplitBlocks env t c.headRedoLogRecord1 c.midRedoLogRecord1
            c.tailRedoLogRecord1 c.redoLogRecord2 with
        | .ok t1 => .ok (t1, { curRedoLogRecord := some r })
        | .error e => .error e
      else .ok (t, c) := by
  unfold splitBlockGroup
  rw [hx]
  try rfl

theorem mergeSplitBlocks_incomplete (env : Env) (t : Transaction) (c : SplitCursor)
    (h : c.headRedoLogRecord1 = none ∨ c.tailRedoLogRecord1 = none) :
    mergeSplitBlocks env t c.headRedoLogRecord1 c.midRedoLogRecord1 c.tailRedoLogRecord1
      c.redoLogRecord2 = .error "merging of incomplete split UNDO block" :=
  (mergeSplitBlocks_error_iff env t _ _ _ _).1.2
    (h.elim Or.inl (fun h => Or.inr (Or.inl h)))

/-- The loop of `flushSplitBlocks` over fragments of one `(slt, rci)` none of
which is a HEAD (or none of which is a TAIL), from a cursor of that
`(slt, rci)` without a head (without a tail): nothing is added, and the cursor
stays without a head (without a tail) unless the loop raises. -/
theorem flushSplitLoopAt_incomplete (env : Env) (s r : Nat) (l2 : List SplitBlock) :
    ∀ (l : List SplitBlock) (t : Transaction) (c : SplitCursor),
      (∃ x, c.curRedoLogRecord = some x ∧ x.slt = s ∧ x.rci = r) →
      (∀ b ∈ l, b.record1.slt = s ∧ b.record1.rci = r) →
      ((c.headRedoLogRecord1 = none ∧
          ∀ b ∈ l, (b.record1.flg &&& env.FLG_MULTIBLOCKUNDOHEAD) = 0) ∨
        (c.tailRedoLogRecord1 = none ∧
          ∀ b ∈ l, (b.record1.flg &&& env.FLG_MULTIBLOCKUNDOTAIL) = 0)) →
      ∃ t', t'.chunks = t.chunks ∧ t'.opCodes = t.opCodes ∧
        ((∃ e, flushSplitLoopAt env t c (l ++ l2) = (t', .error e)) ∨
          ∃ c', flushSplitLoopAt env t c (l ++ l2) = flushSplitLoopAt env t' c' l2 ∧
            (∃ x, c'.curRedoLogRecord = some x ∧ x.slt = s ∧ x.rci = r) ∧
            (c'.headRedoLogRecord1 = none ∨ c'.tailRedoLogRecord1 = none))
  | [], t, c, hcur, _, hinc =>
    ⟨t, rfl, rfl, Or.inr ⟨c, rfl, hcur, hinc.elim (fun h => Or.inl h.1) (fun h => Or.inr h.1)⟩⟩
  | b :: rest, t, c, hcur, hkey, hinc => by
    obtain ⟨x, hx, k1, k2⟩ := hcur
    have hno : c.headRedoLogRecord1 = none ∨ c.tailRedoLogRecord1 = none :=
      hinc.elim (fun h => Or.inl h.1) (fun h => Or.inr h.1)
    rw [List.cons_append, flushSplitLoopAt, splitBlockGroup_some env t c b.record1 x hx]
    split_ifs with hcond
    · rw [mergeSplitBlocks_incomplete env t c hno]
      exact ⟨t, rfl, rfl, Or.inl ⟨_, rfl⟩⟩
    · simp only []
      obtain ⟨q1, q2, q3⟩ := splitBlockRole_fields env c b
      obtain ⟨t', i1, i2, i3⟩ := flushSplitLoopAt_incomplete env s r l2 rest
        { t with splitBlockList := rest ++ l2 } (splitBlockRole env c b)
        ⟨x, by rw [q1, hx], k1, k2⟩
        (fun b' hb' => hkey b' (List.mem_cons_of_mem _ hb'))
        (hinc.elim
          (fun h => Or.inl ⟨by rw [q2 (h.2 b (List.mem_cons_self _ _)), h.1],
            fun b' hb' => h.2 b' (List.mem_cons_of_mem _ hb')⟩)
          (fun h => Or.inr ⟨by rw [q3 (h.2 b (List.mem_cons_self _ _)), h.1],
            fun b' hb' => h.2 b' (List.mem_cons_of_mem _ hb')⟩))
      exact ⟨t', i1, i2, i3⟩

/-- The loop of `flushSplitBlocks` at the first fragment of a run of one
`(slt, rci)` without a HEAD (or without a TAIL): the group before the run is
merged as at the end of the list, and nothing else is added. -/
theorem flushSplitLoopAt_enter (env : Env) (s r : Nat) (l2 : List SplitBlock)
    (t : Transaction) (cp : SplitCursor) (f : SplitBlock) (g : List SplitBlock)
    (hcp : ∀ x, cp.curRedoLogRecord = some x → ¬ (x.slt = s ∧ x.rci = r))
    (hnone : cp.curRedoLogRecord = none →
      cp.headRedoLogRecord1 = none ∧ cp.tailRedoLogRecord1 = none)
    (hkey : ∀ b ∈ f :: g, b.record1.slt = s ∧ b.record1.rci = r)
    (hinc : (∀ b ∈ f :: g, (b.record1.flg &&& env.FLG_MULTIBLOCKUNDOHEAD) = 0) ∨
      (∀ b ∈ f :: g, (b.record1.flg &&& env.FLG_MULTIBLOCKUNDOTAIL) = 0)) :
    ∃ t', t'.chunks = (closeGroupAt env t (.ok cp)).chunks ∧
      t'.opCodes = (closeGroupAt env t (.ok cp)).opCodes ∧
      ((∃ e, flushSplitLoopAt env t cp (f :: g ++ l2) = (t', .error e)) ∨
        ∃ c', flushSplitLoopAt env t cp (f :: g ++ l2) = flushSplitLoopAt env t' c' l2 ∧
          (∃ x, c'.curRedoLogRecord = some x ∧ x.slt = s ∧ x.rci = r) ∧
          (c'.headRedoLogRecord1 = none ∨ c'.tailRedoLogRecord1 = none)) := by
  have hf := hkey f (List.mem_cons_self _ _)
  have key : ∀ (t1 : Transaction) (c1 : SplitCursor),
      c1.curRedoLogRecord = some f.record1 →
      c1.headRedoLogRecord1 = none → c1.tailRedoLogRecord1 = none →
      ∃ t', t'.chunks = t1.chunks ∧ t'.opCodes = t1.opCodes ∧
        ((∃ e, flushSplitLoopAt env { t1 with splitBlockList := g ++ l2 }
            (splitBlockRole env c1 f) (g ++ l2) = (t', .error e)) ∨
          ∃ c', flushSplitLoopAt env { t1 with splitBlockList := g ++ l2 }
              (splitBlockRole env c1 f) (g ++ l2) = flushSplitLoopAt env t' c' l2 ∧
            (∃ x, c'.curRedoLogRecord = some x ∧ x.slt = s ∧ x.rci = r) ∧
            (c'.headRedoLogRecord1 = none ∨ c'.tailRedoLogRecord1 = none)) := by
    intro t1 c1 h1 h2 h3
    obtain ⟨q1, q2, q3⟩ := splitBlockRole_fields env c1 f
    obtain ⟨t', i1, i2, i3⟩ := flushSplitLoopAt_incomplete env s r l2 g
      { t1 with splitBlockList := g ++ l2 } (splitBlockRole env c1 f)
      ⟨f.record1, by rw [q1, h1], hf.1, hf.2⟩
      (fun b' hb' => hkey b' (List.mem_cons_of_mem _ hb'))
      (hinc.elim
        (fun h => Or.inl ⟨by rw [q2 (h f (List.mem_cons_self _ _)), h2],
          fun b' hb' => h b' (List.mem_cons_of_mem _ hb')⟩)
        (fun h => Or.inr ⟨by rw [q3 (h f (List.mem_cons_self _ _)), h3],
          fun b' hb' => h b' (List.mem_cons_of_mem _ hb')⟩))
    exact ⟨t', i1, i2, i3⟩
  rw [List.cons_append, flushSplitLoopAt]
  cases hc : cp.curRedoLogRecord with
  | none =>
    have hgrp : splitBlockGroup env t cp f.record1 =
        .ok (t, { cp with curRedoLogRecord := some f.record1 }) := by
      unfold splitBlockGroup
      rw [hc]
    have hcl : closeGroupAt env t (.ok cp) = t := by
      unfold closeGroupAt
      simp only []
      rw [if_neg (by rw [hc]; simp)]
    rw [hgrp, hcl]
    simp only []
    exact key t _ rfl (hnone hc).1 (hnone hc).2
  | some x =>
    have hcond : x.slt ≠ f.record1.slt ∨ x.rci ≠ f.record1.rci ∨
        ((f.record1.flg &&& env.FLG_MULTIBLOCKUNDOHEAD) ≠ 0 ∧ cp.headRedoLogRecord1 ≠ none) ∨
        ((f.record1.flg &&& env.FLG_MULTIBLOCKUNDOMID) ≠ 0 ∧ cp.midRedoLogRecord1 ≠ none) ∨
        ((f.record1.flg &&& env.FLG_MULTIBLOCKUNDOTAIL) ≠ 0 ∧ cp.tailRedoLogRecord1 ≠ none) := by
      by_cases h1 : x.slt = f.record1.slt
      · refine Or.inr (Or.inl fun h2 => hcp x hc ⟨h1.trans hf.1, h2.trans hf.2⟩)
      · exact Or.inl h1
    rw [splitBlockGroup_some env t cp f.record1 x hc, if_pos hcond]
    have hcl : closeGroupAt env t (.ok cp) =
        match mergeSplitBlocks env t cp.headRedoLogRecord1 cp.midRedoLogRecord1
          cp.tailRedoLogRecord1 cp.redoLogRecord2 with
        | .ok t1 => t1
        | .error _ => t := by
      unfold closeGroupAt
      simp only []
      rw [if_pos (by rw [hc]; simp)]
    rw [hcl]
    cases hm : mergeSplitBlocks env t cp.headRedoLogRecord1 cp.midRedoLogRecord1
        cp.tailRedoLogRecord1 cp.redoLogRecord2 with
    | error e => exact ⟨t, rfl, rfl, Or.inl ⟨e, rfl⟩⟩
    | ok t1 =>
      simp only []
      exact key t1 _ rfl rfl rfl

theorem flushSplitLoopAt_after (env : Env) (s r : Nat) (t : Transaction) (c : SplitCursor)
    (post : List SplitBlock)
    (hcur : ∃ x, c.curRedoLogRecord = some x ∧ x.slt = s ∧ x.rci = r)
    (hno : c.headRedoLogRecord1 = none ∨ c.tailRedoLogRecord1 = none)
    (hpost : ∀ b, post.head? = some b → ¬ (b.record1.slt = s ∧ b.record1.rci = r)) :
    (flushSplitLoopAt env t c post).1 = t ∧
      ((∃ e, (flushSplitLoopAt env t c post).2 = .error e) ∨
        (flushSplitLoopAt env t c post).2 = .ok c) := by
  cases post with
  | nil => exact ⟨rfl, Or.inr rfl⟩
  | cons p rest =>
    obtain ⟨x, hx, k1, k2⟩ := hcur
    have hp := hpost p rfl
    have hcond : x.slt ≠ p.record1.slt ∨ x.rci ≠ p.record1.rci ∨
        ((p.record1.flg &&& env.FLG_MULTIBLOCKUNDOHEAD) ≠ 0 ∧ c.headRedoLogRecord1 ≠ none) ∨
        ((p.record1.flg &&& env.FLG_MULTIBLOCKUNDOMID) ≠ 0 ∧ c.midRedoLogRecord1 ≠ none) ∨
        ((p.record1.flg &&& env.FLG_MULTIBLOCKUNDOTAIL) ≠ 0 ∧ c.tailRedoLogRecord1 ≠ none) := by
      by_cases h1 : x.slt = p.record1.slt
      · exact Or.inr (Or.inl fun h2 => hp ⟨h1.symm.trans k1, h2.symm.trans k2⟩)
      · exact Or.inl h1
    rw [flushSplitLoopAt, splitBlockGroup_some env t c p.record1 x hx, if_pos hcond,
      mergeSplitBlocks_incomplete env t c hno]
    exact ⟨rfl, Or.inl ⟨_, rfl⟩⟩

theorem flushSplitBlocksAt_eq (env : Env) (t : Transaction) :
    flushSplitBlocksAt env t =
      closeGroupAt env (flushSplitLoopAt env t {} t.splitBlockList).1
        (flushSplitLoopAt env t {} t.splitBlockList).2 := by
  unfold flushSplitBlocksAt
  by_cases h : t.splitBlockList = []
  · rw [if_pos h, h]
    rfl
  · rw [if_neg h]

theorem flushSplitBlocks_eq_at (env : Env) (t : Transaction) (h : t.splitBlockList ≠ []) :
    flushSplitBlocks env t =
      match (flushSplitLoopAt env t {} t.splitBlockList).2 with
      | .ok c1 =>
        if c1.curRedoLogRecord ≠ none then
          mergeSplitBlocks env (flushSplitLoopAt env t {} t.splitBlockList).1
            c1.headRedoLogRecord1 c1.midRedoLogRecord1 c1.tailRedoLogRecord1 c1.redoLogRecord2
        else .ok (flushSplitLoopAt env t {} t.splitBlockList).1
      | .error e => .error e := by
  unfold flushSplitBlocks
  rw [if_neg h, flushSplitLoop_eq_at]
  cases (flushSplitLoopAt env t {} t.splitBlockList).2 with
  | error e => rfl
  | ok c1 => rfl

theorem closeGroupAt_clearSplit (env : Env) (t ta : Transaction) (r : Except String SplitCursor)
    (heq : clearSplit ta = clearSplit t) :
    clearSplit (closeGroupAt env ta r) = clearSplit (closeGroupAt env t r) := by
  unfold closeGroupAt
  cases r with
  | error e => exact heq
  | ok c =>
    simp only []
    split_ifs with hc
    · obtain ⟨m1, m2⟩ := mergeSplitBlocks_clearSplit env t ta c.headRedoLogRecord1
        c.midRedoLogRecord1 c.tailRedoLogRecord1 c.redoLogRecord2 heq
      cases hm : mergeSplitBlocks env t c.headRedoLogRecord1 c.midRedoLogRecord1
          c.tailRedoLogRecord1 c.redoLogRecord2 with
      | error e =>
        rw [m1 e hm]
        exact heq
      | ok t1 =>
        obtain ⟨ta1, h1, h2⟩ := m2 t1 hm
        rw [h1]
        exact h2
    · exact heq

/-- A loop that ends in a raise, or at a cursor without a head or without a
tail, makes `flushSplitBlocks` raise, in the state the loop has reached. -/
theorem incomplete_final (env : Env) (X : Transaction × Except String SplitCursor)
    (h : (∃ e, X.2 = .error e) ∨
      ∃ c, X.2 = .ok c ∧ c.curRedoLogRecord ≠ none ∧
        (c.headRedoLogRecord1 = none ∨ c.tailRedoLogRecord1 = none)) :
    closeGroupAt env X.1 X.2 = X.1 ∧
      ∃ e, (match X.2 with
        | .ok c1 =>
          if c1.curRedoLogRecord ≠ none then
            mergeSplitBlocks env X.1 c1.headRedoLogRecord1 c1.midRedoLogRecord1
              c1.tailRedoLogRecord1 c1.redoLogRecord2
          else .ok X.1
        | .error e => .error e) = .error e := by
  rcases h with ⟨e, he⟩ | ⟨c, hc, hcur, hno⟩
  · rw [he]
    exact ⟨rfl, e, rfl⟩
  · rw [hc]
    unfold closeGroupAt
    simp only []
    rw [if_pos hcur, if_pos hcur, mergeSplitBlocks_incomplete env X.1 c hno]
    exact ⟨rfl, _, rfl⟩


/-! ### Split-block merge: a placeholder MID -/

theorem testBit_fffc (i : Nat) : Nat.testBit 0xFFFC i = (decide (2 ≤ i) && decide (i < 16)) := by
  by_cases h : i < 16
  · interval_cases i <;> rfl
  · have hlt : (0xFFFC : Nat) < 2 ^ i :=
      Nat.lt_of_lt_of_le (by norm_num : (0xFFFC : Nat) < 2 ^ 16)
        (Nat.pow_le_pow_right (by norm_num) (by omega))
    rw [Nat.testBit_lt_two_pow hlt]
    simp [h]

theorem and_fffc (x : Nat) (hx : x < 65536) : x &&& 0xFFFC = x / 4 * 4 := by
  apply Nat.eq_of_testBit_eq
  intro i
  rw [Nat.testBit_and, testBit_fffc, show x / 4 * 4 = (x >>> 2) <<< 2 by
    rw [Nat.shiftLeft_eq, Nat.shiftRight_eq_div_pow]]
  rw [Nat.testBit_shiftLeft, Nat.testBit_shiftRight]
  by_cases h2 : 2 ≤ i
  · by_cases h16 : i < 16
    · simp [h2, h16]
    · have hlt : x < 2 ^ i :=
        Nat.lt_of_lt_of_le hx (by rw [show (65536 : Nat) = 2 ^ 16 by norm_num]
                                  exact Nat.pow_le_pow_right (by norm_num) (by omega))
      have hlt2 : x < 2 ^ (2 + (i - 2)) := by
        rw [show 2 + (i - 2) = i by omega]
        exact hlt
      rw [Nat.testBit_lt_two_pow hlt, Nat.testBit_lt_two_pow hlt2]
      simp
  · simp [h2]

theorem getD_slice (src : List Nat) (spos n j : Nat) :
    (slice src spos n).getD j 0 = if j < n then byteAt src (spos + j) else 0 := by
  unfold slice
  rw [List.getD_eq_getElem?_getD, List.getElem?_map]
  by_cases h : j < n
  · rw [if_pos h, List.getElem?_range h]
    rfl
  · rw [if_neg h, List.getElem?_eq_none (by simp; omega)]
    rfl

theorem slice_length (src : List Nat) (spos n : Nat) : (slice src spos n).length = n := by
  unfold slice
  simp

theorem slice_congr (a b : List Nat) (p n : Nat)
    (h : ∀ i, i < n → byteAt a (p + i) = byteAt b (p + i)) : slice a p n = slice b p n := by
  unfold slice
  apply List.map_congr_left
  intro i hi
  exact h i (List.mem_range.1 hi)

theorem byteAt_memcpy (dst : List Nat) (dpos : Nat) (src : List Nat) (spos n i : Nat) :
    byteAt (memcpy dst dpos src spos n) i =
      if dpos ≤ i ∧ i < dpos + n then byteAt src (spos + (i - dpos)) else byteAt dst i := by
  unfold memcpy
  rw [byteAt_writeAt, slice_length, getD_slice]
  by_cases h : dpos ≤ i ∧ i < dpos + n
  · rw [if_pos h, if_pos h, if_pos (by omega)]
  · rw [if_neg h, if_neg h]

theorem byteAt_write16_ne (env : Env) (data : List Nat) (off val i : Nat)
    (h : i < off ∨ off + 2 ≤ i) : byteAt (write16 env data off val) i = byteAt data i := by
  unfold write16
  simp only []
  split_ifs <;> rw [byteAt_writeAt, if_neg (by simp only [List.length_cons, List.length_nil]; omega)]

/-- `mergeSplitBlocksToBuffer` on a first record without `FLG_LASTBUFFERSPLIT`,
written out. -/
theorem mergeSplitBlocksToBuffer_nosplit (env : Env) (buffer : List Nat)
    (r1 r2 : RedoLogRecord) (hns : (r1.flg &&& env.FLG_LASTBUFFERSPLIT) = 0) :
    (mergeSplitBlocksToBuffer env buffer r1 r2).1 =
      { r1 with
        length := r1.fieldLengthsDelta +
          (((((r1.fieldCnt + r2.fieldCnt + 65534) % 65536 + 1) * 2) + 2) &&& 0xFFFC) +
          ((r1.length - r1.fieldPos + 3) &&& 0xFFFC) +
          ((r2.length - secondDataPos env r2 + 3) &&& 0xFFFC)
        fieldCnt := (r1.fieldCnt + r2.fieldCnt + 65534) % 65536
        fieldPos := (r1.fieldLengthsDelta +
          (((((r1.fieldCnt + r2.fieldCnt + 65534) % 65536 + 1) * 2) + 2) &&& 0xFFFC)) % 65536
        data := memcpy (memcpy (memcpy (memcpy (write16 env
            (memcpy buffer 0 r1.data 0 r1.fieldLengthsDelta) r1.fieldLengthsDelta
              ((r1.fieldCnt + r2.fieldCnt + 65534) % 65536))
            (r1.fieldLengthsDelta + 2) r1.data (r1.fieldLengthsDelta + 2) (r1.fieldCnt * 2))
            (r1.fieldLengthsDelta + 2 + r1.fieldCnt * 2) r2.data (r2.fieldLengthsDelta + 6)
              ((r2.fieldCnt * 2 + (2 ^ 64 - 4)) % 2 ^ 64))
            (r1.fieldLengthsDelta +
              (((((r1.fieldCnt + r2.fieldCnt + 65534) % 65536 + 1) * 2) + 2) &&& 0xFFFC))
            r1.data r1.fieldPos (r1.length - r1.fieldPos))
            (r1.fieldLengthsDelta +
              (((((r1.fieldCnt + r2.fieldCnt + 65534) % 65536 + 1) * 2) + 2) &&& 0xFFFC) +
              ((r1.length - r1.fieldPos + 3) &&& 0xFFFC))
            r2.data (secondDataPos env r2) (r2.length - secondDataPos env r2) } := by
  have hs : ((r1.flg &&& env.FLG_LASTBUFFERSPLIT) != 0) = false := by
    rw [hns]
    rfl
  unfold mergeSplitBlocksToBuffer
  simp only [hs, Bool.false_eq_true, if_false]
  rfl

/-- Merging an empty-payload placeholder MID into a HEAD in canonical layout
without `FLG_LASTBUFFERSPLIT` changes nothing of the HEAD but the buffer its
data lies in, and the bytes that a later merge reads are the same. -/
theorem mergeSplitBlocksToBuffer_placeholder (env : Env) (head mid : RedoLogRecord)
    (hns : (head.flg &&& env.FLG_LASTBUFFERSPLIT) = 0) (hlay : canonicalLayout head)
    (hmid : placeholderMid env mid) :
    ∃ B, (mergeSplitBlocksToBuffer env (List.replicate (head.length + mid.length) 0)
          head mid).1 = { head with data := B } ∧
      slice B 0 head.fieldLengthsDelta = slice head.data 0 head.fieldLengthsDelta ∧
      slice B (head.fieldLengthsDelta + 2) (head.fieldCnt * 2) =
        slice head.data (head.fieldLengthsDelta + 2) (head.fieldCnt * 2) ∧
      slice B head.fieldPos (head.length - head.fieldPos) =
        slice head.data head.fieldPos (head.length - head.fieldPos) := by
  obtain ⟨l1, l2, l3, l4, l5, l6⟩ := hlay
  obtain ⟨m1, m2⟩ := hmid
  have k1 : (head.fieldCnt + 2 + 65534) % 65536 = head.fieldCnt := by omega
  have k4 : (head.length - head.fieldPos + 3) &&& 0xFFFC = head.length - head.fieldPos := by
    rw [and_fffc _ l6]
    omega
  have k6 : (0 + 3) &&& 0xFFFC = 0 := by decide
  have hA : (((head.fieldCnt + 1) * 2) + 2) &&& 0xFFFC = ((head.fieldCnt + 1) * 2 + 2) / 4 * 4 :=
    and_fffc _ l1
  have hfp : head.fieldLengthsDelta + 2 + head.fieldCnt * 2 ≤ head.fieldPos := by
    rw [l2, hA]
    omega
  rw [mergeSplitBlocksToBuffer_nosplit env _ head mid hns, m1, k1, ← l2, Nat.mod_eq_of_lt l3,
    k4, ← m2, Nat.sub_self, k6, show (2 * 2 + (2 ^ 64 - 4)) % 2 ^ 64 = 0 by norm_num]
  refine ⟨memcpy (memcpy (memcpy (memcpy (write16 env
      (memcpy (List.replicate (head.length + mid.length) 0) 0 head.data 0
        head.fieldLengthsDelta) head.fieldLengthsDelta head.fieldCnt)
      (head.fieldLengthsDelta + 2) head.data (head.fieldLengthsDelta + 2) (head.fieldCnt * 2))
      (head.fieldLengthsDelta + 2 + head.fieldCnt * 2) mid.data (mid.fieldLengthsDelta + 6) 0)
      head.fieldPos head.data head.fieldPos (head.length - head.fieldPos))
      (head.fieldPos + (head.length - head.fieldPos)) mid.data mid.length 0, ?_, ?_, ?_, ?_⟩
  · have e : head.fieldPos + (head.length - head.fieldPos) + 0 = head.length := by omega
    rw [e]
  · apply slice_congr
    intro i hi
    rw [byteAt_memcpy, if_neg (by omega), byteAt_memcpy, if_neg (by omega), byteAt_memcpy,
      if_neg (by omega), byteAt_memcpy, if_neg (by omega),
      byteAt_write16_ne env _ _ _ _ (by omega), byteAt_memcpy, if_pos (by omega)]
    exact congrArg (byteAt head.data) (by omega)
  · apply slice_congr
    intro i hi
    rw [byteAt_memcpy, if_neg (by omega), byteAt_memcpy, if_neg (by omega), byteAt_memcpy,
      if_neg (by omega), byteAt_memcpy, if_pos (by omega)]
    exact congrArg (byteAt head.data) (by omega)
  · apply slice_congr
    intro i hi
    rw [byteAt_memcpy, if_neg (by omega), byteAt_memcpy, if_pos (by omega)]
    exact congrArg (byteAt head.data) (by omega)

/-- A later merge reads of the first record only three ranges of its data. -/
theorem mergeSplitBlocksToBuffer_data_congr (env : Env) (buffer B : List Nat)
    (head tail : RedoLogRecord) (hns : (head.flg &&& env.FLG_LASTBUFFERSPLIT) = 0)
    (h1 : slice B 0 head.fieldLengthsDelta = slice head.data 0 head.fieldLengthsDelta)
    (h2 : slice B (head.fieldLengthsDelta + 2) (head.fieldCnt * 2) =
      slice head.data (head.fieldLengthsDelta + 2) (head.fieldCnt * 2))
    (h3 : slice B head.fieldPos (head.length - head.fieldPos) =
      slice head.data head.fieldPos (head.length - head.fieldPos)) :
    (mergeSplitBlocksToBuffer env buffer { head with data := B } tail).1 =
      (mergeSplitBlocksToBuffer env buffer head tail).1 := by
  rw [mergeSplitBlocksToBuffer_nosplit env buffer head tail hns,
    mergeSplitBlocksToBuffer_nosplit env buffer { head with data := B } tail hns]
  simp only [memcpy, h1, h2, h3]

/-- C23 (counterexample): for the HEAD `splitHeadLast`, in canonical layout and carrying
`FLG_LASTBUFFERSPLIT`, the TAIL `splitTail` and the empty-payload placeholder
`splitMid`, merging HEAD+TAIL gives `fieldCnt = 2` and merging
HEAD+MID'+TAIL gives `fieldCnt = 1`: the last field of the first record is
joined and dropped once in each merge step. -/
theorem merge_placeholder_lastBufferSplit :
    canonicalLayout splitHeadLast ∧ canonicalLayout splitTail ∧
      placeholderMid sampleEnv splitMid ∧
      (mergeHead sampleEnv splitHeadLast none splitTail).fieldCnt = 2 ∧
      (mergeHead sampleEnv splitHeadLast (some splitMid) splitTail).fieldCnt = 1 ∧
      mergeHead sampleEnv splitHeadLast (some splitMid) splitTail ≠
        mergeHead sampleEnv splitHeadLast none splitTail := by
  refine ⟨by unfold canonicalLayout; decide, by unfold canonicalLayout; decide,
    by unfold placeholderMid; decide, by decide, by decide, by decide⟩

/-- C23 (amended): for every HEAD in canonical layout that does not carry
`FLG_LASTBUFFERSPLIT`, every TAIL and every empty-payload placeholder MID
(`fieldCnt = 2`, data ending right after the two delimiter fields), merging
HEAD+MID'+TAIL produces the same record as merging HEAD+TAIL, with the same
bytes, `length`, `fieldCnt` and `fieldPos`, and `mergeSplitBlocks` has the same
outcome with and without the placeholder. -/
theorem merge_placeholder_equiv (env : Env) (t : Transaction)
    (head mid tail r2 : RedoLogRecord)
    (hns : (head.flg &&& env.FLG_LASTBUFFERSPLIT) = 0) (hlay : canonicalLayout head)
    (hmid : placeholderMid env mid) :
    mergeHead env head (some mid) tail = mergeHead env head none tail ∧
      mergeSplitBlocks env t (some head) (some mid) (some tail) (some r2) =
        mergeSplitBlocks env t (some head) none (some tail) (some r2) := by
  obtain ⟨B, hB, h1, h2, h3⟩ := mergeSplitBlocksToBuffer_placeholder env head mid hns hlay hmid
  have hm : mergeHead env head (some mid) tail = mergeHead env head none tail := by
    unfold mergeHead
    simp only []
    rw [hB]
    exact mergeSplitBlocksToBuffer_data_congr env _ B head tail hns h1 h2 h3
  refine ⟨hm, ?_⟩
  rw [mergeSplitBlocks_eq, mergeSplitBlocks_eq]
  unfold mergedUndo
  rw [hm]

theorem merge_placeholder_equiv_witness :
    mergeHead sampleEnv splitHead (some splitMid) splitTail =
        mergeHead sampleEnv splitHead none splitTail ∧
      mergeSplitBlocks sampleEnv (Transaction.new sampleEnv 1) (some splitHead) (some splitMid)
          (some splitTail) (some splitCompanion) =
        mergeSplitBlocks sampleEnv (Transaction.new sampleEnv 1) (some splitHead) none
          (some splitTail) (some splitCompanion) :=
  merge_placeholder_equiv sampleEnv (Transaction.new sampleEnv 1) splitHead splitMid splitTail
    splitCompanion (by decide) (by unfold canonicalLayout; decide)
    (by unfold placeholderMid; decide)

/-! ### The order of transactions -/

theorem lt_iff (a b : Transaction) :
    a.lt b = true ↔
      (a.isCommit = true ∧ b.isCommit = false) ∨
        (a.isCommit = b.isCommit ∧
          (a.lastScn < b.lastScn ∨ (a.lastScn = b.lastScn ∧ a.xid < b.xid))) := by
  unfold Transaction.lt
  cases ha : a.isCommit <;> cases hb : b.isCommit <;>
    by_cases h1 : a.lastScn < b.lastScn <;> by_cases h2 : a.lastScn = b.lastScn <;>
      by_cases h3 : a.xid < b.xid <;> simp [h1, h2, h3]

/-- C35: `Transaction::operator<` is the strict lexicographic order on the key
(not `isCommit`, `lastScn`, `xid`): it is irreflexive, asymmetric and transitive,
it relates two transactions one way or the other whenever their keys differ,
every committed transaction is less than every uncommitted one, and among
transactions with equal `isCommit` the one with the smaller `lastScn`, then the
smaller `xid`, is less. -/
theorem operator_lt_strict_lexicographic (a b c : Transaction) :
    (a.lt b = true ↔
        a.orderKey.1 < b.orderKey.1 ∨
          (a.orderKey.1 = b.orderKey.1 ∧
            (a.orderKey.2.1 < b.orderKey.2.1 ∨
              (a.orderKey.2.1 = b.orderKey.2.1 ∧ a.orderKey.2.2 < b.orderKey.2.2)))) ∧
      a.lt a = false ∧
      (a.lt b = true → b.lt a = false) ∧
      (a.lt b = true → b.lt c = true → a.lt c = true) ∧
      (a.orderKey ≠ b.orderKey → a.lt b = true ∨ b.lt a = true) ∧
      (a.isCommit = true → b.isCommit = false → a.lt b = true ∧ b.lt a = false) ∧
      (a.isCommit = b.isCommit →
        (a.lt b = true ↔
          a.lastScn < b.lastScn ∨ (a.lastScn = b.lastScn ∧ a.xid < b.xid))) := by
  have key : ∀ x y : Transaction, x.orderKey = y.orderKey ↔
      x.isCommit = y.isCommit ∧ x.lastScn = y.lastScn ∧ x.xid = y.xid := by
    intro x y
    unfold Transaction.orderKey
    cases x.isCommit <;> cases y.isCommit <;> simp
  have hf : ∀ x y : Transaction, x.lt y = false ↔ ¬ x.lt y = true := by
    intro x y
    cases x.lt y <;> simp
  refine ⟨?_, ?_, ?_, ?_, ?_, ?_, ?_⟩
  · rw [lt_iff]
    unfold Transaction.orderKey
    cases a.isCommit <;> cases b.isCommit <;> simp
  · rw [hf, lt_iff]
    cases a.isCommit <;> simp
  · rw [hf, lt_iff, lt_iff]
    cases a.isCommit <;> cases b.isCommit <;> simp <;> omega
  · rw [lt_iff, lt_iff, lt_iff]
    cases a.isCommit <;> cases b.isCommit <;> cases c.isCommit <;> simp <;> omega
  · rw [Ne, key, lt_iff, lt_iff]
    cases a.isCommit <;> cases b.isCommit <;> simp <;> omega
  · intro ha hb
    rw [hf, lt_iff, lt_iff, ha, hb]
    simp
  · intro hab
    rw [lt_iff, hab]
    cases b.isCommit <;> simp

theorem operator_lt_strict_lexicographic_witness :
    (orderSample true 7 2).lt (orderSample false 5 1) = true ∧
      (orderSample false 5 1).lt (orderSample true 7 2) = false ∧
      (orderSample true 5 9).lt (orderSample true 7 2) = true ∧
      (orderSample true 7 2).lt (orderSample true 7 3) = true ∧
      ((orderSample true 5 9).lt (orderSample true 7 3) = true) :=
  ⟨by decide, by decide, by decide, by decide,
    (operator_lt_strict_lexicographic (orderSample true 5 9) (orderSample true 7 2)
      (orderSample true 7 3)).2.2.2.1 (by decide) (by decide)⟩

/-! ### The column images of an update -/

section ColumnImagesOfUpdate
open OutputBuffer

theorem checkColumn_other (numPk i j : Nat) (c : ColumnImages) (h : j ≠ i) :
    (checkColumn numPk i c).beforePos j = c.beforePos j ∧
      (checkColumn numPk i c).afterPos j = c.afterPos j ∧
      (checkColumn numPk i c).beforeLen j = c.beforeLen j ∧
      (checkColumn numPk i c).afterLen j = c.afterLen j ∧
      (checkColumn numPk i c).beforeRecord j = c.beforeRecord j ∧
      (checkColumn numPk i c).afterRecord j = c.afterRecord j := by
  unfold checkColumn
  simp only []
  split_ifs <;> simp [Function.update, h]

theorem checkUpdateStep_other (object : OracleObject) (i j : Nat) (c : ColumnImages)
    (h : j ≠ i) :
    (checkUpdateStep object c i).beforePos j = c.beforePos j ∧
      (checkUpdateStep object c i).afterPos j = c.afterPos j ∧
      (checkUpdateStep object c i).beforeLen j = c.beforeLen j ∧
      (checkUpdateStep object c i).afterLen j = c.afterLen j ∧
      (checkUpdateStep object c i).beforeRecord j = c.beforeRecord j ∧
      (checkUpdateStep object c i).afterRecord j = c.afterRecord j := by
  unfold checkUpdateStep
  cases object.columns.getD i none with
  | none => exact ⟨rfl, rfl, rfl, rfl, rfl, rfl⟩
  | some column => exact checkColumn_other _ i j c h

theorem sameColumn_trans {j : Nat} {c d e : ColumnImages} (h1 : sameColumn j c d)
    (h2 : sameColumn j d e) : sameColumn j c e :=
  ⟨h1.1.trans h2.1, h1.2.1.trans h2.2.1, h1.2.2.1.trans h2.2.2.1,
    h1.2.2.2.1.trans h2.2.2.2.1, h1.2.2.2.2.1.trans h2.2.2.2.2.1,
    h1.2.2.2.2.2.trans h2.2.2.2.2.2⟩

theorem checkColumn_congr (numPk i : Nat) (c d : ColumnImages) (h : sameColumn i c d) :
    sameColumn i (checkColumn numPk i c) (checkColumn numPk i d) := by
  obtain ⟨h1, h2, h3, h4, h5, h6⟩ := h
  unfold sameColumn checkColumn
  simp only [h1, h2, h3, h4, h5, h6]
  split_ifs <;> simp_all [Function.update]

theorem checkUpdate_fold_skip (object : OracleObject) (j : Nat) :
    ∀ (l : List Nat) (c : ColumnImages), j ∉ l →
      sameColumn j (l.foldl (checkUpdateStep object) c) c
  | [], c, _ => ⟨rfl, rfl, rfl, rfl, rfl, rfl⟩
  | i :: l, c, h => by
    rw [List.foldl_cons]
    have hji : j ≠ i := fun e => h (e ▸ List.mem_cons_self _ _)
    have hl : j ∉ l := fun e => h (List.mem_cons_of_mem _ e)
    exact sameColumn_trans (checkUpdate_fold_skip object j l _ hl)
      (checkUpdateStep_other object i j c hji)

/-- The loop touches the column `j < maxSegCol` exactly once, in the turn `j`. -/
theorem checkUpdate_fold_column (object : OracleObject) (c : ColumnImages) (j : Nat) :
    sameColumn j ((List.range object.maxSegCol).foldl (checkUpdateStep object) c)
      (if j < object.maxSegCol then checkUpdateStep object c j else c) := by
  by_cases hj : j < object.maxSegCol
  · rw [if_pos hj]
    obtain ⟨k, hk⟩ : ∃ k, object.maxSegCol = j + 1 + k := ⟨object.maxSegCol - (j + 1), by omega⟩
    have hr : List.range object.maxSegCol =
        List.range j ++ j :: (List.range k).map (fun x => j + 1 + x) := by
      rw [hk, List.range_add, List.range_succ, List.append_assoc]
      rfl
    rw [hr, List.foldl_append, List.foldl_cons]
    have h1 : sameColumn j ((List.range j).foldl (checkUpdateStep object) c) c :=
      checkUpdate_fold_skip object j _ c (by simp)
    have h2 := checkUpdate_fold_skip object j ((List.range k).map (fun x => j + 1 + x))
      (checkUpdateStep object ((List.range j).foldl (checkUpdateStep object) c) j)
      (by simp only [List.mem_map, List.mem_range, not_exists, not_and]; intro x _; omega)
    refine sameColumn_trans h2 ?_
    unfold checkUpdateStep
    cases object.columns.getD j none with
    | none => exact h1
    | some column => exact checkColumn_congr _ j _ _ h1
  · rw [if_neg hj]
    exact checkUpdate_fold_skip object j _ c (by simp [hj])

/-- C34 (evaluation at the failing input): for the table `heapObject`, none of
whose columns has `numPk > 0`, and a column whose before and after images are
present with equal length and equal bytes, `checkUpdate` clears both positions
and both lengths of the column. -/
theorem checkUpdate_clears_without_primary_key :
    (∀ column ∈ heapObject.columns, ∀ col, column = some col → ¬ col.numPk > 0) ∧
      unchangedImages.beforePos 0 = 4 ∧ unchangedImages.afterPos 0 = 4 ∧
      unchangedImages.beforeLen 0 = 2 ∧ unchangedImages.afterLen 0 = 2 ∧
      (checkUpdate 2 0 heapObject unchangedImages).beforePos 0 = 0 ∧
      (checkUpdate 2 0 heapObject unchangedImages).afterPos 0 = 0 ∧
      (checkUpdate 2 0 heapObject unchangedImages).beforeLen 0 = 0 ∧
      (checkUpdate 2 0 heapObject unchangedImages).afterLen 0 = 0 := by
  refine ⟨by decide, rfl, rfl, rfl, rfl, ?_, ?_, ?_, ?_⟩ <;> decide

/-- C40: `checkUpdate` never drops a primary-key column. For a column `i` whose
descriptor has `numPk ≠ 0` and every `columnFormat`, a nonzero `beforePos[i]`
stays nonzero and a nonzero `afterPos[i]` stays nonzero. When `checkUpdate` acts
(`columnFormat ≤ COLUMN_FORMAT_INS_DEC`, `i < maxSegCol`) and exactly one image is
present, with length 0, the missing image is filled with the position, length and
record of the present one, which stays as it was. When
`columnFormat > COLUMN_FORMAT_INS_DEC`, `checkUpdate` changes nothing at all. -/
theorem checkUpdate_keeps_primary_key (insDec columnFormat : Nat) (object : OracleObject)
    (c : ColumnImages) (i : Nat) (column : OracleColumn)
    (hcol : object.columns.getD i none = some column) (hpk : column.numPk ≠ 0) :
    (c.beforePos i ≠ 0 → (checkUpdate insDec columnFormat object c).beforePos i ≠ 0) ∧
      (c.afterPos i ≠ 0 → (checkUpdate insDec columnFormat object c).afterPos i ≠ 0) ∧
      (columnFormat ≤ insDec → i < object.maxSegCol →
        c.beforePos i ≠ 0 → c.beforeLen i = 0 → c.afterPos i = 0 →
        (checkUpdate insDec columnFormat object c).afterPos i = c.beforePos i ∧
          (checkUpdate insDec columnFormat object c).afterLen i = c.beforeLen i ∧
          (checkUpdate insDec columnFormat object c).afterRecord i = c.beforeRecord i ∧
          (checkUpdate insDec columnFormat object c).beforePos i = c.beforePos i ∧
          (checkUpdate insDec columnFormat object c).beforeLen i = c.beforeLen i ∧
          (checkUpdate insDec columnFormat object c).beforeRecord i = c.beforeRecord i) ∧
      (columnFormat ≤ insDec → i < object.maxSegCol →
        c.afterPos i ≠ 0 → c.afterLen i = 0 → c.beforePos i = 0 →
        (checkUpdate insDec columnFormat object c).beforePos i = c.afterPos i ∧
          (checkUpdate insDec columnFormat object c).beforeLen i = c.afterLen i ∧
          (checkUpdate insDec columnFormat object c).beforeRecord i = c.afterRecord i ∧
          (checkUpdate insDec columnFormat object c).afterPos i = c.afterPos i ∧
          (checkUpdate insDec columnFormat object c).afterLen i = c.afterLen i ∧
          (checkUpdate insDec columnFormat object c).afterRecord i = c.afterRecord i) ∧
      (insDec < columnFormat → checkUpdate insDec columnFormat object c = c) := by
  have hstep : checkUpdateStep object c i = checkColumn column.numPk i c := by
    unfold checkUpdateStep
    rw [hcol]
  have hfold := checkUpdate_fold_column object c i
  have hb : c.beforePos i ≠ 0 → (checkColumn column.numPk i c).beforePos i ≠ 0 := by
    intro h
    unfold checkColumn
    simp only [hpk, false_and, if_false]
    split_ifs <;> simp_all [Function.update]
  have ha : c.afterPos i ≠ 0 → (checkColumn column.numPk i c).afterPos i ≠ 0 := by
    intro h
    unfold checkColumn
    simp only [hpk, false_and, if_false]
    split_ifs <;> simp_all [Function.update]
  refine ⟨?_, ?_, ?_, ?_, ?_⟩
  · intro h
    unfold checkUpdate
    by_cases hf : columnFormat ≤ insDec
    · rw [if_pos hf, hfold.1]
      by_cases hi : i < object.maxSegCol
      · rw [if_pos hi, hstep]
        exact hb h
      · rw [if_neg hi]
        exact h
    · rw [if_neg hf]
      exact h
  · intro h
    unfold checkUpdate
    by_cases hf : columnFormat ≤ insDec
    · rw [if_pos hf, hfold.2.1]
      by_cases hi : i < object.maxSegCol
      · rw [if_pos hi, hstep]
        exact ha h
      · rw [if_neg hi]
        exact h
    · rw [if_neg hf]
      exact h
  · intro hf hi h1 h2 h3
    unfold checkUpdate
    rw [if_pos hf]
    rw [if_pos hi, hstep] at hfold
    obtain ⟨f1, f2, f3, f4, f5, f6⟩ := hfold
    rw [f1, f2, f3, f4, f5, f6]
    have hp := Nat.pos_of_ne_zero h1
    unfold checkColumn
    simp [hpk, h2, h3, h1, hp, Function.update]
  · intro hf hi h1 h2 h3
    unfold checkUpdate
    rw [if_pos hf]
    rw [if_pos hi, hstep] at hfold
    obtain ⟨f1, f2, f3, f4, f5, f6⟩ := hfold
    rw [f1, f2, f3, f4, f5, f6]
    have hp := Nat.pos_of_ne_zero h1
    unfold checkColumn
    simp [hpk, h2, h3, h1, hp, Function.update]
  · intro hf
    unfold checkUpdate
    rw [if_neg (by omega)]

theorem checkUpdate_keeps_primary_key_witness :
    (checkUpdate 2 0 keyObject beforeOnlyImages).afterPos 0 = 4 ∧
      (checkUpdate 2 0 keyObject beforeOnlyImages).beforePos 0 ≠ 0 :=
  ⟨((checkUpdate_keeps_primary_key 2 0 keyObject beforeOnlyImages 0 ⟨1⟩ rfl
      (by decide)).2.2.1 (by decide) (by decide) (by decide) rfl rfl).1,
    (checkUpdate_keeps_primary_key 2 0 keyObject beforeOnlyImages 0 ⟨1⟩ rfl
      (by decide)).1 (by decide)⟩

end ColumnImagesOfUpdate

/-! ### Output buffer: the write head stays inside the chunk -/

section OutputBufferWriteHead
open OutputBuffer

/-- C37: with `OUTPUT_BUFFER_DATA` and `MEMORY_CHUNK_SIZE` multiples of 8,
`OUTPUT_BUFFER_DATA < MEMORY_CHUNK_SIZE` (and the length word of 8 bytes), after
`initialize()` and any sequence `pre` of complete messages the write head
satisfies `OUTPUT_BUFFER_DATA ≤ lastBufferPos < MEMORY_CHUNK_SIZE` and is a
multiple of 8, so that the length prefix of the next message `m` fits in the
chunk; and each `bufferShift` of that message starts from a position that the
shift does not take past `MEMORY_CHUNK_SIZE`: the one of `beginMessage` (by the
length word), the one of every `bufferAppend` (by 1; the head is inside the data
area after any number of appends) and the one of `commitMessage` (by the
padding). After the message the head is again as at the start. -/
theorem write_head_within_chunk (L : BufferEnv) (hL : Aligned L) (pre : List (List Nat))
    (m : List Nat) (hpre : ∀ x ∈ pre, x.length < 2 ^ 64) (hm : m.length < 2 ^ 64) :
    (L.OUTPUT_BUFFER_DATA ≤
        (writeMessages L (initializeBuffer L OutputBuffer.new) pre).lastBufferPos ∧
      (writeMessages L (initializeBuffer L OutputBuffer.new) pre).lastBufferPos <
        L.MEMORY_CHUNK_SIZE ∧
      8 ∣ (writeMessages L (initializeBuffer L OutputBuffer.new) pre).lastBufferPos) ∧
    (writeMessages L (initializeBuffer L OutputBuffer.new) pre).lastBufferPos +
        L.OUTPUT_BUFFER_LENGTH_SIZE ≤ L.MEMORY_CHUNK_SIZE ∧
    (∀ i, i ≤ m.length →
      L.OUTPUT_BUFFER_DATA ≤ ((m.take i).foldl (bufferAppend L) (beginMessage L
          (writeMessages L (initializeBuffer L OutputBuffer.new) pre))).lastBufferPos ∧
        ((m.take i).foldl (bufferAppend L) (beginMessage L
          (writeMessages L (initializeBuffer L OutputBuffer.new) pre))).lastBufferPos + 1 ≤
            L.MEMORY_CHUNK_SIZE) ∧
    (m.foldl (bufferAppend L) (beginMessage L
        (writeMessages L (initializeBuffer L OutputBuffer.new) pre))).lastBufferPos +
      ((8 - ((m.foldl (bufferAppend L) (beginMessage L
        (writeMessages L (initializeBuffer L OutputBuffer.new) pre))).messageLength &&& 7)) &&& 7)
        ≤ L.MEMORY_CHUNK_SIZE ∧
    (L.OUTPUT_BUFFER_DATA ≤
        (writeMessage L (writeMessages L (initializeBuffer L OutputBuffer.new) pre)
          m).lastBufferPos ∧
      (writeMessage L (writeMessages L (initializeBuffer L OutputBuffer.new) pre)
          m).lastBufferPos < L.MEMORY_CHUNK_SIZE ∧
      8 ∣ (writeMessage L (writeMessages L (initializeBuffer L OutputBuffer.new) pre)
          m).lastBufferPos) := by
  obtain ⟨k, p, hC, -, -, -⟩ := writeMessages_decode L hL pre _ 0 L.OUTPUT_BUFFER_DATA
    (initializeBuffer_committed L hL) hpre
  obtain ⟨hB, -⟩ := beginMessage_spec L _ k p hL hC
  obtain ⟨k2, p2, hA, -, -, -⟩ := appends_spec L hL m _ k p
    (move L k p 8).1 (move L k p 8).2 0 hB (by omega)
  rw [Nat.zero_add] at hA
  obtain ⟨hC2, -, -, -⟩ := commitMessage_spec L _ k p k2 p2 m.length hL hA hm
  have hp := hC.1.2.1
  have h8 := hC.2.2
  obtain ⟨a1, ⟨d, hd⟩, a3, a4, a5⟩ := id hL
  refine ⟨⟨?_, ?_, ?_⟩, ?_, fun i hi => ?_, ?_, ?_, ?_, ?_⟩
  · rw [hp]; exact hC.1.2.2.2.1
  · rw [hp]; exact hC.1.2.2.2.2.1
  · rw [hp]; exact h8
  · rw [hp, a4]
    have := hC.1.2.2.2.2.1
    obtain ⟨e, he⟩ := h8
    omega
  · obtain ⟨k3, p3, hT, -, -, -⟩ := appends_spec L hL (m.take i) _ k p
      (move L k p 8).1 (move L k p 8).2 0 hB (by rw [List.length_take]; omega)
    rw [hT.1.2.1]
    have := hT.1.2.2.2.1
    have := hT.1.2.2.2.2.1
    omega
  · rw [hA.1.2.1, hA.2.2.2.1, pad_eq]
    exact pad_le_chunk L hL p2 m.length hA.1.2.2.2.2.1 hA.2.2.2.2.1
  · show _ ≤ (writeMessage L _ m).lastBufferPos
    unfold writeMessage
    rw [hC2.1.2.1]; exact hC2.1.2.2.2.1
  · unfold writeMessage
    rw [hC2.1.2.1]; exact hC2.1.2.2.2.2.1
  · unfold writeMessage
    rw [hC2.1.2.1]; exact hC2.2.2

theorem write_head_within_chunk_witness :
    (writeMessages sampleBufferEnv (initializeBuffer sampleBufferEnv OutputBuffer.new)
        [List.range 30]).lastBufferPos + sampleBufferEnv.OUTPUT_BUFFER_LENGTH_SIZE ≤
      sampleBufferEnv.MEMORY_CHUNK_SIZE :=
  (write_head_within_chunk sampleBufferEnv (by unfold Aligned; decide) [List.range 30]
    (List.range 5) (by decide) (by decide)).2.1

end OutputBufferWriteHead

/-! ### Split-block merge: counts and lengths -/

theorem and_fffc_mod (x : Nat) : x &&& 0xFFFC = x % 65536 / 4 * 4 := by
  rw [← and_fffc (x % 65536) (Nat.mod_lt _ (by norm_num))]
  apply Nat.eq_of_testBit_eq
  intro i
  rw [Nat.testBit_and, Nat.testBit_and, testBit_fffc,
    show (65536 : Nat) = 2 ^ 16 by norm_num, Nat.testBit_mod_two_pow]
  by_cases h : i < 16 <;> simp [h]

/-- `mergeSplitBlocksToBuffer` written out, with or without
`FLG_LASTBUFFERSPLIT`. -/
theorem mergeSplitBlocksToBuffer_eq (env : Env) (buffer : List Nat) (r1 r2 : RedoLogRecord) :
    (mergeSplitBlocksToBuffer env buffer r1 r2).1 =
      { r1 with
        length := r1.fieldLengthsDelta +
          (((((headCount env r1 + r2.fieldCnt + 65534) % 65536 + 1) * 2) + 2) &&& 0xFFFC) +
          ((r1.length - r1.fieldPos + 3) &&& 0xFFFC) +
          ((r2.length - secondDataPos env { r2 with data := fusedData env r1 r2 } + 3) &&& 0xFFFC)
        fieldCnt := (headCount env r1 + r2.fieldCnt + 65534) % 65536
        fieldPos := (r1.fieldLengthsDelta +
          (((((headCount env r1 + r2.fieldCnt + 65534) % 65536 + 1) * 2) + 2) &&& 0xFFFC)) % 65536
        data := memcpy (memcpy (memcpy (memcpy (write16 env
            (memcpy buffer 0 r1.data 0 r1.fieldLengthsDelta) r1.fieldLengthsDelta
              ((headCount env r1 + r2.fieldCnt + 65534) % 65536))
            (r1.fieldLengthsDelta + 2) r1.data (r1.fieldLengthsDelta + 2) (headCount env r1 * 2))
            (r1.fieldLengthsDelta + 2 + headCount env r1 * 2) (fusedData env r1 r2)
              (r2.fieldLengthsDelta + 6) ((r2.fieldCnt * 2 + (2 ^ 64 - 4)) % 2 ^ 64))
            (r1.fieldLengthsDelta +
              (((((headCount env r1 + r2.fieldCnt + 65534) % 65536 + 1) * 2) + 2) &&& 0xFFFC))
            r1.data r1.fieldPos (r1.length - r1.fieldPos))
            (r1.fieldLengthsDelta +
              (((((headCount env r1 + r2.fieldCnt + 65534) % 65536 + 1) * 2) + 2) &&& 0xFFFC) +
              ((r1.length - r1.fieldPos + 3) &&& 0xFFFC))
            (fusedData env r1 r2) (secondDataPos env { r2 with data := fusedData env r1 r2 })
            (r2.length - secondDataPos env { r2 with data := fusedData env r1 r2 }) } := by
  cases hs : ((r1.flg &&& env.FLG_LASTBUFFERSPLIT) != 0)
  · unfold mergeSplitBlocksToBuffer headCount fusedData
    simp only [hs, Bool.false_eq_true, if_false]
    rfl
  · unfold mergeSplitBlocksToBuffer headCount fusedData
    simp only [hs, if_true]
    rfl

theorem secondDataPos_fused (env : Env) (r1 r2 : RedoLogRecord) :
    secondDataPos env { r2 with data := fusedData env r1 r2 } = secondDataPos env r2 := by
  have hb : ∀ i, i < r2.fieldLengthsDelta + 6 →
      byteAt (fusedData env r1 r2) i = byteAt r2.data i := by
    intro i hi
    unfold fusedData
    split_ifs
    · exact byteAt_write16_ne env _ _ _ _ (Or.inl hi)
    · rfl
  unfold secondDataPos read16
  simp only [hb (r2.fieldLengthsDelta + 2) (by omega), hb (r2.fieldLengthsDelta + 2 + 1) (by omega),
    hb (r2.fieldLengthsDelta + 4) (by omega), hb (r2.fieldLengthsDelta + 4 + 1) (by omega)]

theorem fieldList_bound (c1 c2 : Nat) (hc : 2 ≤ c2) (c1k : Nat)
    (hk : c1k = c1 ∨ c1k = (c1 + 65535) % 65536) :
    (((c1k + c2 + 65534) % 65536 + 1) * 2 + 2) % 65536 / 4 * 4 + 4 ≤
      (2 * (c1 + 1) + 3) / 4 * 4 + (2 * (c2 + 1) + 3) / 4 * 4 := by
  rcases hk with hk | hk
  · subst hk
    omega
  · have e : c1k = 65535 ∨ (1 ≤ c1 ∧ c1k ≤ c1 - 1) := by omega
    clear hk
    omega

theorem tailData_bound (len2 fp2 l0 l1 d2 A : Nat)
    (t1 : fp2 = d2 + A) (t3 : len2 % 4 = 0) (hA : A % 4 = 0)
    (t5 : fp2 + (l0 + 3) / 4 * 4 + (l1 + 3) / 4 * 4 ≤ len2) :
    (len2 - (fp2 + (l0 + 3) % 65536 / 4 * 4 + (l1 + 3) % 65536 / 4 * 4) % 65536 + 3) % 65536 / 4 * 4
      + fp2 + (l0 + 3) / 4 * 4 + (l1 + 3) / 4 * 4 ≤ len2 + d2 := by
  omega

theorem mask_le (x : Nat) : x &&& 0xFFFC ≤ (x + 3) / 4 * 4 := by
  rw [and_fffc_mod]
  omega

theorem mask_align4 (x : Nat) (h : x + 3 < 65536) : (x + 3) &&& 0xFFFC = align4 x := by
  rw [and_fffc_mod, Nat.mod_eq_of_lt h]
  rfl

theorem mergeSplitBlocksToBuffer_length_le (env : Env) (buffer : List Nat)
    (head tail : RedoLogRecord)
    (h1 : head.fieldPos = head.fieldLengthsDelta + align4 (2 * (head.fieldCnt + 1)))
    (h2 : head.fieldPos ≤ head.length) (ht : wellFormedTail env tail) :
    (mergeSplitBlocksToBuffer env buffer head tail).1.length ≤ head.length + tail.length := by
  obtain ⟨⟨t1, -, t3⟩, t4, t5⟩ := ht
  rw [mergeSplitBlocksToBuffer_eq, secondDataPos_fused]
  simp only [and_fffc_mod, secondDataPos]
  unfold align4 at h1 t1 t5
  have hA := fieldList_bound head.fieldCnt tail.fieldCnt t4 (headCount env head) (by
    unfold headCount
    split_ifs
    · exact Or.inr rfl
    · exact Or.inl rfl)
  have hB := tailData_bound tail.length tail.fieldPos
    (read16 env tail.data (tail.fieldLengthsDelta + 2))
    (read16 env tail.data (tail.fieldLengthsDelta + 4)) tail.fieldLengthsDelta _ t1 t3
    (by omega) t5
  generalize (((headCount env head + tail.fieldCnt + 65534) % 65536 + 1) * 2 + 2) % 65536 / 4 * 4
    = M1 at hA ⊢
  generalize (tail.length - (tail.fieldPos +
    (read16 env tail.data (tail.fieldLengthsDelta + 2) + 3) % 65536 / 4 * 4 +
    (read16 env tail.data (tail.fieldLengthsDelta + 4) + 3) % 65536 / 4 * 4) % 65536 + 3) %
      65536 / 4 * 4 = M3 at hB ⊢
  omega

theorem fieldList_leaf (fc k2 cT : Nat) (hcT : 2 ≤ cT) (hfc : 2 * fc + 4 < 65536)
    (h : k2 + 1 = fc ∨ k2 = fc ∨ (fc = 0 ∧ k2 = 65535)) :
    (((k2 + cT + 65534) % 65536 + 1) * 2 + 2) % 65536 / 4 * 4 + 4 ≤
      ((fc + 1) * 2 + 2) % 65536 / 4 * 4 + (2 * (cT + 1) + 3) / 4 * 4 := by
  rcases h with h | h | ⟨h1, h2⟩
  · omega
  · omega
  · subst h1 h2
    omega

theorem fieldList_leaf2 (cT : Nat) (hcT : 2 ≤ cT) :
    (((65534 + cT + 65534) % 65536 + 1) * 2 + 2) % 65536 / 4 * 4 + 4 ≤
      ((65535 + 1) * 2 + 2) % 65536 / 4 * 4 + (2 * (cT + 1) + 3) / 4 * 4 := by
  omega

theorem fieldList_bound2 (c1 c2 cT : Nat) (hc2 : 2 ≤ c2) (hcT : 2 ≤ cT)
    (hr : 2 * (c1 + 1) + 2 * (c2 + 1) < 65536) (k1 k2 : Nat)
    (hk : (k1 = c1 ∧ k2 = (k1 + c2 + 65534) % 65536) ∨
      (k1 = (c1 + 65535) % 65536 ∧ k2 = ((k1 + c2 + 65534) % 65536 + 65535) % 65536)) :
    (((k2 + cT + 65534) % 65536 + 1) * 2 + 2) % 65536 / 4 * 4 + 4 ≤
      (((k1 + c2 + 65534) % 65536 + 1) * 2 + 2) % 65536 / 4 * 4 + (2 * (cT + 1) + 3) / 4 * 4 := by
  generalize hfc : (k1 + c2 + 65534) % 65536 = fc at hk ⊢
  rcases hk with ⟨hk1, hk2⟩ | ⟨hk1, hk2⟩
  · have e : fc = c1 + c2 - 2 := by omega
    exact fieldList_leaf fc k2 cT hcT (by omega) (Or.inr (Or.inl hk2))
  · have ek : (c1 = 0 ∧ k1 = 65535) ∨ (1 ≤ c1 ∧ k1 = c1 - 1) := by omega
    rcases ek with ⟨e1, e2⟩ | ⟨e1, e2⟩
    · have ef : (c2 = 2 ∧ fc = 65535) ∨ (3 ≤ c2 ∧ fc = c2 - 3) := by omega
      rcases ef with ⟨f1, f2⟩ | ⟨f1, f2⟩
      · have e3 : k2 = 65534 := by omega
        rw [e3, f2]
        exact fieldList_leaf2 cT hcT
      · exact fieldList_leaf fc k2 cT hcT (by omega) (by omega)
    · have ef : fc = c1 + c2 - 3 := by omega
      exact fieldList_leaf fc k2 cT hcT (by omega) (by omega)

theorem secondMerge_arith (d1 M1 M1b q2 q3 M3b lenT fpT dT a0 a1 AT : Nat)
    (hA : M1b + 4 ≤ M1 + AT) (hB : M3b + fpT + a0 + a1 ≤ lenT + dT) (t1 : fpT = dT + AT) :
    d1 + M1b + (d1 + M1 + q2 * 4 + q3 * 4 - (d1 + M1) % 65536 + 3) % 65536 / 4 * 4 + M3b ≤
      d1 + M1 + q2 * 4 + q3 * 4 + lenT := by
  omega

theorem mergeSplitBlocksToBuffer_fields (env : Env) (buffer : List Nat) (r1 r2 : RedoLogRecord) :
    (mergeSplitBlocksToBuffer env buffer r1 r2).1.flg = r1.flg ∧
      (mergeSplitBlocksToBuffer env buffer r1 r2).1.fieldLengthsDelta = r1.fieldLengthsDelta ∧
      (mergeSplitBlocksToBuffer env buffer r1 r2).1.fieldCnt =
        (headCount env r1 + r2.fieldCnt + 65534) % 65536 ∧
      (mergeSplitBlocksToBuffer env buffer r1 r2).1.fieldPos =
        (r1.fieldLengthsDelta +
          ((((headCount env r1 + r2.fieldCnt + 65534) % 65536 + 1) * 2 + 2) % 65536 / 4 * 4)) %
            65536 ∧
      (mergeSplitBlocksToBuffer env buffer r1 r2).1.length =
        r1.fieldLengthsDelta +
          ((((headCount env r1 + r2.fieldCnt + 65534) % 65536 + 1) * 2 + 2) % 65536 / 4 * 4) +
          (r1.length - r1.fieldPos + 3) % 65536 / 4 * 4 +
          (r2.length - secondDataPos env r2 + 3) % 65536 / 4 * 4 := by
  refine ⟨?_, ?_, ?_, ?_, ?_⟩ <;> rw [mergeSplitBlocksToBuffer_eq] <;>
    simp only [and_fffc_mod, secondDataPos_fused]


theorem read16_congr (env : Env) (a b : List Nat) (o1 o2 : Nat)
    (h0 : byteAt a o1 = byteAt b o2) (h1 : byteAt a (o1 + 1) = byteAt b (o2 + 1)) :
    read16 env a o1 = read16 env b o2 := by
  unfold read16
  rw [h0, h1]

/-- The bytes of the field list of the merged record: the count word, then the
field lengths of the first record, then those of the second from its third
field on. -/
theorem merged_fieldList_byte (env : Env) (buffer : List Nat) (r1 r2 : RedoLogRecord)
    (N : Nat) (hN : (N + 1) * 2 + 2 < 65536) (hc : headCount env r1 + r2.fieldCnt = N + 2)
    (hc2 : 2 ≤ r2.fieldCnt) (i : Nat) (hi : i < r1.fieldLengthsDelta + 2 + 2 * N) :
    byteAt (mergeSplitBlocksToBuffer env buffer r1 r2).1.data i =
      if r1.fieldLengthsDelta + 2 + 2 * headCount env r1 ≤ i then
        byteAt (fusedData env r1 r2)
          (r2.fieldLengthsDelta + 6 + (i - (r1.fieldLengthsDelta + 2 + 2 * headCount env r1)))
      else if r1.fieldLengthsDelta + 2 ≤ i then byteAt r1.data i
      else byteAt (write16 env (memcpy buffer 0 r1.data 0 r1.fieldLengthsDelta)
        r1.fieldLengthsDelta N) i := by
  have hfc : (headCount env r1 + r2.fieldCnt + 65534) % 65536 = N := by omega
  rw [mergeSplitBlocksToBuffer_eq]
  simp only [and_fffc_mod, hfc]
  have hM : 2 * N + 2 ≤ ((N + 1) * 2 + 2) % 65536 / 4 * 4 := by omega
  rw [byteAt_memcpy, if_neg (by omega), byteAt_memcpy, if_neg (by omega), byteAt_memcpy]
  by_cases h3 : r1.fieldLengthsDelta + 2 + 2 * headCount env r1 ≤ i
  · rw [if_pos ⟨by omega, by omega⟩, if_pos h3]
    exact congrArg (byteAt _) (by omega)
  · rw [if_neg (by omega), if_neg h3, byteAt_memcpy]
    by_cases h2 : r1.fieldLengthsDelta + 2 ≤ i
    · rw [if_pos ⟨by omega, by omega⟩, if_pos h2]
      exact congrArg (byteAt _) (by omega)
    · rw [if_neg (by omega), if_neg h2]

theorem chain_transfer {R S : Nat → Nat → Prop} {l : List Nat} (h : List.Chain' R l)
    (hi : ∀ a b, a ∈ l → b ∈ l → R a b → S a b) : List.Chain' S l :=
  List.Chain'.imp (fun a b hab => hi a b hab.1 hab.2.1 hab.2.2) (List.Chain'.iff_mem.1 h)

theorem DoublyLinked_single (N P : Nat → Option Nat) (p : Nat) (hn : N p = none)
    (hp : P p = none) : DoublyLinked N P [p] := by
  refine ⟨List.chain'_singleton _, fun f hf => ?_, fun l hl => ?_⟩
  · simp only [List.head?_cons, Option.mem_def, Option.some.injEq] at hf
    rw [← hf]; exact hp
  · simp only [List.getLast?_singleton, Option.mem_def, Option.some.injEq] at hl
    rw [← hl]; exact hn

/-- Linking `p` in front of the chain. -/
theorem DoublyLinked_front (N P N1 P1 : Nat → Option Nat) (ch : List Nat) (p f : Nat)
    (h : DoublyLinked N P ch) (hf : ch.head? = some f) (hp : p ∉ ch)
    (hN : ∀ q, N1 q = if q = p then some f else N q)
    (hP : ∀ q, P1 q = if q = f then some p else P q) (hpp : P p = none) :
    DoublyLinked N1 P1 (p :: ch) := by
  obtain ⟨h1, h2, h3⟩ := h
  have hfm : f ∈ ch := List.mem_of_mem_head? hf
  have hpf : p ≠ f := fun e => hp (e ▸ hfm)
  have hPf : P f = none := h2 f hf
  refine ⟨List.chain'_cons'.2 ⟨fun y hy => ?_, chain_transfer h1 fun a b ha hb hab => ?_⟩,
    fun x hx => ?_, fun l hl => ?_⟩
  · rw [hf] at hy
    have := Option.some.inj hy
    subst this
    exact ⟨by rw [hN, if_pos rfl], by rw [hP, if_pos rfl]⟩
  · have hap : a ≠ p := fun e => hp (e ▸ ha)
    have hbf : b ≠ f := fun e => by
      rw [e, hPf] at hab
      exact absurd hab.2 (by simp)
    exact ⟨by rw [hN, if_neg hap]; exact hab.1, by rw [hP, if_neg hbf]; exact hab.2⟩
  · simp only [List.head?_cons, Option.mem_def, Option.some.injEq] at hx
    rw [← hx, hP, if_neg hpf]; exact hpp
  · obtain ⟨ys, hys⟩ := List.head?_eq_some_iff.1 hf
    rw [hys, List.getLast?_cons_cons, ← hys] at hl
    have hlm : l ∈ ch := List.mem_of_mem_getLast? hl
    have hlp : l ≠ p := fun e => hp (e ▸ hlm)
    rw [hN, if_neg hlp]
    exact h3 l hl

/-- Linking `p` after the tail of the chain. -/
theorem DoublyLinked_back (N P N1 P1 : Nat → Option Nat) (ch : List Nat) (p l : Nat)
    (h : DoublyLinked N P ch) (hl : ch.getLast? = some l) (hp : p ∉ ch)
    (hN : ∀ q, N1 q = if q = l then some p else N q)
    (hP : ∀ q, P1 q = if q = p then some l else P q) (hpn : N p = none) :
    DoublyLinked N1 P1 (ch ++ [p]) := by
  obtain ⟨h1, h2, h3⟩ := h
  have hlm : l ∈ ch := List.mem_of_mem_getLast? hl
  have hpl : p ≠ l := fun e => hp (e ▸ hlm)
  have hNl : N l = none := h3 l hl
  have hne : ch ≠ [] := fun e => by rw [e] at hl; cases hl
  refine ⟨List.chain'_append.2 ⟨chain_transfer h1 fun a b ha hb hab => ?_,
    List.chain'_singleton _, fun x hx y hy => ?_⟩, fun x hx => ?_, fun x hx => ?_⟩
  · have hal : a ≠ l := fun e => by
      rw [e, hNl] at hab
      exact absurd hab.1 (by simp)
    have hbp : b ≠ p := fun e => hp (e ▸ hb)
    exact ⟨by rw [hN, if_neg hal]; exact hab.1, by rw [hP, if_neg hbp]; exact hab.2⟩
  · rw [hl] at hx
    have e1 := Option.some.inj hx
    simp only [List.head?_cons, Option.mem_def, Option.some.injEq] at hy
    subst e1 hy
    exact ⟨by rw [hN, if_pos rfl], by rw [hP, if_pos rfl]⟩
  · rw [List.head?_append_of_ne_nil _ hne] at hx
    have hxm : x ∈ ch := List.mem_of_mem_head? hx
    have hxp : x ≠ p := fun e => hp (e ▸ hxm)
    rw [hP, if_neg hxp]
    exact h2 x hx
  · rw [List.getLast?_concat] at hx
    have := Option.some.inj hx
    subst this
    rw [hN, if_neg hpl]; exact hpn

/-- Linking `p` right before the tail `l` of the chain: between `l` and its
predecessor, or in front when `l` is alone. -/
theorem DoublyLinked_beforeTail (N P N1 P1 : Nat → Option Nat) (ch : List Nat) (p l : Nat)
    (h : DoublyLinked N P ch) (hl : ch.getLast? = some l) (hnd : ch.Nodup) (hp : p ∉ ch)
    (hN : ∀ q, N1 q = if P l = some q then some p else if q = p then some l else N q)
    (hP : ∀ q, P1 q = if q = l then some p else if q = p then P l else P q) :
    DoublyLinked N1 P1 (ch.dropLast ++ [p, l]) := by
  obtain ⟨h1, h2, h3⟩ := h
  have hlm : l ∈ ch := List.mem_of_mem_getLast? hl
  have hpl : p ≠ l := fun e => hp (e ▸ hlm)
  have hNl : N l = none := h3 l hl
  obtain ⟨init, hinit⟩ := List.getLast?_eq_some_iff.1 hl
  have hdl : ch.dropLast = init := by rw [hinit, List.dropLast_concat]
  rw [hdl]
  rw [hinit] at hnd h1 h2 hp
  have hli : l ∉ init := fun hm => by
    have := List.disjoint_of_nodup_append hnd hm
    exact this (List.mem_singleton_self l)
  have hpi : p ∉ init := fun hm => hp (List.mem_append_left _ hm)
  rcases List.eq_nil_or_concat init with hnil | ⟨init1, x, hx⟩
  · subst hnil
    have hPl : P l = none := h2 l (by simp)
    simp only [List.nil_append]
    refine ⟨List.chain'_pair.2 ⟨?_, ?_⟩, fun f hf => ?_, fun y hy => ?_⟩
    · rw [hN, hPl, if_neg (by simp), if_pos rfl]
    · rw [hP, if_pos rfl]
    · simp only [List.head?_cons, Option.mem_def, Option.some.injEq] at hf
      rw [← hf, hP, if_neg hpl, if_pos rfl, hPl]
    · simp only [List.getLast?_cons_cons, List.getLast?_singleton, Option.mem_def,
        Option.some.injEq] at hy
      rw [← hy, hN, hPl, if_neg (by simp), if_neg (Ne.symm hpl)]
      exact hNl
  · rw [List.concat_eq_append] at hx
    subst hx
    obtain ⟨c1, -, c3⟩ := List.chain'_append.1 h1
    have hxl := c3 x (by rw [List.getLast?_concat]; rfl) l (by simp)
    have hxi : x ∈ init1 ++ [x] := List.mem_append_right _ (List.mem_singleton_self x)
    have hxp : x ≠ p := fun e => hpi (e ▸ hxi)
    have hxl2 : x ≠ l := fun e => hli (e ▸ hxi)
    have hne : init1 ++ [x] ≠ [] := by simp
    refine ⟨List.chain'_append.2 ⟨chain_transfer c1 fun a b ha hb hab => ?_,
      List.chain'_pair.2 ⟨?_, ?_⟩, fun y hy z hz => ?_⟩, fun f hf => ?_, fun y hy => ?_⟩
    · have hap : a ≠ p := fun e => hpi (e ▸ ha)
      have hbp : b ≠ p := fun e => hpi (e ▸ hb)
      have hbl : b ≠ l := fun e => hli (e ▸ hb)
      have hax : ¬ P l = some a := fun e => by
        rw [hxl.2] at e
        have := Option.some.inj e
        subst this
        rw [hxl.1] at hab
        exact hbl (Option.some.inj hab.1).symm
      exact ⟨by rw [hN, if_neg hax, if_neg hap]; exact hab.1,
        by rw [hP, if_neg hbl, if_neg hbp]; exact hab.2⟩
    · rw [hN, hxl.2, if_neg (by simpa using hxp), if_pos rfl]
    · rw [hP, if_pos rfl]
    · rw [List.getLast?_concat] at hy
      have e1 := Option.some.inj hy
      simp only [List.head?_cons, Option.mem_def, Option.some.injEq] at hz
      subst e1 hz
      exact ⟨by rw [hN, hxl.2, if_pos rfl], by rw [hP, if_neg hpl, if_pos rfl, hxl.2]⟩
    · rw [List.head?_append_of_ne_nil _ hne] at hf
      have hfm : f ∈ init1 ++ [x] := List.mem_of_mem_head? hf
      have hfl : f ≠ l := fun e => hli (e ▸ hfm)
      have hfp : f ≠ p := fun e => hpi (e ▸ hfm)
      rw [hP, if_neg hfl, if_neg hfp]
      exact h2 f (by rw [List.head?_append_of_ne_nil _ hne]; exact hf)
    · rw [List.getLast?_append] at hy
      have e1 : l = y := Option.some.inj (show some l = some y from hy)
      rw [← e1, hN, hxl.2, if_neg (by simpa using hxl2), if_neg (Ne.symm hpl)]
      exact hNl

theorem followNext_doublyLinked (mem : List Row) :
    ∀ (ch : List Nat) (fuel f : Nat),
      List.Chain' (fun a b => (rec1 mem a).next = some b ∧ (rec1 mem b).prev = some a) ch →
      ch.head? = some f → (∀ l ∈ ch.getLast?, (rec1 mem l).next = none) → ch.length ≤ fuel →
      followNext mem fuel (some f) = ch
  | [], _, _, _, hf, _, _ => by cases hf
  | [a], fuel, f, _, hf, hl, hlen => by
    have e := Option.some.inj hf
    subst e
    obtain ⟨k, rfl⟩ : ∃ k, fuel = k + 1 := ⟨fuel - 1, by simp at hlen; omega⟩
    rw [followNext, hl a (by simp)]
    cases k <;> rfl
  | a :: b :: rest, fuel, f, hc, hf, hl, hlen => by
    have e := Option.some.inj hf
    subst e
    obtain ⟨k, rfl⟩ : ∃ k, fuel = k + 1 := ⟨fuel - 1, by simp at hlen; omega⟩
    obtain ⟨c1, c2⟩ := List.chain'_cons.1 hc
    rw [followNext, c1.1, followNext_doublyLinked mem (b :: rest) k b c2 rfl
      (fun l hl2 => hl l (by rw [List.getLast?_cons_cons]; exact hl2))
      (by simp only [List.length_cons] at hlen ⊢; omega)]

theorem followNext2_eq (mem : List Row)
    (h : ∀ q, (rec2 mem q).next = (rec1 mem q).next) :
    ∀ (fuel : Nat) (start : Option Nat), followNext2 mem fuel start = followNext mem fuel start
  | 0, _ => rfl
  | _ + 1, none => rfl
  | fuel + 1, some p => by
    rw [followNext2, followNext, h p, followNext2_eq mem h fuel]

theorem followNext_take (mem : List Row) :
    ∀ (ch : List Nat) (fuel f : Nat),
      List.Chain' (fun a b => (rec1 mem a).next = some b ∧ (rec1 mem b).prev = some a) ch →
      ch.head? = some f → (∀ l ∈ ch.getLast?, (rec1 mem l).next = none) →
      followNext mem fuel (some f) = ch.take fuel
  | [], _, _, _, hf, _ => by cases hf
  | [a], fuel, f, _, hf, hl => by
    have e := Option.some.inj hf
    subst e
    cases fuel with
    | zero => rfl
    | succ k =>
      rw [followNext, hl a (by simp)]
      cases k <;> rfl
  | a :: b :: rest, fuel, f, hc, hf, hl => by
    have e := Option.some.inj hf
    subst e
    cases fuel with
    | zero => rfl
    | succ k =>
      obtain ⟨c1, c2⟩ := List.chain'_cons.1 hc
      rw [followNext, c1.1, followNext_take mem (b :: rest) k b c2 rfl
        (fun l hl2 => hl l (by rw [List.getLast?_cons_cons]; exact hl2))]
      rfl

theorem doublyLinked_alone (mem : List Row) (ch : List Nat) (l : Nat)
    (h : doublyLinked mem ch) (hl : ch.getLast? = some l) (hp : (rec1 mem l).prev = none) :
    ch = [l] := by
  obtain ⟨init, hinit⟩ := List.getLast?_eq_some_iff.1 hl
  rcases List.eq_nil_or_concat init with hnil | ⟨init1, x, hx⟩
  · rw [hinit, hnil]; rfl
  · rw [List.concat_eq_append] at hx
    subst hx
    rw [hinit] at h
    obtain ⟨-, -, c3⟩ := List.chain'_append.1 h.1
    have := (c3 x (by rw [List.getLast?_concat]; rfl) l (by simp)).2
    simp only [] at this
    rw [hp] at this
    cases this

theorem doublyLinked_init (mem : List Row) (ch : List Nat) (l : Nat)
    (h : doublyLinked mem ch) (hl : ch.getLast? = some l) (hp : (rec1 mem l).prev ≠ none) :
    ch.dropLast ≠ [] := by
  intro hd
  obtain ⟨init, hinit⟩ := List.getLast?_eq_some_iff.1 hl
  rw [hinit, List.dropLast_concat] at hd
  subst hd
  rw [hinit] at h
  exact hp (h.2.1 l (by simp))

theorem linkFront_chain (E : FlushState) (p f : Nat) (ch : List Nat)
    (hp : p < E.mem.length) (hfp : f < p) (hdl : doublyLinked E.mem ch)
    (hhead : ch.head? = some f) (hpn : p ∉ ch) (hnull : (rec1 E.mem p).prev = none) :
    doublyLinked (linkFront E p f f).mem (p :: ch) :=
  DoublyLinked_front (fun q => (rec1 E.mem q).next) (fun q => (rec1 E.mem q).prev)
    (fun q => (rec1 (linkFront E p f f).mem q).next)
    (fun q => (rec1 (linkFront E p f f).mem q).prev) ch p f hdl hhead hpn
    (fun q => by
      show (rec1 (linkFront E p f f).mem q).next = _
      rw [(linkFront_links E p f f q).1]
      by_cases hq : q = p
      · rw [if_pos ⟨hq, hp⟩, if_pos hq]
      · rw [if_neg (fun c => hq c.1), if_neg hq])
    (fun q => by
      show (rec1 (linkFront E p f f).mem q).prev = _
      rw [(linkFront_links E p f f q).2.1]
      by_cases hq : q = f
      · rw [if_pos ⟨hq, by omega⟩, if_pos hq]
      · rw [if_neg (fun c => hq c.1), if_neg hq])
    hnull

theorem linkBack_chain (E : FlushState) (p l : Nat) (ch : List Nat)
    (hp : p < E.mem.length) (hlp : l < p) (hdl : doublyLinked E.mem ch)
    (hlast : ch.getLast? = some l) (hpn : p ∉ ch) (hnull : (rec1 E.mem p).next = none) :
    doublyLinked (linkBack E p l l).mem (ch ++ [p]) :=
  DoublyLinked_back (fun q => (rec1 E.mem q).next) (fun q => (rec1 E.mem q).prev)
    (fun q => (rec1 (linkBack E p l l).mem q).next)
    (fun q => (rec1 (linkBack E p l l).mem q).prev) ch p l hdl hlast hpn
    (fun q => by
      show (rec1 (linkBack E p l l).mem q).next = _
      rw [(linkBack_links E p l l q).1]
      by_cases hq : q = l
      · rw [if_pos ⟨hq, by omega⟩, if_pos hq]
      · rw [if_neg (fun c => hq c.1), if_neg hq])
    (fun q => by
      show (rec1 (linkBack E p l l).mem q).prev = _
      rw [(linkBack_links E p l l q).2.1]
      by_cases hq : q = p
      · rw [if_pos ⟨hq, hp⟩, if_pos hq]
      · rw [if_neg (fun c => hq c.1), if_neg hq])
    hnull

theorem linkBeforeOnlyTail_chain (E : FlushState) (p l : Nat) (ch : List Nat)
    (hp : p < E.mem.length) (hlp : l < p) (hdl : doublyLinked E.mem ch)
    (hlast : ch.getLast? = some l) (hnd : ch.Nodup) (hpn : p ∉ ch)
    (hnull : (rec1 E.mem p).prev = none) (h4 : (rec1 E.mem l).prev = none) :
    doublyLinked (linkBeforeOnlyTail E p l l).mem (ch.dropLast ++ [p, l]) :=
  DoublyLinked_beforeTail (fun q => (rec1 E.mem q).next) (fun q => (rec1 E.mem q).prev)
    (fun q => (rec1 (linkBeforeOnlyTail E p l l).mem q).next)
    (fun q => (rec1 (linkBeforeOnlyTail E p l l).mem q).prev) ch p l hdl hlast hnd hpn
    (fun q => by
      show (rec1 (linkBeforeOnlyTail E p l l).mem q).next =
        if (rec1 E.mem l).prev = some q then some p else if q = p then some l
          else (rec1 E.mem q).next
      rw [(linkBeforeOnlyTail_links E p l l q).1, h4,
        if_neg (show ¬ (none : Option Nat) = some q by simp)]
      by_cases hq : q = p
      · rw [if_pos ⟨hq, hp⟩, if_pos hq]
      · rw [if_neg (fun c => hq c.1), if_neg hq])
    (fun q => by
      show (rec1 (linkBeforeOnlyTail E p l l).mem q).prev =
        if q = l then some p else if q = p then (rec1 E.mem l).prev else (rec1 E.mem q).prev
      rw [(linkBeforeOnlyTail_links E p l l q).2.1]
      by_cases hq : q = l
      · rw [if_pos ⟨hq, by omega⟩, if_pos hq]
      · rw [if_neg (fun c => hq c.1), if_neg hq]
        by_cases hq2 : q = p
        · rw [if_pos hq2, h4, hq2]
          exact hnull
        · rw [if_neg hq2])

theorem linkBeforeTail_chain (E : FlushState) (p l : Nat) (ch : List Nat)
    (hp : p < E.mem.length) (hlp : l < p) (hdl : doublyLinked E.mem ch)
    (hlast : ch.getLast? = some l) (hnd : ch.Nodup) (hpn : p ∉ ch)
    (hx : ∀ x, (rec1 E.mem l).prev = some x → x < p) :
    doublyLinked (linkBeforeTail E p l l).mem (ch.dropLast ++ [p, l]) :=
  DoublyLinked_beforeTail (fun q => (rec1 E.mem q).next) (fun q => (rec1 E.mem q).prev)
    (fun q => (rec1 (linkBeforeTail E p l l).mem q).next)
    (fun q => (rec1 (linkBeforeTail E p l l).mem q).prev) ch p l hdl hlast hnd hpn
    (fun q => by
      show (rec1 (linkBeforeTail E p l l).mem q).next =
        if (rec1 E.mem l).prev = some q then some p else if q = p then some l
          else (rec1 E.mem q).next
      rw [(linkBeforeTail_links E p l l q).1]
      by_cases hq : (rec1 E.mem l).prev = some q
      · rw [if_pos ⟨hq, by have := hx q hq; omega⟩, if_pos hq]
      · rw [if_neg (fun c => hq c.1), if_neg hq]
        by_cases hq2 : q = p
        · rw [if_pos ⟨hq2, hp⟩, if_pos hq2]
        · rw [if_neg (fun c => hq2 c.1), if_neg hq2])
    (fun q => by
      show (rec1 (linkBeforeTail E p l l).mem q).prev =
        if q = l then some p else if q = p then (rec1 E.mem l).prev else (rec1 E.mem q).prev
      rw [(linkBeforeTail_links E p l l q).2.1]
      by_cases hq : q = l
      · rw [if_pos ⟨hq, by omega⟩, if_pos hq]
      · rw [if_neg (fun c => hq c.1), if_neg hq]
        by_cases hq2 : q = p
        · rw [if_pos ⟨hq2, hp⟩, if_pos hq2]
        · rw [if_neg (fun c => hq2 c.1), if_neg hq2])

theorem link_pointers (E : FlushState) (p f l : Nat) :
    ((linkFront E p f f).first1 = some p ∧ (linkFront E p f f).last1 = E.last1) ∧
      ((linkBack E p l l).first1 = E.first1 ∧ (linkBack E p l l).last1 = some p) ∧
      ((linkBeforeOnlyTail E p l l).first1 = some p ∧
        (linkBeforeOnlyTail E p l l).last1 = E.last1) ∧
      ((linkBeforeTail E p l l).first1 = E.first1 ∧ (linkBeforeTail E p l l).last1 = E.last1) := by
  refine ⟨⟨?_, ?_⟩, ⟨?_, ?_⟩, ⟨?_, ?_⟩, ⟨?_, ?_⟩⟩
  · simp only [linkFront]
  · simp only [linkFront]
  · simp only [linkBack]
  · simp only [linkBack]
  · simp only [linkBeforeOnlyTail]
  · simp only [linkBeforeOnlyTail]
  · simp only [linkBeforeTail]
  · simp only [linkBeforeTail]

/-- The chain after `linkPiece`: the piece `p` is added to the doubly linked
list `ch` at the place that `linkChain` names. -/
theorem linkPiece_chain (env : Env) (E st1 : FlushState) (p op f l : Nat) (ch : List Nat)
    (hinv : linkedBelow E p) (hf : E.first1 = some f) (hl : E.last1 = some l)
    (hp : p < E.mem.length) (hdl : doublyLinked E.mem ch) (hhead : ch.head? = some f)
    (hlast : ch.getLast? = some l) (hnd : ch.Nodup) (hlt : ∀ q ∈ ch, q < p)
    (h : linkPiece env E p op f f l l = .ok st1) :
    doublyLinked st1.mem (linkChain env E op p ch) ∧
      st1.first1 = (linkChain env E op p ch).head? ∧
      st1.last1 = (linkChain env E op p ch).getLast? ∧
      (linkChain env E op p ch).Perm (p :: ch) := by
  obtain ⟨o1, o2, o3, o4, o5, o6⟩ := linkedBelow_open E p f l hinv hf hl
  obtain ⟨i1, i2, i3, i4, -⟩ := hinv
  obtain ⟨⟨a1, a2⟩, ⟨b1, b2⟩, ⟨c1, c2⟩, ⟨d1, d2⟩⟩ := link_pointers E p f l
  have hpn : p ∉ ch := fun hm => Nat.lt_irrefl _ (hlt p hm)
  have hne : ch ≠ [] := fun e => by rw [e] at hhead; cases hhead
  have hnull := i1 p (Nat.le_refl _)
  have hl2 : E.last2.getD 0 = l := by rw [o2]; rfl
  have hsplit : ch = ch.dropLast ++ [l] := (List.dropLast_append_getLast? l hlast).symm
  have hperm : (ch.dropLast ++ [p, l]).Perm (p :: ch) := by
    conv_rhs => rw [hsplit]
    exact List.perm_middle
  have hlastn : (ch.dropLast ++ [p, l]).getLast? = some l := by
    rw [List.getLast?_append]
    rfl
  have hlastf : (p :: ch).getLast? = some l := by
    obtain ⟨ys, hys⟩ := List.head?_eq_some_iff.1 hhead
    rw [hys, List.getLast?_cons_cons, ← hys, hlast]
  have hheadb : (ch ++ [p]).head? = some f := by
    rw [List.head?_append_of_ne_nil _ hne, hhead]
  unfold linkPiece at h
  unfold linkChain
  rw [hl2]
  by_cases h1 : (rec1 E.mem l).suppLogBdba = (rec1 E.mem p).suppLogBdba ∧
      (rec1 E.mem l).suppLogSlot = (rec1 E.mem p).suppLogSlot ∧
      (rec1 E.mem f).object = (rec1 E.mem p).object ∧
      (rec2 E.mem f).object = (rec2 E.mem p).object
  · rw [if_pos h1] at h
    by_cases h2 : E.type = env.TRANSACTION_INSERT
    · rw [if_pos h2] at h
      rw [if_pos h2, ← Except.ok.inj h]
      exact ⟨linkFront_chain E p f ch hp o3 hdl hhead hpn hnull.2, a1, by rw [a2, hl, hlastf],
        List.Perm.refl _⟩
    · rw [if_neg h2] at h
      rw [if_neg h2]
      by_cases h3 : op = 0x05010B06 ∧ (rec2 E.mem l).opCode = 0x0B02
      · rw [if_pos h3] at h
        rw [if_pos h3, hlast]
        show doublyLinked st1.mem (ch.dropLast ++ [p, l]) ∧
          st1.first1 = (ch.dropLast ++ [p, l]).head? ∧
          st1.last1 = (ch.dropLast ++ [p, l]).getLast? ∧ (ch.dropLast ++ [p, l]).Perm (p :: ch)
        by_cases h4 : (rec1 E.mem l).prev = none
        · rw [if_pos h4] at h
          rw [← Except.ok.inj h]
          refine ⟨linkBeforeOnlyTail_chain E p l ch hp o4 hdl hlast hnd hpn hnull.2 h4, ?_,
            by rw [c2, hl, hlastn], hperm⟩
          have e := doublyLinked_alone E.mem ch l hdl hlast h4
          rw [c1, e]
          rfl
        · rw [if_neg h4] at h
          rw [← Except.ok.inj h]
          refine ⟨linkBeforeTail_chain E p l ch hp o4 hdl hlast hnd hpn (i2 l), ?_,
            by rw [d2, hl, hlastn], hperm⟩
          have hi := doublyLinked_init E.mem ch l hdl hlast h4
          have : ch.head? = ch.dropLast.head? := by
            conv_lhs => rw [hsplit]
            exact List.head?_append_of_ne_nil _ hi
          rw [d1, hf, List.head?_append_of_ne_nil _ hi, ← this, hhead]
      · rw [if_neg h3] at h
        rw [if_neg h3, ← Except.ok.inj h]
        exact ⟨linkBack_chain E p l ch hp o4 hdl hlast hpn hnull.1, by rw [b1, hf, hheadb],
          by rw [b2, List.getLast?_concat], List.perm_append_singleton p ch⟩
  · rw [if_neg h1] at h
    cases h

theorem doublyLinked_congr (mem mem1 : List Row) (ch : List Nat)
    (h : ∀ q, rec1 mem1 q = rec1 mem q) (hd : doublyLinked mem ch) : doublyLinked mem1 ch := by
  unfold doublyLinked at hd ⊢
  have e1 : (fun q => (rec1 mem1 q).next) = fun q => (rec1 mem q).next := by
    funext q; rw [h]
  have e2 : (fun q => (rec1 mem1 q).prev) = fun q => (rec1 mem q).prev := by
    funext q; rw [h]
  rw [e1, e2]
  exact hd

theorem doublyLinked2_of (mem : List Row) (ch : List Nat)
    (h : ∀ q, (rec2 mem q).next = (rec1 mem q).next ∧ (rec2 mem q).prev = (rec1 mem q).prev)
    (hd : doublyLinked mem ch) : doublyLinked2 mem ch := by
  unfold doublyLinked at hd
  unfold doublyLinked2
  have e1 : (fun q => (rec2 mem q).next) = fun q => (rec1 mem q).next := by
    funext q; rw [(h q).1]
  have e2 : (fun q => (rec2 mem q).prev) = fun q => (rec1 mem q).prev := by
    funext q; rw [(h q).2]
  rw [e1, e2]
  exact hd

theorem chainInv_closed (st : FlushState) (s : Nat) (ch : List Nat) (h : chainInv st s ch)
    (hf : st.first1 = none) : ch = [] ∧ s = st.idx := by
  obtain ⟨-, h2, -, -, h5, -, h7, -⟩ := h
  have hch : ch = [] := by
    rw [hf] at h2
    cases ch with
    | nil => rfl
    | cons a t => cases h2
  refine ⟨hch, ?_⟩
  have := (h5 s).2
  rw [hch] at this
  by_cases hs : s < st.idx
  · exact absurd (this ⟨Nat.le_refl _, hs⟩) (by simp)
  · omega

/-- The chain after a row piece: the piece is added to the open chain at the
place that `pieceChain` names, the links stay well-formed, and with `FB_L` the
chain is handed to `parseDML` by its head. -/
theorem flushPiece_chain (env : Env) (st sp : FlushState) (op : Nat) (fl : Bool) (s : Nat)
    (ch : List Nat) (hinv : chainInv st s ch) (hp : st.idx < st.mem.length)
    (h : flushPiece env st st.idx op = .ok (sp, fl)) :
    linkedBelow sp (st.idx + 1) ∧ sp.mem.length = st.mem.length ∧
      sp.first1 = (pieceChain env st op ch).head? ∧
      sp.last1 = (pieceChain env st op ch).getLast? ∧
      (pieceChain env st op ch).Perm (st.idx :: ch) ∧
      doublyLinked sp.mem (pieceChain env st op ch) ∧ sp.idx = st.idx ∧
      sp.type = nextType env st.type op ∧
      (fl = true → ∃ f1, (pieceChain env st op ch).head? = some f1 ∧
        sp.events = st.events ++ [Event.parseDML f1 f1 (nextType env st.type op) sp.mem]) ∧
      (fl = false → sp.events = st.events) := by
  obtain ⟨g1, g2, g3, g4, g5, g6, g7, g8⟩ := hinv
  obtain ⟨k1, k2⟩ := flushPiece_linked env st sp st.idx op fl g1 hp h
  obtain ⟨q1, -, q3, -, -, q6⟩ := flushPiece_ok env st sp st.idx op fl h
  have hE1 : ∀ q, rec1 (pieceEntry env st st.idx op).mem q = rec1 st.mem q := fun q => by
    simp only [pieceEntry, rec1_setRec2]
  unfold pieceChain
  cases hf : st.first1 with
  | none =>
    obtain ⟨m0, m1, -, m3, -, e1, -⟩ := flushPiece_first env st sp st.idx op fl hf h
    simp only []
    have hnull := g1.1 st.idx (Nat.le_refl _)
    have hch : ch = [] := by
      rw [hf] at g2
      cases ch with
      | nil => rfl
      | cons a t => cases g2
    refine ⟨k1, k2, m1, m3, by rw [hch], ?_, q1, q3, fun hfl => ⟨st.idx, rfl, by rw [e1 hfl, m0]⟩, q6⟩
    rw [m0]
    exact doublyLinked_congr st.mem _ _ hE1
      (DoublyLinked_single _ _ st.idx hnull.1 hnull.2)
  | some f =>
    obtain ⟨stl, hlink, m0, m1, m2, m3, -, m5, e1, -⟩ :=
      flushPiece_open env st sp st.idx op f fl hf h
    simp only []
    have hhead : ch.head? = some f := by rw [← g2, hf]
    obtain ⟨l, hlast⟩ : ∃ l, ch.getLast? = some l := by
      cases hc : ch.getLast? with
      | some l => exact ⟨l, rfl⟩
      | none =>
        rw [List.getLast?_eq_none_iff] at hc
        rw [hc] at hhead
        cases hhead
    have hl : st.last1 = some l := by rw [g3, hlast]
    obtain ⟨o1, o2, -⟩ := linkedBelow_open st st.idx f l g1 hf hl
    rw [o1, o2, hl] at hlink
    simp only [Option.getD_some] at hlink
    have hEinv := pieceEntry_linked env st st.idx op st.idx g1
    have hEf : (pieceEntry env st st.idx op).first1 = some f := by
      simp only [pieceEntry]; exact hf
    have hEl : (pieceEntry env st st.idx op).last1 = some l := by
      simp only [pieceEntry]; exact hl
    obtain ⟨c1, c2, c3, c4⟩ := linkPiece_chain env (pieceEntry env st st.idx op) stl st.idx op f l
      ch hEinv hEf hEl (by rw [pieceEntry_length]; exact hp)
      (doublyLinked_congr st.mem _ _ hE1 g6) hhead hlast g4
      (fun q hq => ((g5 q).1 hq).2) hlink
    obtain ⟨r1, -⟩ := linkPiece_linked env (pieceEntry env st st.idx op) stl st.idx op f l
      hEinv hEf hEl (by rw [pieceEntry_length]; exact hp) hlink
    refine ⟨k1, k2, by rw [m1, c2], by rw [m3, c3], c4, by rw [m0]; exact c1, q1, q3,
      fun hfl => ?_, q6⟩
    have htl : stl.type = nextType env st.type op :=
      (linkPiece_ok env _ _ _ _ _ _ _ _ hlink).2.1
    cases hh : (linkChain env (pieceEntry env st st.idx op) op st.idx ch).head? with
    | none =>
      rw [List.head?_eq_none_iff] at hh
      rw [hh] at c4
      exact absurd c4.length_eq (by simp)
    | some f1 =>
      refine ⟨f1, rfl, ?_⟩
      have hs1 : stl.first1 = some f1 := by rw [c2, hh]
      have hs2 : stl.first2 = some f1 := by
        rcases r1.2.2.2.2 with ⟨z, -⟩ | ⟨f0, l0, z1, z2, -⟩
        · rw [hs1] at z; cases z
        · rw [z2, ← z1, hs1]
      rw [e1 hfl, hs1, hs2, htl, m0]
      rfl

theorem chainInv_reset (st2 : FlushState) (n : Nat) (hl : linkedBelow st2 st2.idx)
    (hidx : st2.idx = n) (h1 : st2.first1 = none) (h3 : st2.last1 = none) (ht : st2.type = 0) :
    chainInv st2 n [] := by
  refine ⟨hl, h1, h3, List.nodup_nil, fun q => ?_, ⟨List.chain'_nil, fun f hf => ?_,
    fun l hl2 => ?_⟩, by omega, fun _ => ht⟩
  · constructor
    · intro hq; cases hq
    · intro hq; omega
  · cases hf
  · cases hl2

/-- One row of the walk: a row piece without `FB_L` is added to the open chain,
every other row leaves no chain open. -/
theorem flushRow_chain (env : Env) (t : Transaction) (st st2 : FlushState) (row : Row) (s : Nat)
    (ch : List Nat) (hinv : chainInv st s ch) (hp : st.idx < st.mem.length)
    (h : flushRow env t st row = .ok st2) :
    st2.mem.length = st.mem.length ∧ st2.idx = st.idx + 1 ∧
      ((isPieceOp row.op = true ∧ ((rec1 st.mem st.idx).suppLogFb &&& env.FB_L) = 0) →
        chainInv st2 s (pieceChain env st row.op ch)) ∧
      (¬ (isPieceOp row.op = true ∧ ((rec1 st.mem st.idx).suppLogFb &&& env.FB_L) = 0) →
        chainInv st2 (st.idx + 1) []) := by
  have hidx : st2.idx = st.idx + 1 := (flushRow_ok env t st st2 row h).1
  obtain ⟨l1, l2⟩ := flushRow_linked env t st st2 row hinv.1 hp h
  refine ⟨l2, hidx, ?_, ?_⟩
  · rintro ⟨hpc, hfb⟩
    obtain ⟨sp, fl, h1, h2, h3⟩ := flushRow_piece env t st st2 row hpc h
    have hfl : fl = false := by rw [h3]; simp [hfb]
    subst hfl
    obtain ⟨k1, k2, k3, k4, k5, k6, k7, k8, -, -⟩ :=
      flushPiece_chain env st sp row.op false s ch hinv hp h1
    obtain ⟨p1, -, p3, -, -, -, -, -⟩ := flushAfter_pointers env t sp row
    have hm := flushAfter_mem env t sp false row
    obtain ⟨g1, g2, g3, g4, g5, g6, g7, g8⟩ := hinv
    have hni : st.idx ∉ ch := fun hm2 => Nat.lt_irrefl _ ((g5 _).1 hm2).2
    have hne : pieceChain env st row.op ch ≠ [] := fun e => by
      rw [e] at k5
      exact absurd k5.length_eq (by simp)
    refine ⟨l1, by rw [h2, p1, k3], by rw [h2, p3, k4],
      (List.Perm.nodup_iff k5).2 (List.nodup_cons.2 ⟨hni, g4⟩), fun q => ?_,
      by rw [h2, hm]; exact k6, by omega, fun hc => ?_⟩
    · rw [List.Perm.mem_iff k5, List.mem_cons, g5 q, hidx]
      constructor
      · rintro (e | ⟨e1, e2⟩)
        · omega
        · omega
      · intro e
        by_cases hq : q = st.idx
        · exact Or.inl hq
        · exact Or.inr ⟨e.1, by omega⟩
    · rw [h2, p1, k3] at hc
      rw [List.head?_eq_none_iff] at hc
      exact absurd hc hne
  · intro hne
    by_cases hpc : isPieceOp row.op = true
    · obtain ⟨sp, fl, h1, h2, h3⟩ := flushRow_piece env t st st2 row hpc h
      have hfl : fl = true := by
        rw [h3]
        have : ((rec1 st.mem st.idx).suppLogFb &&& env.FB_L) ≠ 0 := fun e => hne ⟨hpc, e⟩
        simp [this]
      subst hfl
      obtain ⟨-, -, -, -, p5, -, p7, -⟩ := flushAfter_pointers env t sp row
      have hty := (flushAfter_ok env t sp true row).2.2.1
      exact chainInv_reset st2 _ l1 hidx (by rw [h2, p5]) (by rw [h2, p7])
        (by rw [h2, hty]; rfl)
    · have hp2 : isPieceOp row.op = false := by simpa using hpc
      unfold flushRow at h
      cases hsw : flushSwitch env st st.idx row.op with
      | error e => rw [hsw] at h; cases h
      | ok r =>
        obtain ⟨st1, fl⟩ := r
        rw [hsw] at h
        have h2 := Except.ok.inj h
        obtain ⟨b1, -, -, -⟩ := flushSwitch_other env st st1 st.idx row.op fl hp2 hsw
        subst b1
        obtain ⟨-, -, -, -, p5, -, p7, -⟩ := flushAfter_pointers env t st1 row
        have hty := (flushAfter_ok env t st1 true row).2.2.1
        exact chainInv_reset st2 _ l1 hidx (by rw [← h2, p5]) (by rw [← h2, p7])
          (by rw [← h2, hty]; rfl)

theorem chainStart_snoc (env : Env) (pre : List Row) (r : Row) :
    chainStart env (pre ++ [r]) = if r.emits env then pre.length + 1 else chainStart env pre := by
  unfold chainStart
  rw [List.reverse_append, List.reverse_singleton, List.singleton_append, List.takeWhile_cons,
    List.length_append, List.length_singleton]
  cases he : r.emits env
  · have hle : (List.takeWhile (fun r => !r.emits env) pre.reverse).length ≤ pre.length := by
      have := (List.takeWhile_prefix (fun r : Row => !r.emits env) (l := pre.reverse)).length_le
      rw [List.length_reverse] at this
      exact this
    simp only [Bool.not_false, if_true, List.length_cons, Bool.false_eq_true, if_false]
    omega
  · simp

theorem chainStart_le (env : Env) (pre : List Row) : chainStart env pre ≤ pre.length := by
  unfold chainStart
  omega

theorem emits_iff (env : Env) (row : Row) (fb : Nat) (hfb : fb = row.redoLogRecord1.suppLogFb) :
    row.emits env = true ↔ ¬ (isPieceOp row.op = true ∧ (fb &&& env.FB_L) = 0) := by
  unfold Row.emits
  rw [hfb]
  cases isPieceOp row.op <;> simp

/-- When the stored records have null links, the state that the walk of `flush`
reaches after the rows `pre` has a well-formed chain open, made of the rows added
since the previous emit. -/
theorem flush_reach_chain (env : Env) (t0 : Transaction)
    (hnull : ∀ r ∈ t0.rows, r.nullLinks) (pre : List Row) :
    ∀ (post : List Row) (st1 : FlushState), t0.rows = pre ++ post →
      flushRows env t0 (walkStart t0) pre = .ok st1 →
      ∃ ch, chainInv st1 (chainStart env pre) ch ∧ st1.idx = pre.length ∧
        st1.mem.length = t0.rows.length := by
  induction pre using List.reverseRecOn with
  | nil =>
    intro post st1 _ hpre
    simp only [flushRows] at hpre
    have e := Except.ok.inj hpre
    subst e
    exact ⟨[], chainInv_reset _ _ (walkStart_linked t0 hnull) rfl rfl rfl rfl, rfl, rfl⟩
  | append_singleton pre row ih =>
    intro post st1 hrows hpre
    rw [List.append_assoc, List.singleton_append] at hrows
    rw [flushRows_append] at hpre
    cases hm : flushRows env t0 (walkStart t0) pre with
    | error e => rw [hm] at hpre; cases hpre
    | ok stm =>
      rw [hm] at hpre
      simp only [flushRows] at hpre
      cases hr : flushRow env t0 stm row with
      | error e => rw [hr] at hpre; cases hpre
      | ok st2 =>
        rw [hr] at hpre
        have e := Except.ok.inj hpre
        subst e
        obtain ⟨ch, hinv, hidx, hlen⟩ := ih (row :: post) stm hrows hm
        obtain ⟨-, hs1, -⟩ := reach_record env t0 pre post row stm hrows hm
        have hfbeq : (rec1 stm.mem stm.idx).suppLogFb = row.redoLogRecord1.suppLogFb :=
          (strip_fields _ _ hs1).2.2.2.2
        have hp : stm.idx < stm.mem.length := by
          rw [hidx, hlen, hrows, List.length_append, List.length_cons]
          omega
        obtain ⟨a1, a2, a3, a4⟩ := flushRow_chain env t0 stm st2 row _ ch hinv hp hr
        have hem := emits_iff env row _ hfbeq
        rw [chainStart_snoc]
        cases he : row.emits env
        · have hc : isPieceOp row.op = true ∧
              ((rec1 stm.mem stm.idx).suppLogFb &&& env.FB_L) = 0 := by
            by_contra hcon
            rw [hem.2 hcon] at he
            cases he
          exact ⟨_, a3 hc, by rw [a2, hidx, List.length_append, List.length_singleton],
            a1.trans hlen⟩
        · have hc := hem.1 he
          have := a4 hc
          rw [hidx] at this
          exact ⟨_, this, by rw [a2, hidx, List.length_append, List.length_singleton],
            a1.trans hlen⟩

theorem chainStart_spec (env : Env) (pre : List Row) :
    (∀ k r, chainStart env pre ≤ k → pre[k]? = some r → r.emits env = false) ∧
      ∀ r, 0 < chainStart env pre → pre[chainStart env pre - 1]? = some r →
        r.emits env = true := by
  induction pre using List.reverseRecOn with
  | nil =>
    refine ⟨fun k r _ hr => ?_, fun r h0 _ => ?_⟩
    · simp at hr
    · simp [chainStart] at h0
  | append_singleton pre row ih =>
    obtain ⟨ih1, ih2⟩ := ih
    have hle := chainStart_le env pre
    rw [chainStart_snoc]
    cases he : row.emits env
    · simp only [Bool.false_eq_true, if_false]
      refine ⟨fun k r hk hr => ?_, fun r h0 hr => ?_⟩
      · by_cases hkl : k < pre.length
        · rw [List.getElem?_append_left hkl] at hr
          exact ih1 k r hk hr
        · rw [List.getElem?_append_right (by omega)] at hr
          by_cases hk0 : k - pre.length = 0
          · rw [hk0] at hr
            simp only [List.getElem?_cons_zero, Option.some.injEq] at hr
            rw [← hr]; exact he
          · obtain ⟨j, hj⟩ : ∃ j, k - pre.length = j + 1 := ⟨k - pre.length - 1, by omega⟩
            rw [hj] at hr
            simp at hr
      · rw [List.getElem?_append_left (by omega)] at hr
        exact ih2 r h0 hr
    · simp only [if_true]
      refine ⟨fun k r hk hr => ?_, fun r _ hr => ?_⟩
      · rw [List.getElem?_append_right (by omega)] at hr
        obtain ⟨j, hj⟩ : ∃ j, k - pre.length = j + 1 := ⟨k - pre.length - 1, by omega⟩
        rw [hj] at hr
        simp at hr
      · rw [Nat.add_sub_cancel, List.getElem?_append_right (Nat.le_refl _), Nat.sub_self] at hr
        simp only [List.getElem?_cons_zero, Option.some.injEq] at hr
        rw [← hr]; exact he

/-- A row piece with `FB_L`: the chain handed to `parseDML`, as the state `sp` at
the call holds it. -/
theorem flushRow_emit_chain (env : Env) (t : Transaction) (st st2 : FlushState) (row : Row)
    (s : Nat) (ch : List Nat) (hinv : chainInv st s ch) (hp : st.idx < st.mem.length)
    (hpc : isPieceOp row.op = true)
    (hfb : ((rec1 st.mem st.idx).suppLogFb &&& env.FB_L) ≠ 0)
    (h : flushRow env t st row = .ok st2) :
    ∃ sp f1 rest, flushPiece env st st.idx row.op = .ok (sp, true) ∧
      st2.events = st.events ++
        Event.parseDML f1 f1 (nextType env st.type row.op) sp.mem :: rest ∧
      (rest = [] ∨
        rest = [Event.processCommit, Event.processBegin t.lastScn t.commitTime t.xid]) ∧
      sp.first1 = some f1 ∧ sp.first2 = some f1 ∧
      sp.last1 = (pieceChain env st row.op ch).getLast? ∧
      sp.last2 = (pieceChain env st row.op ch).getLast? ∧
      (pieceChain env st row.op ch).head? = some f1 ∧ (pieceChain env st row.op ch).Nodup ∧
      (∀ q, q ∈ pieceChain env st row.op ch ↔ s ≤ q ∧ q ≤ st.idx) ∧
      doublyLinked sp.mem (pieceChain env st row.op ch) ∧
      doublyLinked2 sp.mem (pieceChain env st row.op ch) ∧
      (∀ fuel, followNext sp.mem fuel (some f1) = (pieceChain env st row.op ch).take fuel) ∧
      ∀ fuel, followNext2 sp.mem fuel (some f1) = (pieceChain env st row.op ch).take fuel := by
  obtain ⟨sp, fl, h1, h2, h3⟩ := flushRow_piece env t st st2 row hpc h
  have hfl : fl = true := by rw [h3]; simp [hfb]
  subst hfl
  obtain ⟨k1, k2, k3, k4, k5, k6, k7, k8, k9, -⟩ :=
    flushPiece_chain env st sp row.op true s ch hinv hp h1
  obtain ⟨f1, hhead, hev⟩ := k9 rfl
  obtain ⟨g1, g2, g3, g4, g5, g6, g7, g8⟩ := hinv
  have hni : st.idx ∉ ch := fun hm2 => Nat.lt_irrefl _ ((g5 _).1 hm2).2
  have hs1 : sp.first1 = some f1 := by rw [k3, hhead]
  obtain ⟨l, hlast⟩ : ∃ l, (pieceChain env st row.op ch).getLast? = some l := by
    cases hc : (pieceChain env st row.op ch).getLast? with
    | some l => exact ⟨l, rfl⟩
    | none =>
      rw [List.getLast?_eq_none_iff] at hc
      rw [hc] at hhead
      cases hhead
  have hl1 : sp.last1 = some l := by rw [k4, hlast]
  obtain ⟨o1, o2, -⟩ := linkedBelow_open sp (st.idx + 1) f1 l k1 hs1 hl1
  have hmir := k1.2.2.2.1
  have hfn := fun fuel =>
    followNext_take sp.mem (pieceChain env st row.op ch) fuel f1 k6.1 hhead k6.2.2
  have hrest : ∃ rest, st2.events = st.events ++
      Event.parseDML f1 f1 (nextType env st.type row.op) sp.mem :: rest ∧
      (rest = [] ∨
        rest = [Event.processCommit, Event.processBegin t.lastScn t.commitTime t.xid]) := by
    rcases flushAfter_events env t sp true row with e | e
    · exact ⟨[], by rw [h2, e, hev], Or.inl rfl⟩
    · exact ⟨_, by rw [h2, e, hev, List.append_assoc]; rfl, Or.inr rfl⟩
  obtain ⟨rest, r1, r2⟩ := hrest
  refine ⟨sp, f1, rest, h1, r1, r2, hs1, o1, k4, by rw [o2, hlast], hhead,
    (List.Perm.nodup_iff k5).2 (List.nodup_cons.2 ⟨hni, g4⟩), fun q => ?_, k6,
    doublyLinked2_of sp.mem _ hmir k6, hfn, fun fuel => ?_⟩
  · rw [List.Perm.mem_iff k5, List.mem_cons, g5 q]
    constructor
    · rintro (e | ⟨e1, e2⟩)
      · omega
      · omega
    · intro e
      by_cases hq : q = st.idx
      · exact Or.inl hq
      · exact Or.inr ⟨e.1, by omega⟩
  · rw [followNext2_eq sp.mem (fun q => (hmir q).1)]
    exact hfn fuel

/-- C36: assuming every stored record starts with `prev = next = null`, at each
`parseDML` call of the walk of `flush` (a row piece with `FB_L`, processed
without a fatal condition) the r1 chain is a well-formed doubly linked list.
With `sp` the state at the call and `ch` the chain: following `next` from
`first1` reads `ch` and then stops (`next = null` at the last element, which is
`last1`); `ch` holds every row added since the previous emit, from
`chainStart` up to this piece, exactly once; `prev` is the inverse of `next`
along `ch` and `first1.prev = null`; and the r2 chain from `first2` goes through
the companion records of the same rows in the same order. -/
theorem flush_chain_doubly_linked (env : Env) (t0 : Transaction) (pre post : List Row)
    (row : Row) (st1 st2 : FlushState) (hnull : ∀ r ∈ t0.rows, r.nullLinks)
    (hrows : t0.rows = pre ++ row :: post)
    (hpre : flushRows env t0 (walkStart t0) pre = .ok st1) (hp : isPieceOp row.op = true)
    (hfb : (row.redoLogRecord1.suppLogFb &&& env.FB_L) ≠ 0)
    (h : flushRow env t0 st1 row = .ok st2) :
    ∃ sp ch f1 f2 rest, flushPiece env st1 st1.idx row.op = .ok (sp, true) ∧
      st2.events = st1.events ++
        Event.parseDML f1 f2 (nextType env st1.type row.op) sp.mem :: rest ∧
      (rest = [] ∨
        rest = [Event.processCommit, Event.processBegin t0.lastScn t0.commitTime t0.xid]) ∧
      sp.first1 = some f1 ∧ sp.first2 = some f2 ∧ sp.last1 = ch.getLast? ∧
      sp.last2 = ch.getLast? ∧
      (∀ fuel, followNext sp.mem fuel (some f1) = ch.take fuel) ∧
      (∀ fuel, followNext2 sp.mem fuel (some f2) = ch.take fuel) ∧
      ch.Nodup ∧ (∀ q, q ∈ ch ↔ chainStart env pre ≤ q ∧ q ≤ pre.length) ∧
      (∀ k r, chainStart env pre ≤ k → pre[k]? = some r → r.emits env = false) ∧
      (∀ r, 0 < chainStart env pre → pre[chainStart env pre - 1]? = some r →
        r.emits env = true) ∧
      doublyLinked sp.mem ch ∧ doublyLinked2 sp.mem ch := by
  obtain ⟨ch0, hinv, hidx, hlen⟩ := flush_reach_chain env t0 hnull pre (row :: post) st1 hrows hpre
  obtain ⟨-, hs1, -⟩ := reach_record env t0 pre post row st1 hrows hpre
  have hfbeq : (rec1 st1.mem st1.idx).suppLogFb = row.redoLogRecord1.suppLogFb :=
    (strip_fields _ _ hs1).2.2.2.2
  have hlt : st1.idx < st1.mem.length := by
    rw [hidx, hlen, hrows, List.length_append, List.length_cons]
    omega
  obtain ⟨sp, f1, rest, a1, a2, a3, a4, a5, a6, a7, a8, a9, a10, a11, a12, a13, a14⟩ :=
    flushRow_emit_chain env t0 st1 st2 row _ ch0 hinv hlt hp (by rw [hfbeq]; exact hfb) h
  obtain ⟨c1, c2⟩ := chainStart_spec env pre
  rw [hidx] at a10
  exact ⟨sp, _, f1, f1, rest, a1, a2, a3, a4, a5, a6, a7, a13, a14, a9, a10, c1, c2, a11, a12⟩

theorem flush_chain_doubly_linked_witness :
    ∃ mem rest, (walkAfter sampleEnv s1Tx 2).events =
        (walkAfter sampleEnv s1Tx 1).events ++
          Event.parseDML 1 1 sampleEnv.TRANSACTION_INSERT mem :: rest ∧
      followNext mem 5 (some 1) = [1, 0] ∧ followNext2 mem 5 (some 1) = [1, 0] := by
  obtain ⟨sp, ch, f1, f2, rest, -, a2, -, -, -, -, -, a8, a9, -⟩ :=
    flush_chain_doubly_linked sampleEnv s1Tx [s1RowA] [] s1RowB (walkAfter sampleEnv s1Tx 1)
      (walkAfter sampleEnv s1Tx 2) (by decide) (by rfl) (by rfl) (by decide) (by decide)
      (by rfl)
  have e : (walkAfter sampleEnv s1Tx 2).events =
      (walkAfter sampleEnv s1Tx 1).events ++
        [Event.parseDML 1 1 sampleEnv.TRANSACTION_INSERT
          (walkAfter sampleEnv s1Tx 2).mem] := by rfl
  rw [e] at a2
  have a3 := List.append_cancel_left a2
  obtain ⟨b1, b2⟩ := List.cons.inj a3
  obtain ⟨c1, c2, c3, c4⟩ := Event.parseDML.inj b1
  refine ⟨sp.mem, rest, ?_, ?_, ?_⟩
  · rw [e, ← c4, ← b2]
  · rw [← c4]; rfl
  · rw [← c4]; rfl

/-! ### Chains of insert pieces -/

theorem nextType_insert (env : Env) (T : Nat) (h : T = 0 ∨ T = env.TRANSACTION_INSERT) :
    nextType env T 0x05010B02 = env.TRANSACTION_INSERT := by
  unfold nextType
  by_cases h0 : T = 0
  · rw [if_pos h0, if_pos rfl]
  · rw [if_neg h0]
    have hT : T = env.TRANSACTION_INSERT := h.resolve_left h0
    rw [if_pos hT, if_neg (by decide)]
    exact hT

theorem pieceChain_insert (env : Env) (st : FlushState) (s : Nat) (ch : List Nat)
    (hinv : chainInv st s ch) (hty : st.first1 ≠ none → st.type = env.TRANSACTION_INSERT) :
    pieceChain env st 0x05010B02 ch = st.idx :: ch := by
  unfold pieceChain
  cases hf : st.first1 with
  | none =>
    simp only []
    rw [(chainInv_closed st s ch hinv hf).1]
  | some f =>
    simp only []
    unfold linkChain
    have : (pieceEntry env st st.idx 0x05010B02).type = env.TRANSACTION_INSERT := by
      simp only [pieceEntry]
      exact nextType_insert env st.type (Or.inr (hty (by rw [hf]; simp)))
    rw [if_pos this]

theorem chainInv_empty (st : FlushState) (ch : List Nat) (h : chainInv st st.idx ch) :
    ch = [] := by
  apply List.eq_nil_iff_forall_not_mem.2
  intro q hq
  have := (h.2.2.2.2.1 q).1 hq
  omega

/-- A run of insert pieces without `FB_L`, met with no chain open: the chain is
the run in reverse order and the type is INSERT. -/
theorem flush_insert_run (env : Env) (t0 : Transaction) (hnull : ∀ r ∈ t0.rows, r.nullLinks)
    (pre : List Row) (hstart : chainStart env pre = pre.length) (seg : List Row) :
    ∀ (post : List Row) (st : FlushState), t0.rows = pre ++ seg ++ post →
      (∀ r ∈ seg, r.op = 0x05010B02 ∧ (r.redoLogRecord1.suppLogFb &&& env.FB_L) = 0) →
      flushRows env t0 (walkStart t0) (pre ++ seg) = .ok st →
      chainInv st pre.length (List.range' pre.length seg.length).reverse ∧
        st.idx = pre.length + seg.length ∧ st.mem.length = t0.rows.length ∧
        (st.first1 ≠ none → st.type = env.TRANSACTION_INSERT) := by
  induction seg using List.reverseRecOn with
  | nil =>
    intro post st hrows _ hw
    rw [List.append_nil] at hw hrows
    obtain ⟨ch, hinv, hidx, hlen⟩ := flush_reach_chain env t0 hnull pre post st hrows hw
    rw [hstart, ← hidx] at hinv
    have hch := chainInv_empty st ch hinv
    subst hch
    rw [hidx] at hinv
    refine ⟨hinv, by rw [hidx]; rfl, hlen, fun hc => ?_⟩
    exact absurd hinv.2.1 hc
  | append_singleton seg r ih =>
    intro post st hrows hseg hw
    have hrows2 : t0.rows = pre ++ seg ++ (r :: post) := by
      rw [hrows]
      simp only [List.append_assoc, List.singleton_append]
    rw [← List.append_assoc, flushRows_append] at hw
    cases hm : flushRows env t0 (walkStart t0) (pre ++ seg) with
    | error e => rw [hm] at hw; cases hw
    | ok stm =>
      rw [hm] at hw
      simp only [flushRows] at hw
      cases hr : flushRow env t0 stm r with
      | error e => rw [hr] at hw; cases hw
      | ok st2 =>
        rw [hr] at hw
        have e := Except.ok.inj hw
        subst e
        obtain ⟨hinv, hidx, hlen, hty⟩ := ih (r :: post) stm hrows2
          (fun x hx => hseg x (List.mem_append_left _ hx)) hm
        obtain ⟨hop, hfb⟩ := hseg r (List.mem_append_right _ (List.mem_singleton_self r))
        obtain ⟨-, hs1, -⟩ := reach_record env t0 (pre ++ seg) post r stm hrows2 hm
        have hfbeq : (rec1 stm.mem stm.idx).suppLogFb = r.redoLogRecord1.suppLogFb :=
          (strip_fields _ _ hs1).2.2.2.2
        have hp : stm.idx < stm.mem.length := by
          rw [hidx, hlen, hrows2]
          simp only [List.length_append, List.length_cons]
          omega
        have hpc : isPieceOp r.op = true := by rw [hop]; rfl
        obtain ⟨a1, a2, a3, -⟩ := flushRow_chain env t0 stm st2 r _ _ hinv hp hr
        have hnew := a3 ⟨hpc, by rw [hfbeq]; exact hfb⟩
        rw [hop, pieceChain_insert env stm _ _ hinv hty, hidx] at hnew
        have hty2 : st2.type = env.TRANSACTION_INSERT := by
          have := ((flushRow_ok env t0 stm st2 r hr).2.2.2.1 hpc).2 (by rw [hfbeq]; exact hfb)
          rw [this.2, hop]
          apply nextType_insert
          by_cases hf : stm.first1 = none
          · exact Or.inl (hinv.2.2.2.2.2.2.2 hf)
          · exact Or.inr (hty hf)
        refine ⟨?_, by rw [a2, hidx, List.length_append, List.length_singleton]; omega,
          a1.trans hlen, fun _ => hty2⟩
        rw [List.length_append, List.length_singleton, List.range'_concat, List.reverse_append,
          List.reverse_singleton, List.singleton_append, Nat.one_mul]
        exact hnew

/-- C32: while the chain type is INSERT, `flush` links each new piece in front.
Let a chain be made only of the `n = seg.length + 1` insert pieces
(`op2 = 0x05010B02`) stored at the rows `pre.length, ..., pre.length + n - 1` in
that order (no chain is open before them and only the last carries `FB_L`).
Then the chain handed to `parseDML` has type INSERT, starts at the last piece
and, read from `first1` through `next`, is the pieces in reverse order; the
companion chain from `first2` is in the same reversed order. -/
theorem flush_insert_chain_reversed (env : Env) (t0 : Transaction) (pre seg post : List Row)
    (last : Row) (st1 st2 : FlushState) (hnull : ∀ r ∈ t0.rows, r.nullLinks)
    (hrows : t0.rows = pre ++ seg ++ last :: post)
    (hstart : chainStart env pre = pre.length)
    (hseg : ∀ r ∈ seg, r.op = 0x05010B02 ∧ (r.redoLogRecord1.suppLogFb &&& env.FB_L) = 0)
    (hlast : last.op = 0x05010B02 ∧ (last.redoLogRecord1.suppLogFb &&& env.FB_L) ≠ 0)
    (hwalk : flushRows env t0 (walkStart t0) (pre ++ seg) = .ok st1)
    (h : flushRow env t0 st1 last = .ok st2) :
    ∃ mem rest,
      st2.events = st1.events ++
        Event.parseDML (pre.length + seg.length) (pre.length + seg.length)
          env.TRANSACTION_INSERT mem :: rest ∧
      (rest = [] ∨
        rest = [Event.processCommit, Event.processBegin t0.lastScn t0.commitTime t0.xid]) ∧
      ∀ fuel, seg.length + 1 ≤ fuel →
        followNext mem fuel (some (pre.length + seg.length)) =
            (List.range' pre.length (seg.length + 1)).reverse ∧
          followNext2 mem fuel (some (pre.length + seg.length)) =
            (List.range' pre.length (seg.length + 1)).reverse := by
  obtain ⟨hinv, hidx, hlen, hty⟩ :=
    flush_insert_run env t0 hnull pre hstart seg (last :: post) st1 hrows hseg hwalk
  obtain ⟨-, hs1, -⟩ := reach_record env t0 (pre ++ seg) post last st1 hrows hwalk
  have hfbeq : (rec1 st1.mem st1.idx).suppLogFb = last.redoLogRecord1.suppLogFb :=
    (strip_fields _ _ hs1).2.2.2.2
  have hp : st1.idx < st1.mem.length := by
    rw [hidx, hlen, hrows]
    simp only [List.length_append, List.length_cons]
    omega
  have hpc : isPieceOp last.op = true := by rw [hlast.1]; rfl
  obtain ⟨sp, f1, rest, -, a2, a3, -, -, -, -, a8, -, -, -, -, a13, a14⟩ :=
    flushRow_emit_chain env t0 st1 st2 last _ _ hinv hp hpc (by rw [hfbeq]; exact hlast.2) h
  rw [hlast.1, pieceChain_insert env st1 _ _ hinv hty, hidx] at a8 a13 a14
  have hf1 : f1 = pre.length + seg.length := by
    simp only [List.head?_cons, Option.some.injEq] at a8
    exact a8.symm
  subst hf1
  have hT : nextType env st1.type last.op = env.TRANSACTION_INSERT := by
    rw [hlast.1]
    apply nextType_insert
    by_cases hf : st1.first1 = none
    · exact Or.inl (hinv.2.2.2.2.2.2.2 hf)
    · exact Or.inr (hty hf)
  rw [hT] at a2
  have hrev : (List.range' pre.length (seg.length + 1)).reverse =
      (pre.length + seg.length) :: (List.range' pre.length seg.length).reverse := by
    rw [List.range'_concat, List.reverse_append, List.reverse_singleton, List.singleton_append,
      Nat.one_mul]
  refine ⟨sp.mem, rest, a2, a3, fun fuel hfuel => ?_⟩
  have htake : ((pre.length + seg.length) :: (List.range' pre.length seg.length).reverse).take
      fuel = (pre.length + seg.length) :: (List.range' pre.length seg.length).reverse := by
    apply List.take_of_length_le
    simp only [List.length_cons, List.length_reverse, List.length_range']
    exact hfuel
  rw [a13 fuel, a14 fuel, htake, hrev]
  exact ⟨rfl, rfl⟩

theorem flush_insert_chain_reversed_witness :
    ∃ mem rest,
      (walkAfter sampleEnv s1Tx 2).events = (walkAfter sampleEnv s1Tx 1).events ++
        Event.parseDML (([] : List Row).length + [s1RowA].length)
          (([] : List Row).length + [s1RowA].length) sampleEnv.TRANSACTION_INSERT mem :: rest ∧
      (rest = [] ∨
        rest = [Event.processCommit,
          Event.processBegin s1Tx.lastScn s1Tx.commitTime s1Tx.xid]) ∧
      ∀ fuel, [s1RowA].length + 1 ≤ fuel →
        followNext mem fuel (some (([] : List Row).length + [s1RowA].length)) =
            (List.range' ([] : List Row).length ([s1RowA].length + 1)).reverse ∧
          followNext2 mem fuel (some (([] : List Row).length + [s1RowA].length)) =
            (List.range' ([] : List Row).length ([s1RowA].length + 1)).reverse :=
  flush_insert_chain_reversed sampleEnv s1Tx [] [s1RowA] [] s1RowB (walkAfter sampleEnv s1Tx 1)
    (walkAfter sampleEnv s1Tx 2) (by decide) (by rfl) (by rfl) (by decide) (by decide) (by rfl)
    (by rfl)

/-! ### A self-contained record while a chain is open -/

theorem chainStart_ge (env : Env) (pre : List Row) (r : Row) (hr : r.emits env = true)
    (mid : List Row) : pre.length + 1 ≤ chainStart env (pre ++ r :: mid) := by
  induction mid using List.reverseRecOn with
  | nil =>
    rw [show pre ++ [r] = pre ++ [r] from rfl, chainStart_snoc, if_pos hr]
  | append_singleton mid x ih =>
    rw [show pre ++ r :: (mid ++ [x]) = (pre ++ r :: mid) ++ [x] by simp, chainStart_snoc]
    split_ifs
    · simp only [List.length_append, List.length_cons]
      omega
    · exact ih

theorem chainStart_all (env : Env) (pre : List Row) (r : Row) (hr : r.emits env = true)
    (mid : List Row) (hmid : ∀ x ∈ mid, x.emits env = true) :
    chainStart env (pre ++ r :: mid) = (pre ++ r :: mid).length := by
  rcases List.eq_nil_or_concat mid with hnil | ⟨m1, x, hx⟩
  · subst hnil
    rw [chainStart_snoc, if_pos hr, List.length_append, List.length_singleton]
  · rw [List.concat_eq_append] at hx
    subst hx
    have hxe := hmid x (List.mem_append_right _ (List.mem_singleton_self x))
    rw [show pre ++ r :: (m1 ++ [x]) = (pre ++ r :: m1) ++ [x] by simp, chainStart_snoc,
      if_pos hxe]
    simp only [List.length_append, List.length_cons, List.length_nil]

theorem parseDML_not_bracket (t : Transaction) (rest : List Event)
    (h : rest = [] ∨
      rest = [Event.processCommit, Event.processBegin t.lastScn t.commitTime t.xid])
    (f1 f2 ty : Nat) (mem : List Row) : Event.parseDML f1 f2 ty mem ∉ rest := by
  rcases h with h | h
  · rw [h]; simp
  · rw [h]; simp

/-- The calls that one row of the walk adds: every `parseDML` among them hands
over a chain made of rows from `s` on, the start of the open chain. -/
theorem flushRow_added (env : Env) (t : Transaction) (st st2 : FlushState) (row : Row) (s : Nat)
    (ch : List Nat) (hinv : chainInv st s ch) (hp : st.idx < st.mem.length)
    (h : flushRow env t st row = .ok st2) :
    ∃ added, st2.events = st.events ++ added ∧
      ∀ f1 f2 ty mem, Event.parseDML f1 f2 ty mem ∈ added →
        ∀ fuel q, (q ∈ followNext mem fuel (some f1) ∨ q ∈ followNext2 mem fuel (some f2)) →
          s ≤ q := by
  have hev := fun sp fl => flushAfter_events env t sp fl row
  by_cases hpc : isPieceOp row.op = true
  · by_cases hfb : ((rec1 st.mem st.idx).suppLogFb &&& env.FB_L) = 0
    · obtain ⟨sp, fl, h1, h2, h3⟩ := flushRow_piece env t st st2 row hpc h
      have hfl : fl = false := by rw [h3]; simp [hfb]
      subst hfl
      have hsp : sp.events = st.events :=
        (flushPiece_ok env st sp st.idx row.op false h1).2.2.2.2.2 rfl
      rcases hev sp false with e | e
      · exact ⟨[], by rw [h2, e, hsp, List.append_nil], fun _ _ _ _ hm => by cases hm⟩
      · refine ⟨_, by rw [h2, e, hsp], fun f1 f2 ty mem hm => ?_⟩
        exact absurd hm (parseDML_not_bracket t _ (Or.inr rfl) f1 f2 ty mem)
    · obtain ⟨sp, f1, rest, -, a2, a3, -, -, -, -, -, -, a10, -, -, a13, a14⟩ :=
        flushRow_emit_chain env t st st2 row s ch hinv hp hpc hfb h
      refine ⟨_, a2, fun g1 g2 ty mem hm fuel q hq => ?_⟩
      rcases List.mem_cons.1 hm with e | e
      · obtain ⟨e1, e2, -, e4⟩ := Event.parseDML.inj e
        subst e1 e2 e4
        rw [a13 fuel, a14 fuel, or_self] at hq
        exact ((a10 q).1 (List.mem_of_mem_take hq)).1
      · exact absurd e (parseDML_not_bracket t _ a3 g1 g2 ty mem)
  · have hp2 : isPieceOp row.op = false := by simpa using hpc
    unfold flushRow at h
    cases hsw : flushSwitch env st st.idx row.op with
    | error e => rw [hsw] at h; cases h
    | ok r =>
      obtain ⟨st1, fl⟩ := r
      rw [hsw] at h
      have h2 := Except.ok.inj h
      obtain ⟨-, -, -, e, b4, -, b6⟩ := flushSwitch_other env st st1 st.idx row.op fl hp2 hsw
      have hne : ∀ f1 f2 ty mem, Event.parseDML f1 f2 ty mem ≠ e := by
        intro f1 f2 ty mem hc
        rw [← hc] at b6
        simp [dmlTypes] at b6
      rcases hev st1 fl with e1 | e1
      · refine ⟨[e], by rw [← h2, e1, b4], fun f1 f2 ty mem hm => ?_⟩
        rw [List.mem_singleton] at hm
        exact absurd hm (hne f1 f2 ty mem)
      · refine ⟨e :: [Event.processCommit, Event.processBegin t.lastScn t.commitTime t.xid],
          by rw [← h2, e1, b4, List.append_assoc]; rfl, fun f1 f2 ty mem hm => ?_⟩
        rcases List.mem_cons.1 hm with c | c
        · exact absurd c (hne f1 f2 ty mem)
        · exact absurd c (parseDML_not_bracket t _ (Or.inr rfl) f1 f2 ty mem)

theorem flushRows_cons_ok (env : Env) (t : Transaction) (st st2 stA : FlushState) (row : Row)
    (mid : List Row) (h : flushRow env t st row = .ok st2)
    (hm : flushRows env t st2 mid = .ok stA) : flushRows env t st (row :: mid) = .ok stA := by
  simp only [flushRows, h]
  exact hm

theorem append_cons_rest (env : Env) (t : Transaction) (st : FlushState) (e : Event)
    (row : Row) :
    ∃ rest, (flushAfter env t { st with events := st.events ++ [e] } true row).events =
        st.events ++ e :: rest ∧
      (rest = [] ∨
        rest = [Event.processCommit, Event.processBegin t.lastScn t.commitTime t.xid]) := by
  rcases flushAfter_events env t { st with events := st.events ++ [e] } true row with h | h
  · exact ⟨[], h, Or.inl rfl⟩
  · exact ⟨_, by rw [h, List.append_assoc]; rfl, Or.inr rfl⟩

theorem flushRow_selfcontained (env : Env) (t : Transaction) (st : FlushState) (row : Row)
    (hop : row.op = 0x05010B0B ∨ row.op = 0x05010B0C ∨ row.op = 0x18010000) :
    ∃ e, (e = Event.parseInsertMultiple st.idx st.idx ∨
        e = Event.parseDeleteMultiple st.idx st.idx ∨ e = Event.parseDDL st.idx) ∧
      flushRow env t st row =
        .ok (flushAfter env t { st with events := st.events ++ [e] } true row) := by
  rcases hop with h | h | h
  · refine ⟨_, Or.inl rfl, ?_⟩
    unfold flushRow flushSwitch
    rw [h, if_neg (by decide), if_pos rfl]
  · refine ⟨_, Or.inr (Or.inl rfl), ?_⟩
    unfold flushRow flushSwitch
    rw [h, if_neg (by decide), if_neg (by decide), if_pos rfl]
  · refine ⟨_, Or.inr (Or.inr rfl), ?_⟩
    unfold flushRow flushSwitch
    rw [h, if_neg (by decide), if_neg (by decide), if_neg (by decide), if_pos rfl]

/-- C39: let the walk of `flush` reach a self-contained record (`op2` one of
`0x05010B0B`, `0x05010B0C`, `0x18010000`) while a row chain is open, the stored
records having null links. The record is processed without a fatal condition;
it issues its own call and no `parseDML`, and afterwards no chain is open and
`type` is 0. The pending pieces `ch` (the rows from `chainStart` up to the
record) are never passed to `parseDML`: every chain that a later `parseDML` of
the walk hands over, read from `first1` or from `first2`, is made of rows after
the record. The next row piece (after any further self-contained records) finds
no chain open and `type = 0`: it starts a chain of its own, classified from
scratch. -/
theorem flush_selfcontained_resets (env : Env) (t0 : Transaction) (pre post : List Row)
    (row : Row) (st1 : FlushState) (hnull : ∀ r ∈ t0.rows, r.nullLinks)
    (hrows : t0.rows = pre ++ row :: post)
    (hpre : flushRows env t0 (walkStart t0) pre = .ok st1)
    (hop : row.op = 0x05010B0B ∨ row.op = 0x05010B0C ∨ row.op = 0x18010000)
    (hopen : st1.first1 ≠ none) :
    ∃ st2 e rest ch, flushRow env t0 st1 row = .ok st2 ∧
      st2.events = st1.events ++ e :: rest ∧
      (e = Event.parseInsertMultiple pre.length pre.length ∨
        e = Event.parseDeleteMultiple pre.length pre.length ∨ e = Event.parseDDL pre.length) ∧
      (rest = [] ∨
        rest = [Event.processCommit, Event.processBegin t0.lastScn t0.commitTime t0.xid]) ∧
      st2.first1 = none ∧ st2.first2 = none ∧ st2.last1 = none ∧ st2.last2 = none ∧
      st2.type = 0 ∧
      ch ≠ [] ∧ st1.first1 = ch.head? ∧
      (∀ q, q ∈ ch ↔ chainStart env pre ≤ q ∧ q < pre.length) ∧
      (∀ mid row1 post1 stA stB, post = mid ++ row1 :: post1 →
        flushRows env t0 st2 mid = .ok stA → flushRow env t0 stA row1 = .ok stB →
        ∃ added, stB.events = stA.events ++ added ∧
          ∀ f1 f2 ty mem, Event.parseDML f1 f2 ty mem ∈ added →
            ∀ fuel q,
              (q ∈ followNext mem fuel (some f1) ∨ q ∈ followNext2 mem fuel (some f2)) →
              pre.length < q ∧ q ∉ ch) ∧
      ∀ mid row1 post1 stA stB, post = mid ++ row1 :: post1 →
        (∀ r ∈ mid, isPieceOp r.op = false) → isPieceOp row1.op = true →
        flushRows env t0 st2 mid = .ok stA → flushRow env t0 stA row1 = .ok stB →
        stA.first1 = none ∧ stA.type = 0 ∧ stA.idx = pre.length + 1 + mid.length ∧
          ((row1.redoLogRecord1.suppLogFb &&& env.FB_L) = 0 →
            stB.first1 = some stA.idx ∧ stB.last1 = some stA.idx ∧
              stB.type = nextType env 0 row1.op) ∧
          ((row1.redoLogRecord1.suppLogFb &&& env.FB_L) ≠ 0 →
            ∃ mem rest1, stB.events = stA.events ++
                Event.parseDML stA.idx stA.idx (nextType env 0 row1.op) mem :: rest1 ∧
              ∀ fuel, 1 ≤ fuel → followNext mem fuel (some stA.idx) = [stA.idx] ∧
                followNext2 mem fuel (some stA.idx) = [stA.idx]) := by
  obtain ⟨ch, hinv, hidx, hlen⟩ := flush_reach_chain env t0 hnull pre (row :: post) st1 hrows hpre
  obtain ⟨e, he, hfr⟩ := flushRow_selfcontained env t0 st1 row hop
  have hnp : isPieceOp row.op = false := by
    rcases hop with h | h | h <;> rw [h] <;> rfl
  have hemit : row.emits env = true := by
    unfold Row.emits
    rw [hnp]
    rfl
  obtain ⟨-, -, -, -, p5, p6, p7, p8⟩ :=
    flushAfter_pointers env t0 { st1 with events := st1.events ++ [e] } row
  have hty := (flushAfter_ok env t0 { st1 with events := st1.events ++ [e] } true row).2.2.1
  have hch : ch ≠ [] := fun hc => by
    rw [hc] at hinv
    exact hopen hinv.2.1
  have hreach : ∀ mid stA, flushRows env t0 (flushAfter env t0
      { st1 with events := st1.events ++ [e] } true row) mid = .ok stA →
      flushRows env t0 (walkStart t0) (pre ++ row :: mid) = .ok stA := by
    intro mid stA hm
    rw [flushRows_append, hpre]
    exact flushRows_cons_ok env t0 st1 _ stA row mid hfr hm
  obtain ⟨rest, hr1, hr2⟩ := append_cons_rest env t0 st1 e row
  refine ⟨_, e, rest, ch, hfr, hr1, by rw [← hidx]; exact he, hr2, p5, p6, p7, p8,
    by rw [hty]; rfl, hch, hinv.2.1, by rw [← hidx]; exact hinv.2.2.2.2.1, ?_, ?_⟩
  · intro mid row1 post1 stA stB hpost hm hrB
    have hrows2 : t0.rows = (pre ++ row :: mid) ++ row1 :: post1 := by
      rw [hrows, hpost]
      simp
    obtain ⟨chA, hinvA, hidxA, hlenA⟩ := flush_reach_chain env t0 hnull (pre ++ row :: mid)
      (row1 :: post1) stA hrows2 (hreach mid stA hm)
    have hpA : stA.idx < stA.mem.length := by
      rw [hidxA, hlenA, hrows2]
      simp only [List.length_append, List.length_cons]
      omega
    obtain ⟨added, ha1, ha2⟩ := flushRow_added env t0 stA stB row1 _ chA hinvA hpA hrB
    refine ⟨added, ha1, fun f1 f2 ty mem hmem fuel q hq => ?_⟩
    have hge := chainStart_ge env pre row hemit mid
    have hq2 := ha2 f1 f2 ty mem hmem fuel q hq
    refine ⟨by omega, fun hqc => ?_⟩
    have := ((hinv.2.2.2.2.1 q).1 hqc).2
    omega
  · intro mid row1 post1 stA stB hpost hmid hpc hm hrB
    have hrows2 : t0.rows = (pre ++ row :: mid) ++ row1 :: post1 := by
      rw [hrows, hpost]
      simp
    obtain ⟨chA, hinvA, hidxA, hlenA⟩ := flush_reach_chain env t0 hnull (pre ++ row :: mid)
      (row1 :: post1) stA hrows2 (hreach mid stA hm)
    have hpA : stA.idx < stA.mem.length := by
      rw [hidxA, hlenA, hrows2]
      simp only [List.length_append, List.length_cons]
      omega
    have hall : chainStart env (pre ++ row :: mid) = (pre ++ row :: mid).length :=
      chainStart_all env pre row hemit mid (fun x hx => by
        unfold Row.emits
        rw [hmid x hx]
        rfl)
    rw [hall, ← hidxA] at hinvA
    have hcA := chainInv_empty stA chA hinvA
    subst hcA
    have hfA : stA.first1 = none := hinvA.2.1
    have htA : stA.type = 0 := hinvA.2.2.2.2.2.2.2 hfA
    obtain ⟨-, hs1, -⟩ := reach_record env t0 (pre ++ row :: mid) post1 row1 stA hrows2
      (hreach mid stA hm)
    have hfbeq : (rec1 stA.mem stA.idx).suppLogFb = row1.redoLogRecord1.suppLogFb :=
      (strip_fields _ _ hs1).2.2.2.2
    refine ⟨hfA, htA, by rw [hidxA]; simp only [List.length_append, List.length_cons]; omega,
      fun hfb => ?_, fun hfb => ?_⟩
    · obtain ⟨sp, fl, h1, h2, h3⟩ := flushRow_piece env t0 stA stB row1 hpc hrB
      have hfl : fl = false := by rw [h3, hfbeq]; simp [hfb]
      subst hfl
      obtain ⟨-, m1, -, m3, -, -, -⟩ := flushPiece_first env stA sp stA.idx row1.op false hfA h1
      obtain ⟨q1, -, q3, -⟩ := flushAfter_pointers env t0 sp row1
      have hty2 := (flushAfter_ok env t0 sp false row1).2.2.1
      have hsp := (flushPiece_ok env stA sp stA.idx row1.op false h1).2.2.1
      refine ⟨by rw [h2, q1, m1], by rw [h2, q3, m3], ?_⟩
      rw [h2, hty2, hsp, htA]
      rfl
    · obtain ⟨sp, f1, rest1, -, a2, -, -, -, -, -, a8, -, -, -, -, a13, a14⟩ :=
        flushRow_emit_chain env t0 stA stB row1 _ _ hinvA hpA hpc (by rw [hfbeq]; exact hfb) hrB
      have hpcn : pieceChain env stA row1.op [] = [stA.idx] := by
        unfold pieceChain
        rw [hfA]
      rw [hpcn] at a8 a13 a14
      have hf1 : f1 = stA.idx := by
        simp only [List.head?_cons, Option.some.injEq] at a8
        exact a8.symm
      subst hf1
      rw [htA] at a2
      refine ⟨sp.mem, rest1, a2, fun fuel hfuel => ?_⟩
      rw [a13 fuel, a14 fuel, List.take_of_length_le (by simpa using hfuel)]
      exact ⟨rfl, rfl⟩

theorem flush_selfcontained_resets_witness :
    (walkAfter sampleEnv resetTx 1).first1 ≠ none ∧
      ∃ st2, flushRow sampleEnv resetTx (walkAfter sampleEnv resetTx 1) multiRow = .ok st2 ∧
        st2.first1 = none ∧ st2.type = 0 := by
  refine ⟨by decide, ?_⟩
  obtain ⟨st2, e, rest, ch, h1, -, -, -, h5, -, -, -, h9, -⟩ :=
    flush_selfcontained_resets sampleEnv resetTx [s1RowA] [s1RowB] multiRow
      (walkAfter sampleEnv resetTx 1) (by decide) (by rfl) (by rfl) (Or.inl rfl) (by decide)
  exact ⟨st2, h1, h5, h9⟩

/-! ### Counters and SCN bounds on sequences of calls -/

theorem add_lastScn (env : Env) (t : Transaction) (r1 r2 : RedoLogRecord) (sequence scn : Nat) :
    (t.add env r1 r2 sequence scn).lastScn =
      if t.lastScn = env.ZERO_SCN ∨ t.lastScn < scn then scn else t.lastScn := by
  unfold Transaction.add
  rw [touch_lastScn]
  rfl

/-- One call keeps `firstScn ≤ lastScn` when its rollback finds `lastScn` set, which is the
case when the chunk store holds a tuple; and a call with a real scn argument leaves `lastScn`
set whenever the chunk store holds a tuple afterwards. -/
theorem call_scn_real (env : Env) (t : Transaction) (c : Call)
    (hc : c.scn ≠ env.ZERO_SCN) (hg : lastOpGuarded env t [c] = true)
    (h : t.firstScn ≤ t.lastScn) (hr : t.rows ≠ [] → t.lastScn ≠ env.ZERO_SCN) :
    (t.call env c).firstScn ≤ (t.call env c).lastScn ∧
      ((t.call env c).rows ≠ [] → (t.call env c).lastScn ≠ env.ZERO_SCN) := by
  cases c with
  | touch scn sequence =>
    refine ⟨touch_scn_le _ _ _ _, fun _ => ?_⟩
    simp only [Transaction.call, touch_lastScn]
    simp only [Call.scn] at hc
    split_ifs with h1
    · exact hc
    · exact fun h2 => h1 (Or.inl h2)
  | add r1 r2 sequence scn =>
    refine ⟨add_scn_le _ _ _ _ _ _, fun _ => ?_⟩
    simp only [Transaction.call, add_lastScn]
    simp only [Call.scn] at hc
    split_ifs with h1
    · exact hc
    · exact fun h2 => h1 (Or.inl h2)
  | rollbackPartOp rb1 rb2 scn =>
    simp only [Call.scn] at hc
    simp only [Transaction.call]
    cases hs : TransactionBuffer.spliceChunks (fun row => Transaction.matchesForRollback env
      row.redoLogRecord1 row.redoLogRecord2 rb1 rb2) t.chunks with
    | some chunks1 =>
      obtain ⟨-, -, -, h4, h5⟩ := rollbackPartOp_found env t rb1 rb2 scn chunks1 hs
      have hl := spliceChunks_length _ _ _ hs
      have hne : t.rows ≠ [] := by
        intro h0
        have : (t.chunks.flatMap TransactionChunk.rows).length = 0 := by
          show t.rows.length = 0
          rw [h0]
          rfl
        omega
      have hz := hr hne
      rw [h4, h5]
      split_ifs with h1
      · rcases h1 with h1 | h1
        · exact absurd h1 hz
        · exact ⟨by omega, fun _ => hc⟩
      · exact ⟨h, fun _ => hz⟩
    | none =>
      rw [rollbackPartOp_not_found env t rb1 rb2 scn hs]
      exact ⟨h, hr⟩
  | rollbackLastOp scn =>
    simp only [Call.scn] at hc
    simp only [lastOpGuarded, Bool.and_true, decide_eq_true_eq] at hg
    have hz := hr hg
    simp only [Transaction.call]
    rw [rollbackLastOp_firstScn, rollbackLastOp_lastScn]
    split_ifs with h1
    · rcases h1 with h1 | h1
      · exact absurd h1 hz
      · exact ⟨by omega, fun _ => hc⟩
    · exact ⟨h, fun _ => hz⟩

/-- In every state reached by calls with real scn arguments in which `rollbackLastOp` is
only called while the chunk store holds a tuple, `firstScn ≤ lastScn`, and `lastScn` is set
whenever the chunk store holds a tuple. -/
theorem calls_scn_real (env : Env) :
    ∀ (cs : List Call) (t : Transaction), (∀ c ∈ cs, c.scn ≠ env.ZERO_SCN) →
      lastOpGuarded env t cs = true → t.firstScn ≤ t.lastScn →
      (t.rows ≠ [] → t.lastScn ≠ env.ZERO_SCN) →
      (t.calls env cs).firstScn ≤ (t.calls env cs).lastScn ∧
        ((t.calls env cs).rows ≠ [] → (t.calls env cs).lastScn ≠ env.ZERO_SCN)
  | [], t, _, _, h, hr => by simpa [Transaction.calls] using ⟨h, hr⟩
  | c :: cs, t, hc, hg, h, hr => by
    have hg1 : lastOpGuarded env t [c] = true := by
      simp only [lastOpGuarded, Bool.and_true]
      simp only [lastOpGuarded, Bool.and_eq_true] at hg
      exact hg.1
    have hg2 : lastOpGuarded env (t.call env c) cs = true := by
      simp only [lastOpGuarded, Bool.and_eq_true] at hg
      exact hg.2
    obtain ⟨k1, k2⟩ := call_scn_real env t c (hc c (List.mem_cons_self _ _)) hg1 h hr
    have := calls_scn_real env cs (t.call env c)
      (fun c' hc' => hc c' (List.mem_cons_of_mem _ hc')) hg2 k1 k2
    simpa [Transaction.calls] using this

/-- With `ZERO_SCN = 0` every call keeps `firstScn ≤ lastScn`. -/
theorem call_scn_zero (env : Env) (hz : env.ZERO_SCN = 0) (t : Transaction) (c : Call)
    (h : t.firstScn ≤ t.lastScn) : (t.call env c).firstScn ≤ (t.call env c).lastScn := by
  cases c with
  | touch scn sequence => exact touch_scn_le _ _ _ _
  | add r1 r2 sequence scn => exact add_scn_le _ _ _ _ _ _
  | rollbackPartOp rb1 rb2 scn =>
    simp only [Transaction.call]
    cases hs : TransactionBuffer.spliceChunks (fun row => Transaction.matchesForRollback env
      row.redoLogRecord1 row.redoLogRecord2 rb1 rb2) t.chunks with
    | some chunks1 =>
      obtain ⟨-, -, -, h4, h5⟩ := rollbackPartOp_found env t rb1 rb2 scn chunks1 hs
      rw [h4, h5, hz]
      split_ifs with h1
      · rcases h1 with h1 | h1 <;> omega
      · exact h
    | none =>
      rw [rollbackPartOp_not_found env t rb1 rb2 scn hs]
      exact h
  | rollbackLastOp scn =>
    simp only [Transaction.call]
    rw [rollbackLastOp_firstScn, rollbackLastOp_lastScn, hz]
    split_ifs with h1
    · rcases h1 with h1 | h1 <;> omega
    · exact h

theorem calls_scn_zero (env : Env) (hz : env.ZERO_SCN = 0) :
    ∀ (cs : List Call) (t : Transaction), t.firstScn ≤ t.lastScn →
      (t.calls env cs).firstScn ≤ (t.calls env cs).lastScn
  | [], t, h => by simpa [Transaction.calls] using h
  | c :: cs, t, h => by
    have := calls_scn_zero env hz cs (t.call env c) (call_scn_zero env hz t c h)
    simpa [Transaction.calls] using this

/-- C9: `firstScn ≤ lastScn` holds in every state reached from a newly constructed
transaction (where both are `ZERO_SCN`) by a finite sequence of `touch`, `add`,
`rollbackPartOp` and `rollbackLastOp` calls: for every value of `ZERO_SCN` when the scn
arguments are scns, that is, differ from the "unset" value `ZERO_SCN`, and `rollbackLastOp`
is called only while the chunk store holds a tuple to undo; and for all scn arguments and
all sequences when `ZERO_SCN` is 0. -/
theorem firstScn_le_lastScn (env : Env) (xid : Nat) (cs : List Call)
    (h : ((∀ c ∈ cs, c.scn ≠ env.ZERO_SCN) ∧
        lastOpGuarded env (Transaction.new env xid) cs = true) ∨ env.ZERO_SCN = 0) :
    ((Transaction.new env xid).calls env cs).firstScn ≤
      ((Transaction.new env xid).calls env cs).lastScn := by
  rcases h with ⟨h1, h2⟩ | h
  · exact (calls_scn_real env cs _ h1 h2 (Nat.le_refl _) (fun h0 => absurd rfl h0)).1
  · exact calls_scn_zero env h cs _ (Nat.le_refl _)

theorem firstScn_le_lastScn_witness :
    ((∀ c ∈ [Call.add s4r1 s4r2 1 100, .rollbackPartOp s4rb1 s4rb2 150, .touch 90 1,
          .add s4r1 s4r2 1 120, .rollbackLastOp 160], c.scn ≠ sampleEnv.ZERO_SCN) ∧
        lastOpGuarded sampleEnv (Transaction.new sampleEnv 1)
          [.add s4r1 s4r2 1 100, .rollbackPartOp s4rb1 s4rb2 150, .touch 90 1,
            .add s4r1 s4r2 1 120, .rollbackLastOp 160] = true) ∧
      ((Transaction.new sampleEnv 1).calls sampleEnv
        [.add s4r1 s4r2 1 100, .rollbackPartOp s4rb1 s4rb2 150, .touch 90 1,
          .add s4r1 s4r2 1 120, .rollbackLastOp 160]).firstScn ≤
      ((Transaction.new sampleEnv 1).calls sampleEnv
        [.add s4r1 s4r2 1 100, .rollbackPartOp s4rb1 s4rb2 150, .touch 90 1,
          .add s4r1 s4r2 1 120, .rollbackLastOp 160]).lastScn :=
  ⟨⟨by decide, by decide⟩,
    firstScn_le_lastScn sampleEnv 1 _ (Or.inl ⟨by decide, by decide⟩)⟩

/-- C10: when the chunk store holds a pair matching `(rb1, rb2)`,
`rollbackPartOp(rb1, rb2, scn)` returns true; and when the previous `lastScn` is set, that
is, differs from `ZERO_SCN` (or `ZERO_SCN` is 0), `lastScn` afterwards is `scn` if `scn` is
greater than the previous `lastScn` and is unchanged otherwise. The previous `lastScn` is
set in every state that holds a pair and was reached from a newly constructed transaction
by calls with scn arguments other than `ZERO_SCN`, `rollbackLastOp` being called only while
the chunk store holds a tuple. From `lastScn = 100` a rollback at scn 150 gives
`lastScn = 150`. -/
theorem rollbackPartOp_lastScn (env : Env) (t : Transaction) (rb1 rb2 : RedoLogRecord)
    (scn : Nat)
    (h : ∃ row ∈ t.rows, Transaction.matchesForRollback env row.redoLogRecord1
      row.redoLogRecord2 rb1 rb2 = true) :
    (t.rollbackPartOp env rb1 rb2 scn).1 = true ∧
      (t.lastScn ≠ env.ZERO_SCN ∨ env.ZERO_SCN = 0 →
        (t.rollbackPartOp env rb1 rb2 scn).2.lastScn =
          (if scn > t.lastScn then scn else t.lastScn)) ∧
      (∀ (xid : Nat) (cs : List Call), (∀ c ∈ cs, c.scn ≠ env.ZERO_SCN) →
        lastOpGuarded env (Transaction.new env xid) cs = true →
        t = (Transaction.new env xid).calls env cs →
        (t.rollbackPartOp env rb1 rb2 scn).2.lastScn =
          (if scn > t.lastScn then scn else t.lastScn)) ∧
      (t.lastScn = 100 → scn = 150 → (t.rollbackPartOp env rb1 rb2 scn).2.lastScn = 150) := by
  obtain ⟨chunks1, hs⟩ := exists_match_splice env t rb1 rb2 h
  obtain ⟨h1, -, -, -, h5⟩ := rollbackPartOp_found env t rb1 rb2 scn chunks1 hs
  have key : t.lastScn ≠ env.ZERO_SCN ∨ env.ZERO_SCN = 0 →
      (t.rollbackPartOp env rb1 rb2 scn).2.lastScn =
        (if scn > t.lastScn then scn else t.lastScn) := by
    intro hz
    rw [h5]
    rcases hz with hz | hz
    · split_ifs with a b b
      · rfl
      · rcases a with a | a
        · exact absurd a hz
        · exact absurd a b
      · exact absurd (Or.inr b) a
      · rfl
    · rw [hz]
      split_ifs with a b b
      · rfl
      · rcases a with a | a <;> omega
      · exact absurd (Or.inr b) a
      · rfl
  refine ⟨h1, key, ?_, ?_⟩
  · intro xid cs hreal hg ht
    have hne : t.rows ≠ [] := by
      obtain ⟨row, hrow, -⟩ := h
      exact List.ne_nil_of_mem hrow
    refine key (Or.inl ?_)
    rw [ht] at hne ⊢
    exact (calls_scn_real env cs _ hreal hg (Nat.le_refl _) (fun h0 => absurd rfl h0)).2 hne
  · intro hl hscn
    rw [h5, hl, hscn]
    simp

theorem rollbackPartOp_lastScn_witness :
    (∃ row ∈ ((Transaction.new sampleEnv 1).add sampleEnv s4r1 s4r2 1 100).rows,
        Transaction.matchesForRollback sampleEnv row.redoLogRecord1 row.redoLogRecord2
          s4rb1 s4rb2 = true) ∧
      (((Transaction.new sampleEnv 1).add sampleEnv s4r1 s4r2 1 100).rollbackPartOp sampleEnv
        s4rb1 s4rb2 150).1 = true ∧
      (((Transaction.new sampleEnv 1).add sampleEnv s4r1 s4r2 1 100).rollbackPartOp sampleEnv
        s4rb1 s4rb2 150).2.lastScn =
        (if 150 > ((Transaction.new sampleEnv 1).add sampleEnv s4r1 s4r2 1 100).lastScn
          then 150 else ((Transaction.new sampleEnv 1).add sampleEnv s4r1 s4r2 1 100).lastScn) ∧
      (((Transaction.new sampleEnv 1).add sampleEnv s4r1 s4r2 1 100).rollbackPartOp sampleEnv
        s4rb1 s4rb2 150).2.lastScn = 150 :=
  have h : ∃ row ∈ ((Transaction.new sampleEnv 1).add sampleEnv s4r1 s4r2 1 100).rows,
        Transaction.matchesForRollback sampleEnv row.redoLogRecord1 row.redoLogRecord2
          s4rb1 s4rb2 = true := by decide
  ⟨h, (rollbackPartOp_lastScn sampleEnv _ s4rb1 s4rb2 150 h).1,
    (rollbackPartOp_lastScn sampleEnv _ s4rb1 s4rb2 150 h).2.2.1 1 [.add s4r1 s4r2 1 100]
      (by decide) (by decide) rfl,
    (rollbackPartOp_lastScn sampleEnv _ s4rb1 s4rb2 150 h).2.2.2 (by decide) rfl⟩

/-- The chunk store after a sequence of calls in which `rollbackLastOp` is only called while
the store holds a tuple: no chunk is empty, `opCodes` is the number of stored tuples, and
there are at most as many more tuples as calls were made. -/
theorem calls_store (env : Env) :
    ∀ (cs : List Call) (t : Transaction), noEmptyChunk t.chunks → t.opCodes = t.rows.length →
      t.rows.length + cs.length < 2 ^ 64 → lastOpGuarded env t cs = true →
      noEmptyChunk (t.calls env cs).chunks ∧
        (t.calls env cs).opCodes = (t.calls env cs).rows.length ∧
        (t.calls env cs).rows.length ≤ t.rows.length + cs.length
  | [], t, hne, hop, _, _ => by simpa [Transaction.calls] using ⟨hne, hop⟩
  | c :: cs, t, hne, hop, hlt, hg => by
    simp only [List.length_cons] at hlt
    have hg1 : lastOpGuarded env t [c] = true := by
      simp only [lastOpGuarded, Bool.and_true]
      simp only [lastOpGuarded, Bool.and_eq_true] at hg
      exact hg.1
    have hg2 : lastOpGuarded env (t.call env c) cs = true := by
      simp only [lastOpGuarded, Bool.and_eq_true] at hg
      exact hg.2
    obtain ⟨h1, h2, h3⟩ := call_counts env t c hne hop (by omega) hg1
    obtain ⟨k1, k2, k3⟩ := calls_store env cs (t.call env c) h1 h2 (by omega) hg2
    refine ⟨by simpa [Transaction.calls] using k1, by simpa [Transaction.calls] using k2, ?_⟩
    have : (t.calls env (c :: cs)) = (t.call env c).calls env cs := by
      simp [Transaction.calls]
    rw [this, List.length_cons]
    omega

/-- C8: let `t` be a state reached from a newly constructed transaction by fewer than
`2 ^ 64 - 1` calls of `touch`, `add`, `rollbackPartOp` and `rollbackLastOp`, with
`rollbackLastOp` called only while the chunk store holds a tuple to undo. Then `opCodes` is
the number of stored tuples (it has neither gone below zero nor wrapped); `add` increases
`opCodes` by exactly one; `rollbackLastOp`, called while the store holds a tuple, and every
`rollbackPartOp` that returns true decrease it by exactly one; and `add` followed by a
matching `rollbackPartOp`, or by `rollbackLastOp`, restores the value. On any state `t0`
whatever, reached or not, `add` increases a counter below its maximum by exactly one, and
`rollbackLastOp` on a store that holds a tuple and every `rollbackPartOp` that returns true
decrease a counter above zero by exactly one. -/
theorem opCodes_counts (env : Env) (xid : Nat) (cs : List Call) (t : Transaction)
    (r1 r2 rb1 rb2 : RedoLogRecord) (sequence scn scn2 : Nat)
    (ht : t = (Transaction.new env xid).calls env cs) (hlen : cs.length + 1 < 2 ^ 64)
    (hg : lastOpGuarded env (Transaction.new env xid) cs = true) :
    t.opCodes = t.rows.length ∧
      (t.add env r1 r2 sequence scn).opCodes = t.opCodes + 1 ∧
      (t.rows ≠ [] → (t.rollbackLastOp env scn).opCodes + 1 = t.opCodes) ∧
      ((t.rollbackPartOp env rb1 rb2 scn).1 = true →
        (t.rollbackPartOp env rb1 rb2 scn).2.opCodes + 1 = t.opCodes) ∧
      (Transaction.matchesForRollback env r1 r2 rb1 rb2 = true →
        ((t.add env r1 r2 sequence scn).rollbackPartOp env rb1 rb2 scn2).1 = true ∧
          ((t.add env r1 r2 sequence scn).rollbackPartOp env rb1 rb2 scn2).2.opCodes =
            t.opCodes) ∧
      ((t.add env r1 r2 sequence scn).rollbackLastOp env scn2).opCodes = t.opCodes ∧
      ∀ t0 : Transaction,
        (t0.opCodes + 1 < 2 ^ 64 → (t0.add env r1 r2 sequence scn).opCodes = t0.opCodes + 1) ∧
        (0 < t0.opCodes → t0.opCodes < 2 ^ 64 →
          (t0.rows ≠ [] → (t0.rollbackLastOp env scn).opCodes + 1 = t0.opCodes) ∧
          ((t0.rollbackPartOp env rb1 rb2 scn).1 = true →
            (t0.rollbackPartOp env rb1 rb2 scn).2.opCodes + 1 = t0.opCodes)) := by
  obtain ⟨-, hop, hle⟩ := calls_store env cs (Transaction.new env xid)
    (by intro tc htc; simp [Transaction.new] at htc) rfl
    (by simp only [Transaction.new, Transaction.rows, List.flatMap_nil, List.length_nil]; omega)
    hg
  rw [← ht] at hop hle
  have hle2 : t.rows.length ≤ cs.length := by
    simpa [Transaction.new, Transaction.rows] using hle
  have hadd : (t.add env r1 r2 sequence scn).opCodes = t.opCodes + 1 := by
    rw [add_opCodes]; omega
  refine ⟨hop, hadd, ?_, ?_, ?_, ?_, fun t0 => ⟨fun h0 => ?_, fun h0 h1 => ⟨fun _ => ?_, ?_⟩⟩⟩
  · intro hne
    have hpos : 0 < t.rows.length := List.length_pos.2 hne
    rw [rollbackLastOp_opCodes]; omega
  · intro hfound
    cases hs : TransactionBuffer.spliceChunks (fun row => Transaction.matchesForRollback env
      row.redoLogRecord1 row.redoLogRecord2 rb1 rb2) t.chunks with
    | some chunks1 =>
      obtain ⟨-, -, h3, -, -⟩ := rollbackPartOp_found env t rb1 rb2 scn chunks1 hs
      have hl := spliceChunks_length _ _ _ hs
      have hpos : 0 < t.rows.length := by
        show 0 < (t.chunks.flatMap TransactionChunk.rows).length
        omega
      rw [h3]; omega
    | none =>
      rw [rollbackPartOp_not_found env t rb1 rb2 scn hs] at hfound
      cases hfound
  · intro hm
    obtain ⟨chunks1, hs⟩ := exists_match_splice env _ rb1 rb2
      (add_then_splice env t r1 r2 rb1 rb2 sequence scn hm)
    refine ⟨(rollbackPartOp_found env _ rb1 rb2 scn2 chunks1 hs).1, ?_⟩
    rw [(rollbackPartOp_found env _ rb1 rb2 scn2 chunks1 hs).2.2.1, hadd]; omega
  · rw [rollbackLastOp_opCodes, hadd]; omega
  · rw [add_opCodes]; omega
  · rw [rollbackLastOp_opCodes]; omega
  · intro hfound
    cases hs : TransactionBuffer.spliceChunks (fun row => Transaction.matchesForRollback env
      row.redoLogRecord1 row.redoLogRecord2 rb1 rb2) t0.chunks with
    | some chunks1 =>
      rw [(rollbackPartOp_found env t0 rb1 rb2 scn chunks1 hs).2.2.1]; omega
    | none =>
      rw [rollbackPartOp_not_found env t0 rb1 rb2 scn hs] at hfound
      cases hfound

theorem opCodes_counts_witness :
    ((Transaction.new sampleEnv 1).calls sampleEnv
        [.add s4r1 s4r2 1 100, .rollbackLastOp 120, .add s4r1 s4r2 1 130]).opCodes =
      ((Transaction.new sampleEnv 1).calls sampleEnv
        [.add s4r1 s4r2 1 100, .rollbackLastOp 120, .add s4r1 s4r2 1 130]).rows.length ∧
      ((((Transaction.new sampleEnv 1).calls sampleEnv
        [.add s4r1 s4r2 1 100, .rollbackLastOp 120, .add s4r1 s4r2 1 130]).add sampleEnv
          s4r1 s4r2 1 110).rollbackPartOp sampleEnv s4rb1 s4rb2 150).2.opCodes =
      ((Transaction.new sampleEnv 1).calls sampleEnv
        [.add s4r1 s4r2 1 100, .rollbackLastOp 120, .add s4r1 s4r2 1 130]).opCodes :=
  have h := opCodes_counts sampleEnv 1
    [.add s4r1 s4r2 1 100, .rollbackLastOp 120, .add s4r1 s4r2 1 130] _
    s4r1 s4r2 s4rb1 s4rb2 1 110 150 rfl (by decide) (by decide)
  ⟨h.1, (h.2.2.2.2.1 (by decide)).2⟩

/-! ### Split-block merge: the bytes written -/

theorem writeAt_length (buffer : List Nat) (pos : Nat) (bytes : List Nat) :
    (writeAt buffer pos bytes).length = max buffer.length (pos + bytes.length) := by
  unfold writeAt
  simp only [List.length_append, List.length_take, List.length_replicate, List.length_drop]
  omega

theorem memcpy_length (dst : List Nat) (dpos : Nat) (src : List Nat) (spos n : Nat) :
    (memcpy dst dpos src spos n).length = max dst.length (dpos + n) := by
  unfold memcpy
  rw [writeAt_length, slice_length]

theorem write16_length (env : Env) (data : List Nat) (off val : Nat) :
    (write16 env data off val).length = max data.length (off + 2) := by
  unfold write16
  simp only []
  split_ifs <;> rw [writeAt_length] <;> rfl

/-- The size of the merged data: the size of the buffer, or the end of the
write that goes furthest when one goes past the buffer. -/
theorem mergeSplitBlocksToBuffer_data_length (env : Env) (buffer : List Nat)
    (r1 r2 : RedoLogRecord) :
    (mergeSplitBlocksToBuffer env buffer r1 r2).1.data.length =
      max (max (max (max (max (max buffer.length (0 + r1.fieldLengthsDelta))
        (r1.fieldLengthsDelta + 2))
        (r1.fieldLengthsDelta + 2 + headCount env r1 * 2))
        (r1.fieldLengthsDelta + 2 + headCount env r1 * 2 +
          (r2.fieldCnt * 2 + (2 ^ 64 - 4)) % 2 ^ 64))
        (r1.fieldLengthsDelta +
          (((headCount env r1 + r2.fieldCnt + 65534) % 65536 + 1) * 2 + 2) % 65536 / 4 * 4 +
          (r1.length - r1.fieldPos)))
        (r1.fieldLengthsDelta +
          (((headCount env r1 + r2.fieldCnt + 65534) % 65536 + 1) * 2 + 2) % 65536 / 4 * 4 +
          (r1.length - r1.fieldPos + 3) % 65536 / 4 * 4 +
          (r2.length - secondDataPos env r2)) := by
  rw [mergeSplitBlocksToBuffer_eq]
  simp only [memcpy_length, write16_length, and_fffc_mod, secondDataPos_fused]

theorem headCount_cases (env : Env) (r : RedoLogRecord) :
    headCount env r = r.fieldCnt ∨ headCount env r = (r.fieldCnt + 65535) % 65536 := by
  unfold headCount
  split_ifs
  · exact Or.inr rfl
  · exact Or.inl rfl

theorem headCount_le (env : Env) (r : RedoLogRecord)
    (hs : (r.flg &&& env.FLG_LASTBUFFERSPLIT) ≠ 0 → 1 ≤ r.fieldCnt) :
    headCount env r ≤ r.fieldCnt := by
  unfold headCount
  by_cases h : (r.flg &&& env.FLG_LASTBUFFERSPLIT) ≠ 0
  · have := hs h
    have hb : ((r.flg &&& env.FLG_LASTBUFFERSPLIT) != 0) = true := by
      simpa using h
    rw [hb]
    simp only [if_true]
    omega
  · have hb : ((r.flg &&& env.FLG_LASTBUFFERSPLIT) != 0) = false := by
      simpa using h
    rw [hb]
    simp

theorem secondDataPos_inside (env : Env) (r : RedoLogRecord) (hl : r.length < 65536)
    (h : r.fieldPos + align4 (read16 env r.data (r.fieldLengthsDelta + 2)) +
      align4 (read16 env r.data (r.fieldLengthsDelta + 4)) ≤ r.length) :
    secondDataPos env r = r.fieldPos + align4 (read16 env r.data (r.fieldLengthsDelta + 2)) +
      align4 (read16 env r.data (r.fieldLengthsDelta + 4)) := by
  unfold secondDataPos
  simp only [and_fffc_mod]
  unfold align4 at h ⊢
  omega

theorem within_arith (N len1 len2 d d2 c1 c2 hc fp1 fp2 M1 M3 sdp a0 a1 : Nat)
    (hN : N = len1 + len2)
    (h1 : fp1 = d + (2 * (c1 + 1) + 3) / 4 * 4) (h2 : fp1 ≤ len1) (hk : hc ≤ c1)
    (t1 : fp2 = d2 + (2 * (c2 + 1) + 3) / 4 * 4) (t4 : 2 ≤ c2)
    (hs : sdp = fp2 + a0 + a1) (t5 : fp2 + a0 + a1 ≤ len2) (hl2 : len2 < 65536)
    (hM1 : M1 + 4 ≤ (2 * (c1 + 1) + 3) / 4 * 4 + (2 * (c2 + 1) + 3) / 4 * 4)
    (hM3 : M3 ≤ len1 - fp1 + 3) :
    max (max (max (max (max (max N (0 + d)) (d + 2)) (d + 2 + hc * 2))
      (d + 2 + hc * 2 + (c2 * 2 + (2 ^ 64 - 4)) % 2 ^ 64)) (d + M1 + (len1 - fp1)))
      (d + M1 + M3 + (len2 - sdp)) = N := by
  have e : (c2 * 2 + (2 ^ 64 - 4)) % 2 ^ 64 = c2 * 2 - 4 := by omega
  rw [e]
  omega

/-- A merge stays inside its buffer: for a first record whose field data starts
right after the aligned field list and lies inside the record, and which has a
field to give up when it carries `FLG_LASTBUFFERSPLIT`, and a well-formed second
record of less than 64K, every write of `mergeSplitBlocksToBuffer` into a buffer
of `length1 + length2` bytes lies inside the buffer. -/
theorem mergeSplitBlocksToBuffer_within (env : Env) (buffer : List Nat)
    (r1 r2 : RedoLogRecord)
    (h1 : r1.fieldPos = r1.fieldLengthsDelta + align4 (2 * (r1.fieldCnt + 1)))
    (h2 : r1.fieldPos ≤ r1.length)
    (hs : (r1.flg &&& env.FLG_LASTBUFFERSPLIT) ≠ 0 → 1 ≤ r1.fieldCnt)
    (ht : wellFormedTail env r2) (hr : r2.length < 65536)
    (hb : buffer.length = r1.length + r2.length) :
    (mergeSplitBlocksToBuffer env buffer r1 r2).1.data.length = r1.length + r2.length := by
  obtain ⟨⟨t1, -, -⟩, t4, t5⟩ := ht
  have hsd := secondDataPos_inside env r2 hr t5
  have hM1 := fieldList_bound r1.fieldCnt r2.fieldCnt t4 (headCount env r1)
    (headCount_cases env r1)
  have hk := headCount_le env r1 hs
  rw [mergeSplitBlocksToBuffer_data_length, hb]
  unfold align4 at h1 t1 t5 hsd
  exact within_arith _ r1.length r2.length r1.fieldLengthsDelta r2.fieldLengthsDelta
    r1.fieldCnt r2.fieldCnt (headCount env r1) r1.fieldPos r2.fieldPos _ _ _ _ _ rfl h1 h2 hk
    t1 t4 hsd t5 hr hM1 (by omega)

theorem merged_wf_arith (d c1 c2 hc fp1 len1 fp2 d2 len2 : Nat)
    (h1 : fp1 = d + (2 * (c1 + 1) + 3) / 4 * 4) (h2 : fp1 ≤ len1) (hk : hc ≤ c1)
    (t1 : fp2 = d2 + (2 * (c2 + 1) + 3) / 4 * 4) (t2 : fp2 ≤ len2) (t4 : 2 ≤ c2)
    (hr : len1 + len2 < 65536) :
    (hc + c2 + 65534) % 65536 + 2 = hc + c2 ∧
      (((hc + c2 + 65534) % 65536 + 1) * 2 + 2) % 65536 / 4 * 4 =
        (2 * ((hc + c2 + 65534) % 65536 + 1) + 3) / 4 * 4 ∧
      d + (2 * ((hc + c2 + 65534) % 65536 + 1) + 3) / 4 * 4 < 65536 := by
  have e : (hc + c2 + 65534) % 65536 = hc + c2 - 2 := by omega
  rw [e]
  omega

/-- The record that a merge leaves is laid out as the merge expects of a first
record: with the sizes in the 16-bit range, its field data starts right after
the aligned field list and lies inside it, it has the fields of both records
but the two delimiters (and the joined one), and its field data is at least as
long as that of the first record. -/
theorem mergeSplitBlocksToBuffer_layout (env : Env) (buffer : List Nat)
    (r1 r2 : RedoLogRecord)
    (h1 : r1.fieldPos = r1.fieldLengthsDelta + align4 (2 * (r1.fieldCnt + 1)))
    (h2 : r1.fieldPos ≤ r1.length)
    (hs : (r1.flg &&& env.FLG_LASTBUFFERSPLIT) ≠ 0 → 1 ≤ r1.fieldCnt)
    (ht : wellFormedTail env r2) (hr : r1.length + r2.length < 65536) :
    (mergeSplitBlocksToBuffer env buffer r1 r2).1.fieldCnt + 2 =
        headCount env r1 + r2.fieldCnt ∧
      (mergeSplitBlocksToBuffer env buffer r1 r2).1.fieldPos =
        r1.fieldLengthsDelta +
          align4 (2 * ((mergeSplitBlocksToBuffer env buffer r1 r2).1.fieldCnt + 1)) ∧
      (mergeSplitBlocksToBuffer env buffer r1 r2).1.fieldPos + (r1.length - r1.fieldPos) ≤
        (mergeSplitBlocksToBuffer env buffer r1 r2).1.length := by
  obtain ⟨⟨t1, t2, -⟩, t4, -⟩ := ht
  have hk := headCount_le env r1 hs
  unfold align4 at h1 t1 ⊢
  have hp : r1.length - r1.fieldPos + 3 < 65536 := by omega
  obtain ⟨-, -, g3, g4, g5⟩ := mergeSplitBlocksToBuffer_fields env buffer r1 r2
  obtain ⟨a1, a2, a3⟩ := merged_wf_arith r1.fieldLengthsDelta r1.fieldCnt r2.fieldCnt
    (headCount env r1) r1.fieldPos r1.length r2.fieldPos r2.fieldLengthsDelta r2.length
    h1 h2 hk t1 t2 t4 hr
  refine ⟨by rw [g3]; exact a1, by rw [g4, g3, a2]; exact Nat.mod_eq_of_lt a3, ?_⟩
  rw [g4, g5, a2, Nat.mod_eq_of_lt a3]
  clear a1 a2 a3 g3 g4 g5 h1 t1
  generalize (2 * ((headCount env r1 + r2.fieldCnt + 65534) % 65536 + 1) + 3) / 4 * 4 = M2
  generalize (r2.length - secondDataPos env r2 + 3) % 65536 / 4 * 4 = M3
  omega

theorem headCount_flag (env : Env) (r : RedoLogRecord)
    (h : (r.flg &&& env.FLG_LASTBUFFERSPLIT) ≠ 0) :
    headCount env r = (r.fieldCnt + 65535) % 65536 := by
  unfold headCount
  have hb : ((r.flg &&& env.FLG_LASTBUFFERSPLIT) != 0) = true := by
    simpa using h
  rw [hb]
  rfl

/-- The merge of a well-formed first record with a well-formed second record,
with sizes in the 16-bit range, leaves a record with which a further merge
stays inside its buffer. -/
theorem mergeSplitBlocksToBuffer_within_next (env : Env) (b1 b2 : List Nat)
    (head mid tail : RedoLogRecord) (hh : wellFormedFragment head)
    (hm : wellFormedTail env mid) (ht : wellFormedTail env tail)
    (hs : (head.flg &&& env.FLG_LASTBUFFERSPLIT) ≠ 0 →
      1 ≤ head.fieldCnt ∧ 4 ≤ head.fieldCnt + mid.fieldCnt)
    (hr : head.length + mid.length < 65536) (hrt : tail.length < 65536)
    (hb2 : b2.length = (mergeSplitBlocksToBuffer env b1 head mid).1.length + tail.length) :
    (mergeSplitBlocksToBuffer env b2 (mergeSplitBlocksToBuffer env b1 head mid).1
        tail).1.data.length =
        (mergeSplitBlocksToBuffer env b1 head mid).1.length + tail.length ∧
      (mergeSplitBlocksToBuffer env b2 (mergeSplitBlocksToBuffer env b1 head mid).1
        tail).1.length ≤
        (mergeSplitBlocksToBuffer env b1 head mid).1.length + tail.length := by
  obtain ⟨l1, l2, l3⟩ := mergeSplitBlocksToBuffer_layout env b1 head mid hh.1 hh.2.1
    (fun h => (hs h).1) hm hr
  have hfl : (mergeSplitBlocksToBuffer env b1 head mid).1.flg = head.flg :=
    (mergeSplitBlocksToBuffer_fields env b1 head mid).1
  have hd : (mergeSplitBlocksToBuffer env b1 head mid).1.fieldLengthsDelta =
      head.fieldLengthsDelta := (mergeSplitBlocksToBuffer_fields env b1 head mid).2.1
  have h1 : (mergeSplitBlocksToBuffer env b1 head mid).1.fieldPos =
      (mergeSplitBlocksToBuffer env b1 head mid).1.fieldLengthsDelta +
        align4 (2 * ((mergeSplitBlocksToBuffer env b1 head mid).1.fieldCnt + 1)) := by
    rw [hd]
    exact l2
  have h2 : (mergeSplitBlocksToBuffer env b1 head mid).1.fieldPos ≤
      (mergeSplitBlocksToBuffer env b1 head mid).1.length := by
    omega
  have hs2 : ((mergeSplitBlocksToBuffer env b1 head mid).1.flg &&& env.FLG_LASTBUFFERSPLIT) ≠ 0 →
      1 ≤ (mergeSplitBlocksToBuffer env b1 head mid).1.fieldCnt := by
    rw [hfl]
    intro h
    have e := headCount_flag env head h
    obtain ⟨s1, s2⟩ := hs h
    rw [e] at l1
    have w1 := hh.1
    have w2 := hh.2.1
    unfold align4 at w1
    clear l2 l3 h1 h2 e
    omega
  exact ⟨mergeSplitBlocksToBuffer_within env b2 _ tail h1 h2 hs2 ht hrt hb2,
    mergeSplitBlocksToBuffer_length_le env b2 _ tail h1 h2 ht⟩

/-- C38 (counterexample): `splitHeadEmpty` is a well-formed head (its field data
starts at `fieldLengthsDelta + align4(2 * (0 + 1)) = 4`, inside its 4 bytes) with
`FLG_LASTBUFFERSPLIT` and no field, `splitTail` a well-formed tail of 12 bytes
with 3 fields. The merge decrements the 16-bit field count of the head from 0
to 65535 and copies `65535 * 2` bytes of field lengths to offset 2 of the
buffer of 16 bytes: the merged length is 8, but the bytes written reach offset
131074. -/
theorem merged_bytes_outside_buffer :
    wellFormedFragment splitHeadEmpty ∧ wellFormedTail sampleEnv splitTail ∧
      splitHeadEmpty.length + splitTail.length = 16 ∧
      (mergeSplitBlocksToBuffer sampleEnv (List.replicate 16 0) splitHeadEmpty
        splitTail).1.length = 8 ∧
      (mergeSplitBlocksToBuffer sampleEnv (List.replicate 16 0) splitHeadEmpty
        splitTail).1.data.length = 131074 ∧
      ¬ (mergeSplitBlocksToBuffer sampleEnv (List.replicate 16 0) splitHeadEmpty
        splitTail).1.data.length ≤ splitHeadEmpty.length + splitTail.length := by
  have h4 : (mergeSplitBlocksToBuffer sampleEnv (List.replicate 16 0) splitHeadEmpty
      splitTail).1.length = 8 := by
    rw [(mergeSplitBlocksToBuffer_fields sampleEnv _ splitHeadEmpty splitTail).2.2.2.2]
    decide
  have h5 : (mergeSplitBlocksToBuffer sampleEnv (List.replicate 16 0) splitHeadEmpty
      splitTail).1.data.length = 131074 := by
    rw [mergeSplitBlocksToBuffer_data_length]
    decide
  refine ⟨by unfold wellFormedFragment; decide, by unfold wellFormedTail wellFormedFragment; decide,
    by decide, h4, h5, ?_⟩
  rw [h5]
  decide

/-- C38 (as amended): for a well-formed head and well-formed second fragments
(the field data starts at `fieldLengthsDelta + align4(2 * (fieldCnt + 1))` and
lies inside the record, the length is a multiple of 4, the second fragment has
at least its two delimiter fields and they lie inside it) such that a head with
`FLG_LASTBUFFERSPLIT` has a field to give up in each merge (`head.fieldCnt ≥ 1`,
and `head.fieldCnt + mid.fieldCnt ≥ 4` for the merge that follows HEAD+MID) and
the lengths are in the 16-bit range of the offsets of the code
(`head.length + mid.length < 65536`, `tail.length < 65536`): every byte that
`mergeSplitBlocksToBuffer` writes lies inside the buffer of
`head.length + tail.length` bytes that `mergeSplitBlocks` allocates, whatever
the buffer holds before (the merged data has the size of the buffer), and the
merged length is at most that size: for the HEAD+MID merge, for the following
merge of the HEAD+MID record with TAIL, and for a HEAD+TAIL merge. -/
theorem merged_length_within_buffer (env : Env) (b1 b2 b3 : List Nat)
    (head mid tail : RedoLogRecord) (hh : wellFormedFragment head)
    (hm : wellFormedTail env mid) (ht : wellFormedTail env tail)
    (hs : (head.flg &&& env.FLG_LASTBUFFERSPLIT) ≠ 0 →
      1 ≤ head.fieldCnt ∧ 4 ≤ head.fieldCnt + mid.fieldCnt)
    (hr : head.length + mid.length < 65536) (hrt : tail.length < 65536)
    (hb1 : b1.length = head.length + mid.length)
    (hb2 : b2.length = (mergeSplitBlocksToBuffer env b1 head mid).1.length + tail.length)
    (hb3 : b3.length = head.length + tail.length) :
    ((mergeSplitBlocksToBuffer env b1 head mid).1.data.length = head.length + mid.length ∧
        (mergeSplitBlocksToBuffer env b1 head mid).1.length ≤ head.length + mid.length) ∧
      ((mergeSplitBlocksToBuffer env b2 (mergeSplitBlocksToBuffer env b1 head mid).1
          tail).1.data.length =
          (mergeSplitBlocksToBuffer env b1 head mid).1.length + tail.length ∧
        (mergeSplitBlocksToBuffer env b2 (mergeSplitBlocksToBuffer env b1 head mid).1
          tail).1.length ≤
          (mergeSplitBlocksToBuffer env b1 head mid).1.length + tail.length) ∧
      ((mergeSplitBlocksToBuffer env b3 head tail).1.data.length = head.length + tail.length ∧
        (mergeSplitBlocksToBuffer env b3 head tail).1.length ≤ head.length + tail.length) :=
  ⟨⟨mergeSplitBlocksToBuffer_within env b1 head mid hh.1 hh.2.1 (fun h => (hs h).1) hm
      (by omega) hb1,
    mergeSplitBlocksToBuffer_length_le env b1 head mid hh.1 hh.2.1 hm⟩,
    mergeSplitBlocksToBuffer_within_next env b1 b2 head mid tail hh hm ht hs hr hrt hb2,
    ⟨mergeSplitBlocksToBuffer_within env b3 head tail hh.1 hh.2.1 (fun h => (hs h).1) ht hrt hb3,
      mergeSplitBlocksToBuffer_length_le env b3 head tail hh.1 hh.2.1 ht⟩⟩

theorem merged_length_within_buffer_witness :
    (mergeSplitBlocksToBuffer sampleEnv (List.replicate 20 0) splitHead splitMid).1.data.length
        = splitHead.length + splitMid.length ∧
      (mergeSplitBlocksToBuffer sampleEnv (List.replicate 24 0)
        (mergeSplitBlocksToBuffer sampleEnv (List.replicate 20 0) splitHead splitMid).1
          splitTail).1.data.length =
      (mergeSplitBlocksToBuffer sampleEnv (List.replicate 20 0) splitHead splitMid).1.length +
        splitTail.length :=
  have h := merged_length_within_buffer sampleEnv (List.replicate 20 0) (List.replicate 24 0)
    (List.replicate 24 0) splitHead splitMid splitTail (by unfold wellFormedFragment; decide)
    (by unfold wellFormedTail wellFormedFragment; decide)
    (by unfold wellFormedTail wellFormedFragment; decide) (fun h => absurd (by decide) h)
    (by decide) (by decide) (by decide) (by decide) (by decide)
  ⟨h.1.1, h.2.1.1⟩


theorem splitBlockGroup_error (env : Env) (t : Transaction) (c : SplitCursor)
    (r : RedoLogRecord) (e : String) (h : splitBlockGroup env t c r = .error e) :
    e = "merging of incomplete split UNDO block" := by
  cases hc : c.curRedoLogRecord with
  | none =>
    unfold splitBlockGroup at h
    rw [hc] at h
    cases h
  | some cur =>
    rw [splitBlockGroup_some env t c r cur hc] at h
    split_ifs at h
    · cases hm : mergeSplitBlocks env t c.headRedoLogRecord1 c.midRedoLogRecord1
          c.tailRedoLogRecord1 c.redoLogRecord2 with
      | ok t1 => rw [hm] at h; cases h
      | error e1 =>
        rw [hm] at h
        have := Except.error.inj h
        subst this
        exact ((mergeSplitBlocks_error_iff env t _ _ _ _).2 e1 hm).1

theorem flushSplitLoop_error (env : Env) :
    ∀ (l : List SplitBlock) (t : Transaction) (c : SplitCursor) (e : String),
      flushSplitLoop env t c l = .error e → e = "merging of incomplete split UNDO block"
  | [], t, c, e, h => by
    simp only [flushSplitLoop] at h
    cases h
  | b :: rest, t, c, e, h => by
    rw [flushSplitLoop] at h
    cases hg : splitBlockGroup env t c b.record1 with
    | error e1 =>
      rw [hg] at h
      have := Except.error.inj h
      subst this
      exact splitBlockGroup_error env t c b.record1 e1 hg
    | ok p =>
      obtain ⟨t1, c1⟩ := p
      rw [hg] at h
      exact flushSplitLoop_error env rest _ _ e h

/-- The only fatal condition that `flushSplitBlocks` raises is that of
`mergeSplitBlocks`. -/
theorem flushSplitBlocks_error (env : Env) (t : Transaction) (e : String)
    (h : flushSplitBlocks env t = .error e) : e = "merging of incomplete split UNDO block" := by
  unfold flushSplitBlocks at h
  split_ifs at h with h0
  cases hl : flushSplitLoop env t {} t.splitBlockList with
  | error e1 =>
    rw [hl] at h
    have := Except.error.inj h
    subst this
    exact flushSplitLoop_error env _ t {} e1 hl
  | ok p =>
    obtain ⟨t1, c⟩ := p
    rw [hl] at h
    simp only [] at h
    split_ifs at h with hc
    exact ((mergeSplitBlocks_error_iff env t1 _ _ _ _).2 e h).1

/-- On a list that contains a maximal run of fragments of one `(slt, rci)` in
which no fragment carries `FLG_MULTIBLOCKUNDOHEAD`, or none carries
`FLG_MULTIBLOCKUNDOTAIL`, `flushSplitBlocks` raises, and at the raise the chunk
store and `opCodes` are what it leaves on the fragments before the run. -/
theorem flushSplitBlocks_incomplete_run (env : Env) (t : Transaction)
    (pre g post : List SplitBlock) (s r : Nat)
    (hl : t.splitBlockList = pre ++ g ++ post) (hg : g ≠ [])
    (hkey : ∀ b ∈ g, b.record1.slt = s ∧ b.record1.rci = r)
    (hpre : ∀ b, pre.getLast? = some b → ¬ (b.record1.slt = s ∧ b.record1.rci = r))
    (hpost : ∀ b, post.head? = some b → ¬ (b.record1.slt = s ∧ b.record1.rci = r))
    (hinc : (∀ b ∈ g, (b.record1.flg &&& env.FLG_MULTIBLOCKUNDOHEAD) = 0) ∨
      (∀ b ∈ g, (b.record1.flg &&& env.FLG_MULTIBLOCKUNDOTAIL) = 0)) :
    (∃ e, flushSplitBlocks env t = .error e) ∧
      (flushSplitBlocksAt env t).chunks =
        (flushSplitBlocksAt env { t with splitBlockList := pre }).chunks ∧
      (flushSplitBlocksAt env t).opCodes =
        (flushSplitBlocksAt env { t with splitBlockList := pre }).opCodes := by
  cases g with
  | nil => exact absurd rfl hg
  | cons f g' =>
    have hl2 : t.splitBlockList = pre ++ (f :: g' ++ post) := by
      rw [hl, List.append_assoc]
    have hsb : t.splitBlockList ≠ [] := by
      rw [hl2]
      simp
    obtain ⟨A1, A2⟩ := flushSplitLoopAt_prefix env (f :: g' ++ post) pre t
      { t with splitBlockList := pre } {} rfl
    have hT := flushSplitBlocksAt_eq env { t with splitBlockList := pre }
    have hX := flushSplitBlocksAt_eq env t
    have hF := flushSplitBlocks_eq_at env t hsb
    rw [hl2] at hX hF
    simp only [] at hT
    cases hXp : (flushSplitLoopAt env { t with splitBlockList := pre } {} pre).2 with
    | error e =>
      obtain ⟨tx, hx1, hx2⟩ := A1 e hXp
      rw [hx1] at hX hF
      rw [hXp] at hT
      obtain ⟨q1, q2, -⟩ := clearSplit_fields _ _ hx2
      exact ⟨⟨e, hF⟩, by rw [hX, hT]; exact q1, by rw [hX, hT]; exact q2⟩
    | ok cp =>
      obtain ⟨tx, hx1, hx2⟩ := A2 cp hXp
      rw [hx1] at hX hF
      rw [hXp] at hT
      have hcp : (∀ x, cp.curRedoLogRecord = some x → ¬ (x.slt = s ∧ x.rci = r)) ∧
          (cp.curRedoLogRecord = none →
            cp.headRedoLogRecord1 = none ∧ cp.tailRedoLogRecord1 = none) := by
        cases hlast : pre.getLast? with
        | none =>
          have hnil : pre = [] := List.getLast?_eq_none_iff.1 hlast
          subst hnil
          have : ({} : SplitCursor) = cp := Except.ok.inj hXp
          subst this
          exact ⟨fun x hx => (by cases hx), fun _ => ⟨rfl, rfl⟩⟩
        | some b =>
          obtain ⟨x, hx, k1, k2⟩ := flushSplitLoopAt_cur env pre _ {} cp b hXp hlast
          refine ⟨fun y hy => ?_, fun hn => ?_⟩
          · rw [hx] at hy
            cases hy
            rw [k1, k2]
            exact hpre b hlast
          · rw [hx] at hn
            cases hn
      obtain ⟨t', e1, e2, hdis⟩ := flushSplitLoopAt_enter env s r post tx cp f g' hcp.1 hcp.2
        hkey hinc
      obtain ⟨c1, c2, -⟩ := clearSplit_fields _ _
        (closeGroupAt_clearSplit env _ _ (.ok cp) hx2)
      have hfin : closeGroupAt env (flushSplitLoopAt env tx cp (f :: g' ++ post)).1
            (flushSplitLoopAt env tx cp (f :: g' ++ post)).2 = t' ∧
          ∃ e, (match (flushSplitLoopAt env tx cp (f :: g' ++ post)).2 with
            | .ok c1 =>
              if c1.curRedoLogRecord ≠ none then
                mergeSplitBlocks env (flushSplitLoopAt env tx cp (f :: g' ++ post)).1
                  c1.headRedoLogRecord1 c1.midRedoLogRecord1 c1.tailRedoLogRecord1
                  c1.redoLogRecord2
              else .ok (flushSplitLoopAt env tx cp (f :: g' ++ post)).1
            | .error e => .error e) = .error e := by
        rcases hdis with ⟨e, he⟩ | ⟨c', hc', hcur', hno'⟩
        · rw [he]
          exact incomplete_final env (t', .error e) (Or.inl ⟨e, rfl⟩)
        · rw [hc']
          obtain ⟨p1, p2⟩ := flushSplitLoopAt_after env s r t' c' post hcur' hno' hpost
          obtain ⟨x, hx, -⟩ := hcur'
          have := incomplete_final env (flushSplitLoopAt env t' c' post)
            (p2.elim Or.inl (fun h => Or.inr ⟨c', h, by rw [hx]; simp, hno'⟩))
          rw [p1] at this ⊢
          exact this
      obtain ⟨f1, e, f2⟩ := hfin
      rw [f1] at hX
      exact ⟨⟨e, hF.trans f2⟩, by rw [hX, hT, e1]; exact c1, by rw [hX, hT, e2]; exact c2⟩


/-- C24: `mergeSplitBlocks` raises "merging of incomplete split UNDO block" if and only
if the HEAD fragment, the TAIL fragment or the companion record is missing, and
raises nothing else; with the three present and no MID it returns normally.
Hence `flushSplitBlocks()` raises this fatal condition on every list that
contains a maximal run of fragments of one `(slt, rci)` in which no fragment
carries `FLG_MULTIBLOCKUNDOHEAD`, or in which none carries
`FLG_MULTIBLOCKUNDOTAIL`; and when it raises, the chunk store and `opCodes` are
what `flushSplitBlocks()` leaves on the fragments before the run alone: nothing
is added for the run nor after it. -/
theorem flushSplitBlocks_incomplete_group (env : Env) (t : Transaction)
    (pre g post : List SplitBlock) (s r : Nat)
    (hl : t.splitBlockList = pre ++ g ++ post) (hg : g ≠ [])
    (hkey : ∀ b ∈ g, b.record1.slt = s ∧ b.record1.rci = r)
    (hpre : ∀ b, pre.getLast? = some b → ¬ (b.record1.slt = s ∧ b.record1.rci = r))
    (hpost : ∀ b, post.head? = some b → ¬ (b.record1.slt = s ∧ b.record1.rci = r))
    (hinc : (∀ b ∈ g, (b.record1.flg &&& env.FLG_MULTIBLOCKUNDOHEAD) = 0) ∨
      (∀ b ∈ g, (b.record1.flg &&& env.FLG_MULTIBLOCKUNDOTAIL) = 0)) :
    ((∀ t0 h m tl r2,
          (mergeSplitBlocks env t0 h m tl r2 = .error "merging of incomplete split UNDO block" ↔
            (h = none ∨ tl = none ∨ r2 = none)) ∧
          ∀ e, mergeSplitBlocks env t0 h m tl r2 = .error e →
            e = "merging of incomplete split UNDO block") ∧
        ∀ t0 h tl r2, ∃ t1, mergeSplitBlocks env t0 (some h) none (some tl) (some r2) = .ok t1) ∧
      flushSplitBlocks env t = .error "merging of incomplete split UNDO block" ∧
      (flushSplitBlocksAt env t).chunks =
        (flushSplitBlocksAt env { t with splitBlockList := pre }).chunks ∧
      (flushSplitBlocksAt env t).opCodes =
        (flushSplitBlocksAt env { t with splitBlockList := pre }).opCodes := by
  have hpart1 : (∀ t0 h m tl r2,
        (mergeSplitBlocks env t0 h m tl r2 = .error "merging of incomplete split UNDO block" ↔
          (h = none ∨ tl = none ∨ r2 = none)) ∧
        ∀ e, mergeSplitBlocks env t0 h m tl r2 = .error e →
          e = "merging of incomplete split UNDO block") ∧
      ∀ t0 h tl r2, ∃ t1, mergeSplitBlocks env t0 (some h) none (some tl) (some r2) = .ok t1 := by
    refine ⟨fun t0 h m tl r2 => ⟨(mergeSplitBlocks_error_iff env t0 h m tl r2).1,
      fun e he => ((mergeSplitBlocks_error_iff env t0 h m tl r2).2 e he).1⟩,
      fun t0 h tl r2 => ?_⟩
    rw [mergeSplitBlocks_eq]
    split_ifs
    · exact ⟨_, rfl⟩
    · exact ⟨_, rfl⟩
  obtain ⟨⟨e, he⟩, h2, h3⟩ := flushSplitBlocks_incomplete_run env t pre g post s r hl hg hkey
    hpre hpost hinc
  have hmsg := flushSplitBlocks_error env t e he
  rw [hmsg] at he
  exact ⟨hpart1, he, h2, h3⟩

theorem flushSplitBlocks_incomplete_group_witness :
    (flushSplitBlocks sampleEnv incompleteTx = .error "merging of incomplete split UNDO block" ∧
      (flushSplitBlocksAt sampleEnv incompleteTx).chunks =
        (flushSplitBlocksAt sampleEnv
          { incompleteTx with splitBlockList := headTailGroup }).chunks ∧
      (flushSplitBlocksAt sampleEnv incompleteTx).opCodes =
        (flushSplitBlocksAt sampleEnv
          { incompleteTx with splitBlockList := headTailGroup }).opCodes) ∧
      flushSplitBlocks sampleEnv orphanTx = .error "merging of incomplete split UNDO block" :=
  ⟨(flushSplitBlocks_incomplete_group sampleEnv incompleteTx headTailGroup [loneTail] [] 8 3 rfl
    (by decide) (by decide)
    (by
      intro b hb
      have : (SplitCall.one splitTail).frame sampleEnv = b := by
        simpa [headTailGroup] using hb
      subst this
      decide)
    (fun b hb => by cases hb) (Or.inl (by decide))).2,
    (flushSplitBlocks_incomplete_group sampleEnv orphanTx [] [orphanHead] [] 7 3 rfl
      (by decide) (by decide) (fun b hb => by cases hb) (fun b hb => by cases hb)
      (Or.inr (by decide))).2.1⟩

/-! ### Split-block merge: the flag word and the buffers -/

theorem headCount_ge (env : Env) (r : RedoLogRecord) (n : Nat) (hfc : r.fieldCnt < 65536)
    (k1 : n ≤ r.fieldCnt)
    (k2 : (r.flg &&& env.FLG_LASTBUFFERSPLIT) ≠ 0 → n + 1 ≤ r.fieldCnt) :
    n ≤ headCount env r := by
  by_cases h : (r.flg &&& env.FLG_LASTBUFFERSPLIT) ≠ 0
  · rw [headCount_flag env r h]
    have := k2 h
    omega
  · unfold headCount
    have hb : ((r.flg &&& env.FLG_LASTBUFFERSPLIT) != 0) = false := by
      simpa using h
    rw [hb]
    simpa using k1

theorem flagWordPos_inside (env : Env) (r : RedoLogRecord) (hl : r.length < 65536)
    (h : r.fieldPos + align4 (read16 env r.data (r.fieldLengthsDelta + 2)) + 22 ≤ r.length) :
    flagWordPos env r + 2 ≤ r.length := by
  unfold flagWordPos
  simp only [and_fffc_mod, Nat.one_mul]
  unfold align4 at h
  omega

/-- A merge keeps the length of the first field, and the flag word inside the
field data of the first record, which it copies to the merged record. -/
theorem mergeSplitBlocksToBuffer_step (env : Env) (buffer : List Nat) (r1 r2 : RedoLogRecord)
    (h1 : r1.fieldPos = r1.fieldLengthsDelta + align4 (2 * (r1.fieldCnt + 1)))
    (k1 : 1 ≤ r1.fieldCnt)
    (k2 : (r1.flg &&& env.FLG_LASTBUFFERSPLIT) ≠ 0 → 2 ≤ r1.fieldCnt)
    (h3 : r1.fieldPos + align4 (read16 env r1.data (r1.fieldLengthsDelta + 2)) + 22 ≤ r1.length)
    (ht : wellFormedTail env r2) (hr : r1.length + r2.length < 65536) :
    read16 env (mergeSplitBlocksToBuffer env buffer r1 r2).1.data (r1.fieldLengthsDelta + 2) =
        read16 env r1.data (r1.fieldLengthsDelta + 2) ∧
      (mergeSplitBlocksToBuffer env buffer r1 r2).1.fieldPos +
          align4 (read16 env r1.data (r1.fieldLengthsDelta + 2)) + 22 ≤
        (mergeSplitBlocksToBuffer env buffer r1 r2).1.length := by
  have h2 : r1.fieldPos ≤ r1.length := by omega
  have hs : (r1.flg &&& env.FLG_LASTBUFFERSPLIT) ≠ 0 → 1 ≤ r1.fieldCnt := fun h => by
    have := k2 h
    omega
  obtain ⟨l1, l2, l3⟩ := mergeSplitBlocksToBuffer_layout env buffer r1 r2 h1 h2 hs ht hr
  have hlen := mergeSplitBlocksToBuffer_length_le env buffer r1 r2 h1 h2 ht
  have hfc : r1.fieldCnt < 65536 := by
    unfold align4 at h1
    omega
  have hp := headCount_ge env r1 1 hfc k1 k2
  have hc2 := ht.2.1
  have hN : ((mergeSplitBlocksToBuffer env buffer r1 r2).1.fieldCnt + 1) * 2 + 2 < 65536 := by
    unfold align4 at l2
    omega
  refine ⟨?_, by omega⟩
  have b0 := merged_fieldList_byte env buffer r1 r2 _ hN l1.symm hc2
    (r1.fieldLengthsDelta + 2) (by omega)
  have b1 := merged_fieldList_byte env buffer r1 r2 _ hN l1.symm hc2
    (r1.fieldLengthsDelta + 2 + 1) (by omega)
  rw [if_neg (by omega), if_pos (by omega)] at b0 b1
  exact read16_congr env _ _ _ _ b0 b1

/-- The merge of a record with a TAIL fragment in the buffer that
`mergeSplitBlocks` allocates: the writes, the merged record and its flag word
lie inside the buffer. -/
theorem mergeTail_within (env : Env) (r1 tail : RedoLogRecord)
    (h1 : r1.fieldPos = r1.fieldLengthsDelta + align4 (2 * (r1.fieldCnt + 1)))
    (k1 : 1 ≤ r1.fieldCnt)
    (k2 : (r1.flg &&& env.FLG_LASTBUFFERSPLIT) ≠ 0 → 2 ≤ r1.fieldCnt)
    (h3 : r1.fieldPos + align4 (read16 env r1.data (r1.fieldLengthsDelta + 2)) + 22 ≤ r1.length)
    (ht : wellFormedTail env tail) (hr : r1.length + tail.length < 65536) :
    (mergeSplitBlocksToBuffer env (List.replicate (r1.length + tail.length) 0) r1
        tail).1.data.length = r1.length + tail.length ∧
      flagWordPos env (mergeSplitBlocksToBuffer env
        (List.replicate (r1.length + tail.length) 0) r1 tail).1 + 2 ≤
        (mergeSplitBlocksToBuffer env (List.replicate (r1.length + tail.length) 0) r1
          tail).1.length ∧
      (mergeSplitBlocksToBuffer env (List.replicate (r1.length + tail.length) 0) r1
        tail).1.length ≤ r1.length + tail.length ∧
      (clearSplitFlags env (mergeSplitBlocksToBuffer env
        (List.replicate (r1.length + tail.length) 0) r1 tail).1).data.length =
        r1.length + tail.length := by
  have h2 : r1.fieldPos ≤ r1.length := by omega
  have hs : (r1.flg &&& env.FLG_LASTBUFFERSPLIT) ≠ 0 → 1 ≤ r1.fieldCnt := fun h => by
    have := k2 h
    omega
  obtain ⟨s1, s2⟩ := mergeSplitBlocksToBuffer_step env
    (List.replicate (r1.length + tail.length) 0) r1 tail h1 k1 k2 h3 ht hr
  have hd := (mergeSplitBlocksToBuffer_fields env
    (List.replicate (r1.length + tail.length) 0) r1 tail).2.1
  have hlen := mergeSplitBlocksToBuffer_length_le env
    (List.replicate (r1.length + tail.length) 0) r1 tail h1 h2 ht
  have hw := mergeSplitBlocksToBuffer_within env (List.replicate (r1.length + tail.length) 0)
    r1 tail h1 h2 hs ht (by omega) (List.length_replicate _ _)
  have hf := flagWordPos_inside env (mergeSplitBlocksToBuffer env
    (List.replicate (r1.length + tail.length) 0) r1 tail).1 (by omega) (by
      rw [hd, s1]
      exact s2)
  refine ⟨hw, hf, hlen, ?_⟩
  unfold clearSplitFlags
  simp only []
  rw [write16_length, hw]
  omega

theorem mergeHead_eq (env : Env) (head : RedoLogRecord) (mid : Option RedoLogRecord)
    (tail : RedoLogRecord) :
    mergeHead env head mid tail =
      (mergeSplitBlocksToBuffer env
        (List.replicate ((mergeMid env head mid).length + tail.length) 0)
        (mergeMid env head mid) tail).1 := by
  cases mid <;> rfl

/-- For a well-formed HEAD fragment, a well-formed TAIL fragment and, if there
is one, a well-formed MID fragment, of less than 64K together, the merges of
`mergeSplitBlocks` and its access to the flag word stay inside the buffers it
allocates. -/
theorem mergeHead_within (env : Env) (head : RedoLogRecord) (mid : Option RedoLogRecord)
    (tail : RedoLogRecord) (hh : wellFormedHead env head)
    (hm : ∀ m, mid = some m →
      wellFormedTail env m ∧ head.length + m.length + tail.length < 65536)
    (ht : wellFormedTail env tail) (hr : head.length + tail.length < 65536) :
    mergeWithinBuffers env head mid tail := by
  obtain ⟨⟨w1, w2, -⟩, c2, c3, w4⟩ := hh
  have hfc : head.fieldCnt < 65536 := by
    unfold align4 at w1
    omega
  unfold mergeWithinBuffers
  rw [mergeHead_eq]
  cases mid with
  | none =>
    refine ⟨fun m hm0 => (by cases hm0), ?_⟩
    exact mergeTail_within env head tail w1 (by omega) (fun h => by have := c3 h; omega) w4 ht hr
  | some m =>
    obtain ⟨hm1, hm2⟩ := hm m rfl
    have hs : (head.flg &&& env.FLG_LASTBUFFERSPLIT) ≠ 0 → 1 ≤ head.fieldCnt := fun h => by
      have := c3 h
      omega
    have hw := mergeSplitBlocksToBuffer_within env (List.replicate (head.length + m.length) 0)
      head m w1 w2 hs hm1 (by omega) (List.length_replicate _ _)
    refine ⟨fun x hx => (by cases hx; exact hw), ?_⟩
    obtain ⟨l1, l2, l3⟩ := mergeSplitBlocksToBuffer_layout env
      (List.replicate (head.length + m.length) 0) head m w1 w2 hs hm1 (by omega)
    obtain ⟨s1, s2⟩ := mergeSplitBlocksToBuffer_step env
      (List.replicate (head.length + m.length) 0) head m w1 (by omega)
      (fun h => by have := c3 h; omega) w4 hm1 (by omega)
    obtain ⟨-, g2, -, -, -⟩ := mergeSplitBlocksToBuffer_fields env
      (List.replicate (head.length + m.length) 0) head m
    have hlen := mergeSplitBlocksToBuffer_length_le env
      (List.replicate (head.length + m.length) 0) head m w1 w2 hm1
    have hp := headCount_ge env head 2 hfc c2 c3
    have hcm := hm1.2.1
    have hmm : mergeMid env head (some m) =
        (mergeSplitBlocksToBuffer env (List.replicate (head.length + m.length) 0) head m).1 := rfl
    rw [hmm]
    exact mergeTail_within env _ tail (by rw [g2]; exact l2) (by omega) (fun _ => by omega)
      (by rw [g2, s1]; exact s2) ht (by omega)

/-- C22: for every `splitBlockList` made of `k >= 1` complete groups (each with one HEAD
fragment and its companion, one TAIL fragment and at most one MID fragment, in
any order, sharing `(slt, rci)`), with no companion of the list on the rollback
list, `opCodes + k` within 64 bits, and fragments that are well-formed (HEAD
fragments as `wellFormedHead`, with the flag word inside the fragment; MID and
TAIL fragments with their two delimiter fields inside the fragment) and of less
than 64K for any three of them together: `flushSplitBlocks()` returns normally
after `k` merges and `k` adds: `opCodes` has increased by exactly `k`, exactly
`k` tuples have been appended to the chunk store, and the list is empty. For
`k = 1` with a HEAD, a MID and a TAIL fragment the one tuple added holds the
head merged with the MID and the TAIL, with its flag word rewritten and
`OpCode0501::process` applied, and the companion; in the rewritten flag word
`FLG_MULTIBLOCKUNDOHEAD`, `FLG_MULTIBLOCKUNDOMID`, `FLG_MULTIBLOCKUNDOTAIL` and
`FLG_LASTBUFFERSPLIT` are cleared and every other bit is unchanged, and nothing
else of the merged record changes but these data bytes. Every merge that
`mergeSplitBlocks` makes of a HEAD fragment, a TAIL fragment and no or one MID
fragment of the list writes inside the buffers it allocates, and the flag word
lies inside the merged record and the buffer. -/
theorem flushSplitBlocks_complete_groups (env : Env) (t : Transaction)
    (groups : List (List SplitBlock)) (hne : groups ≠ [])
    (hl : t.splitBlockList = groups.flatten)
    (hg : ∀ g ∈ groups, completeGroup env g)
    (hrb : ∀ g ∈ groups, ∀ b ∈ g, ∀ r2, b.record2 = some r2 →
      ∀ r1, env.onRollbackList r1 r2 = false)
    (hop : t.opCodes + groups.length < 2 ^ 64)
    (hwh : ∀ b ∈ t.splitBlockList, b.isHead env = true → wellFormedHead env b.record1)
    (hwt : ∀ b ∈ t.splitBlockList, b.isHead env = false → wellFormedTail env b.record1)
    (hrange : ∀ a ∈ t.splitBlockList, ∀ b ∈ t.splitBlockList, ∀ c ∈ t.splitBlockList,
      a.record1.length + b.record1.length + c.record1.length < 65536) :
    (∃ t1 added, flushSplitBlocks env t = .ok t1 ∧ t1.opCodes = t.opCodes + groups.length ∧
        t1.rows = t.rows ++ added ∧ added.length = groups.length ∧ t1.splitBlockList = []) ∧
      (∀ g hb mb tb r2, groups = [g] → g.Perm [hb, mb, tb] → hb.isHead env = true →
        mb.isMid env = true → tb.isTail env = true → hb.record2 = some r2 →
        (∃ t1 row, flushSplitBlocks env t = .ok t1 ∧ t1.rows = t.rows ++ [row] ∧
          row.redoLogRecord1 = env.process0501
            (clearSplitFlags env (mergeHead env hb.record1 (some mb.record1) tb.record1)) ∧
          row.redoLogRecord2 = r2) ∧
        ({ clearSplitFlags env (mergeHead env hb.record1 (some mb.record1) tb.record1) with
            data := (mergeHead env hb.record1 (some mb.record1) tb.record1).data } =
          mergeHead env hb.record1 (some mb.record1) tb.record1) ∧
        ∀ i, (read16 env
            (clearSplitFlags env (mergeHead env hb.record1 (some mb.record1) tb.record1)).data
            (flagWordPos env (mergeHead env hb.record1 (some mb.record1) tb.record1))).testBit i =
          ((read16 env (mergeHead env hb.record1 (some mb.record1) tb.record1).data
            (flagWordPos env (mergeHead env hb.record1 (some mb.record1) tb.record1))).testBit i &&
            !(env.FLG_MULTIBLOCKUNDOHEAD.testBit i || env.FLG_MULTIBLOCKUNDOMID.testBit i ||
              env.FLG_MULTIBLOCKUNDOTAIL.testBit i || env.FLG_LASTBUFFERSPLIT.testBit i))) ∧
      ∀ hb ∈ t.splitBlockList, ∀ tb ∈ t.splitBlockList, ∀ m : Option RedoLogRecord,
        hb.isHead env = true → tb.isTail env = true →
        (m = none ∨ ∃ mb ∈ t.splitBlockList, mb.isMid env = true ∧ m = some mb.record1) →
        mergeWithinBuffers env hb.record1 m tb.record1 := by
  cases groups with
  | nil => exact absurd rfl hne
  | cons g1 rest =>
    have hg1 := hg g1 (List.mem_cons_self _ _)
    have hrb1 := hrb g1 (List.mem_cons_self _ _)
    have hnH := hg1.2.2.1
    have hnT := hg1.2.2.2.1
    obtain ⟨t', c', i1, i2, i3, i5, i6, i7, i8, i9⟩ := flushSplitLoop_first env t g1 rest.flatten hg1
    have hc' : cursorComplete env c' :=
      cursorComplete_of_group env c' g1 _ _ _ i5 i6 i7 i9 (by omega) (by omega) hrb1
    have hsb : t.splitBlockList ≠ [] := by
      rw [hl, List.flatten_cons]
      intro h
      have := (List.append_eq_nil.1 h).1
      rw [this] at hnH
      simp at hnH
    rw [List.length_cons] at hop
    refine ⟨?_, ?_, ?_⟩
    · obtain ⟨t2, c2, added, e2, o2, r2, n2, hc2⟩ := flushSplitLoop_groups env rest t' c' hc'
        (by omega) (fun g hg' => hg g (List.mem_cons_of_mem _ hg'))
        (fun g hg' => hrb g (List.mem_cons_of_mem _ hg'))
      have hloop : flushSplitLoop env t {} t.splitBlockList = .ok (t2, c2) := by
        rw [hl, List.flatten_cons, i1, e2]
      obtain ⟨t3, row, hm, o3, r3⟩ := mergeSplitBlocks_complete env t2 c2 hc2
      have hfl : flushSplitBlocks env t = .ok t3 :=
        (flushSplitBlocks_of_loop env t t2 c2 hsb hloop hc2.1).trans hm
      refine ⟨t3, added ++ [row], hfl, ?_, ?_, ?_, flushSplitBlocks_splitBlockList env t t3 hfl⟩
      · rw [o3, o2, i2, List.length_cons]
        omega
      · rw [r3, r2, rows_of_chunks _ _ i3, List.append_assoc]
      · rw [List.length_append, List.length_cons, n2]
        rfl
    · intro g hb mb tb r2 hgs hperm hH hM hT hr2
      obtain ⟨hg1e, hreste⟩ := List.cons.inj hgs
      rw [← hg1e] at hperm
      subst hreste
      refine ⟨?_, rfl, clearSplitFlags_word env _⟩
      have hmem : ∀ b ∈ g1, b = hb ∨ b = mb ∨ b = tb := by
        intro b hbm
        have := hperm.mem_iff.1 hbm
        simpa using this
      obtain ⟨b1, m1, p1, e1⟩ := pickFragment_some g1 (SplitBlock.isHead env)
        (fun b => some b.record1) none (by omega)
      obtain ⟨b2, m2, p2, e2⟩ := pickFragment_some g1 (SplitBlock.isHead env)
        SplitBlock.record2 none (by omega)
      obtain ⟨b3, m3, p3, e3⟩ := pickFragment_some g1 (SplitBlock.isTail env)
        (fun b => some b.record1) none (by omega)
      obtain ⟨b4, m4, p4, e4⟩ := pickFragment_some g1 (SplitBlock.isMid env)
        (fun b => some b.record1) none
        (List.countP_pos_iff.2 ⟨mb, hperm.mem_iff.2 (by simp), hM⟩)
      have q1 : b1 = hb := by
        rcases hmem b1 m1 with h | h | h
        · exact h
        · rw [h, (isMid_excl env mb hM).1] at p1; cases p1
        · rw [h, (isTail_excl env tb hT).1] at p1; cases p1
      have q2 : b2 = hb := by
        rcases hmem b2 m2 with h | h | h
        · exact h
        · rw [h, (isMid_excl env mb hM).1] at p2; cases p2
        · rw [h, (isTail_excl env tb hT).1] at p2; cases p2
      have q3 : b3 = tb := by
        rcases hmem b3 m3 with h | h | h
        · rw [h, (isHead_excl env hb hH).2] at p3; cases p3
        · rw [h, (isMid_excl env mb hM).2] at p3; cases p3
        · exact h
      have q4 : b4 = mb := by
        rcases hmem b4 m4 with h | h | h
        · rw [h, (isHead_excl env hb hH).1] at p4; cases p4
        · exact h
        · rw [h, (isTail_excl env tb hT).2] at p4; cases p4
      have hloop : flushSplitLoop env t {} t.splitBlockList = .ok (t', c') := by
        rw [hl, List.flatten_cons, i1]
        rfl
      have hfl := flushSplitBlocks_of_loop env t t' c' hsb hloop i5
      rw [i6, i7, i8, i9, e1, e2, e3, e4, q1, q2, q3, q4, hr2, mergeSplitBlocks_eq,
        if_neg (by rw [hrb1 hb (hperm.mem_iff.2 (by simp)) r2 hr2]; simp)] at hfl
      exact ⟨_, _, hfl, (add_rows _ _ _ _ _ _).trans (by rw [rows_of_chunks _ _ i3]), rfl, rfl⟩
    · intro hb hbm tb tbm m hH hT hmid
      refine mergeHead_within env hb.record1 m tb.record1 (hwh hb hbm hH) ?_
        (hwt tb tbm (isTail_excl env tb hT).1) ?_
      · intro x hx
        rcases hmid with h0 | ⟨mb, mbm, hM, h0⟩
        · rw [h0] at hx
          cases hx
        · rw [h0] at hx
          have := Option.some.inj hx
          subst this
          exact ⟨hwt mb mbm (isMid_excl env mb hM).1, hrange hb hbm mb mbm tb tbm⟩
      · have := hrange hb hbm hb hbm tb tbm
        omega

theorem flushSplitBlocks_complete_groups_witness :
    (∃ t1 added, flushSplitBlocks sampleEnv s3Tx = .ok t1 ∧
      t1.opCodes = s3Tx.opCodes + s3Groups.length ∧ t1.rows = s3Tx.rows ++ added ∧
      added.length = s3Groups.length ∧ t1.splitBlockList = []) ∧
      mergeWithinBuffers sampleEnv undoHead (some undoMid) undoTail ∧
      (mergeHead sampleEnv undoHead (some undoMid) undoTail).length = 52 ∧
      (mergeHead sampleEnv undoHead (some undoMid) undoTail).data.length = 68 ∧
      flagWordPos sampleEnv (mergeHead sampleEnv undoHead (some undoMid) undoTail) = 36 ∧
      read16 sampleEnv (mergeHead sampleEnv undoHead (some undoMid) undoTail).data 36 = 9 ∧
      read16 sampleEnv
        (clearSplitFlags sampleEnv (mergeHead sampleEnv undoHead (some undoMid) undoTail)).data
        36 = 8 :=
  have h := flushSplitBlocks_complete_groups sampleEnv s3Tx s3Groups (by decide) rfl
    (by
      intro g hg
      simp only [s3Groups, List.mem_cons, List.mem_singleton, List.mem_nil_iff, or_false] at hg
      rcases hg with h | h
      · subst h
        exact ⟨⟨7, 3, by decide⟩, by decide, by decide, by decide, by decide⟩
      · subst h
        exact ⟨⟨8, 3, by decide⟩, by decide, by decide, by decide, by decide⟩)
    (fun _ _ _ _ _ _ _ => rfl) (by decide) (by decide) (by decide) (by decide)
  ⟨h.1, h.2.2 ((SplitCall.two undoHead splitCompanion).frame sampleEnv) (by decide)
    ((SplitCall.one undoTail).frame sampleEnv) (by decide) (some undoMid) (by decide)
    (by decide)
    (Or.inr ⟨(SplitCall.one undoMid).frame sampleEnv, by decide, by decide, rfl⟩),
    by decide, by rfl, by decide, by decide, by rfl⟩

/-! ### Split-block merge: lengths beyond the 16-bit range -/

theorem read16_replicate (env : Env) (n off : Nat) :
    read16 env (List.replicate n 0) off = 0 := by
  have hb : ∀ i, byteAt (List.replicate n 0) i = 0 := by
    intro i
    unfold byteAt
    rw [List.getD_eq_getElem?_getD, List.getElem?_replicate]
    split_ifs <;> rfl
  unfold read16
  rw [hb, hb]
  split_ifs <;> rfl

theorem read16_wideTail (env : Env) (off : Nat) : read16 env wideTail.data off = 0 :=
  (congrArg (fun d => read16 env d off) (rfl : wideTail.data = wideData)).trans
    (read16_replicate env 65536 off)

/-- The bound on the bytes written needs the lengths to be in the 16-bit range,
if the fields of `RedoLogRecord` (declared in a header that is not among the
sources) can hold more: `fieldPos2` is a `uint16_t`, so for the well-formed
tail `wideTail`, whose two (empty) delimiter fields end at offset 65536, it is
0, and the merge copies all 65536 bytes of the tail to offset 16 of the buffer
of `12 + 65536` bytes. -/
theorem merged_bytes_beyond_range :
    wellFormedFragment splitHead ∧ wellFormedTail sampleEnv wideTail ∧
      splitHead.length + wideTail.length = 65548 ∧
      secondDataPos sampleEnv wideTail = 0 ∧
      (mergeSplitBlocksToBuffer sampleEnv (List.replicate 65548 0) splitHead
        wideTail).1.data.length = 65552 := by
  have hw : wellFormedTail sampleEnv wideTail := by
    rw [wellFormedTail, wellFormedFragment, read16_wideTail, read16_wideTail]
    decide
  have hs : secondDataPos sampleEnv wideTail = 0 := by
    rw [secondDataPos, read16_wideTail, read16_wideTail]
    decide
  refine ⟨by unfold wellFormedFragment; decide, hw, by decide, hs, ?_⟩
  rw [mergeSplitBlocksToBuffer_data_length, hs, List.length_replicate]
  decide

end OpenLogReplicator
